import Mathlib

/-! Game-tree search core of the 16-hole Mancala bot.

Shallow embedding of `c_version/game_rules.h` and `c_version/ai_algorithms.h`, with the
text functions of `c_version/bot.cpp` and the players and `playTurn` of
`c_version/game_manager.h`.

Modelling conventions.

* C++ `int` is `Int`.  Seed counts, captured counts and depths stay far inside the
  32-bit range on every position of the game (96 seeds in total), so no wrap-around
  is modelled.
* `std::map<int, ...>` members of `GameState` are total functions: the constructor
  fills the keys `1..16` (holes) and `1, 2` (players) and nothing erases a key, so
  `at` is a plain lookup on those keys.  Statements about a querying player carry the
  hypothesis `player = 1 ∨ player = 2`, the keys of `captured_seeds`.
* `double` scores only ever hold an integer produced by `Evaluator::evaluate`
  (exactly representable) or one of the two infinities; they are the type `Score`.
  No NaN can arise because scores are only compared, never added to one another.
* `MoveGenerator` lives in `game_engine.h`, whose text is not available; its two static
  functions `getAllMoves` and `applyMove` are the fields of the parameter `MoveGenerator`,
  and every statement about a search holds for all values of that parameter.
* The recursive searches carry `current_depth` upwards until it reaches `depth`;
  the embedding recurses on the remaining budget `depth - current_depth`.
* The diagnostic counters `nodes_explored` and `pruned_branches` never influence a
  returned score or move and are not part of the result-level definitions below.
  The definitions whose names end in `Counted` are the same functions with the
  counters passed in and out; the counts are taken to stay inside the range of `int`.
* `std::queue` in `BFSBot::search` is a list, popped at the head and pushed at the end;
  the `while` loop takes one unit of fuel per iteration.
* A `std::string` (`bot.cpp`, `game_manager.h`) is the list of its characters;
  `toupper` and `tolower` are the maps of the "C" locale on the letters a to z, and
  `std::stoi` and `operator<<` on an `int` read and write decimal text.
* Where the code looks a hole up under a key that need not be one of `1..16`
  (`GameState::copy`, `HumanPlayer::isMoveValid`), the lookup is `GameState.holesAt`,
  which fails outside the keys, and the function returns an `Option`.
* `GameManager::playTurn` is a function of the member `state`, of the move returned by the
  player and of the seconds it took (a rational number); the clock, the printing and the
  records `move_history` and `total_moves` are left out.
-/

/-! ## game_rules.h -/

/-- The three seed colours (`enum class Color`). -/
inductive Color where
  | RED : Color
  | BLUE : Color
  | TRANSPARENT : Color
  deriving DecidableEq, Repr

/-- Holes of player 1 (`PLAYER1_HOLES`). -/
def PLAYER1_HOLES : List Int := [1, 3, 5, 7, 9, 11, 13, 15]

/-- Holes of player 2 (`PLAYER2_HOLES`). -/
def PLAYER2_HOLES : List Int := [2, 4, 6, 8, 10, 12, 14, 16]

/-- A position (`class GameState`). -/
structure GameState where
  holes : Int → Color → Int
  captured_seeds : Int → Int
  current_player : Int
  move_count : Int

namespace GameState

/-- Holes controlled by a player (`GameState::getPlayerHoles`). -/
def getPlayerHoles (_state : GameState) (player : Int) : List Int :=
  if player = 1 then PLAYER1_HOLES else PLAYER2_HOLES

/-- Number of seeds of all colours in a hole (`GameState::getTotalSeeds`). -/
def getTotalSeeds (state : GameState) (hole : Int) : Int :=
  state.holes hole Color.RED + state.holes hole Color.BLUE + state.holes hole Color.TRANSPARENT

/-- End-of-game predicate (`GameState::isGameOver`). -/
def isGameOver (state : GameState) : Bool :=
  if state.move_count ≥ 400 then true
  else
    let c1 := state.captured_seeds 1
    let c2 := state.captured_seeds 2
    if c1 ≥ 49 ∨ c2 ≥ 49 then true
    else if c1 ≥ 40 ∧ c2 ≥ 40 then true
    else if 96 - c1 - c2 < 10 then true
    else false

/-- Non-empty (hole, colour) pairs of a player (`GameState::getValidMoves`). -/
def getValidMoves (state : GameState) (player : Int) : List (Int × Color) :=
  (state.getPlayerHoles player).foldl
    (fun valid_moves hole =>
      [Color.RED, Color.BLUE, Color.TRANSPARENT].foldl
        (fun valid_moves color =>
          if state.holes hole color > 0 then valid_moves ++ [(hole, color)] else valid_moves)
        valid_moves)
    []

/-- The keys of the map `holes`: the holes `1..16` filled by `initializeBoard`. -/
def holeKeys : List Int := [1, 2, 3, 4, 5, 6, 7, 8, 9, 10, 11, 12, 13, 14, 15, 16]

/-- Number of seeds on the board (`GameState::getSeedsOnBoard`): the sum over the
entries of `holes` and, in each, over the three colours. -/
def getSeedsOnBoard (state : GameState) : Int :=
  holeKeys.foldl
    (fun total hole =>
      [Color.RED, Color.BLUE, Color.TRANSPARENT].foldl
        (fun total color => total + state.holes hole color) total)
    0

/-- The winner, 1, 2 or 0 for a draw (`GameState::getWinner`). -/
def getWinner (state : GameState) : Int :=
  if state.captured_seeds 1 ≥ 49 then 1
  else if state.captured_seeds 2 ≥ 49 then 2
  else if state.captured_seeds 1 > state.captured_seeds 2 then 1
  else if state.captured_seeds 2 > state.captured_seeds 1 then 2
  else 0

/-- The entries of the map `holes` after `GameState::initializeBoard`, in key order:
the loop `for (hole = 1; hole <= 16; hole++)` stores 2 seeds of each colour. -/
def initializeBoard : List (Int × (Color → Int)) :=
  (List.range' 1 16).map fun hole =>
    ((hole : Int), fun color =>
      match color with
      | Color.RED => 2
      | Color.BLUE => 2
      | Color.TRANSPARENT => 2)

/-- The constructor `GameState()`: the initial board, nothing captured, player 1 to
move, no move played. -/
def init : GameState :=
  { holes := fun hole color =>
      match initializeBoard.lookup hole with
      | some seeds => seeds color
      | none => 0
    captured_seeds := fun _ => 0
    current_player := 1
    move_count := 0 }

/-- The lookup `holes.at(hole)` on a map with the keys `1..16`: `none` stands for the
exception `std::out_of_range` thrown for any other key. -/
def holesAt (state : GameState) (hole : Int) : Option (Color → Int) :=
  if hole ∈ holeKeys then some (state.holes hole) else none

/-- The loop `for (hole = 1; hole <= 16; hole++) new_state.holes[hole] = holes.at(hole)`
of `GameState::copy`, over the holes still to be copied. -/
def copyLoop (state : GameState) :
    List Int → (Int → Color → Int) → Option (Int → Color → Int)
  | [], new_holes => some new_holes
  | hole :: rest, new_holes =>
    match state.holesAt hole with
    | none => none
    | some seeds => copyLoop state rest (fun key => if key = hole then seeds else new_holes key)

/-- The function `GameState::copy`; `none` when a lookup throws. -/
def copy (state : GameState) : Option GameState :=
  let new_state := init
  match copyLoop state ((List.range' 1 16).map fun hole => (hole : Int)) new_state.holes with
  | none => none
  | some new_holes =>
    some
      { holes := new_holes
        captured_seeds := state.captured_seeds
        current_player := state.current_player
        move_count := state.move_count }

end GameState

/-! ## config.h -/

/-- Weight of the captured-seed difference (`SCORE_WEIGHT`). -/
def SCORE_WEIGHT : Int := 10

/-- Weight of the on-board seed difference (`BOARD_WEIGHT`). -/
def BOARD_WEIGHT : Int := 2

/-- Number of holes (`TOTAL_HOLES`). -/
def TOTAL_HOLES : Int := 16

/-- Seeds of each colour in each hole at the start (`INITIAL_SEEDS_PER_COLOR`). -/
def INITIAL_SEEDS_PER_COLOR : Int := 2

/-- Seeds in each hole at the start (`INITIAL_SEEDS_PER_HOLE`). -/
def INITIAL_SEEDS_PER_HOLE : Int := INITIAL_SEEDS_PER_COLOR * 3

/-- Seeds on the board at the start (`TOTAL_INITIAL_SEEDS`). -/
def TOTAL_INITIAL_SEEDS : Int := TOTAL_HOLES * INITIAL_SEEDS_PER_HOLE

/-- Time allowed for a move, in seconds (`MAX_TIME_PER_MOVE`). -/
def MAX_TIME_PER_MOVE : Rat := 3

/-! ## Scores: the values a `double` takes in the search -/

/-- A search score: an integer-valued heuristic or a signed infinity. -/
inductive Score where
  | negInf : Score
  | fin (v : Int) : Score
  | posInf : Score
  deriving DecidableEq, Repr

namespace Score

/-- Boolean `<=` on scores. -/
def leb : Score → Score → Bool
  | negInf, _ => true
  | fin _, negInf => false
  | fin a, fin b => decide (a ≤ b)
  | fin _, posInf => true
  | posInf, posInf => true
  | posInf, _ => false

/-- Boolean `<` on scores. -/
def ltb : Score → Score → Bool
  | negInf, negInf => false
  | negInf, _ => true
  | fin a, fin b => decide (a < b)
  | fin _, posInf => true
  | _, _ => false

instance : LE Score := ⟨fun a b => leb a b = true⟩

instance : LT Score := ⟨fun a b => ltb a b = true⟩

instance instDecLe (a b : Score) : Decidable (a ≤ b) :=
  inferInstanceAs (Decidable (leb a b = true))

instance instDecLt (a b : Score) : Decidable (a < b) :=
  inferInstanceAs (Decidable (ltb a b = true))

instance : LinearOrder Score where
  le_refl a := by
    show leb a a = true
    cases a <;> simp [leb]
  le_trans a b c := by
    show leb a b = true → leb b c = true → leb a c = true
    cases a <;> cases b <;> cases c <;> simp [leb]
    omega
  lt_iff_le_not_le a b := by
    show ltb a b = true ↔ leb a b = true ∧ ¬ leb b a = true
    cases a <;> cases b <;> simp [leb, ltb]
    omega
  le_antisymm a b := by
    show leb a b = true → leb b a = true → a = b
    cases a <;> cases b <;> simp [leb]
    omega
  le_total a b := by
    show leb a b = true ∨ leb b a = true
    cases a <;> cases b <;> simp [leb]
    omega
  decidableLE := instDecLe
  decidableLT := instDecLt
  decidableEq := inferInstance

instance : OrderTop Score where
  top := posInf
  le_top a := by
    show leb a posInf = true
    cases a <;> simp [leb]

instance : OrderBot Score where
  bot := negInf
  bot_le a := by
    show leb negInf a = true
    cases a <;> simp [leb]

/-- The value of `std::max(a, b)`. -/
def stdMax (a b : Score) : Score := if a < b then b else a

/-- The value of `std::min(a, b)`. -/
def stdMin (a b : Score) : Score := if b < a then b else a

/-- The negation `-x` of a score. -/
def neg : Score → Score
  | negInf => posInf
  | fin v => fin (-v)
  | posInf => negInf

end Score

/-! ## ai_algorithms.h : Evaluator and Move -/

namespace Evaluator

/-- Heuristic value of a position for a player (`Evaluator::evaluate`). -/
def evaluate (state : GameState) (player : Int) : Score :=
  let opponent := 3 - player
  let score := (state.captured_seeds player - state.captured_seeds opponent) * 10
  let player_seeds :=
    (state.getPlayerHoles player).foldl (fun acc hole => acc + state.getTotalSeeds hole) 0
  let opponent_seeds :=
    (state.getPlayerHoles opponent).foldl (fun acc hole => acc + state.getTotalSeeds hole) 0
  Score.fin (score + (player_seeds - opponent_seeds) * 2)

/-- Terminal test (`Evaluator::isTerminal`). -/
def isTerminal (state : GameState) : Bool := state.isGameOver

/-- Score of a finished game (`Evaluator::getTerminalScore`). -/
def getTerminalScore (state : GameState) (player : Int) : Score :=
  if state.captured_seeds player > state.captured_seeds (3 - player) then Score.posInf
  else if state.captured_seeds player < state.captured_seeds (3 - player) then Score.negInf
  else Score.fin 0

end Evaluator

/-- A candidate move (`struct Move`). -/
structure Move where
  hole : Int
  color : Color
  transparent_as : Color
  use_transparent : Bool
  valid : Bool
  deriving DecidableEq, Repr

namespace Move

/-- The default-constructed sentinel `Move()`. -/
def none : Move := ⟨-1, Color.RED, Color.RED, false, false⟩

/-- The four-argument constructor `Move(h, c, t, ut)`. -/
def make (h : Int) (c t : Color) (ut : Bool) : Move := ⟨h, c, t, ut, true⟩

end Move

/-- The tuples returned by `MoveGenerator::getAllMoves`. -/
abbrev MoveTuple := Int × Color × Color × Bool

/-- The move-generation collaborator `MoveGenerator` of `game_engine.h`, taken as a
parameter: `getAllMoves(state, player)` and
`applyMove(state, hole, color, trans_as, use_trans)`. -/
structure MoveGenerator where
  getAllMoves : GameState → Int → List MoveTuple
  applyMove : GameState → Int → Color → Color → Bool → GameState

namespace MoveGenerator

/-- The position after playing a tuple of `getAllMoves`. -/
def play (mg : MoveGenerator) (state : GameState) (m : MoveTuple) : GameState :=
  mg.applyMove state m.1 m.2.1 m.2.2.1 m.2.2.2

end MoveGenerator

/-- The `Move` built from a tuple of `getAllMoves`. -/
def MoveTuple.toMove (m : MoveTuple) : Move := Move.make m.1 m.2.1 m.2.2.1 m.2.2.2

/-- The hole, colour, transparent colour and transparent flag of a move, as a tuple of
`getAllMoves`. -/
def Move.tuple (m : Move) : MoveTuple :=
  (m.hole, m.color, m.transparent_as, m.use_transparent)

/-! ## ai_algorithms.h : DFSBot -/

namespace DFSBot

/-- The loop over the moves of a maximizing node of `DFSBot::search`;
`child` is the score of the recursive call on the successor position. -/
def maxLoop (mg : MoveGenerator) (state : GameState) (child : GameState → Score) :
    List MoveTuple → Score → Move → Score × Move
  | [], best_score, best_move => (best_score, best_move)
  | (hole, color, trans_as, use_trans) :: rest, best_score, best_move =>
    let new_state := mg.applyMove state hole color trans_as use_trans
    let score := child new_state
    if score > best_score then
      maxLoop mg state child rest score (Move.make hole color trans_as use_trans)
    else
      maxLoop mg state child rest best_score best_move

/-- The loop over the moves of a minimizing node of `DFSBot::search`. -/
def minLoop (mg : MoveGenerator) (state : GameState) (child : GameState → Score) :
    List MoveTuple → Score → Move → Score × Move
  | [], best_score, best_move => (best_score, best_move)
  | (hole, color, trans_as, use_trans) :: rest, best_score, best_move =>
    let new_state := mg.applyMove state hole color trans_as use_trans
    let score := child new_state
    if score < best_score then
      minLoop mg state child rest score (Move.make hole color trans_as use_trans)
    else
      minLoop mg state child rest best_score best_move

/-- The body of `DFSBot::search` with `budget = depth - current_depth` plies left. -/
def searchFrom (mg : MoveGenerator) (player : Int) : Nat → GameState → Score × Move
  | 0, state =>
    if Evaluator.isTerminal state then
      let opponent := 3 - player
      if state.captured_seeds player > state.captured_seeds opponent then
        (Score.posInf, Move.none)
      else if state.captured_seeds player < state.captured_seeds opponent then
        (Score.negInf, Move.none)
      else (Score.fin 0, Move.none)
    else (Evaluator.evaluate state player, Move.none)
  | budget + 1, state =>
    if Evaluator.isTerminal state then
      let opponent := 3 - player
      if state.captured_seeds player > state.captured_seeds opponent then
        (Score.posInf, Move.none)
      else if state.captured_seeds player < state.captured_seeds opponent then
        (Score.negInf, Move.none)
      else (Score.fin 0, Move.none)
    else if state.current_player = player then
      maxLoop mg state (fun s => (searchFrom mg player budget s).1)
        (mg.getAllMoves state player) Score.negInf Move.none
    else
      let opponent := 3 - player
      minLoop mg state (fun s => (searchFrom mg player budget s).1)
        (mg.getAllMoves state opponent) Score.posInf Move.none

/-- The function `DFSBot::search(state, player, current_depth)` of a bot built with `depth`. -/
def search (depth : Int) (mg : MoveGenerator) (state : GameState) (player : Int)
    (current_depth : Int) : Score × Move :=
  searchFrom mg player (depth - current_depth).toNat state

/-- The function `DFSBot::getMove`. -/
def getMove (depth : Int) (mg : MoveGenerator) (state : GameState) (player : Int) : Move :=
  (search depth mg state player 0).2

end DFSBot

/-! ## ai_algorithms.h : MinMaxBot -/

namespace MinMaxBot

/-- The loop over the moves of a maximizing node of `MinMaxBot::search`;
`child s a b` is the score of the recursive call on `s` with window `(a, b)`. -/
def maxLoop (mg : MoveGenerator) (state : GameState) (child : GameState → Score → Score → Score)
    (beta : Score) : List MoveTuple → Score → Move → Score → Score × Move
  | [], max_eval, best_move, _ => (max_eval, best_move)
  | (hole, color, trans_as, use_trans) :: rest, max_eval, best_move, alpha =>
    let new_state := mg.applyMove state hole color trans_as use_trans
    let eval_score := child new_state alpha beta
    let max_eval1 := if eval_score > max_eval then eval_score else max_eval
    let best_move1 :=
      if eval_score > max_eval then Move.make hole color trans_as use_trans else best_move
    let alpha1 := Score.stdMax alpha eval_score
    if beta ≤ alpha1 then (max_eval1, best_move1)
    else maxLoop mg state child beta rest max_eval1 best_move1 alpha1

/-- The loop over the moves of a minimizing node of `MinMaxBot::search`. -/
def minLoop (mg : MoveGenerator) (state : GameState) (child : GameState → Score → Score → Score)
    (alpha : Score) : List MoveTuple → Score → Move → Score → Score × Move
  | [], min_eval, best_move, _ => (min_eval, best_move)
  | (hole, color, trans_as, use_trans) :: rest, min_eval, best_move, beta =>
    let new_state := mg.applyMove state hole color trans_as use_trans
    let eval_score := child new_state alpha beta
    let min_eval1 := if eval_score < min_eval then eval_score else min_eval
    let best_move1 :=
      if eval_score < min_eval then Move.make hole color trans_as use_trans else best_move
    let beta1 := Score.stdMin beta eval_score
    if beta1 ≤ alpha then (min_eval1, best_move1)
    else minLoop mg state child alpha rest min_eval1 best_move1 beta1

/-- The body of `MinMaxBot::search` with `budget = depth - current_depth` plies left. -/
def searchFrom (mg : MoveGenerator) (player : Int) :
    Nat → GameState → Score → Score → Score × Move
  | 0, state, _, _ =>
    if Evaluator.isTerminal state then (Evaluator.getTerminalScore state player, Move.none)
    else (Evaluator.evaluate state player, Move.none)
  | budget + 1, state, alpha, beta =>
    if Evaluator.isTerminal state then (Evaluator.getTerminalScore state player, Move.none)
    else if state.current_player = player then
      maxLoop mg state (fun s a b => (searchFrom mg player budget s a b).1) beta
        (mg.getAllMoves state player) Score.negInf Move.none alpha
    else
      let opponent := 3 - player
      minLoop mg state (fun s a b => (searchFrom mg player budget s a b).1) alpha
        (mg.getAllMoves state opponent) Score.posInf Move.none beta

/-- The function `MinMaxBot::search(state, player, current_depth, alpha, beta)`. -/
def search (depth : Int) (mg : MoveGenerator) (state : GameState) (player : Int)
    (current_depth : Int) (alpha beta : Score) : Score × Move :=
  searchFrom mg player (depth - current_depth).toNat state alpha beta

/-- The function `MinMaxBot::getMove`. -/
def getMove (depth : Int) (mg : MoveGenerator) (state : GameState) (player : Int) : Move :=
  (search depth mg state player 0 Score.negInf Score.posInf).2

end MinMaxBot

/-! ## ai_algorithms.h : AlphaBetaBot -/

namespace AlphaBetaBot

/-- The loop over the moves of a maximizing node of `AlphaBetaBot::search`;
`child s a b f` is the score of the recursive call on `s` with window `(a, b)` and
flag `is_maximizing = f`. -/
def maxLoop (mg : MoveGenerator) (state : GameState) (player : Int)
    (child : GameState → Score → Score → Bool → Score)
    (beta : Score) : List MoveTuple → Score → Move → Score → Score × Move
  | [], max_eval, best_move, _ => (max_eval, best_move)
  | (hole, color, trans_as, use_trans) :: rest, max_eval, best_move, alpha =>
    let new_state := mg.applyMove state hole color trans_as use_trans
    let next_is_maximizing := decide (new_state.current_player = player)
    let eval_score := child new_state alpha beta next_is_maximizing
    let max_eval1 := if eval_score > max_eval then eval_score else max_eval
    let best_move1 :=
      if eval_score > max_eval then Move.make hole color trans_as use_trans else best_move
    let alpha1 := Score.stdMax alpha eval_score
    if beta ≤ alpha1 then (max_eval1, best_move1)
    else maxLoop mg state player child beta rest max_eval1 best_move1 alpha1

/-- The loop over the moves of a minimizing node of `AlphaBetaBot::search`. -/
def minLoop (mg : MoveGenerator) (state : GameState) (player : Int)
    (child : GameState → Score → Score → Bool → Score)
    (alpha : Score) : List MoveTuple → Score → Move → Score → Score × Move
  | [], min_eval, best_move, _ => (min_eval, best_move)
  | (hole, color, trans_as, use_trans) :: rest, min_eval, best_move, beta =>
    let new_state := mg.applyMove state hole color trans_as use_trans
    let next_is_maximizing := decide (new_state.current_player = player)
    let eval_score := child new_state alpha beta next_is_maximizing
    let min_eval1 := if eval_score < min_eval then eval_score else min_eval
    let best_move1 :=
      if eval_score < min_eval then Move.make hole color trans_as use_trans else best_move
    let beta1 := Score.stdMin beta eval_score
    if beta1 ≤ alpha then (min_eval1, best_move1)
    else minLoop mg state player child alpha rest min_eval1 best_move1 beta1

/-- The body of `AlphaBetaBot::search` with `budget = depth - current_depth` plies left. -/
def searchFrom (mg : MoveGenerator) (player : Int) :
    Nat → GameState → Score → Score → Bool → Score × Move
  | 0, state, _, _, _ =>
    if Evaluator.isTerminal state then (Evaluator.getTerminalScore state player, Move.none)
    else (Evaluator.evaluate state player, Move.none)
  | budget + 1, state, alpha, beta, is_maximizing =>
    if Evaluator.isTerminal state then (Evaluator.getTerminalScore state player, Move.none)
    else
      let current_player := state.current_player
      if is_maximizing then
        maxLoop mg state player (fun s a b f => (searchFrom mg player budget s a b f).1) beta
          (mg.getAllMoves state current_player) Score.negInf Move.none alpha
      else
        minLoop mg state player (fun s a b f => (searchFrom mg player budget s a b f).1) alpha
          (mg.getAllMoves state current_player) Score.posInf Move.none beta

/-- The function
`AlphaBetaBot::search(state, player, current_depth, alpha, beta, is_maximizing)`. -/
def search (depth : Int) (mg : MoveGenerator) (state : GameState) (player : Int)
    (current_depth : Int) (alpha beta : Score) (is_maximizing : Bool) : Score × Move :=
  searchFrom mg player (depth - current_depth).toNat state alpha beta is_maximizing

/-- The function `AlphaBetaBot::getMove`. -/
def getMove (depth : Int) (mg : MoveGenerator) (state : GameState) (player : Int) : Move :=
  (search depth mg state player 0 Score.negInf Score.posInf true).2

end AlphaBetaBot

/-! ## ai_algorithms.h : IterativeDeepeningDFSBot -/

namespace IterativeDeepeningDFSBot

/-- The loop over the moves of a maximizing node of `dfsLimited`. -/
def maxLoop (mg : MoveGenerator) (state : GameState) (child : GameState → Score) :
    List MoveTuple → Score → Move → Score × Move
  | [], best_score, best_move => (best_score, best_move)
  | (hole, color, trans_as, use_trans) :: rest, best_score, best_move =>
    let new_state := mg.applyMove state hole color trans_as use_trans
    let score := child new_state
    if score > best_score then
      maxLoop mg state child rest score (Move.make hole color trans_as use_trans)
    else
      maxLoop mg state child rest best_score best_move

/-- The loop over the moves of a minimizing node of `dfsLimited`. -/
def minLoop (mg : MoveGenerator) (state : GameState) (child : GameState → Score) :
    List MoveTuple → Score → Move → Score × Move
  | [], best_score, best_move => (best_score, best_move)
  | (hole, color, trans_as, use_trans) :: rest, best_score, best_move =>
    let new_state := mg.applyMove state hole color trans_as use_trans
    let score := child new_state
    if score < best_score then
      minLoop mg state child rest score (Move.make hole color trans_as use_trans)
    else
      minLoop mg state child rest best_score best_move

/-- The body of `dfsLimited` with `budget = depth_limit - current_depth` plies left. -/
def dfsLimitedFrom (mg : MoveGenerator) (player : Int) : Nat → GameState → Score × Move
  | 0, state =>
    if Evaluator.isTerminal state then (Evaluator.getTerminalScore state player, Move.none)
    else (Evaluator.evaluate state player, Move.none)
  | budget + 1, state =>
    if Evaluator.isTerminal state then (Evaluator.getTerminalScore state player, Move.none)
    else if state.current_player = player then
      maxLoop mg state (fun s => (dfsLimitedFrom mg player budget s).1)
        (mg.getAllMoves state player) Score.negInf Move.none
    else
      let opponent := 3 - player
      minLoop mg state (fun s => (dfsLimitedFrom mg player budget s).1)
        (mg.getAllMoves state opponent) Score.posInf Move.none

/-- The function
`IterativeDeepeningDFSBot::dfsLimited(state, player, depth_limit, current_depth)`. -/
def dfsLimited (mg : MoveGenerator) (state : GameState) (player : Int)
    (depth_limit : Int) (current_depth : Int) : Score × Move :=
  dfsLimitedFrom mg player (depth_limit - current_depth).toNat state

/-- The iterations `d, d + 1, ...` of the loop of `IterativeDeepeningDFSBot::search`,
`iterations` of them being left, with the current `best_move`. -/
def searchLoop (mg : MoveGenerator) (state : GameState) (player : Int) :
    Nat → Int → Move → Move
  | 0, _, best_move => best_move
  | iterations + 1, d, best_move =>
    let move := (dfsLimited mg state player d 0).2
    if move.valid then searchLoop mg state player iterations (d + 1) move
    else searchLoop mg state player iterations (d + 1) best_move

/-- The function `IterativeDeepeningDFSBot::search`: `d` runs from `1` to `max_depth`. -/
def search (max_depth : Int) (mg : MoveGenerator) (state : GameState) (player : Int) : Move :=
  searchLoop mg state player max_depth.toNat 1 Move.none

/-- The function `IterativeDeepeningDFSBot::getMove`. -/
def getMove (max_depth : Int) (mg : MoveGenerator) (state : GameState) (player : Int) : Move :=
  search max_depth mg state player

end IterativeDeepeningDFSBot

/-! ## ai_algorithms.h : BFSBot -/

namespace BFSBot

/-- An entry of the frontier (`struct QueueItem`). -/
structure QueueItem where
  state : GameState
  depth : Int
  first_move : Move

/-- The entries pushed for the children of `item`, in the order of `getAllMoves`. -/
def children (mg : MoveGenerator) (player : Int) (item : QueueItem) : List QueueItem :=
  (mg.getAllMoves item.state player).map fun move =>
    let new_state := mg.applyMove item.state move.1 move.2.1 move.2.2.1 move.2.2.2
    let first :=
      if item.first_move.valid then item.first_move
      else Move.make move.1 move.2.1 move.2.2.1 move.2.2.2
    { state := new_state, depth := item.depth + 1, first_move := first }

/-- The `while (!queue.empty())` loop of `BFSBot::search`.  Each iteration pops one
entry and uses one unit of `fuel`; the result is `none` when the fuel runs out
before the queue is empty. -/
def loop (depth : Int) (mg : MoveGenerator) (player : Int) :
    Nat → List QueueItem → Score → Move → Option Move
  | _, [], _, best_move => some best_move
  | 0, _ :: _, _, _ => Option.none
  | fuel + 1, item :: queue, best_score, best_move =>
    if item.depth = depth then
      let score := Evaluator.evaluate item.state player
      if score > best_score ∧ item.first_move.valid = true then
        loop depth mg player fuel queue score item.first_move
      else
        loop depth mg player fuel queue best_score best_move
    else if item.state.current_player = player then
      loop depth mg player fuel (queue ++ children mg player item) best_score best_move
    else
      loop depth mg player fuel queue best_score best_move

/-- The function `BFSBot::search`, with `fuel` iterations of the queue loop allowed. -/
def search (depth : Int) (mg : MoveGenerator) (fuel : Nat) (state : GameState)
    (player : Int) : Option Move :=
  if Evaluator.isTerminal state then some Move.none
  else
    loop depth mg player fuel [{ state := state, depth := 0, first_move := Move.none }]
      Score.negInf Move.none

/-- The function `BFSBot::getMove`. -/
def getMove (depth : Int) (mg : MoveGenerator) (fuel : Nat) (state : GameState)
    (player : Int) : Option Move :=
  search depth mg fuel state player

end BFSBot

/-! ## ai_algorithms.h : the diagnostic counters -/

namespace AlphaBetaBot

/-- The members `nodes_explored` and `pruned_branches` of `AlphaBetaBot`. -/
structure Counters where
  nodes_explored : Int
  pruned_branches : Int
  deriving DecidableEq, Repr

/-- The loop of a maximizing node of `AlphaBetaBot::search` with the counters threaded
through; `child` is the recursive call, returning its score and the counters after it. -/
def maxLoopCounted (mg : MoveGenerator) (state : GameState) (player : Int)
    (child : GameState → Score → Score → Bool → Counters → Score × Counters)
    (beta : Score) : List MoveTuple → Score → Move → Score → Counters →
      (Score × Move) × Counters
  | [], max_eval, best_move, _, counters => ((max_eval, best_move), counters)
  | (hole, color, trans_as, use_trans) :: rest, max_eval, best_move, alpha, counters =>
    let new_state := mg.applyMove state hole color trans_as use_trans
    let next_is_maximizing := decide (new_state.current_player = player)
    let result := child new_state alpha beta next_is_maximizing counters
    let eval_score := result.1
    let max_eval1 := if eval_score > max_eval then eval_score else max_eval
    let best_move1 :=
      if eval_score > max_eval then Move.make hole color trans_as use_trans else best_move
    let alpha1 := Score.stdMax alpha eval_score
    if beta ≤ alpha1 then
      ((max_eval1, best_move1),
        { result.2 with pruned_branches := result.2.pruned_branches + 1 })
    else maxLoopCounted mg state player child beta rest max_eval1 best_move1 alpha1 result.2

/-- The loop of a minimizing node of `AlphaBetaBot::search` with the counters threaded
through. -/
def minLoopCounted (mg : MoveGenerator) (state : GameState) (player : Int)
    (child : GameState → Score → Score → Bool → Counters → Score × Counters)
    (alpha : Score) : List MoveTuple → Score → Move → Score → Counters →
      (Score × Move) × Counters
  | [], min_eval, best_move, _, counters => ((min_eval, best_move), counters)
  | (hole, color, trans_as, use_trans) :: rest, min_eval, best_move, beta, counters =>
    let new_state := mg.applyMove state hole color trans_as use_trans
    let next_is_maximizing := decide (new_state.current_player = player)
    let result := child new_state alpha beta next_is_maximizing counters
    let eval_score := result.1
    let min_eval1 := if eval_score < min_eval then eval_score else min_eval
    let best_move1 :=
      if eval_score < min_eval then Move.make hole color trans_as use_trans else best_move
    let beta1 := Score.stdMin beta eval_score
    if beta1 ≤ alpha then
      ((min_eval1, best_move1),
        { result.2 with pruned_branches := result.2.pruned_branches + 1 })
    else minLoopCounted mg state player child alpha rest min_eval1 best_move1 beta1 result.2

/-- The body of `AlphaBetaBot::search` with the counters: `nodes_explored++` on entry,
`pruned_branches++` at each cutoff. -/
def searchFromCounted (mg : MoveGenerator) (player : Int) :
    Nat → GameState → Score → Score → Bool → Counters → (Score × Move) × Counters
  | 0, state, _, _, _, counters =>
    let counters1 := { counters with nodes_explored := counters.nodes_explored + 1 }
    if Evaluator.isTerminal state then
      ((Evaluator.getTerminalScore state player, Move.none), counters1)
    else ((Evaluator.evaluate state player, Move.none), counters1)
  | budget + 1, state, alpha, beta, is_maximizing, counters =>
    let counters1 := { counters with nodes_explored := counters.nodes_explored + 1 }
    if Evaluator.isTerminal state then
      ((Evaluator.getTerminalScore state player, Move.none), counters1)
    else
      let current_player := state.current_player
      if is_maximizing then
        maxLoopCounted mg state player
          (fun s a b f c =>
            ((searchFromCounted mg player budget s a b f c).1.1,
              (searchFromCounted mg player budget s a b f c).2))
          beta (mg.getAllMoves state current_player) Score.negInf Move.none alpha counters1
      else
        minLoopCounted mg state player
          (fun s a b f c =>
            ((searchFromCounted mg player budget s a b f c).1.1,
              (searchFromCounted mg player budget s a b f c).2))
          alpha (mg.getAllMoves state current_player) Score.posInf Move.none beta counters1

/-- The function `AlphaBetaBot::search` with the counters before and after the call. -/
def searchCounted (depth : Int) (mg : MoveGenerator) (state : GameState) (player : Int)
    (current_depth : Int) (alpha beta : Score) (is_maximizing : Bool) (counters : Counters) :
    (Score × Move) × Counters :=
  searchFromCounted mg player (depth - current_depth).toNat state alpha beta is_maximizing
    counters

/-- The function `AlphaBetaBot::getMove` with the counters: both are reset to 0 before
the search, whatever they held. -/
def getMoveCounted (depth : Int) (mg : MoveGenerator) (state : GameState) (player : Int)
    (_counters : Counters) : Move × Counters :=
  let result := searchCounted depth mg state player 0 Score.negInf Score.posInf true
    { nodes_explored := 0, pruned_branches := 0 }
  (result.1.2, result.2)

end AlphaBetaBot

namespace IterativeDeepeningDFSBot

/-- The loop of a maximizing node of `dfsLimited` with the member `nodes_explored`
threaded through; `child` is the recursive call, returning its score and the counter
after it. -/
def maxLoopCounted (mg : MoveGenerator) (state : GameState)
    (child : GameState → Int → Score × Int) :
    List MoveTuple → Score → Move → Int → (Score × Move) × Int
  | [], best_score, best_move, nodes_explored => ((best_score, best_move), nodes_explored)
  | (hole, color, trans_as, use_trans) :: rest, best_score, best_move, nodes_explored =>
    let new_state := mg.applyMove state hole color trans_as use_trans
    let result := child new_state nodes_explored
    let score := result.1
    if score > best_score then
      maxLoopCounted mg state child rest score (Move.make hole color trans_as use_trans)
        result.2
    else
      maxLoopCounted mg state child rest best_score best_move result.2

/-- The loop of a minimizing node of `dfsLimited` with `nodes_explored` threaded
through. -/
def minLoopCounted (mg : MoveGenerator) (state : GameState)
    (child : GameState → Int → Score × Int) :
    List MoveTuple → Score → Move → Int → (Score × Move) × Int
  | [], best_score, best_move, nodes_explored => ((best_score, best_move), nodes_explored)
  | (hole, color, trans_as, use_trans) :: rest, best_score, best_move, nodes_explored =>
    let new_state := mg.applyMove state hole color trans_as use_trans
    let result := child new_state nodes_explored
    let score := result.1
    if score < best_score then
      minLoopCounted mg state child rest score (Move.make hole color trans_as use_trans)
        result.2
    else
      minLoopCounted mg state child rest best_score best_move result.2

/-- The body of `dfsLimited` with the counter: `nodes_explored++` on entry. -/
def dfsLimitedFromCounted (mg : MoveGenerator) (player : Int) :
    Nat → GameState → Int → (Score × Move) × Int
  | 0, state, nodes_explored =>
    if Evaluator.isTerminal state then
      ((Evaluator.getTerminalScore state player, Move.none), nodes_explored + 1)
    else ((Evaluator.evaluate state player, Move.none), nodes_explored + 1)
  | budget + 1, state, nodes_explored =>
    if Evaluator.isTerminal state then
      ((Evaluator.getTerminalScore state player, Move.none), nodes_explored + 1)
    else if state.current_player = player then
      maxLoopCounted mg state
        (fun s c =>
          ((dfsLimitedFromCounted mg player budget s c).1.1,
            (dfsLimitedFromCounted mg player budget s c).2))
        (mg.getAllMoves state player) Score.negInf Move.none (nodes_explored + 1)
    else
      let opponent := 3 - player
      minLoopCounted mg state
        (fun s c =>
          ((dfsLimitedFromCounted mg player budget s c).1.1,
            (dfsLimitedFromCounted mg player budget s c).2))
        (mg.getAllMoves state opponent) Score.posInf Move.none (nodes_explored + 1)

/-- The function `dfsLimited` with the value of `nodes_explored` before and after the
call. -/
def dfsLimitedCounted (mg : MoveGenerator) (state : GameState) (player : Int)
    (depth_limit : Int) (current_depth : Int) (nodes_explored : Int) :
    (Score × Move) × Int :=
  dfsLimitedFromCounted mg player (depth_limit - current_depth).toNat state nodes_explored

/-- The search `dfsLimitedFrom` with `budget` plies left never takes its depth-cutoff
branch on a position that is not finished: a position reached with no budget left is a
finished game, and a line ending earlier ends in a finished game or in a position
whose move list (the one `dfsLimited` loops over) is empty. -/
def neverCutOff (mg : MoveGenerator) (player : Int) : Nat → GameState → Bool
  | 0, state => state.isGameOver
  | budget + 1, state =>
    state.isGameOver ||
      (if state.current_player = player then mg.getAllMoves state player
        else mg.getAllMoves state (3 - player)).all
        (fun m => neverCutOff mg player budget (mg.play state m))

end IterativeDeepeningDFSBot

namespace MinMaxBot

/-- The loop of a maximizing node of `MinMaxBot::search` with the member `nodes_explored`
threaded through; `child` is the recursive call, returning its score and the counter
after it. -/
def maxLoopCounted (mg : MoveGenerator) (state : GameState)
    (child : GameState → Score → Score → Int → Score × Int) (beta : Score) :
    List MoveTuple → Score → Move → Score → Int → (Score × Move) × Int
  | [], max_eval, best_move, _, nodes_explored => ((max_eval, best_move), nodes_explored)
  | (hole, color, trans_as, use_trans) :: rest, max_eval, best_move, alpha, nodes_explored =>
    let new_state := mg.applyMove state hole color trans_as use_trans
    let result := child new_state alpha beta nodes_explored
    let eval_score := result.1
    let max_eval1 := if eval_score > max_eval then eval_score else max_eval
    let best_move1 :=
      if eval_score > max_eval then Move.make hole color trans_as use_trans else best_move
    let alpha1 := Score.stdMax alpha eval_score
    if beta ≤ alpha1 then ((max_eval1, best_move1), result.2)
    else maxLoopCounted mg state child beta rest max_eval1 best_move1 alpha1 result.2

/-- The loop of a minimizing node of `MinMaxBot::search` with `nodes_explored` threaded
through. -/
def minLoopCounted (mg : MoveGenerator) (state : GameState)
    (child : GameState → Score → Score → Int → Score × Int) (alpha : Score) :
    List MoveTuple → Score → Move → Score → Int → (Score × Move) × Int
  | [], min_eval, best_move, _, nodes_explored => ((min_eval, best_move), nodes_explored)
  | (hole, color, trans_as, use_trans) :: rest, min_eval, best_move, beta, nodes_explored =>
    let new_state := mg.applyMove state hole color trans_as use_trans
    let result := child new_state alpha beta nodes_explored
    let eval_score := result.1
    let min_eval1 := if eval_score < min_eval then eval_score else min_eval
    let best_move1 :=
      if eval_score < min_eval then Move.make hole color trans_as use_trans else best_move
    let beta1 := Score.stdMin beta eval_score
    if beta1 ≤ alpha then ((min_eval1, best_move1), result.2)
    else minLoopCounted mg state child alpha rest min_eval1 best_move1 beta1 result.2

/-- The body of `MinMaxBot::search` with the counter: `nodes_explored++` on entry. -/
def searchFromCounted (mg : MoveGenerator) (player : Int) :
    Nat → GameState → Score → Score → Int → (Score × Move) × Int
  | 0, state, _, _, nodes_explored =>
    if Evaluator.isTerminal state then
      ((Evaluator.getTerminalScore state player, Move.none), nodes_explored + 1)
    else ((Evaluator.evaluate state player, Move.none), nodes_explored + 1)
  | budget + 1, state, alpha, beta, nodes_explored =>
    if Evaluator.isTerminal state then
      ((Evaluator.getTerminalScore state player, Move.none), nodes_explored + 1)
    else if state.current_player = player then
      maxLoopCounted mg state
        (fun s a b c =>
          ((searchFromCounted mg player budget s a b c).1.1,
            (searchFromCounted mg player budget s a b c).2))
        beta (mg.getAllMoves state player) Score.negInf Move.none alpha (nodes_explored + 1)
    else
      let opponent := 3 - player
      minLoopCounted mg state
        (fun s a b c =>
          ((searchFromCounted mg player budget s a b c).1.1,
            (searchFromCounted mg player budget s a b c).2))
        alpha (mg.getAllMoves state opponent) Score.posInf Move.none beta (nodes_explored + 1)

/-- The function `MinMaxBot::search` with the value of `nodes_explored` before and after
the call. -/
def searchCounted (depth : Int) (mg : MoveGenerator) (state : GameState) (player : Int)
    (current_depth : Int) (alpha beta : Score) (nodes_explored : Int) :
    (Score × Move) × Int :=
  searchFromCounted mg player (depth - current_depth).toNat state alpha beta nodes_explored

/-- The function `MinMaxBot::getMove` with the counter: it is reset to 0 before the
search, whatever it held. -/
def getMoveCounted (depth : Int) (mg : MoveGenerator) (state : GameState) (player : Int)
    (_nodes_explored : Int) : Move × Int :=
  let result := searchCounted depth mg state player 0 Score.negInf Score.posInf 0
  (result.1.2, result.2)

end MinMaxBot

namespace IterativeDeepeningDFSBot

/-- The loop of `IterativeDeepeningDFSBot::search` with the member `nodes_explored`:
every iteration sets it to 0 and then runs `dfsLimited`. -/
def searchLoopCounted (mg : MoveGenerator) (state : GameState) (player : Int) :
    Nat → Int → Move → Int → Move × Int
  | 0, _, best_move, nodes_explored => (best_move, nodes_explored)
  | iterations + 1, d, best_move, _ =>
    let result := dfsLimitedCounted mg state player d 0 0
    let move := result.1.2
    if move.valid then searchLoopCounted mg state player iterations (d + 1) move result.2
    else searchLoopCounted mg state player iterations (d + 1) best_move result.2

/-- The function `IterativeDeepeningDFSBot::search` with the value of `nodes_explored`
before and after the call. -/
def searchCounted (max_depth : Int) (mg : MoveGenerator) (state : GameState) (player : Int)
    (nodes_explored : Int) : Move × Int :=
  searchLoopCounted mg state player max_depth.toNat 1 Move.none nodes_explored

/-- The function `IterativeDeepeningDFSBot::getMove` with the counter. -/
def getMoveCounted (max_depth : Int) (mg : MoveGenerator) (state : GameState) (player : Int)
    (nodes_explored : Int) : Move × Int :=
  searchCounted max_depth mg state player nodes_explored

end IterativeDeepeningDFSBot

/-! ## ai_algorithms.h : the calls of `AlphaBetaBot::search`, in order -/

namespace AlphaBetaBot

/-- The loop of a maximizing node of `AlphaBetaBot::search` with the record of the calls
made so far threaded through; `child` is the recursive call. -/
def maxLoopTraced (mg : MoveGenerator) (state : GameState) (player : Int)
    (child : GameState → Score → Score → Bool → List (GameState × Bool) →
      Score × List (GameState × Bool))
    (beta : Score) : List MoveTuple → Score → Move → Score → List (GameState × Bool) →
      (Score × Move) × List (GameState × Bool)
  | [], max_eval, best_move, _, calls => ((max_eval, best_move), calls)
  | (hole, color, trans_as, use_trans) :: rest, max_eval, best_move, alpha, calls =>
    let new_state := mg.applyMove state hole color trans_as use_trans
    let next_is_maximizing := decide (new_state.current_player = player)
    let result := child new_state alpha beta next_is_maximizing calls
    let eval_score := result.1
    let max_eval1 := if eval_score > max_eval then eval_score else max_eval
    let best_move1 :=
      if eval_score > max_eval then Move.make hole color trans_as use_trans else best_move
    let alpha1 := Score.stdMax alpha eval_score
    if beta ≤ alpha1 then ((max_eval1, best_move1), result.2)
    else maxLoopTraced mg state player child beta rest max_eval1 best_move1 alpha1 result.2

/-- The loop of a minimizing node of `AlphaBetaBot::search` with the record of the calls
threaded through. -/
def minLoopTraced (mg : MoveGenerator) (state : GameState) (player : Int)
    (child : GameState → Score → Score → Bool → List (GameState × Bool) →
      Score × List (GameState × Bool))
    (alpha : Score) : List MoveTuple → Score → Move → Score → List (GameState × Bool) →
      (Score × Move) × List (GameState × Bool)
  | [], min_eval, best_move, _, calls => ((min_eval, best_move), calls)
  | (hole, color, trans_as, use_trans) :: rest, min_eval, best_move, beta, calls =>
    let new_state := mg.applyMove state hole color trans_as use_trans
    let next_is_maximizing := decide (new_state.current_player = player)
    let result := child new_state alpha beta next_is_maximizing calls
    let eval_score := result.1
    let min_eval1 := if eval_score < min_eval then eval_score else min_eval
    let best_move1 :=
      if eval_score < min_eval then Move.make hole color trans_as use_trans else best_move
    let beta1 := Score.stdMin beta eval_score
    if beta1 ≤ alpha then ((min_eval1, best_move1), result.2)
    else minLoopTraced mg state player child alpha rest min_eval1 best_move1 beta1 result.2

/-- The body of `AlphaBetaBot::search` recording, where the source counts the node
(`nodes_explored++`), the arguments `state` and `is_maximizing` of the call. -/
def searchFromTraced (mg : MoveGenerator) (player : Int) :
    Nat → GameState → Score → Score → Bool → List (GameState × Bool) →
      (Score × Move) × List (GameState × Bool)
  | 0, state, _, _, is_maximizing, calls =>
    let calls1 := calls ++ [(state, is_maximizing)]
    if Evaluator.isTerminal state then
      ((Evaluator.getTerminalScore state player, Move.none), calls1)
    else ((Evaluator.evaluate state player, Move.none), calls1)
  | budget + 1, state, alpha, beta, is_maximizing, calls =>
    let calls1 := calls ++ [(state, is_maximizing)]
    if Evaluator.isTerminal state then
      ((Evaluator.getTerminalScore state player, Move.none), calls1)
    else
      let current_player := state.current_player
      if is_maximizing then
        maxLoopTraced mg state player
          (fun s a b f c =>
            ((searchFromTraced mg player budget s a b f c).1.1,
              (searchFromTraced mg player budget s a b f c).2))
          beta (mg.getAllMoves state current_player) Score.negInf Move.none alpha calls1
      else
        minLoopTraced mg state player
          (fun s a b f c =>
            ((searchFromTraced mg player budget s a b f c).1.1,
              (searchFromTraced mg player budget s a b f c).2))
          alpha (mg.getAllMoves state current_player) Score.posInf Move.none beta calls1

/-- The function `AlphaBetaBot::getMove` with the record of the calls of `search` it
makes: the first call has `is_maximizing = true`. -/
def getMoveTraced (depth : Int) (mg : MoveGenerator) (state : GameState) (player : Int) :
    Move × List (GameState × Bool) :=
  let result := searchFromTraced mg player (depth - 0).toNat state Score.negInf Score.posInf
    true []
  (result.1.2, result.2)

end AlphaBetaBot

/-! ## bot.cpp : the text form of a move -/

/-- A parsed move (`struct ParsedMove`); a `std::string` is the list of its characters. -/
structure ParsedMove where
  hole : Int
  color : Color
  trans_as : Option Color
  valid : Bool
  deriving DecidableEq, Repr

/-- The decimal text `operator<<` writes for an `int`. -/
def intToChars (n : Int) : List Char :=
  if n < 0 then '-' :: Nat.toDigits 10 n.natAbs else Nat.toDigits 10 n.natAbs

/-- The function `std::stoi` in base 10: leading white space is skipped, a sign is
accepted, the longest run of digits is converted and the rest ignored; the result is
`none` when an exception is thrown (no digit, or a value outside the range of `int`). -/
def stoi (s : List Char) : Option Int :=
  let s1 := s.dropWhile fun c => c.toNat = 32 ∨ (9 ≤ c.toNat ∧ c.toNat ≤ 13)
  let negative := s1.head? = some '-'
  let s2 := if s1.head? = some '-' ∨ s1.head? = some '+' then s1.tail else s1
  let digits := s2.takeWhile fun c => 48 ≤ c.toNat ∧ c.toNat ≤ 57
  if digits = [] then none
  else
    let magnitude : Int := digits.foldl (fun acc c => 10 * acc + ((c.toNat : Int) - 48)) 0
    let value : Int := if negative then -magnitude else magnitude
    if -2147483648 ≤ value ∧ value ≤ 2147483647 then some value else none

/-- The function `parse_move` of `bot.cpp`. -/
def parse_move (move_str : List Char) : ParsedMove :=
  let result : ParsedMove := { hole := 0, color := Color.RED, trans_as := none, valid := false }
  let upper_move := move_str.map Char.toUpper
  if upper_move.length ≥ 3 ∧ upper_move[upper_move.length - 2]? = some 'T' then
    match stoi (upper_move.take (upper_move.length - 2)) with
    | none => { result with valid := false }
    | some hole =>
      let trans_as_char := upper_move[upper_move.length - 1]?
      { hole := hole
        color := Color.TRANSPARENT
        trans_as := some (if trans_as_char = some 'R' then Color.RED else Color.BLUE)
        valid := true }
  else if upper_move.length ≥ 2 then
    match stoi (upper_move.take (upper_move.length - 1)) with
    | none => { result with valid := false }
    | some hole =>
      let color_char := upper_move[upper_move.length - 1]?
      { hole := hole
        color := if color_char = some 'R' then Color.RED else Color.BLUE
        trans_as := none
        valid := true }
  else result

/-- The function `format_move` of `bot.cpp`. -/
def format_move (hole : Int) (color : Color) (trans_as : Option Color) : List Char :=
  match color, trans_as with
  | Color.TRANSPARENT, some t => intToChars hole ++ ['T'] ++ [if t = Color.RED then 'R' else 'B']
  | _, _ => intToChars hole ++ [if color = Color.RED then 'R' else 'B']

/-! ## game_manager.h : the strategy selector -/

/-- An AI player (`class AIPlayer`).  Each of the five `unique_ptr` members is `none`
when null and otherwise holds the `depth` the strategy object was constructed with,
which is all of the object that a returned move depends on. -/
structure AIPlayer where
  player_id : Int
  algorithm_name : List Char
  depth : Int
  bfs_bot : Option Int
  dfs_bot : Option Int
  minmax_bot : Option Int
  alphabeta_bot : Option Int
  iddfs_bot : Option Int

namespace AIPlayer

/-- The function `AIPlayer::createAI`. -/
def createAI (self : AIPlayer) (algo_name : List Char) (d : Int) : AIPlayer :=
  let lower_name := algo_name.map Char.toLower
  if lower_name = "bfs".toList then { self with bfs_bot := some d }
  else if lower_name = "dfs".toList then { self with dfs_bot := some d }
  else if lower_name = "minimax".toList then { self with minmax_bot := some d }
  else if lower_name = "alphabeta".toList then { self with alphabeta_bot := some d }
  else if lower_name = "iddfs".toList then { self with iddfs_bot := some d }
  else self

/-- The constructor `AIPlayer(id, algo_name, d)`. -/
def make (id : Int) (algo_name : List Char) (d : Int) : AIPlayer :=
  createAI
    { player_id := id, algorithm_name := algo_name, depth := d, bfs_bot := none,
      dfs_bot := none, minmax_bot := none, alphabeta_bot := none, iddfs_bot := none }
    algo_name d

/-- The function `AIPlayer::getMove`; `fuel` bounds the queue loop of `BFSBot`, and the
result is `none` only when that loop runs out of fuel. -/
def getMove (self : AIPlayer) (mg : MoveGenerator) (fuel : Nat) (state : GameState) :
    Option Move :=
  let lower_name := self.algorithm_name.map Char.toLower
  match decide (lower_name = "bfs".toList), self.bfs_bot with
  | true, some bot => BFSBot.getMove bot mg fuel state self.player_id
  | _, _ =>
    match decide (lower_name = "dfs".toList), self.dfs_bot with
    | true, some bot => some (DFSBot.getMove bot mg state self.player_id)
    | _, _ =>
      match decide (lower_name = "minimax".toList), self.minmax_bot with
      | true, some bot => some (MinMaxBot.getMove bot mg state self.player_id)
      | _, _ =>
        match decide (lower_name = "alphabeta".toList), self.alphabeta_bot with
        | true, some bot => some (AlphaBetaBot.getMove bot mg state self.player_id)
        | _, _ =>
          match decide (lower_name = "iddfs".toList), self.iddfs_bot with
          | true, some bot =>
            some (IterativeDeepeningDFSBot.getMove bot mg state self.player_id)
          | _, _ => some Move.none

end AIPlayer

/-- A human player (`class HumanPlayer`). -/
structure HumanPlayer where
  player_id : Int

namespace HumanPlayer

/-- The two `erase` calls of `parseMoveInput`: the characters space, tab, line feed and
carriage return are removed at both ends. -/
def trim (s : List Char) : List Char :=
  let blank := fun (c : Char) =>
    decide (c.toNat = 32 ∨ c.toNat = 9 ∨ c.toNat = 10 ∨ c.toNat = 13)
  let s1 := s.dropWhile blank
  (s1.reverse.dropWhile blank).reverse

/-- The function `HumanPlayer::parseMoveInput` (its parameter `state` is not used);
`none` is `std::nullopt`. -/
def parseMoveInput (_self : HumanPlayer) (move_str : List Char) : Option MoveTuple :=
  let upper_str := (trim move_str).map Char.toUpper
  if upper_str.length ≥ 3 ∧ upper_str.drop (upper_str.length - 2) = ['T', 'R'] then
    match stoi (upper_str.take (upper_str.length - 2)) with
    | some hole => some (hole, Color.TRANSPARENT, Color.RED, true)
    | none => none
  else if upper_str.length ≥ 3 ∧ upper_str.drop (upper_str.length - 2) = ['T', 'B'] then
    match stoi (upper_str.take (upper_str.length - 2)) with
    | some hole => some (hole, Color.TRANSPARENT, Color.BLUE, true)
    | none => none
  else if upper_str.length ≥ 2 ∧ upper_str.getLast? = some 'R' then
    match stoi (upper_str.take (upper_str.length - 1)) with
    | some hole => some (hole, Color.RED, Color.RED, false)
    | none => none
  else if upper_str.length ≥ 2 ∧ upper_str.getLast? = some 'B' then
    match stoi (upper_str.take (upper_str.length - 1)) with
    | some hole => some (hole, Color.BLUE, Color.BLUE, false)
    | none => none
  else none

/-- The function `HumanPlayer::isMoveValid`; `none` when a lookup throws. -/
def isMoveValid (self : HumanPlayer) (hole : Int) (color : Color) (state : GameState) :
    Option Bool :=
  let player_holes := state.getPlayerHoles self.player_id
  if hole ∉ player_holes then some false
  else
    match state.holesAt hole with
    | none => none
    | some seeds => if seeds color = 0 then some false else some true

end HumanPlayer

namespace GameManager

/-- The function `GameManager::playTurn` as a function of the member `state`: `move` is
what `player->getMove(state)` returned, `elapsed` the seconds it took, and `playMove` is
`GameEngine::playMove` of `game_engine.h`, giving its return value and the state it
leaves.  The result is the return value and the state after the call; the records
`move_history` and `total_moves` are left out. -/
def playTurn (state : GameState) (move : Move) (elapsed : Rat)
    (playMove : GameState → Int → Color → Color → Bool → Bool × GameState) :
    Bool × GameState :=
  if state.isGameOver then (false, state)
  else
    let player_id := state.current_player
    if elapsed > MAX_TIME_PER_MOVE then
      let opponent := 3 - player_id
      (false,
        { state with
          captured_seeds := fun key => if key = opponent then 49 else state.captured_seeds key })
    else if !move.valid then (false, state)
    else
      let played := playMove state move.hole move.color move.transparent_as move.use_transparent
      if !played.1 then (false, played.2) else (true, played.2)

end GameManager

/-! ## The level order of the breadth-first frontier -/

namespace BFSBot

/-- The entries pushed while the entries `items` are dequeued, in order: the children
of those in which the querying player is to move. -/
def expand (mg : MoveGenerator) (player : Int) (items : List QueueItem) : List QueueItem :=
  items.flatMap fun item =>
    if item.state.current_player = player then children mg player item else []

/-- The entries `k` levels below the entries `items`, in the order of the queue. -/
def levelFrom (mg : MoveGenerator) (player : Int) : Nat → List QueueItem → List QueueItem
  | 0, items => items
  | k + 1, items => levelFrom mg player k (expand mg player items)

/-- The number of entries dequeued on the `k` levels starting with `items`. -/
def work (mg : MoveGenerator) (player : Int) : Nat → List QueueItem → Nat
  | 0, _ => 0
  | k + 1, items => items.length + work mg player k (expand mg player items)

/-- The entry of the root position. -/
def rootItem (state : GameState) : QueueItem :=
  { state := state, depth := 0, first_move := Move.none }

/-- The entry pushed for the root move `m`. -/
def childItem (mg : MoveGenerator) (state : GameState) (m : MoveTuple) : QueueItem :=
  { state := mg.play state m, depth := 1, first_move := m.toMove }

end BFSBot

/-! ## Concrete collaborators and positions used to instantiate the statements -/

/-- A board with `a` red seeds in hole 1, `b` blue seeds in hole 3 (player 1) and
`c` red seeds in hole 2 (player 2), all other holes empty. -/
def smallBoard (a b c : Int) : Int → Color → Int := fun hole color =>
  if hole = 1 ∧ color = Color.RED then a
  else if hole = 3 ∧ color = Color.BLUE then b
  else if hole = 2 ∧ color = Color.RED then c
  else 0

/-- The position with board `smallBoard a b c`, captured counts `c1`, `c2`, mover `p`
and `n` moves played. -/
def smallState (a b c c1 c2 p n : Int) : GameState :=
  { holes := smallBoard a b c
    captured_seeds := fun q => if q = 1 then c1 else if q = 2 then c2 else 0
    current_player := p
    move_count := n }

/-- Legal moves read off the board: one tuple per non-empty (hole, colour) of the
player, a transparent colour being playable as red or as blue. -/
def boardMoves (state : GameState) (player : Int) : List MoveTuple :=
  (state.getValidMoves player).flatMap fun hc =>
    if hc.2 = Color.TRANSPARENT then
      [(hc.1, Color.TRANSPARENT, Color.RED, true), (hc.1, Color.TRANSPARENT, Color.BLUE, true)]
    else [(hc.1, hc.2, hc.2, false)]

/-- A simple rules engine: the mover banks all seeds of the chosen colour of the chosen
hole, the move counter advances and the turn passes to the other player. -/
def captureEngine : MoveGenerator :=
  { getAllMoves := boardMoves
    applyMove := fun state hole color _ _ =>
      { holes := fun h c => if h = hole ∧ c = color then 0 else state.holes h c
        captured_seeds := fun q =>
          if q = state.current_player then state.captured_seeds q + state.holes hole color
          else state.captured_seeds q
        current_player := if state.current_player = 1 then 2 else 1
        move_count := state.move_count + 1 } }

/-- A rules engine given by a table: legal moves are read off the board, and playing
from hole 1 leads to position `fromHole1`, playing from any other hole to `fromOther`. -/
def tableEngine (fromHole1 fromOther : GameState) : MoveGenerator :=
  { getAllMoves := boardMoves
    applyMove := fun _ hole _ _ _ => if hole = 1 then fromHole1 else fromOther }

/-! ## Reachable positions -/

/-- Positions reachable from `root` by playing, from a position that is not finished,
a legal move of the player whose turn it is. -/
inductive Reachable (mg : MoveGenerator) (root : GameState) : GameState → Prop
  | root : Reachable mg root root
  | step {s : GameState} (m : MoveTuple) :
      Reachable mg root s → s.isGameOver = false →
      m ∈ mg.getAllMoves s s.current_player → Reachable mg root (mg.play s m)

/-! ## The contract of a pruned search value -/

/-- Contract between the exact value `v` of a node and the value `r` returned by a pruned
search of that node with window `(a, b)`: `r` is exact inside the window and lies on the
same side of the window as `v` otherwise. -/
def Sound (v r a b : Score) : Prop :=
  (v ≤ a → r ≤ a) ∧ (b ≤ v → b ≤ r) ∧ (a < v → v < b → r = v)

open Evaluator

/-! ## Scores -/

theorem Score.stdMax_eq_max (a b : Score) : Score.stdMax a b = max a b := by
  unfold Score.stdMax
  split_ifs with h
  · exact (max_eq_right (le_of_lt h)).symm
  · exact (max_eq_left (not_lt.mp h)).symm

theorem Score.stdMin_eq_min (a b : Score) : Score.stdMin a b = min a b := by
  unfold Score.stdMin
  split_ifs with h
  · exact (min_eq_right (le_of_lt h)).symm
  · exact (min_eq_left (not_lt.mp h)).symm

theorem Score.le_posInf (a : Score) : a ≤ Score.posInf := le_top

theorem Score.negInf_le (a : Score) : Score.negInf ≤ a := bot_le

theorem Score.posInf_le_iff {a : Score} : Score.posInf ≤ a ↔ a = Score.posInf :=
  top_le_iff

theorem Score.le_negInf_iff {a : Score} : a ≤ Score.negInf ↔ a = Score.negInf :=
  le_bot_iff

theorem Score.fin_lt_posInf (v : Int) : Score.fin v < Score.posInf := by
  show Score.ltb (Score.fin v) Score.posInf = true
  rfl

theorem Score.negInf_lt_fin (v : Int) : Score.negInf < Score.fin v := by
  show Score.ltb Score.negInf (Score.fin v) = true
  rfl

theorem Score.negInf_lt_posInf : Score.negInf < Score.posInf := by decide

theorem Score.fin_le_fin {a b : Int} : Score.fin a ≤ Score.fin b ↔ a ≤ b := by
  show Score.leb (Score.fin a) (Score.fin b) = true ↔ a ≤ b
  simp [Score.leb]

/-! ## The plain loops return the first best move -/

theorem DFSBot.dfs_maxLoop_spec (mg : MoveGenerator) (s : GameState) (child : GameState → Score)
    (ms : List MoveTuple) (B : Score) (bm : Move) :
    B ≤ (DFSBot.maxLoop mg s child ms B bm).1 ∧
    (∀ m ∈ ms, child (mg.play s m) ≤ (DFSBot.maxLoop mg s child ms B bm).1) ∧
    (DFSBot.maxLoop mg s child ms B bm = (B, bm) ∨
      ∃ m ∈ ms, DFSBot.maxLoop mg s child ms B bm = (child (mg.play s m), m.toMove) ∧
        B < child (mg.play s m)) := by
  induction ms generalizing B bm with
  | nil => simp [DFSBot.maxLoop]
  | cons m rest ih =>
    obtain ⟨h, c, t, u⟩ := m
    simp only [DFSBot.maxLoop]
    split_ifs with hlt
    · obtain ⟨h1, h2, h3⟩ := ih (child (mg.applyMove s h c t u)) (Move.make h c t u)
      refine ⟨le_trans (le_of_lt hlt) h1, ?_, ?_⟩
      · intro m hm
        rcases List.mem_cons.mp hm with rfl | hm
        · exact h1
        · exact h2 m hm
      · right
        rcases h3 with h3 | ⟨m, hm, h3, h4⟩
        · exact ⟨(h, c, t, u), List.mem_cons_self _ _, h3, hlt⟩
        · exact ⟨m, List.mem_cons_of_mem _ hm, h3, lt_trans hlt h4⟩
    · obtain ⟨h1, h2, h3⟩ := ih B bm
      refine ⟨h1, ?_, ?_⟩
      · intro m hm
        rcases List.mem_cons.mp hm with rfl | hm
        · exact le_trans (not_lt.mp hlt) h1
        · exact h2 m hm
      · rcases h3 with h3 | ⟨m, hm, h3, h4⟩
        · exact Or.inl h3
        · exact Or.inr ⟨m, List.mem_cons_of_mem _ hm, h3, h4⟩

theorem DFSBot.dfs_minLoop_spec (mg : MoveGenerator) (s : GameState) (child : GameState → Score)
    (ms : List MoveTuple) (B : Score) (bm : Move) :
    (DFSBot.minLoop mg s child ms B bm).1 ≤ B ∧
    (∀ m ∈ ms, (DFSBot.minLoop mg s child ms B bm).1 ≤ child (mg.play s m)) ∧
    (DFSBot.minLoop mg s child ms B bm = (B, bm) ∨
      ∃ m ∈ ms, DFSBot.minLoop mg s child ms B bm = (child (mg.play s m), m.toMove) ∧
        child (mg.play s m) < B) := by
  induction ms generalizing B bm with
  | nil => simp [DFSBot.minLoop]
  | cons m rest ih =>
    obtain ⟨h, c, t, u⟩ := m
    simp only [DFSBot.minLoop]
    split_ifs with hlt
    · obtain ⟨h1, h2, h3⟩ := ih (child (mg.applyMove s h c t u)) (Move.make h c t u)
      refine ⟨le_trans h1 (le_of_lt hlt), ?_, ?_⟩
      · intro m hm
        rcases List.mem_cons.mp hm with rfl | hm
        · exact h1
        · exact h2 m hm
      · right
        rcases h3 with h3 | ⟨m, hm, h3, h4⟩
        · exact ⟨(h, c, t, u), List.mem_cons_self _ _, h3, hlt⟩
        · exact ⟨m, List.mem_cons_of_mem _ hm, h3, lt_trans h4 hlt⟩
    · obtain ⟨h1, h2, h3⟩ := ih B bm
      refine ⟨h1, ?_, ?_⟩
      · intro m hm
        rcases List.mem_cons.mp hm with rfl | hm
        · exact le_trans h1 (not_lt.mp hlt)
        · exact h2 m hm
      · rcases h3 with h3 | ⟨m, hm, h3, h4⟩
        · exact Or.inl h3
        · exact Or.inr ⟨m, List.mem_cons_of_mem _ hm, h3, h4⟩

/-! ## Score recurrences of the loops -/

theorem DFSBot.dfs_maxLoop_fst (mg : MoveGenerator) (s : GameState) (child : GameState → Score)
    (ms : List MoveTuple) (B : Score) (bm bm2 : Move) :
    (DFSBot.maxLoop mg s child ms B bm).1 = (DFSBot.maxLoop mg s child ms B bm2).1 := by
  induction ms generalizing B bm bm2 with
  | nil => rfl
  | cons m rest ih =>
    obtain ⟨h, c, t, u⟩ := m
    simp only [DFSBot.maxLoop]
    split_ifs
    · rfl
    · exact ih B bm bm2

theorem DFSBot.dfs_maxLoop_fst_cons (mg : MoveGenerator) (s : GameState) (child : GameState → Score)
    (m : MoveTuple) (rest : List MoveTuple) (B : Score) (bm : Move) :
    (DFSBot.maxLoop mg s child (m :: rest) B bm).1 =
      (DFSBot.maxLoop mg s child rest (max B (child (mg.play s m))) bm).1 := by
  obtain ⟨h, c, t, u⟩ := m
  simp only [DFSBot.maxLoop, MoveGenerator.play]
  split_ifs with hlt
  · rw [max_eq_right (le_of_lt hlt)]
    exact DFSBot.dfs_maxLoop_fst mg s child rest _ _ _
  · rw [max_eq_left (not_lt.mp hlt)]

theorem DFSBot.dfs_minLoop_fst (mg : MoveGenerator) (s : GameState) (child : GameState → Score)
    (ms : List MoveTuple) (B : Score) (bm bm2 : Move) :
    (DFSBot.minLoop mg s child ms B bm).1 = (DFSBot.minLoop mg s child ms B bm2).1 := by
  induction ms generalizing B bm bm2 with
  | nil => rfl
  | cons m rest ih =>
    obtain ⟨h, c, t, u⟩ := m
    simp only [DFSBot.minLoop]
    split_ifs
    · rfl
    · exact ih B bm bm2

theorem DFSBot.dfs_minLoop_fst_cons (mg : MoveGenerator) (s : GameState) (child : GameState → Score)
    (m : MoveTuple) (rest : List MoveTuple) (B : Score) (bm : Move) :
    (DFSBot.minLoop mg s child (m :: rest) B bm).1 =
      (DFSBot.minLoop mg s child rest (min B (child (mg.play s m))) bm).1 := by
  obtain ⟨h, c, t, u⟩ := m
  simp only [DFSBot.minLoop, MoveGenerator.play]
  split_ifs with hlt
  · rw [min_eq_right (le_of_lt hlt)]
    exact DFSBot.dfs_minLoop_fst mg s child rest _ _ _
  · rw [min_eq_left (not_lt.mp hlt)]

theorem MinMaxBot.mm_maxLoop_fst (mg : MoveGenerator) (s : GameState)
    (child : GameState → Score → Score → Score) (beta : Score)
    (ms : List MoveTuple) (M : Score) (bm bm2 : Move) (a : Score) :
    (MinMaxBot.maxLoop mg s child beta ms M bm a).1 =
      (MinMaxBot.maxLoop mg s child beta ms M bm2 a).1 := by
  induction ms generalizing M bm bm2 a with
  | nil => rfl
  | cons m rest ih =>
    obtain ⟨h, c, t, u⟩ := m
    simp only [MinMaxBot.maxLoop]
    split_ifs <;> first | rfl | exact ih _ _ _ _

theorem MinMaxBot.mm_maxLoop_fst_cons (mg : MoveGenerator) (s : GameState)
    (child : GameState → Score → Score → Score) (beta : Score)
    (m : MoveTuple) (rest : List MoveTuple) (M : Score) (bm : Move) (a : Score) :
    (MinMaxBot.maxLoop mg s child beta (m :: rest) M bm a).1 =
      if beta ≤ max a (child (mg.play s m) a beta) then max M (child (mg.play s m) a beta)
      else (MinMaxBot.maxLoop mg s child beta rest (max M (child (mg.play s m) a beta)) bm
              (max a (child (mg.play s m) a beta))).1 := by
  obtain ⟨h, c, t, u⟩ := m
  simp only [MinMaxBot.maxLoop, MoveGenerator.play, Score.stdMax_eq_max]
  have hM : (if child (mg.applyMove s h c t u) a beta > M then child (mg.applyMove s h c t u) a beta
      else M) = max M (child (mg.applyMove s h c t u) a beta) := by
    split_ifs with hlt
    · exact (max_eq_right (le_of_lt hlt)).symm
    · exact (max_eq_left (not_lt.mp hlt)).symm
  rw [hM]
  split_ifs <;> first | rfl | exact MinMaxBot.mm_maxLoop_fst mg s child beta rest _ _ _ _

theorem MinMaxBot.mm_minLoop_fst (mg : MoveGenerator) (s : GameState)
    (child : GameState → Score → Score → Score) (alpha : Score)
    (ms : List MoveTuple) (M : Score) (bm bm2 : Move) (b : Score) :
    (MinMaxBot.minLoop mg s child alpha ms M bm b).1 =
      (MinMaxBot.minLoop mg s child alpha ms M bm2 b).1 := by
  induction ms generalizing M bm bm2 b with
  | nil => rfl
  | cons m rest ih =>
    obtain ⟨h, c, t, u⟩ := m
    simp only [MinMaxBot.minLoop]
    split_ifs <;> first | rfl | exact ih _ _ _ _

theorem MinMaxBot.mm_minLoop_fst_cons (mg : MoveGenerator) (s : GameState)
    (child : GameState → Score → Score → Score) (alpha : Score)
    (m : MoveTuple) (rest : List MoveTuple) (M : Score) (bm : Move) (b : Score) :
    (MinMaxBot.minLoop mg s child alpha (m :: rest) M bm b).1 =
      if min b (child (mg.play s m) alpha b) ≤ alpha then min M (child (mg.play s m) alpha b)
      else (MinMaxBot.minLoop mg s child alpha rest (min M (child (mg.play s m) alpha b)) bm
              (min b (child (mg.play s m) alpha b))).1 := by
  obtain ⟨h, c, t, u⟩ := m
  simp only [MinMaxBot.minLoop, MoveGenerator.play, Score.stdMin_eq_min]
  have hM : (if child (mg.applyMove s h c t u) alpha b < M then child (mg.applyMove s h c t u) alpha b
      else M) = min M (child (mg.applyMove s h c t u) alpha b) := by
    split_ifs with hlt
    · exact (min_eq_right (le_of_lt hlt)).symm
    · exact (min_eq_left (not_lt.mp hlt)).symm
  rw [hM]
  split_ifs <;> first | rfl | exact MinMaxBot.mm_minLoop_fst mg s child alpha rest _ _ _ _

/-! ## The fail-soft contract is kept by the pruned loops -/

theorem Sound.of_eq {v r : Score} (a b : Score) (h : r = v) : Sound v r a b := by
  subst h
  exact ⟨fun h => h, fun h => h, fun _ _ => rfl⟩

theorem MinMaxBot.mm_maxLoop_sound (mg : MoveGenerator) (s : GameState) (vc : GameState → Score)
    (child : GameState → Score → Score → Score) (α β : Score) (ms : List MoveTuple)
    (hchild : ∀ m ∈ ms, ∀ a b, a < b →
      Sound (vc (mg.play s m)) (child (mg.play s m) a b) a b)
    (M B a : Score) (bm bm2 : Move) (h1 : a = max α M) (h2 : a = max α B) (hab : a < β) :
    Sound (DFSBot.maxLoop mg s vc ms B bm2).1 (MinMaxBot.maxLoop mg s child β ms M bm a).1
      α β := by
  induction ms generalizing M B a bm bm2 with
  | nil =>
    show Sound B M α β
    refine ⟨?_, ?_, ?_⟩
    · intro hB
      have : a = α := by rw [h2]; exact max_eq_left hB
      rw [this] at h1
      calc M ≤ max α M := le_max_right _ _
        _ = α := h1.symm
    · intro hB
      exfalso
      have : B ≤ a := by rw [h2]; exact le_max_right _ _
      exact absurd (lt_of_le_of_lt (le_trans hB this) hab) (lt_irrefl _)
    · intro hB _
      have ha : a = B := by rw [h2]; exact max_eq_right (le_of_lt hB)
      rw [ha] at h1
      rcases le_total α M with hM | hM
      · rw [max_eq_right hM] at h1
        exact h1.symm
      · rw [max_eq_left hM] at h1
        exact absurd hB (by rw [h1]; exact lt_irrefl _)
  | cons m rest ih =>
    have hS := hchild m (List.mem_cons_self _ _) a β hab
    have hrest : ∀ m ∈ rest, ∀ a b, a < b →
        Sound (vc (mg.play s m)) (child (mg.play s m) a b) a b :=
      fun m hm => hchild m (List.mem_cons_of_mem _ hm)
    rw [DFSBot.dfs_maxLoop_fst_cons, MinMaxBot.mm_maxLoop_fst_cons]
    set vj := vc (mg.play s m) with hvj
    set rj := child (mg.play s m) a β with hrj
    obtain ⟨hS1, hS2, hS3⟩ := hS
    have hαa : α ≤ a := by rw [h1]; exact le_max_left _ _
    split_ifs with hcut
    · -- cutoff
      have hβr : β ≤ rj := by
        rcases le_max_iff.mp hcut with h | h
        · exact absurd (lt_of_le_of_lt h hab) (lt_irrefl _)
        · exact h
      have hβv : β ≤ vj := by
        by_contra hcon
        have hvβ : vj < β := not_le.mp hcon
        rcases le_or_lt vj a with hva | hva
        · exact absurd (lt_of_le_of_lt (le_trans hβr (hS1 hva)) hab) (lt_irrefl _)
        · have := hS3 hva hvβ
          rw [this] at hβr
          exact absurd (lt_of_le_of_lt hβr hvβ) (lt_irrefl _)
      have hv : β ≤ (DFSBot.maxLoop mg s vc rest (max B vj) bm2).1 :=
        le_trans (le_trans hβv (le_max_right B vj)) (DFSBot.dfs_maxLoop_spec mg s vc rest _ _).1
      have hαβ : α < β := lt_of_le_of_lt hαa hab
      refine ⟨?_, ?_, ?_⟩
      · intro h
        exact absurd (lt_of_lt_of_le hαβ (le_trans hv h)) (lt_irrefl _)
      · intro _
        exact le_trans hβr (le_max_right _ _)
      · intro _ h
        exact absurd (lt_of_le_of_lt hv h) (lt_irrefl _)
    · -- no cutoff
      have hcut2 : max a rj < β := not_le.mp hcut
      apply ih hrest (max M rj) (max B vj) (max a rj) bm bm2
      · rw [h1, max_assoc]
      · have : max a rj = max a vj := by
          rcases le_or_lt vj a with hva | hva
          · rw [max_eq_left hva, max_eq_left (hS1 hva)]
          · rcases lt_or_le vj β with hvβ | hvβ
            · rw [hS3 hva hvβ]
            · exact absurd (lt_of_le_of_lt (le_trans (hS2 hvβ) (le_max_right a rj)) hcut2)
                (lt_irrefl _)
        rw [this, h2, max_assoc]
      · exact hcut2

theorem MinMaxBot.mm_minLoop_sound (mg : MoveGenerator) (s : GameState) (vc : GameState → Score)
    (child : GameState → Score → Score → Score) (α β : Score) (ms : List MoveTuple)
    (hchild : ∀ m ∈ ms, ∀ a b, a < b →
      Sound (vc (mg.play s m)) (child (mg.play s m) a b) a b)
    (M B b : Score) (bm bm2 : Move) (h1 : b = min β M) (h2 : b = min β B) (hab : α < b) :
    Sound (DFSBot.minLoop mg s vc ms B bm2).1 (MinMaxBot.minLoop mg s child α ms M bm b).1
      α β := by
  induction ms generalizing M B b bm bm2 with
  | nil =>
    show Sound B M α β
    refine ⟨?_, ?_, ?_⟩
    · intro hB
      exfalso
      have : b ≤ B := by rw [h2]; exact min_le_right _ _
      exact absurd (lt_of_lt_of_le hab (le_trans this hB)) (lt_irrefl _)
    · intro hB
      have : b = β := by rw [h2]; exact min_eq_left hB
      rw [this] at h1
      calc β = min β M := h1
        _ ≤ M := min_le_right _ _
    · intro _ hB
      have hb : b = B := by rw [h2]; exact min_eq_right (le_of_lt hB)
      rw [hb] at h1
      rcases le_total β M with hM | hM
      · rw [min_eq_left hM] at h1
        exact absurd hB (by rw [h1]; exact lt_irrefl _)
      · rw [min_eq_right hM] at h1
        exact h1.symm
  | cons m rest ih =>
    have hS := hchild m (List.mem_cons_self _ _) α b hab
    have hrest : ∀ m ∈ rest, ∀ a b, a < b →
        Sound (vc (mg.play s m)) (child (mg.play s m) a b) a b :=
      fun m hm => hchild m (List.mem_cons_of_mem _ hm)
    rw [DFSBot.dfs_minLoop_fst_cons, MinMaxBot.mm_minLoop_fst_cons]
    set vj := vc (mg.play s m) with hvj
    set rj := child (mg.play s m) α b with hrj
    obtain ⟨hS1, hS2, hS3⟩ := hS
    have hbβ : b ≤ β := by rw [h1]; exact min_le_left _ _
    split_ifs with hcut
    · -- cutoff
      have hrα : rj ≤ α := by
        rcases min_le_iff.mp hcut with h | h
        · exact absurd (lt_of_lt_of_le hab h) (lt_irrefl _)
        · exact h
      have hvα : vj ≤ α := by
        by_contra hcon
        have hαv : α < vj := not_le.mp hcon
        rcases lt_or_le vj b with hvb | hvb
        · have := hS3 hαv hvb
          rw [this] at hrα
          exact absurd (lt_of_lt_of_le hαv hrα) (lt_irrefl _)
        · exact absurd (lt_of_lt_of_le hab (le_trans (hS2 hvb) hrα)) (lt_irrefl _)
      have hv : (DFSBot.minLoop mg s vc rest (min B vj) bm2).1 ≤ α :=
        le_trans (DFSBot.dfs_minLoop_spec mg s vc rest _ _).1 (le_trans (min_le_right B vj) hvα)
      have hαβ : α < β := lt_of_lt_of_le hab hbβ
      refine ⟨?_, ?_, ?_⟩
      · intro _
        exact le_trans (min_le_right _ _) hrα
      · intro h
        exact absurd (lt_of_lt_of_le hαβ (le_trans h hv)) (lt_irrefl _)
      · intro h _
        exact absurd (lt_of_lt_of_le h hv) (lt_irrefl _)
    · -- no cutoff
      have hcut2 : α < min b rj := not_le.mp hcut
      apply ih hrest (min M rj) (min B vj) (min b rj) bm bm2
      · rw [h1, min_assoc]
      · have : min b rj = min b vj := by
          rcases le_or_lt b vj with hbv | hbv
          · rw [min_eq_left hbv, min_eq_left (hS2 hbv)]
          · rcases lt_or_le α vj with hαv | hαv
            · rw [hS3 hαv hbv]
            · exact absurd (lt_of_lt_of_le hcut2 (le_trans (min_le_right b rj) (hS1 hαv)))
                (lt_irrefl _)
        rw [this, h2, min_assoc]
      · exact hcut2

/-! ## DFSBot scores finished games like `getTerminalScore` -/

theorem DFSBot.dfs_searchFrom_terminal (mg : MoveGenerator) (player : Int) (n : Nat)
    (s : GameState) (h : s.isGameOver = true) :
    DFSBot.searchFrom mg player n s = (getTerminalScore s player, Move.none) := by
  cases n <;>
  · simp only [DFSBot.searchFrom, isTerminal, h, if_true, getTerminalScore]
    split_ifs <;> rfl

theorem DFSBot.dfs_searchFrom_zero (mg : MoveGenerator) (player : Int)
    (s : GameState) (h : s.isGameOver = false) :
    DFSBot.searchFrom mg player 0 s = (evaluate s player, Move.none) := by
  simp [DFSBot.searchFrom, isTerminal, h]

theorem DFSBot.dfs_searchFrom_succ_max (mg : MoveGenerator) (player : Int) (n : Nat)
    (s : GameState) (h : s.isGameOver = false) (hcp : s.current_player = player) :
    DFSBot.searchFrom mg player (n + 1) s =
      DFSBot.maxLoop mg s (fun t => (DFSBot.searchFrom mg player n t).1)
        (mg.getAllMoves s player) Score.negInf Move.none := by
  simp [DFSBot.searchFrom, isTerminal, h, hcp]

theorem DFSBot.dfs_searchFrom_succ_min (mg : MoveGenerator) (player : Int) (n : Nat)
    (s : GameState) (h : s.isGameOver = false) (hcp : s.current_player ≠ player) :
    DFSBot.searchFrom mg player (n + 1) s =
      DFSBot.minLoop mg s (fun t => (DFSBot.searchFrom mg player n t).1)
        (mg.getAllMoves s (3 - player)) Score.posInf Move.none := by
  simp [DFSBot.searchFrom, isTerminal, h, hcp]

theorem MinMaxBot.mm_searchFrom_terminal (mg : MoveGenerator) (player : Int) (n : Nat)
    (s : GameState) (α β : Score) (h : s.isGameOver = true) :
    MinMaxBot.searchFrom mg player n s α β = (getTerminalScore s player, Move.none) := by
  cases n <;> simp [MinMaxBot.searchFrom, isTerminal, h]

theorem MinMaxBot.mm_searchFrom_zero (mg : MoveGenerator) (player : Int)
    (s : GameState) (α β : Score) (h : s.isGameOver = false) :
    MinMaxBot.searchFrom mg player 0 s α β = (evaluate s player, Move.none) := by
  simp [MinMaxBot.searchFrom, isTerminal, h]

theorem MinMaxBot.mm_searchFrom_succ_max (mg : MoveGenerator) (player : Int) (n : Nat)
    (s : GameState) (α β : Score) (h : s.isGameOver = false) (hcp : s.current_player = player) :
    MinMaxBot.searchFrom mg player (n + 1) s α β =
      MinMaxBot.maxLoop mg s (fun t a b => (MinMaxBot.searchFrom mg player n t a b).1) β
        (mg.getAllMoves s player) Score.negInf Move.none α := by
  simp [MinMaxBot.searchFrom, isTerminal, h, hcp]

theorem MinMaxBot.mm_searchFrom_succ_min (mg : MoveGenerator) (player : Int) (n : Nat)
    (s : GameState) (α β : Score) (h : s.isGameOver = false) (hcp : s.current_player ≠ player) :
    MinMaxBot.searchFrom mg player (n + 1) s α β =
      MinMaxBot.minLoop mg s (fun t a b => (MinMaxBot.searchFrom mg player n t a b).1) α
        (mg.getAllMoves s (3 - player)) Score.posInf Move.none β := by
  simp [MinMaxBot.searchFrom, isTerminal, h, hcp]

/-! ## The pruned value of every node honours the fail-soft contract -/

theorem MinMaxBot.mm_searchFrom_sound (mg : MoveGenerator) (player : Int) (n : Nat) :
    ∀ (s : GameState) (α β : Score), α < β →
      Sound (DFSBot.searchFrom mg player n s).1 (MinMaxBot.searchFrom mg player n s α β).1
        α β := by
  induction n with
  | zero =>
    intro s α β _
    cases hT : s.isGameOver
    · rw [DFSBot.dfs_searchFrom_zero mg player s hT, MinMaxBot.mm_searchFrom_zero mg player s α β hT]
      exact Sound.of_eq α β rfl
    · rw [DFSBot.dfs_searchFrom_terminal mg player 0 s hT,
        MinMaxBot.mm_searchFrom_terminal mg player 0 s α β hT]
      exact Sound.of_eq α β rfl
  | succ n ih =>
    intro s α β hαβ
    cases hT : s.isGameOver
    · by_cases hcp : s.current_player = player
      · rw [DFSBot.dfs_searchFrom_succ_max mg player n s hT hcp,
          MinMaxBot.mm_searchFrom_succ_max mg player n s α β hT hcp]
        exact MinMaxBot.mm_maxLoop_sound mg s _ _ α β _ (fun m _ a b hab => ih (mg.play s m) a b hab)
          Score.negInf Score.negInf α Move.none Move.none
          (max_eq_left (Score.negInf_le α)).symm (max_eq_left (Score.negInf_le α)).symm hαβ
      · rw [DFSBot.dfs_searchFrom_succ_min mg player n s hT hcp,
          MinMaxBot.mm_searchFrom_succ_min mg player n s α β hT hcp]
        exact MinMaxBot.mm_minLoop_sound mg s _ _ α β _ (fun m _ a b hab => ih (mg.play s m) a b hab)
          Score.posInf Score.posInf β Move.none Move.none
          (min_eq_left (Score.le_posInf β)).symm (min_eq_left (Score.le_posInf β)).symm hαβ
    · rw [DFSBot.dfs_searchFrom_terminal mg player (n + 1) s hT,
        MinMaxBot.mm_searchFrom_terminal mg player (n + 1) s α β hT]
      exact Sound.of_eq α β rfl

/-! ## With the full window the root loop of the pruned search is the plain loop -/

theorem DFSBot.dfs_maxLoop_posInf (mg : MoveGenerator) (s : GameState) (child : GameState → Score)
    (ms : List MoveTuple) (bm : Move) :
    DFSBot.maxLoop mg s child ms Score.posInf bm = (Score.posInf, bm) := by
  rcases (DFSBot.dfs_maxLoop_spec mg s child ms Score.posInf bm).2.2 with h | ⟨m, _, _, h⟩
  · exact h
  · exact absurd (lt_of_lt_of_le h (Score.le_posInf _)) (lt_irrefl _)

theorem DFSBot.dfs_minLoop_negInf (mg : MoveGenerator) (s : GameState) (child : GameState → Score)
    (ms : List MoveTuple) (bm : Move) :
    DFSBot.minLoop mg s child ms Score.negInf bm = (Score.negInf, bm) := by
  rcases (DFSBot.dfs_minLoop_spec mg s child ms Score.negInf bm).2.2 with h | ⟨m, _, _, h⟩
  · exact h
  · exact absurd (lt_of_le_of_lt (Score.negInf_le _) h) (lt_irrefl _)

theorem MinMaxBot.mm_maxLoop_root (mg : MoveGenerator) (s : GameState) (vc : GameState → Score)
    (child : GameState → Score → Score → Score) (ms : List MoveTuple)
    (hchild : ∀ m ∈ ms, ∀ a b, a < b →
      Sound (vc (mg.play s m)) (child (mg.play s m) a b) a b)
    (M : Score) (bm : Move) (hM : M < Score.posInf) :
    MinMaxBot.maxLoop mg s child Score.posInf ms M bm M = DFSBot.maxLoop mg s vc ms M bm := by
  induction ms generalizing M bm with
  | nil => rfl
  | cons m rest ih =>
    obtain ⟨hS1, hS2, hS3⟩ := hchild m (List.mem_cons_self _ _) M Score.posInf hM
    have hrest : ∀ m ∈ rest, ∀ a b, a < b →
        Sound (vc (mg.play s m)) (child (mg.play s m) a b) a b :=
      fun m hm => hchild m (List.mem_cons_of_mem _ hm)
    obtain ⟨h, c, t, u⟩ := m
    simp only [MoveGenerator.play] at hS1 hS2 hS3
    simp only [MinMaxBot.maxLoop, DFSBot.maxLoop, Score.stdMax_eq_max]
    rcases le_or_lt (vc (mg.applyMove s h c t u)) M with hv | hv
    · have hr := hS1 hv
      rw [if_neg (not_lt.mpr hr), if_neg (not_lt.mpr hr), if_neg (not_lt.mpr hv),
        max_eq_left hr, if_neg (not_le.mpr hM)]
      exact ih hrest M bm hM
    · have hr : child (mg.applyMove s h c t u) M Score.posInf = vc (mg.applyMove s h c t u) := by
        rcases lt_or_le (vc (mg.applyMove s h c t u)) Score.posInf with hlt | hge
        · exact hS3 hv hlt
        · rw [Score.posInf_le_iff.mp (hS2 hge), Score.posInf_le_iff.mp hge]
      rw [hr, if_pos hv, if_pos hv, if_pos hv, max_eq_right (le_of_lt hv)]
      split_ifs with hcut
      · rw [Score.posInf_le_iff.mp hcut, DFSBot.dfs_maxLoop_posInf]
      · exact ih hrest _ _ (not_le.mp hcut)

theorem MinMaxBot.mm_minLoop_root (mg : MoveGenerator) (s : GameState) (vc : GameState → Score)
    (child : GameState → Score → Score → Score) (ms : List MoveTuple)
    (hchild : ∀ m ∈ ms, ∀ a b, a < b →
      Sound (vc (mg.play s m)) (child (mg.play s m) a b) a b)
    (M : Score) (bm : Move) (hM : Score.negInf < M) :
    MinMaxBot.minLoop mg s child Score.negInf ms M bm M = DFSBot.minLoop mg s vc ms M bm := by
  induction ms generalizing M bm with
  | nil => rfl
  | cons m rest ih =>
    obtain ⟨hS1, hS2, hS3⟩ := hchild m (List.mem_cons_self _ _) Score.negInf M hM
    have hrest : ∀ m ∈ rest, ∀ a b, a < b →
        Sound (vc (mg.play s m)) (child (mg.play s m) a b) a b :=
      fun m hm => hchild m (List.mem_cons_of_mem _ hm)
    obtain ⟨h, c, t, u⟩ := m
    simp only [MoveGenerator.play] at hS1 hS2 hS3
    simp only [MinMaxBot.minLoop, DFSBot.minLoop, Score.stdMin_eq_min]
    rcases le_or_lt M (vc (mg.applyMove s h c t u)) with hv | hv
    · have hr := hS2 hv
      rw [if_neg (not_lt.mpr hr), if_neg (not_lt.mpr hr), if_neg (not_lt.mpr hv),
        min_eq_left hr, if_neg (not_le.mpr hM)]
      exact ih hrest M bm hM
    · have hr : child (mg.applyMove s h c t u) Score.negInf M = vc (mg.applyMove s h c t u) := by
        rcases lt_or_le Score.negInf (vc (mg.applyMove s h c t u)) with hlt | hge
        · exact hS3 hlt hv
        · rw [Score.le_negInf_iff.mp (hS1 hge), Score.le_negInf_iff.mp hge]
      rw [hr, if_pos hv, if_pos hv, if_pos hv, min_eq_right (le_of_lt hv)]
      split_ifs with hcut
      · rw [Score.le_negInf_iff.mp hcut, DFSBot.dfs_minLoop_negInf]
      · exact ih hrest _ _ (not_le.mp hcut)

/-- With the default window `MinMaxBot::search` returns the score and move of
`DFSBot::search`. -/
theorem MinMaxBot.mm_searchFrom_root (mg : MoveGenerator) (player : Int) (n : Nat)
    (s : GameState) :
    MinMaxBot.searchFrom mg player n s Score.negInf Score.posInf =
      DFSBot.searchFrom mg player n s := by
  cases hT : s.isGameOver
  · cases n with
    | zero =>
      rw [DFSBot.dfs_searchFrom_zero mg player s hT, MinMaxBot.mm_searchFrom_zero mg player s _ _ hT]
    | succ n =>
      by_cases hcp : s.current_player = player
      · rw [DFSBot.dfs_searchFrom_succ_max mg player n s hT hcp,
          MinMaxBot.mm_searchFrom_succ_max mg player n s _ _ hT hcp]
        exact MinMaxBot.mm_maxLoop_root mg s _ _ _
          (fun m _ a b hab => MinMaxBot.mm_searchFrom_sound mg player n (mg.play s m) a b hab)
          Score.negInf Move.none Score.negInf_lt_posInf
      · rw [DFSBot.dfs_searchFrom_succ_min mg player n s hT hcp,
          MinMaxBot.mm_searchFrom_succ_min mg player n s _ _ hT hcp]
        exact MinMaxBot.mm_minLoop_root mg s _ _ _
          (fun m _ a b hab => MinMaxBot.mm_searchFrom_sound mg player n (mg.play s m) a b hab)
          Score.posInf Move.none Score.negInf_lt_posInf
  · rw [DFSBot.dfs_searchFrom_terminal mg player n s hT,
      MinMaxBot.mm_searchFrom_terminal mg player n s _ _ hT]

/-! ## Reachability -/

theorem Reachable.trans_play (mg : MoveGenerator) (s : GameState) (m : MoveTuple)
    (hT : s.isGameOver = false) (hm : m ∈ mg.getAllMoves s s.current_player)
    (t : GameState) (h : Reachable mg (mg.play s m) t) : Reachable mg s t := by
  induction h with
  | root => exact Reachable.step m Reachable.root hT hm
  | step m2 _ hT2 hm2 ih => exact Reachable.step m2 ih hT2 hm2

/-! ## AlphaBetaBot against MinMaxBot -/

theorem AlphaBetaBot.ab_maxLoop_eq (mg : MoveGenerator) (s : GameState) (player : Int)
    (childAB : GameState → Score → Score → Bool → Score)
    (child : GameState → Score → Score → Score) (beta : Score) (ms : List MoveTuple)
    (hchild : ∀ m ∈ ms, ∀ a b,
      childAB (mg.play s m) a b (decide ((mg.play s m).current_player = player)) =
        child (mg.play s m) a b)
    (M : Score) (bm : Move) (a : Score) :
    AlphaBetaBot.maxLoop mg s player childAB beta ms M bm a =
      MinMaxBot.maxLoop mg s child beta ms M bm a := by
  induction ms generalizing M bm a with
  | nil => rfl
  | cons m rest ih =>
    have h1 := hchild m (List.mem_cons_self _ _)
    have hrest : ∀ m ∈ rest, ∀ a b,
        childAB (mg.play s m) a b (decide ((mg.play s m).current_player = player)) =
          child (mg.play s m) a b :=
      fun m hm => hchild m (List.mem_cons_of_mem _ hm)
    obtain ⟨h, c, t, u⟩ := m
    simp only [MoveGenerator.play] at h1
    simp only [AlphaBetaBot.maxLoop, MinMaxBot.maxLoop, h1]
    split_ifs <;> first | rfl | exact ih hrest _ _ _

theorem AlphaBetaBot.ab_minLoop_eq (mg : MoveGenerator) (s : GameState) (player : Int)
    (childAB : GameState → Score → Score → Bool → Score)
    (child : GameState → Score → Score → Score) (alpha : Score) (ms : List MoveTuple)
    (hchild : ∀ m ∈ ms, ∀ a b,
      childAB (mg.play s m) a b (decide ((mg.play s m).current_player = player)) =
        child (mg.play s m) a b)
    (M : Score) (bm : Move) (b : Score) :
    AlphaBetaBot.minLoop mg s player childAB alpha ms M bm b =
      MinMaxBot.minLoop mg s child alpha ms M bm b := by
  induction ms generalizing M bm b with
  | nil => rfl
  | cons m rest ih =>
    have h1 := hchild m (List.mem_cons_self _ _)
    have hrest : ∀ m ∈ rest, ∀ a b,
        childAB (mg.play s m) a b (decide ((mg.play s m).current_player = player)) =
          child (mg.play s m) a b :=
      fun m hm => hchild m (List.mem_cons_of_mem _ hm)
    obtain ⟨h, c, t, u⟩ := m
    simp only [MoveGenerator.play] at h1
    simp only [AlphaBetaBot.minLoop, MinMaxBot.minLoop, h1]
    split_ifs <;> first | rfl | exact ih hrest _ _ _

theorem AlphaBetaBot.ab_searchFrom_terminal (mg : MoveGenerator) (player : Int) (n : Nat)
    (s : GameState) (α β : Score) (f : Bool) (h : s.isGameOver = true) :
    AlphaBetaBot.searchFrom mg player n s α β f = (getTerminalScore s player, Move.none) := by
  cases n <;> simp [AlphaBetaBot.searchFrom, isTerminal, h]

theorem AlphaBetaBot.ab_searchFrom_zero (mg : MoveGenerator) (player : Int)
    (s : GameState) (α β : Score) (f : Bool) (h : s.isGameOver = false) :
    AlphaBetaBot.searchFrom mg player 0 s α β f = (evaluate s player, Move.none) := by
  simp [AlphaBetaBot.searchFrom, isTerminal, h]

theorem AlphaBetaBot.ab_searchFrom_succ_max (mg : MoveGenerator) (player : Int) (n : Nat)
    (s : GameState) (α β : Score) (h : s.isGameOver = false) :
    AlphaBetaBot.searchFrom mg player (n + 1) s α β true =
      AlphaBetaBot.maxLoop mg s player
        (fun t a b f => (AlphaBetaBot.searchFrom mg player n t a b f).1) β
        (mg.getAllMoves s s.current_player) Score.negInf Move.none α := by
  simp [AlphaBetaBot.searchFrom, isTerminal, h]

theorem AlphaBetaBot.ab_searchFrom_succ_min (mg : MoveGenerator) (player : Int) (n : Nat)
    (s : GameState) (α β : Score) (h : s.isGameOver = false) :
    AlphaBetaBot.searchFrom mg player (n + 1) s α β false =
      AlphaBetaBot.minLoop mg s player
        (fun t a b f => (AlphaBetaBot.searchFrom mg player n t a b f).1) α
        (mg.getAllMoves s s.current_player) Score.posInf Move.none β := by
  simp [AlphaBetaBot.searchFrom, isTerminal, h]

/-- When every reachable position has mover 1 or 2, `AlphaBetaBot::search` called with the
flag `is_maximizing = (state.current_player == player)` is `MinMaxBot::search`. -/
theorem AlphaBetaBot.ab_searchFrom_eq_minmax (mg : MoveGenerator) (player : Int)
    (hp : player = 1 ∨ player = 2) (n : Nat) :
    ∀ (s : GameState) (α β : Score),
      (∀ t, Reachable mg s t → t.current_player = 1 ∨ t.current_player = 2) →
      AlphaBetaBot.searchFrom mg player n s α β (decide (s.current_player = player)) =
        MinMaxBot.searchFrom mg player n s α β := by
  induction n with
  | zero =>
    intro s α β _
    cases hT : s.isGameOver
    · rw [AlphaBetaBot.ab_searchFrom_zero mg player s α β _ hT,
        MinMaxBot.mm_searchFrom_zero mg player s α β hT]
    · rw [AlphaBetaBot.ab_searchFrom_terminal mg player 0 s α β _ hT,
        MinMaxBot.mm_searchFrom_terminal mg player 0 s α β hT]
  | succ n ih =>
    intro s α β hgood
    cases hT : s.isGameOver
    · have hchild : ∀ m ∈ mg.getAllMoves s s.current_player, ∀ a b,
          (AlphaBetaBot.searchFrom mg player n (mg.play s m) a b
            (decide ((mg.play s m).current_player = player))).1 =
          (MinMaxBot.searchFrom mg player n (mg.play s m) a b).1 := by
        intro m hm a b
        rw [ih (mg.play s m) a b
          (fun t ht => hgood t (Reachable.trans_play mg s m hT hm t ht))]
      by_cases hcp : s.current_player = player
      · rw [decide_eq_true hcp, AlphaBetaBot.ab_searchFrom_succ_max mg player n s α β hT,
          MinMaxBot.mm_searchFrom_succ_max mg player n s α β hT hcp]
        rw [hcp] at hchild ⊢
        exact AlphaBetaBot.ab_maxLoop_eq mg s player _ _ β _ hchild _ _ _
      · have hopp : s.current_player = 3 - player := by
          rcases hgood s Reachable.root with h1 | h1 <;> rcases hp with h2 | h2 <;> omega
        rw [decide_eq_false hcp, AlphaBetaBot.ab_searchFrom_succ_min mg player n s α β hT,
          MinMaxBot.mm_searchFrom_succ_min mg player n s α β hT hcp]
        rw [hopp] at hchild ⊢
        exact AlphaBetaBot.ab_minLoop_eq mg s player _ _ α _ hchild _ _ _
    · rw [AlphaBetaBot.ab_searchFrom_terminal mg player (n + 1) s α β _ hT,
        MinMaxBot.mm_searchFrom_terminal mg player (n + 1) s α β hT]

/-! ## dfsLimited against DFSBot -/

theorem IterativeDeepeningDFSBot.id_maxLoop_eq (mg : MoveGenerator) (s : GameState)
    (child child2 : GameState → Score) (ms : List MoveTuple)
    (hchild : ∀ m ∈ ms, child (mg.play s m) = child2 (mg.play s m)) (B : Score) (bm : Move) :
    IterativeDeepeningDFSBot.maxLoop mg s child ms B bm = DFSBot.maxLoop mg s child2 ms B bm := by
  induction ms generalizing B bm with
  | nil => rfl
  | cons m rest ih =>
    have h1 := hchild m (List.mem_cons_self _ _)
    have hrest : ∀ m ∈ rest, child (mg.play s m) = child2 (mg.play s m) :=
      fun m hm => hchild m (List.mem_cons_of_mem _ hm)
    obtain ⟨h, c, t, u⟩ := m
    simp only [MoveGenerator.play] at h1
    simp only [IterativeDeepeningDFSBot.maxLoop, DFSBot.maxLoop, h1]
    split_ifs <;> exact ih hrest _ _

theorem IterativeDeepeningDFSBot.id_minLoop_eq (mg : MoveGenerator) (s : GameState)
    (child child2 : GameState → Score) (ms : List MoveTuple)
    (hchild : ∀ m ∈ ms, child (mg.play s m) = child2 (mg.play s m)) (B : Score) (bm : Move) :
    IterativeDeepeningDFSBot.minLoop mg s child ms B bm = DFSBot.minLoop mg s child2 ms B bm := by
  induction ms generalizing B bm with
  | nil => rfl
  | cons m rest ih =>
    have h1 := hchild m (List.mem_cons_self _ _)
    have hrest : ∀ m ∈ rest, child (mg.play s m) = child2 (mg.play s m) :=
      fun m hm => hchild m (List.mem_cons_of_mem _ hm)
    obtain ⟨h, c, t, u⟩ := m
    simp only [MoveGenerator.play] at h1
    simp only [IterativeDeepeningDFSBot.minLoop, DFSBot.minLoop, h1]
    split_ifs <;> exact ih hrest _ _

/-- The depth-limited search of the iterative-deepening bot is the search of `DFSBot`. -/
theorem IterativeDeepeningDFSBot.id_dfsLimitedFrom_eq (mg : MoveGenerator) (player : Int)
    (n : Nat) : ∀ s : GameState,
    IterativeDeepeningDFSBot.dfsLimitedFrom mg player n s = DFSBot.searchFrom mg player n s := by
  induction n with
  | zero =>
    intro s
    cases hT : s.isGameOver
    · rw [DFSBot.dfs_searchFrom_zero mg player s hT]
      simp [IterativeDeepeningDFSBot.dfsLimitedFrom, isTerminal, hT]
    · rw [DFSBot.dfs_searchFrom_terminal mg player 0 s hT]
      simp [IterativeDeepeningDFSBot.dfsLimitedFrom, isTerminal, hT]
  | succ n ih =>
    intro s
    cases hT : s.isGameOver
    · by_cases hcp : s.current_player = player
      · rw [DFSBot.dfs_searchFrom_succ_max mg player n s hT hcp]
        simp only [IterativeDeepeningDFSBot.dfsLimitedFrom, isTerminal, hT, hcp, if_true]
        exact IterativeDeepeningDFSBot.id_maxLoop_eq mg s _ _ _
          (fun m _ => by simp only [ih]) _ _
      · rw [DFSBot.dfs_searchFrom_succ_min mg player n s hT hcp]
        simp only [IterativeDeepeningDFSBot.dfsLimitedFrom, isTerminal, hT, hcp, if_false]
        exact IterativeDeepeningDFSBot.id_minLoop_eq mg s _ _ _
          (fun m _ => by simp only [ih]) _ _
    · rw [DFSBot.dfs_searchFrom_terminal mg player (n + 1) s hT]
      simp [IterativeDeepeningDFSBot.dfsLimitedFrom, isTerminal, hT]

/-! ## Iterative deepening: the loop over depth limits -/

theorem IterativeDeepeningDFSBot.id_dfsLimited_eq (mg : MoveGenerator) (s : GameState)
    (player : Int) (d : Int) :
    IterativeDeepeningDFSBot.dfsLimited mg s player d 0 = DFSBot.search d mg s player 0 := by
  unfold IterativeDeepeningDFSBot.dfsLimited DFSBot.search
  exact IterativeDeepeningDFSBot.id_dfsLimitedFrom_eq mg player _ s

theorem IterativeDeepeningDFSBot.id_searchLoop_succ (mg : MoveGenerator) (s : GameState)
    (player : Int) (k : Nat) (d : Int) (best : Move) :
    IterativeDeepeningDFSBot.searchLoop mg s player (k + 1) d best =
      IterativeDeepeningDFSBot.searchLoop mg s player k (d + 1)
        (if (IterativeDeepeningDFSBot.dfsLimited mg s player d 0).2.valid = true then
          (IterativeDeepeningDFSBot.dfsLimited mg s player d 0).2
        else best) := by
  rw [IterativeDeepeningDFSBot.searchLoop]
  split_ifs <;> rfl

theorem IterativeDeepeningDFSBot.id_searchLoop_last (mg : MoveGenerator) (s : GameState)
    (player : Int) (k : Nat) :
    ∀ (d : Int) (best : Move),
      IterativeDeepeningDFSBot.searchLoop mg s player (k + 1) d best =
        if (IterativeDeepeningDFSBot.dfsLimited mg s player (d + k) 0).2.valid = true then
          (IterativeDeepeningDFSBot.dfsLimited mg s player (d + k) 0).2
        else IterativeDeepeningDFSBot.searchLoop mg s player k d best := by
  induction k with
  | zero =>
    intro d best
    rw [IterativeDeepeningDFSBot.id_searchLoop_succ]
    simp only [IterativeDeepeningDFSBot.searchLoop, Nat.cast_zero, add_zero]
  | succ k ih =>
    intro d best
    have hd : d + 1 + (k : Int) = d + ((k + 1 : Nat) : Int) := by push_cast; ring
    rw [IterativeDeepeningDFSBot.id_searchLoop_succ, ih (d + 1) _, hd]
    by_cases h2 : (IterativeDeepeningDFSBot.dfsLimited mg s player
        (d + ((k + 1 : Nat) : Int)) 0).2.valid = true
    · rw [if_pos h2, if_pos h2]
    · rw [if_neg h2, if_neg h2, IterativeDeepeningDFSBot.id_searchLoop_succ mg s player k d best]

theorem IterativeDeepeningDFSBot.id_searchLoop_none (mg : MoveGenerator) (s : GameState)
    (player : Int)
    (h : ∀ d : Int, (IterativeDeepeningDFSBot.dfsLimited mg s player d 0).2.valid = false)
    (k : Nat) : ∀ (d : Int) (best : Move),
      IterativeDeepeningDFSBot.searchLoop mg s player k d best = best := by
  induction k with
  | zero => intro d best; rfl
  | succ k ih =>
    intro d best
    rw [IterativeDeepeningDFSBot.id_searchLoop_succ, ih (d + 1) _, h d]
    rfl

/-! ## Positions reached with the engine `captureEngine` -/

theorem captureEngine_movers (s : GameState)
    (h : s.current_player = 1 ∨ s.current_player = 2) (t : GameState)
    (ht : Reachable captureEngine s t) : t.current_player = 1 ∨ t.current_player = 2 := by
  induction ht with
  | root => exact h
  | step m _ _ _ _ =>
    show (if _ = 1 then (2 : Int) else 1) = 1 ∨ (if _ = 1 then (2 : Int) else 1) = 2
    split_ifs
    · exact Or.inr rfl
    · exact Or.inl rfl

/-! ## Root-level consequences -/

theorem AlphaBetaBot.ab_searchFrom_root_eq (mg : MoveGenerator) (player : Int)
    (hplayer : player = 1 ∨ player = 2) (n : Nat) (s : GameState)
    (hturn : s.current_player = player)
    (hmovers : ∀ t, Reachable mg s t → t.current_player = 1 ∨ t.current_player = 2) :
    AlphaBetaBot.searchFrom mg player n s Score.negInf Score.posInf true =
      DFSBot.searchFrom mg player n s := by
  have h := AlphaBetaBot.ab_searchFrom_eq_minmax mg player hplayer n s
    Score.negInf Score.posInf hmovers
  rw [decide_eq_true hturn] at h
  rw [h, MinMaxBot.mm_searchFrom_root]

theorem IterativeDeepeningDFSBot.id_search_of_valid (D : Int) (hD : 1 ≤ D) (mg : MoveGenerator)
    (s : GameState) (player : Int)
    (hvalid : (IterativeDeepeningDFSBot.dfsLimited mg s player D 0).2.valid = true) :
    IterativeDeepeningDFSBot.search D mg s player =
      (IterativeDeepeningDFSBot.dfsLimited mg s player D 0).2 := by
  unfold IterativeDeepeningDFSBot.search
  obtain ⟨k, hk⟩ : ∃ k : Nat, D.toNat = k + 1 := ⟨D.toNat - 1, by omega⟩
  have hDk : (1 : Int) + (k : Int) = D := by omega
  rw [hk, IterativeDeepeningDFSBot.id_searchLoop_last, hDk, if_pos hvalid]

/-! ## Nodes without a legal move, and depth-one searches -/

theorem DFSBot.dfs_search_leaf (mg : MoveGenerator) (player : Int) (t : GameState) :
    (DFSBot.search 1 mg t player 1).1 =
      if t.isGameOver = true then getTerminalScore t player else evaluate t player := by
  have h0 : ((1 : Int) - 1).toNat = 0 := rfl
  unfold DFSBot.search
  rw [h0]
  cases hT : t.isGameOver
  · rw [DFSBot.dfs_searchFrom_zero mg player t hT]
    simp
  · rw [DFSBot.dfs_searchFrom_terminal mg player 0 t hT]
    simp

theorem AlphaBetaBot.ab_searchFrom_zero_eq (mg : MoveGenerator) (player : Int) (s : GameState)
    (α β : Score) (f : Bool) :
    AlphaBetaBot.searchFrom mg player 0 s α β f = MinMaxBot.searchFrom mg player 0 s α β := by
  cases hT : s.isGameOver
  · rw [AlphaBetaBot.ab_searchFrom_zero mg player s α β f hT,
      MinMaxBot.mm_searchFrom_zero mg player s α β hT]
  · rw [AlphaBetaBot.ab_searchFrom_terminal mg player 0 s α β f hT,
      MinMaxBot.mm_searchFrom_terminal mg player 0 s α β hT]

theorem AlphaBetaBot.ab_searchFrom_one_eq (mg : MoveGenerator) (player : Int) (s : GameState)
    (hturn : s.current_player = player) :
    AlphaBetaBot.searchFrom mg player 1 s Score.negInf Score.posInf true =
      DFSBot.searchFrom mg player 1 s := by
  rw [← MinMaxBot.mm_searchFrom_root]
  cases hT : s.isGameOver
  · rw [AlphaBetaBot.ab_searchFrom_succ_max mg player 0 s _ _ hT,
      MinMaxBot.mm_searchFrom_succ_max mg player 0 s _ _ hT hturn, hturn]
    exact AlphaBetaBot.ab_maxLoop_eq mg s player _ _ _ _
      (fun m _ a b => by simp only [AlphaBetaBot.ab_searchFrom_zero_eq]) _ _ _
  · rw [AlphaBetaBot.ab_searchFrom_terminal mg player 1 s _ _ _ hT,
      MinMaxBot.mm_searchFrom_terminal mg player 1 s _ _ hT]

theorem DFSBot.dfs_searchFrom_no_moves (mg : MoveGenerator) (player : Int) (n : Nat)
    (s : GameState) (hturn : s.current_player = player)
    (hempty : mg.getAllMoves s player = []) :
    (DFSBot.searchFrom mg player n s).2 = Move.none := by
  cases hT : s.isGameOver
  · cases n with
    | zero => rw [DFSBot.dfs_searchFrom_zero mg player s hT]
    | succ n =>
      rw [DFSBot.dfs_searchFrom_succ_max mg player n s hT hturn, hempty]
      rfl
  · rw [DFSBot.dfs_searchFrom_terminal mg player n s hT]

theorem AlphaBetaBot.ab_searchFrom_no_moves (mg : MoveGenerator) (player : Int) (n : Nat)
    (s : GameState) (α β : Score) (hturn : s.current_player = player)
    (hempty : mg.getAllMoves s player = []) :
    (AlphaBetaBot.searchFrom mg player n s α β true).2 = Move.none := by
  cases hT : s.isGameOver
  · cases n with
    | zero => rw [AlphaBetaBot.ab_searchFrom_zero mg player s _ _ _ hT]
    | succ n =>
      rw [AlphaBetaBot.ab_searchFrom_succ_max mg player n s _ _ hT, hturn, hempty]
      rfl
  · rw [AlphaBetaBot.ab_searchFrom_terminal mg player n s _ _ _ hT]

/-! ## The scoring pass of the breadth-first loop -/

theorem BFSBot.bfs_loop_nil (depth : Int) (mg : MoveGenerator) (player : Int) (fuel : Nat)
    (B : Score) (bm : Move) : BFSBot.loop depth mg player fuel [] B bm = some bm := by
  cases fuel <;> rfl

theorem BFSBot.bfs_loop_leaves (depth : Int) (mg : MoveGenerator) (player : Int)
    (q : List BFSBot.QueueItem)
    (hq : ∀ it ∈ q, it.depth = depth ∧ it.first_move.valid = true) :
    ∀ (fuel : Nat), q.length ≤ fuel → ∀ (B : Score) (bm : Move),
      ∃ best bm2, BFSBot.loop depth mg player fuel q B bm = some bm2 ∧ B ≤ best ∧
        (∀ it ∈ q, evaluate it.state player ≤ best) ∧
        ((best = B ∧ bm2 = bm) ∨
          ∃ it ∈ q, best = evaluate it.state player ∧ bm2 = it.first_move ∧ B < best) := by
  induction q with
  | nil =>
    intro fuel _ B bm
    exact ⟨B, bm, BFSBot.bfs_loop_nil depth mg player fuel B bm, le_refl _, by simp, Or.inl ⟨rfl, rfl⟩⟩
  | cons item rest ih =>
    intro fuel hfuel B bm
    obtain ⟨f, rfl⟩ : ∃ f, fuel = f + 1 :=
      ⟨fuel - 1, by simp only [List.length_cons] at hfuel; omega⟩
    have hf : rest.length ≤ f := by simp only [List.length_cons] at hfuel; omega
    obtain ⟨hd, hv⟩ := hq item (List.mem_cons_self _ _)
    have hrest : ∀ it ∈ rest, it.depth = depth ∧ it.first_move.valid = true :=
      fun it hit => hq it (List.mem_cons_of_mem _ hit)
    rw [BFSBot.loop, if_pos hd]
    by_cases hlt : evaluate item.state player > B
    · rw [if_pos ⟨hlt, hv⟩]
      obtain ⟨best, bm2, h1, h2, h3, h4⟩ := ih hrest f hf (evaluate item.state player)
        item.first_move
      refine ⟨best, bm2, h1, le_trans (le_of_lt hlt) h2, ?_, ?_⟩
      · intro it hit
        rcases List.mem_cons.mp hit with rfl | hit
        · exact h2
        · exact h3 it hit
      · right
        rcases h4 with ⟨h4, h5⟩ | ⟨it, hit, h4, h5, h6⟩
        · exact ⟨item, List.mem_cons_self _ _, h4, h5, by rw [h4]; exact hlt⟩
        · exact ⟨it, List.mem_cons_of_mem _ hit, h4, h5, lt_trans hlt h6⟩
    · rw [if_neg (fun h => hlt h.1)]
      obtain ⟨best, bm2, h1, h2, h3, h4⟩ := ih hrest f hf B bm
      refine ⟨best, bm2, h1, h2, ?_, ?_⟩
      · intro it hit
        rcases List.mem_cons.mp hit with rfl | hit
        · exact le_trans (not_lt.mp hlt) h2
        · exact h3 it hit
      · rcases h4 with h4 | ⟨it, hit, h4, h5, h6⟩
        · exact Or.inl h4
        · exact Or.inr ⟨it, List.mem_cons_of_mem _ hit, h4, h5, h6⟩

/-! ## The budget recursion is the recursion on `current_depth` of the source -/

theorem DFSBot.dfs_search_finished (depth current_depth : Int) (mg : MoveGenerator)
    (s : GameState) (player : Int) (hover : s.isGameOver = true) :
    DFSBot.search depth mg s player current_depth = (getTerminalScore s player, Move.none) :=
  DFSBot.dfs_searchFrom_terminal mg player _ s hover

theorem DFSBot.dfs_search_cutoff (depth current_depth : Int) (mg : MoveGenerator)
    (s : GameState) (player : Int) (hlive : s.isGameOver = false)
    (hdepth : current_depth ≥ depth) :
    DFSBot.search depth mg s player current_depth = (evaluate s player, Move.none) := by
  have h0 : (depth - current_depth).toNat = 0 := by omega
  unfold DFSBot.search
  rw [h0]
  exact DFSBot.dfs_searchFrom_zero mg player s hlive

theorem DFSBot.dfs_search_step_max (depth current_depth : Int) (mg : MoveGenerator)
    (s : GameState) (player : Int) (hlive : s.isGameOver = false)
    (hdepth : current_depth < depth) (hturn : s.current_player = player) :
    DFSBot.search depth mg s player current_depth =
      DFSBot.maxLoop mg s (fun t => (DFSBot.search depth mg t player (current_depth + 1)).1)
        (mg.getAllMoves s player) Score.negInf Move.none := by
  obtain ⟨k, hk⟩ : ∃ k : Nat, (depth - current_depth).toNat = k + 1 :=
    ⟨(depth - current_depth).toNat - 1, by omega⟩
  have hk1 : (depth - (current_depth + 1)).toNat = k := by omega
  unfold DFSBot.search
  rw [hk, hk1]
  exact DFSBot.dfs_searchFrom_succ_max mg player k s hlive hturn

theorem DFSBot.dfs_search_step_min (depth current_depth : Int) (mg : MoveGenerator)
    (s : GameState) (player : Int) (hlive : s.isGameOver = false)
    (hdepth : current_depth < depth) (hturn : s.current_player ≠ player) :
    DFSBot.search depth mg s player current_depth =
      DFSBot.minLoop mg s (fun t => (DFSBot.search depth mg t player (current_depth + 1)).1)
        (mg.getAllMoves s (3 - player)) Score.posInf Move.none := by
  obtain ⟨k, hk⟩ : ∃ k : Nat, (depth - current_depth).toNat = k + 1 :=
    ⟨(depth - current_depth).toNat - 1, by omega⟩
  have hk1 : (depth - (current_depth + 1)).toNat = k := by omega
  unfold DFSBot.search
  rw [hk, hk1]
  exact DFSBot.dfs_searchFrom_succ_min mg player k s hlive hturn

/-! ## Claims C1 to C10 -/

/-- C1. Alpha-beta equivalence: for every depth, every player in {1, 2} and every position
whose mover is that player, all reachable positions having mover 1 or 2, and for every
move-generation collaborator, `AlphaBetaBot::search(position, player, 0, -inf, +inf, true)`
returns the same score and the same move as `DFSBot::search(position, player, 0)`. -/
theorem alpha_beta_equivalence (depth : Int) (mg : MoveGenerator) (state : GameState)
    (player : Int) (hplayer : player = 1 ∨ player = 2)
    (hturn : state.current_player = player)
    (hmovers : ∀ t, Reachable mg state t → t.current_player = 1 ∨ t.current_player = 2) :
    AlphaBetaBot.search depth mg state player 0 Score.negInf Score.posInf true =
      DFSBot.search depth mg state player 0 := by
  unfold AlphaBetaBot.search DFSBot.search
  exact AlphaBetaBot.ab_searchFrom_root_eq mg player hplayer _ state hturn hmovers

theorem alpha_beta_equivalence_witness :
    (∀ t, Reachable captureEngine (smallState 20 10 30 20 16 1 10) t →
      t.current_player = 1 ∨ t.current_player = 2) ∧
    AlphaBetaBot.search 3 captureEngine (smallState 20 10 30 20 16 1 10) 1 0
        Score.negInf Score.posInf true =
      DFSBot.search 3 captureEngine (smallState 20 10 30 20 16 1 10) 1 0 :=
  ⟨captureEngine_movers _ (Or.inl rfl),
   alpha_beta_equivalence 3 captureEngine (smallState 20 10 30 20 16 1 10) 1 (Or.inl rfl) rfl
     (captureEngine_movers _ (Or.inl rfl))⟩

/-- C2. For every position and player in {1, 2}, `Evaluator::evaluate(position, player)` is
`SCORE_WEIGHT` (10) times the difference of captured seeds plus `BOARD_WEIGHT` (2) times
the difference of the seeds lying in the holes of the player and of the opponent. -/
theorem evaluate_formula (state : GameState) (player : Int)
    (hplayer : player = 1 ∨ player = 2) :
    evaluate state player =
      Score.fin
        (SCORE_WEIGHT * (state.captured_seeds player - state.captured_seeds (3 - player)) +
          BOARD_WEIGHT *
            (((state.getPlayerHoles player).map state.getTotalSeeds).sum -
              ((state.getPlayerHoles (3 - player)).map state.getTotalSeeds).sum)) := by
  rcases hplayer with h | h <;> subst h <;>
  · simp only [evaluate, GameState.getPlayerHoles, PLAYER1_HOLES, PLAYER2_HOLES, SCORE_WEIGHT,
      BOARD_WEIGHT, List.foldl, List.map, List.sum_cons, List.sum_nil]
    norm_num
    ring

theorem evaluate_formula_witness :
    evaluate (smallState 20 10 30 20 16 1 10) 1 =
      Score.fin
        (SCORE_WEIGHT * ((smallState 20 10 30 20 16 1 10).captured_seeds 1 -
            (smallState 20 10 30 20 16 1 10).captured_seeds (3 - 1)) +
          BOARD_WEIGHT *
            ((((smallState 20 10 30 20 16 1 10).getPlayerHoles 1).map
                (smallState 20 10 30 20 16 1 10).getTotalSeeds).sum -
              (((smallState 20 10 30 20 16 1 10).getPlayerHoles (3 - 1)).map
                (smallState 20 10 30 20 16 1 10).getTotalSeeds).sum)) :=
  evaluate_formula (smallState 20 10 30 20 16 1 10) 1 (Or.inl rfl)

/-- C3. For every position and player in {1, 2}, `Evaluator::getTerminalScore` is `+inf`
when the player has captured more than the opponent, `-inf` when fewer, `0` when as many,
and takes no other value. -/
theorem getTerminalScore_cases (state : GameState) (player : Int)
    (_hplayer : player = 1 ∨ player = 2) :
    (state.captured_seeds player > state.captured_seeds (3 - player) →
      getTerminalScore state player = Score.posInf) ∧
    (state.captured_seeds player < state.captured_seeds (3 - player) →
      getTerminalScore state player = Score.negInf) ∧
    (state.captured_seeds player = state.captured_seeds (3 - player) →
      getTerminalScore state player = Score.fin 0) ∧
    (getTerminalScore state player = Score.posInf ∨
      getTerminalScore state player = Score.negInf ∨
      getTerminalScore state player = Score.fin 0) := by
  unfold getTerminalScore
  refine ⟨fun h => if_pos h, fun h => ?_, fun h => ?_, ?_⟩
  · rw [if_neg (by omega), if_pos h]
  · rw [if_neg (by omega), if_neg (by omega)]
  · split_ifs <;> simp

theorem getTerminalScore_cases_witness :
    getTerminalScore (smallState 0 0 8 45 43 1 10) 1 = Score.posInf :=
  (getTerminalScore_cases (smallState 0 0 8 45 43 1 10) 1 (Or.inl rfl)).1 (by decide)

/-- C4. For each of the five strategies, every depth, every player (1 or 2) and every
position on which `isGameOver()` holds, `getMove(position, player)` returns a move with
`valid = false`; the breadth-first loop needs no iteration for it. -/
theorem getMove_finished_invalid (depth : Int) (mg : MoveGenerator) (fuel : Nat)
    (state : GameState) (player : Int) (_hplayer : player = 1 ∨ player = 2)
    (hover : state.isGameOver = true) :
    (∃ m, BFSBot.getMove depth mg fuel state player = some m ∧ m.valid = false) ∧
    (DFSBot.getMove depth mg state player).valid = false ∧
    (MinMaxBot.getMove depth mg state player).valid = false ∧
    (AlphaBetaBot.getMove depth mg state player).valid = false ∧
    (IterativeDeepeningDFSBot.getMove depth mg state player).valid = false := by
  refine ⟨⟨Move.none, ?_, rfl⟩, ?_, ?_, ?_, ?_⟩
  · simp [BFSBot.getMove, BFSBot.search, isTerminal, hover]
  · unfold DFSBot.getMove DFSBot.search
    rw [DFSBot.dfs_searchFrom_terminal mg player _ state hover]
    rfl
  · unfold MinMaxBot.getMove MinMaxBot.search
    rw [MinMaxBot.mm_searchFrom_terminal mg player _ state _ _ hover]
    rfl
  · unfold AlphaBetaBot.getMove AlphaBetaBot.search
    rw [AlphaBetaBot.ab_searchFrom_terminal mg player _ state _ _ _ hover]
    rfl
  · unfold IterativeDeepeningDFSBot.getMove IterativeDeepeningDFSBot.search
    rw [IterativeDeepeningDFSBot.id_searchLoop_none mg state player]
    · rfl
    · intro d
      rw [IterativeDeepeningDFSBot.id_dfsLimited_eq]
      unfold DFSBot.search
      rw [DFSBot.dfs_searchFrom_terminal mg player _ state hover]
      rfl

theorem getMove_finished_invalid_witness :
    (smallState 0 0 8 45 43 1 10).isGameOver = true ∧
    (∃ m, BFSBot.getMove 2 captureEngine 0 (smallState 0 0 8 45 43 1 10) 1 = some m ∧
      m.valid = false) ∧
    (DFSBot.getMove 2 captureEngine (smallState 0 0 8 45 43 1 10) 1).valid = false ∧
    (MinMaxBot.getMove 2 captureEngine (smallState 0 0 8 45 43 1 10) 1).valid = false ∧
    (AlphaBetaBot.getMove 2 captureEngine (smallState 0 0 8 45 43 1 10) 1).valid = false ∧
    (IterativeDeepeningDFSBot.getMove 2 captureEngine
      (smallState 0 0 8 45 43 1 10) 1).valid = false :=
  ⟨by decide,
   getMove_finished_invalid 2 captureEngine 0 (smallState 0 0 8 45 43 1 10) 1 (Or.inl rfl)
     (by decide)⟩

/-- C5, as stated, fails.  In the position below it is player 2 to move, player 1 has no
legal move and the position is not finished; queried for player 1, the four depth-first
strategies return the move of player 2 as a valid move. -/
theorem no_move_sentinel_counterexample :
    captureEngine.getAllMoves (smallState 0 0 18 48 30 2 10) 1 = [] ∧
    (DFSBot.getMove 1 captureEngine (smallState 0 0 18 48 30 2 10) 1).valid = true ∧
    (MinMaxBot.getMove 1 captureEngine (smallState 0 0 18 48 30 2 10) 1).valid = true ∧
    (AlphaBetaBot.getMove 1 captureEngine (smallState 0 0 18 48 30 2 10) 1).valid = true ∧
    (IterativeDeepeningDFSBot.getMove 1 captureEngine
      (smallState 0 0 18 48 30 2 10) 1).valid = true := by
  decide

/-- C5, amended.  When `getAllMoves(position, player)` is empty, `BFSBot::getMove` returns
a move with `valid = false` (one iteration of its loop suffices), and so do the four
depth-first strategies provided it is the turn of `player` in the position. -/
theorem no_move_sentinel (depth : Int) (mg : MoveGenerator) (fuel : Nat) (hfuel : 1 ≤ fuel)
    (state : GameState) (player : Int) (_hplayer : player = 1 ∨ player = 2)
    (hempty : mg.getAllMoves state player = []) :
    (∃ m, BFSBot.getMove depth mg fuel state player = some m ∧ m.valid = false) ∧
    (state.current_player = player →
      (DFSBot.getMove depth mg state player).valid = false ∧
      (MinMaxBot.getMove depth mg state player).valid = false ∧
      (AlphaBetaBot.getMove depth mg state player).valid = false ∧
      (IterativeDeepeningDFSBot.getMove depth mg state player).valid = false) := by
  have hdfs : ∀ d : Int, state.current_player = player →
      (DFSBot.search d mg state player 0).2 = Move.none := fun d hturn =>
    DFSBot.dfs_searchFrom_no_moves mg player _ state hturn hempty
  refine ⟨⟨Move.none, ?_, rfl⟩, fun hturn => ⟨?_, ?_, ?_, ?_⟩⟩
  · obtain ⟨f, rfl⟩ : ∃ f, fuel = f + 1 := ⟨fuel - 1, by omega⟩
    unfold BFSBot.getMove BFSBot.search
    split_ifs with hT
    · rfl
    · simp only [BFSBot.loop, BFSBot.children, hempty, List.map_nil, List.append_nil]
      split_ifs <;> rfl
  · unfold DFSBot.getMove
    rw [hdfs depth hturn]
    rfl
  · unfold MinMaxBot.getMove MinMaxBot.search
    rw [MinMaxBot.mm_searchFrom_root, DFSBot.dfs_searchFrom_no_moves mg player _ state hturn hempty]
    rfl
  · unfold AlphaBetaBot.getMove AlphaBetaBot.search
    rw [AlphaBetaBot.ab_searchFrom_no_moves mg player _ state _ _ hturn hempty]
    rfl
  · unfold IterativeDeepeningDFSBot.getMove IterativeDeepeningDFSBot.search
    rw [IterativeDeepeningDFSBot.id_searchLoop_none mg state player]
    · rfl
    · intro d
      rw [IterativeDeepeningDFSBot.id_dfsLimited_eq, hdfs d hturn]
      rfl

theorem no_move_sentinel_witness :
    captureEngine.getAllMoves (smallState 0 0 18 48 30 1 10) 1 = [] ∧
    (∃ m, BFSBot.getMove 2 captureEngine 1 (smallState 0 0 18 48 30 1 10) 1 = some m ∧
      m.valid = false) ∧
    ((smallState 0 0 18 48 30 1 10).current_player = 1 →
      (DFSBot.getMove 2 captureEngine (smallState 0 0 18 48 30 1 10) 1).valid = false ∧
      (MinMaxBot.getMove 2 captureEngine (smallState 0 0 18 48 30 1 10) 1).valid = false ∧
      (AlphaBetaBot.getMove 2 captureEngine (smallState 0 0 18 48 30 1 10) 1).valid = false ∧
      (IterativeDeepeningDFSBot.getMove 2 captureEngine
        (smallState 0 0 18 48 30 1 10) 1).valid = false) :=
  ⟨by decide,
   no_move_sentinel 2 captureEngine 1 (by decide) (smallState 0 0 18 48 30 1 10) 1
     (Or.inl rfl) (by decide)⟩

/-- C6 fails on the code.  The position below is not finished (399 moves played), it is
the turn of player 1 and player 1 has a legal move; that move is the 400th, it ends the
game with player 1 behind, its score is `-inf`, the test `score > best_score` never fires
and every depth-first strategy, at depth 4, returns the sentinel `Move()`. -/
theorem getMove_invalid_despite_legal_move :
    (smallState 2 0 44 10 40 1 399).isGameOver = false ∧
    (smallState 2 0 44 10 40 1 399).current_player = 1 ∧
    captureEngine.getAllMoves (smallState 2 0 44 10 40 1 399) 1 =
      [(1, Color.RED, Color.RED, false)] ∧
    DFSBot.getMove 4 captureEngine (smallState 2 0 44 10 40 1 399) 1 = Move.none ∧
    MinMaxBot.getMove 4 captureEngine (smallState 2 0 44 10 40 1 399) 1 = Move.none ∧
    AlphaBetaBot.getMove 4 captureEngine (smallState 2 0 44 10 40 1 399) 1 = Move.none ∧
    IterativeDeepeningDFSBot.getMove 4 captureEngine (smallState 2 0 44 10 40 1 399) 1 =
      Move.none := by
  decide

/-- C7, as stated, fails.  In the position below 399 moves have been played and player 1,
to move, is ahead: both legal moves end the game with a win and are scored `+inf`.  At
depth 1 the three strategies return the first of them, the move from hole 1, although
the move from hole 3 leads to a position with a larger `evaluate`. -/
theorem depth_one_counterexample :
    (smallState 1 3 32 40 20 1 399).isGameOver = false ∧
    (smallState 1 3 32 40 20 1 399).current_player = 1 ∧
    captureEngine.getAllMoves (smallState 1 3 32 40 20 1 399) 1 =
      [(1, Color.RED, Color.RED, false), (3, Color.BLUE, Color.BLUE, false)] ∧
    DFSBot.getMove 1 captureEngine (smallState 1 3 32 40 20 1 399) 1 =
      Move.make 1 Color.RED Color.RED false ∧
    MinMaxBot.getMove 1 captureEngine (smallState 1 3 32 40 20 1 399) 1 =
      Move.make 1 Color.RED Color.RED false ∧
    AlphaBetaBot.getMove 1 captureEngine (smallState 1 3 32 40 20 1 399) 1 =
      Move.make 1 Color.RED Color.RED false ∧
    evaluate (captureEngine.applyMove (smallState 1 3 32 40 20 1 399) 1 Color.RED Color.RED
        false) 1 <
      evaluate (captureEngine.applyMove (smallState 1 3 32 40 20 1 399) 3 Color.BLUE
        Color.BLUE false) 1 := by
  decide

/-- C7, amended.  At depth 1 a successor is scored by `getTerminalScore` when it is a
finished game and by `evaluate` otherwise.  For a position that is not finished, with the
querying player to move and some legal move whose successor is scored above `-inf`,
`DFSBot`, `MinMaxBot` and `AlphaBetaBot` built with depth 1 return the same valid legal
move, whose successor has the greatest such score among the legal moves; when no legal
move ends the game, that move maximizes `evaluate(applyMove(position, m), player)`. -/
theorem depth_one_best_move (mg : MoveGenerator) (state : GameState) (player : Int)
    (_hplayer : player = 1 ∨ player = 2)
    (hturn : state.current_player = player) (hlive : state.isGameOver = false)
    (hsome : ∃ m ∈ mg.getAllMoves state player,
      Score.negInf < (DFSBot.search 1 mg (mg.play state m) player 1).1) :
    (∀ t, (DFSBot.search 1 mg t player 1).1 =
      if t.isGameOver = true then getTerminalScore t player else evaluate t player) ∧
    ∃ m ∈ mg.getAllMoves state player,
      DFSBot.getMove 1 mg state player = m.toMove ∧
      MinMaxBot.getMove 1 mg state player = m.toMove ∧
      AlphaBetaBot.getMove 1 mg state player = m.toMove ∧
      m.toMove.valid = true ∧
      (∀ m2 ∈ mg.getAllMoves state player,
        (DFSBot.search 1 mg (mg.play state m2) player 1).1 ≤
          (DFSBot.search 1 mg (mg.play state m) player 1).1) ∧
      ((∀ m2 ∈ mg.getAllMoves state player, (mg.play state m2).isGameOver = false) →
        ∀ m2 ∈ mg.getAllMoves state player,
          evaluate (mg.play state m2) player ≤ evaluate (mg.play state m) player) := by
  refine ⟨DFSBot.dfs_search_leaf mg player, ?_⟩
  have h1 : ((1 : Int) - 0).toNat = 1 := rfl
  have h0 : ((1 : Int) - 1).toNat = 0 := rfl
  have hroot : DFSBot.search 1 mg state player 0 =
      DFSBot.maxLoop mg state (fun t => (DFSBot.search 1 mg t player 1).1)
        (mg.getAllMoves state player) Score.negInf Move.none := by
    unfold DFSBot.search
    rw [h1, h0, DFSBot.dfs_searchFrom_succ_max mg player 0 state hlive hturn]
  obtain ⟨hs1, hs2, hs3⟩ := DFSBot.dfs_maxLoop_spec mg state
    (fun t => (DFSBot.search 1 mg t player 1).1) (mg.getAllMoves state player)
    Score.negInf Move.none
  rw [← hroot] at hs1 hs2 hs3
  obtain ⟨m0, hm0, hlt0⟩ := hsome
  rcases hs3 with hs3 | ⟨m, hm, hres, _⟩
  · have := hs2 m0 hm0
    rw [hs3] at this
    exact absurd (lt_of_lt_of_le hlt0 this) (lt_irrefl _)
  · have hmax : ∀ m2 ∈ mg.getAllMoves state player,
        (DFSBot.search 1 mg (mg.play state m2) player 1).1 ≤
          (DFSBot.search 1 mg (mg.play state m) player 1).1 := by
      intro m2 hm2
      have := hs2 m2 hm2
      rw [hres] at this
      exact this
    refine ⟨m, hm, ?_, ?_, ?_, rfl, hmax, ?_⟩
    · unfold DFSBot.getMove
      rw [hres]
    · unfold MinMaxBot.getMove MinMaxBot.search
      rw [MinMaxBot.mm_searchFrom_root]
      unfold DFSBot.search at hres
      rw [hres]
    · unfold AlphaBetaBot.getMove AlphaBetaBot.search
      rw [h1, AlphaBetaBot.ab_searchFrom_one_eq mg player state hturn]
      unfold DFSBot.search at hres
      rw [h1] at hres
      rw [hres]
    · intro hno m2 hm2
      have := hmax m2 hm2
      rw [DFSBot.dfs_search_leaf, DFSBot.dfs_search_leaf, hno m2 hm2, hno m hm] at this
      simpa using this

theorem depth_one_best_move_witness :
    (∃ m ∈ captureEngine.getAllMoves (smallState 20 10 30 20 16 1 10) 1,
      Score.negInf <
        (DFSBot.search 1 captureEngine
          (captureEngine.play (smallState 20 10 30 20 16 1 10) m) 1 1).1) ∧
    ∃ m ∈ captureEngine.getAllMoves (smallState 20 10 30 20 16 1 10) 1,
      DFSBot.getMove 1 captureEngine (smallState 20 10 30 20 16 1 10) 1 = m.toMove ∧
      MinMaxBot.getMove 1 captureEngine (smallState 20 10 30 20 16 1 10) 1 = m.toMove ∧
      AlphaBetaBot.getMove 1 captureEngine (smallState 20 10 30 20 16 1 10) 1 = m.toMove ∧
      m.toMove.valid = true ∧
      (∀ m2 ∈ captureEngine.getAllMoves (smallState 20 10 30 20 16 1 10) 1,
        (DFSBot.search 1 captureEngine
            (captureEngine.play (smallState 20 10 30 20 16 1 10) m2) 1 1).1 ≤
          (DFSBot.search 1 captureEngine
            (captureEngine.play (smallState 20 10 30 20 16 1 10) m) 1 1).1) ∧
      ((∀ m2 ∈ captureEngine.getAllMoves (smallState 20 10 30 20 16 1 10) 1,
          (captureEngine.play (smallState 20 10 30 20 16 1 10) m2).isGameOver = false) →
        ∀ m2 ∈ captureEngine.getAllMoves (smallState 20 10 30 20 16 1 10) 1,
          evaluate (captureEngine.play (smallState 20 10 30 20 16 1 10) m2) 1 ≤
            evaluate (captureEngine.play (smallState 20 10 30 20 16 1 10) m) 1) :=
  ⟨⟨(1, Color.RED, Color.RED, false), by decide, by decide⟩,
   (depth_one_best_move captureEngine (smallState 20 10 30 20 16 1 10) 1 (Or.inl rfl) rfl
     (by decide)
     ⟨(1, Color.RED, Color.RED, false), by decide, by decide⟩).2⟩

/-- C8. Terminal dominance for the minimax family: for every depth at least 1, every
player in {1, 2} and every unfinished position with that player to move (all reachable
positions having mover 1 or 2), if some legal move leads to a finished game in which the
player has captured strictly more than the opponent, then `DFSBot`, `MinMaxBot`,
`AlphaBetaBot` and `IterativeDeepeningDFSBot` return a valid legal move whose successor has
backed-up minimax score `+inf`. -/
theorem terminal_dominance_minimax (depth : Int) (hdepth : 1 ≤ depth) (mg : MoveGenerator)
    (state : GameState) (player : Int) (hplayer : player = 1 ∨ player = 2)
    (hturn : state.current_player = player) (hlive : state.isGameOver = false)
    (hmovers : ∀ t, Reachable mg state t → t.current_player = 1 ∨ t.current_player = 2)
    (hwin : ∃ m ∈ mg.getAllMoves state player, (mg.play state m).isGameOver = true ∧
      (mg.play state m).captured_seeds player >
        (mg.play state m).captured_seeds (3 - player)) :
    ∃ m ∈ mg.getAllMoves state player,
      DFSBot.getMove depth mg state player = m.toMove ∧
      MinMaxBot.getMove depth mg state player = m.toMove ∧
      AlphaBetaBot.getMove depth mg state player = m.toMove ∧
      IterativeDeepeningDFSBot.getMove depth mg state player = m.toMove ∧
      m.toMove.valid = true ∧
      (DFSBot.search depth mg (mg.play state m) player 1).1 = Score.posInf := by
  obtain ⟨k, hk⟩ : ∃ k : Nat, (depth - 0).toNat = k + 1 := ⟨depth.toNat - 1, by omega⟩
  have hk1 : (depth - 1).toNat = k := by omega
  have hroot : DFSBot.search depth mg state player 0 =
      DFSBot.maxLoop mg state (fun t => (DFSBot.search depth mg t player 1).1)
        (mg.getAllMoves state player) Score.negInf Move.none := by
    unfold DFSBot.search
    rw [hk, hk1, DFSBot.dfs_searchFrom_succ_max mg player k state hlive hturn]
  obtain ⟨_, hs2, hs3⟩ := DFSBot.dfs_maxLoop_spec mg state
    (fun t => (DFSBot.search depth mg t player 1).1) (mg.getAllMoves state player)
    Score.negInf Move.none
  rw [← hroot] at hs2 hs3
  obtain ⟨m0, hm0, hover0, hcap0⟩ := hwin
  have hv0 : (DFSBot.search depth mg (mg.play state m0) player 1).1 = Score.posInf := by
    unfold DFSBot.search
    rw [DFSBot.dfs_searchFrom_terminal mg player _ _ hover0]
    exact if_pos hcap0
  have htop : (DFSBot.search depth mg state player 0).1 = Score.posInf := by
    have := hs2 m0 hm0
    simp only [hv0] at this
    exact Score.posInf_le_iff.mp this
  rcases hs3 with hs3 | ⟨m, hm, hres, _⟩
  · rw [hs3] at htop
    exact absurd htop (by decide)
  · have hdfs : DFSBot.getMove depth mg state player = m.toMove := by
      unfold DFSBot.getMove
      rw [hres]
    refine ⟨m, hm, hdfs, ?_, ?_, ?_, rfl, ?_⟩
    · unfold MinMaxBot.getMove MinMaxBot.search
      rw [MinMaxBot.mm_searchFrom_root]
      exact hdfs
    · unfold AlphaBetaBot.getMove AlphaBetaBot.search
      rw [AlphaBetaBot.ab_searchFrom_root_eq mg player hplayer _ state hturn hmovers]
      exact hdfs
    · have hlim : (IterativeDeepeningDFSBot.dfsLimited mg state player depth 0).2 = m.toMove := by
        rw [IterativeDeepeningDFSBot.id_dfsLimited_eq]
        exact hdfs
      unfold IterativeDeepeningDFSBot.getMove
      rw [IterativeDeepeningDFSBot.id_search_of_valid depth hdepth mg state player
        (by rw [hlim]; rfl)]
      exact hlim
    · rw [hres] at htop
      exact htop

theorem terminal_dominance_minimax_witness :
    (∃ m ∈ captureEngine.getAllMoves (smallState 2 1 10 47 36 1 10) 1,
      (captureEngine.play (smallState 2 1 10 47 36 1 10) m).isGameOver = true ∧
      (captureEngine.play (smallState 2 1 10 47 36 1 10) m).captured_seeds 1 >
        (captureEngine.play (smallState 2 1 10 47 36 1 10) m).captured_seeds (3 - 1)) ∧
    ∃ m ∈ captureEngine.getAllMoves (smallState 2 1 10 47 36 1 10) 1,
      DFSBot.getMove 2 captureEngine (smallState 2 1 10 47 36 1 10) 1 = m.toMove ∧
      MinMaxBot.getMove 2 captureEngine (smallState 2 1 10 47 36 1 10) 1 = m.toMove ∧
      AlphaBetaBot.getMove 2 captureEngine (smallState 2 1 10 47 36 1 10) 1 = m.toMove ∧
      IterativeDeepeningDFSBot.getMove 2 captureEngine (smallState 2 1 10 47 36 1 10) 1 =
        m.toMove ∧
      m.toMove.valid = true ∧
      (DFSBot.search 2 captureEngine (captureEngine.play (smallState 2 1 10 47 36 1 10) m)
        1 1).1 = Score.posInf :=
  ⟨⟨(1, Color.RED, Color.RED, false), by decide, by decide, by decide⟩,
   terminal_dominance_minimax 2 (by decide) captureEngine (smallState 2 1 10 47 36 1 10) 1
     (Or.inl rfl) rfl (by decide) (captureEngine_movers _ (Or.inl rfl))
     ⟨(1, Color.RED, Color.RED, false), by decide, by decide, by decide⟩⟩

/-- C9, as stated, fails.  With the querying player 1 to move in an unfinished position,
the move from hole 1 leads to a finished game won by player 1 and the only other legal
move, from hole 3, to an unfinished position with a larger `evaluate`.  `BFSBot` with
depth 1 returns the move from hole 3, and with depth 2 it returns the sentinel `Move()`,
both successors being dropped because the opponent is to move in them. -/
theorem bfs_terminal_dominance_counterexample :
    (smallState 12 1 6 47 30 1 10).isGameOver = false ∧
    (smallState 12 1 6 47 30 1 10).current_player = 1 ∧
    (tableEngine (smallState 0 1 16 49 30 2 11) (smallState 12 0 7 47 30 2 11)).getAllMoves
        (smallState 12 1 6 47 30 1 10) 1 =
      [(1, Color.RED, Color.RED, false), (3, Color.BLUE, Color.BLUE, false)] ∧
    (smallState 0 1 16 49 30 2 11).isGameOver = true ∧
    (smallState 0 1 16 49 30 2 11).captured_seeds 1 >
      (smallState 0 1 16 49 30 2 11).captured_seeds 2 ∧
    (smallState 12 0 7 47 30 2 11).isGameOver = false ∧
    BFSBot.getMove 1 (tableEngine (smallState 0 1 16 49 30 2 11) (smallState 12 0 7 47 30 2 11))
        3 (smallState 12 1 6 47 30 1 10) 1 =
      some (Move.make 3 Color.BLUE Color.BLUE false) ∧
    BFSBot.getMove 2 (tableEngine (smallState 0 1 16 49 30 2 11) (smallState 12 0 7 47 30 2 11))
        3 (smallState 12 1 6 47 30 1 10) 1 =
      some Move.none := by
  decide

/-- C9, amended.  For `BFSBot` with depth 1, a player and an unfinished position with that
player to move: if some legal move leads at once to a finished game won by the player,
and every such move has a successor whose `evaluate` is strictly greater than that of
the successor of every other legal move, then `BFSBot::getMove` returns such a winning
move, as a valid move, once its loop is given one iteration per legal move and one for
the root. -/
theorem bfs_depth_one_dominance (mg : MoveGenerator) (state : GameState) (player : Int)
    (_hplayer : player = 1 ∨ player = 2) (fuel : Nat) (hfuel : (mg.getAllMoves state player).length + 1 ≤ fuel)
    (hturn : state.current_player = player) (hlive : state.isGameOver = false)
    (hwin : ∃ m ∈ mg.getAllMoves state player, (mg.play state m).isGameOver = true ∧
      (mg.play state m).captured_seeds player >
        (mg.play state m).captured_seeds (3 - player))
    (hdom : ∀ m ∈ mg.getAllMoves state player,
      ((mg.play state m).isGameOver = true ∧
        (mg.play state m).captured_seeds player >
          (mg.play state m).captured_seeds (3 - player)) →
      ∀ m2 ∈ mg.getAllMoves state player,
        ¬ ((mg.play state m2).isGameOver = true ∧
          (mg.play state m2).captured_seeds player >
            (mg.play state m2).captured_seeds (3 - player)) →
        evaluate (mg.play state m2) player < evaluate (mg.play state m) player) :
    ∃ m ∈ mg.getAllMoves state player,
      ((mg.play state m).isGameOver = true ∧
        (mg.play state m).captured_seeds player >
          (mg.play state m).captured_seeds (3 - player)) ∧
      BFSBot.getMove 1 mg fuel state player = some m.toMove ∧ m.toMove.valid = true := by
  obtain ⟨f, rfl⟩ : ∃ f, fuel = f + 1 := ⟨fuel - 1, by omega⟩
  have hq : ∀ it ∈ BFSBot.children mg player
      { state := state, depth := 0, first_move := Move.none },
      it.depth = 1 ∧ it.first_move.valid = true := by
    intro it hit
    obtain ⟨m, _, rfl⟩ := List.mem_map.mp hit
    exact ⟨rfl, rfl⟩
  obtain ⟨best, bm2, h1, _, h3, h4⟩ := BFSBot.bfs_loop_leaves 1 mg player _ hq f
    (by simp only [BFSBot.children, List.length_map]; omega) Score.negInf Move.none
  have hget : BFSBot.getMove 1 mg (f + 1) state player = some bm2 := by
    unfold BFSBot.getMove BFSBot.search
    rw [if_neg (by simp [isTerminal, hlive]), BFSBot.loop]
    simp only [show ¬ ((0 : Int) = 1) by decide, if_false, hturn, if_true, List.nil_append]
    exact h1
  have hitem : ∀ m ∈ mg.getAllMoves state player, evaluate (mg.play state m) player ≤ best := by
    intro m hm
    exact h3 _ (List.mem_map.mpr ⟨m, hm, rfl⟩)
  obtain ⟨w, hw, hwwin⟩ := hwin
  rcases h4 with ⟨h4, _⟩ | ⟨it, hit, h4, h5, _⟩
  · have := hitem w hw
    rw [h4] at this
    have hfin : Score.negInf < evaluate (mg.play state w) player := Score.negInf_lt_fin _
    exact absurd (lt_of_lt_of_le hfin this) (lt_irrefl _)
  · obtain ⟨m, hm, rfl⟩ := List.mem_map.mp hit
    refine ⟨m, hm, ?_, ?_, rfl⟩
    · by_contra hnot
      have h6 := hdom w hw hwwin m hm hnot
      have h7 := hitem w hw
      rw [h4] at h7
      exact absurd (lt_of_lt_of_le h6 h7) (lt_irrefl _)
    · rw [hget, h5]
      rfl

theorem bfs_depth_one_dominance_witness :
    (∃ m ∈ captureEngine.getAllMoves (smallState 2 1 10 47 36 1 10) 1,
      (captureEngine.play (smallState 2 1 10 47 36 1 10) m).isGameOver = true ∧
      (captureEngine.play (smallState 2 1 10 47 36 1 10) m).captured_seeds 1 >
        (captureEngine.play (smallState 2 1 10 47 36 1 10) m).captured_seeds (3 - 1)) ∧
    ∃ m ∈ captureEngine.getAllMoves (smallState 2 1 10 47 36 1 10) 1,
      ((captureEngine.play (smallState 2 1 10 47 36 1 10) m).isGameOver = true ∧
        (captureEngine.play (smallState 2 1 10 47 36 1 10) m).captured_seeds 1 >
          (captureEngine.play (smallState 2 1 10 47 36 1 10) m).captured_seeds (3 - 1)) ∧
      BFSBot.getMove 1 captureEngine 3 (smallState 2 1 10 47 36 1 10) 1 = some m.toMove ∧
      m.toMove.valid = true :=
  ⟨⟨(1, Color.RED, Color.RED, false), by decide, by decide, by decide⟩,
   bfs_depth_one_dominance captureEngine (smallState 2 1 10 47 36 1 10) 1 (Or.inl rfl) 3
     (by decide) rfl
     (by decide) ⟨(1, Color.RED, Color.RED, false), by decide, by decide, by decide⟩
     (by decide)⟩

/-- C10. Iterative deepening agrees with plain minimax at the requested depth: for every
`D >= 1`, position and player (1 or 2), if `DFSBot(D).getMove` is a valid move then
`IterativeDeepeningDFSBot(D).getMove` returns exactly that move. -/
theorem iterative_deepening_agrees (D : Int) (hD : 1 ≤ D) (mg : MoveGenerator)
    (state : GameState) (player : Int) (_hplayer : player = 1 ∨ player = 2)
    (hvalid : (DFSBot.getMove D mg state player).valid = true) :
    IterativeDeepeningDFSBot.getMove D mg state player = DFSBot.getMove D mg state player := by
  unfold IterativeDeepeningDFSBot.getMove
  unfold DFSBot.getMove at hvalid ⊢
  rw [← IterativeDeepeningDFSBot.id_dfsLimited_eq] at hvalid ⊢
  exact IterativeDeepeningDFSBot.id_search_of_valid D hD mg state player hvalid

theorem iterative_deepening_agrees_witness :
    (DFSBot.getMove 3 captureEngine (smallState 20 10 30 20 16 1 10) 1).valid = true ∧
    IterativeDeepeningDFSBot.getMove 3 captureEngine (smallState 20 10 30 20 16 1 10) 1 =
      DFSBot.getMove 3 captureEngine (smallState 20 10 30 20 16 1 10) 1 :=
  ⟨by decide,
   iterative_deepening_agrees 3 (by decide) captureEngine (smallState 20 10 30 20 16 1 10) 1
     (Or.inl rfl) (by decide)⟩

/-! ## Iterative deepening: ranges of depth limits -/

theorem IterativeDeepeningDFSBot.id_searchLoop_split (mg : MoveGenerator) (s : GameState)
    (player : Int) (a b : Nat) : ∀ (d : Int) (best : Move),
      IterativeDeepeningDFSBot.searchLoop mg s player (a + b) d best =
        IterativeDeepeningDFSBot.searchLoop mg s player b (d + a)
          (IterativeDeepeningDFSBot.searchLoop mg s player a d best) := by
  induction a with
  | zero =>
    intro d best
    simp only [Nat.zero_add, Nat.cast_zero, add_zero, IterativeDeepeningDFSBot.searchLoop]
  | succ a ih =>
    intro d best
    have h1 : a + 1 + b = (a + b) + 1 := by omega
    have h2 : d + ((a + 1 : Nat) : Int) = d + 1 + (a : Int) := by push_cast; ring
    rw [h1, IterativeDeepeningDFSBot.id_searchLoop_succ, ih (d + 1) _, h2,
      IterativeDeepeningDFSBot.id_searchLoop_succ mg s player a d best]

theorem IterativeDeepeningDFSBot.id_searchLoop_invalid_range (mg : MoveGenerator) (s : GameState)
    (player : Int) (k : Nat) : ∀ (d : Int) (best : Move),
      (∀ e : Int, d ≤ e → e < d + k →
        (IterativeDeepeningDFSBot.dfsLimited mg s player e 0).2.valid = false) →
      IterativeDeepeningDFSBot.searchLoop mg s player k d best = best := by
  induction k with
  | zero => intro d best _; rfl
  | succ k ih =>
    intro d best h
    have hd : (IterativeDeepeningDFSBot.dfsLimited mg s player d 0).2.valid = false :=
      h d (le_refl d) (by push_cast; omega)
    rw [IterativeDeepeningDFSBot.id_searchLoop_succ, hd]
    simp only [Bool.false_eq_true, if_false]
    exact ih (d + 1) best (fun e he1 he2 => h e (by omega) (by push_cast; omega))

/-- The move of the largest valid depth limit wins. -/
theorem IterativeDeepeningDFSBot.id_search_largest_valid (max_depth : Int) (mg : MoveGenerator)
    (s : GameState) (player : Int) (d : Int) (hd1 : 1 ≤ d) (hd2 : d ≤ max_depth)
    (hvalid : (IterativeDeepeningDFSBot.dfsLimited mg s player d 0).2.valid = true)
    (hlater : ∀ e : Int, d < e → e ≤ max_depth →
      (IterativeDeepeningDFSBot.dfsLimited mg s player e 0).2.valid = false) :
    IterativeDeepeningDFSBot.search max_depth mg s player =
      (IterativeDeepeningDFSBot.dfsLimited mg s player d 0).2 := by
  unfold IterativeDeepeningDFSBot.search
  have hsplit : max_depth.toNat = (d - 1).toNat + ((max_depth - d).toNat + 1) := by omega
  have hd : (1 : Int) + ((d - 1).toNat : Int) = d := by omega
  rw [hsplit, IterativeDeepeningDFSBot.id_searchLoop_split, hd,
    IterativeDeepeningDFSBot.id_searchLoop_succ, if_pos hvalid]
  exact IterativeDeepeningDFSBot.id_searchLoop_invalid_range mg s player _ (d + 1) _
    (fun e he1 he2 => hlater e (by omega) (by omega))

/-- Without a valid depth limit the sentinel is returned. -/
theorem IterativeDeepeningDFSBot.id_search_none_valid (max_depth : Int) (mg : MoveGenerator)
    (s : GameState) (player : Int)
    (hnone : ∀ d : Int, 1 ≤ d → d ≤ max_depth →
      (IterativeDeepeningDFSBot.dfsLimited mg s player d 0).2.valid = false) :
    IterativeDeepeningDFSBot.search max_depth mg s player = Move.none := by
  unfold IterativeDeepeningDFSBot.search
  exact IterativeDeepeningDFSBot.id_searchLoop_invalid_range mg s player _ 1 _
    (fun e he1 he2 => hnone e he1 (by omega))

/-- Invalid depth limits at the end of the ladder change nothing. -/
theorem IterativeDeepeningDFSBot.id_search_drop_invalid (k D : Int) (hk : 0 ≤ k) (hkD : k ≤ D)
    (mg : MoveGenerator) (s : GameState) (player : Int)
    (hlater : ∀ e : Int, k < e → e ≤ D →
      (IterativeDeepeningDFSBot.dfsLimited mg s player e 0).2.valid = false) :
    IterativeDeepeningDFSBot.search D mg s player =
      IterativeDeepeningDFSBot.search k mg s player := by
  unfold IterativeDeepeningDFSBot.search
  have hsplit : D.toNat = k.toNat + (D - k).toNat := by omega
  rw [hsplit, IterativeDeepeningDFSBot.id_searchLoop_split]
  exact IterativeDeepeningDFSBot.id_searchLoop_invalid_range mg s player _ _ _
    (fun e he1 he2 => hlater e (by omega) (by omega))

/-! ## A search that never reaches the cutoff does not change with a larger budget -/

theorem DFSBot.dfs_maxLoop_congr (mg : MoveGenerator) (s : GameState)
    (child child2 : GameState → Score) (ms : List MoveTuple)
    (hchild : ∀ m ∈ ms, child (mg.play s m) = child2 (mg.play s m)) (B : Score) (bm : Move) :
    DFSBot.maxLoop mg s child ms B bm = DFSBot.maxLoop mg s child2 ms B bm :=
  (IterativeDeepeningDFSBot.id_maxLoop_eq mg s child child ms (fun _ _ => rfl) B bm).symm.trans
    (IterativeDeepeningDFSBot.id_maxLoop_eq mg s child child2 ms hchild B bm)

theorem DFSBot.dfs_minLoop_congr (mg : MoveGenerator) (s : GameState)
    (child child2 : GameState → Score) (ms : List MoveTuple)
    (hchild : ∀ m ∈ ms, child (mg.play s m) = child2 (mg.play s m)) (B : Score) (bm : Move) :
    DFSBot.minLoop mg s child ms B bm = DFSBot.minLoop mg s child2 ms B bm :=
  (IterativeDeepeningDFSBot.id_minLoop_eq mg s child child ms (fun _ _ => rfl) B bm).symm.trans
    (IterativeDeepeningDFSBot.id_minLoop_eq mg s child child2 ms hchild B bm)

theorem DFSBot.dfs_searchFrom_stable (mg : MoveGenerator) (player : Int) (n : Nat) :
    ∀ (s : GameState), IterativeDeepeningDFSBot.neverCutOff mg player n s = true →
      ∀ j : Nat, DFSBot.searchFrom mg player (n + j) s = DFSBot.searchFrom mg player n s := by
  induction n with
  | zero =>
    intro s h j
    have hT : s.isGameOver = true := h
    rw [DFSBot.dfs_searchFrom_terminal mg player _ s hT, DFSBot.dfs_searchFrom_terminal mg player _ s hT]
  | succ n ih =>
    intro s h j
    have hnj : n + 1 + j = (n + j) + 1 := by omega
    rw [hnj]
    cases hT : s.isGameOver
    · simp only [IterativeDeepeningDFSBot.neverCutOff, hT, Bool.false_or,
        List.all_eq_true] at h
      by_cases hcp : s.current_player = player
      · rw [if_pos hcp] at h
        rw [DFSBot.dfs_searchFrom_succ_max mg player _ s hT hcp,
          DFSBot.dfs_searchFrom_succ_max mg player _ s hT hcp]
        exact DFSBot.dfs_maxLoop_congr mg s _ _ _ (fun m hm => by rw [ih _ (h m hm) j]) _ _
      · rw [if_neg hcp] at h
        rw [DFSBot.dfs_searchFrom_succ_min mg player _ s hT hcp,
          DFSBot.dfs_searchFrom_succ_min mg player _ s hT hcp]
        exact DFSBot.dfs_minLoop_congr mg s _ _ _ (fun m hm => by rw [ih _ (h m hm) j]) _ _
    · rw [DFSBot.dfs_searchFrom_terminal mg player _ s hT,
        DFSBot.dfs_searchFrom_terminal mg player _ s hT]

theorem IterativeDeepeningDFSBot.id_dfsLimited_stable (mg : MoveGenerator) (s : GameState)
    (player : Int) (k d : Int) (hk : 0 ≤ k) (hkd : k ≤ d)
    (hres : IterativeDeepeningDFSBot.neverCutOff mg player k.toNat s = true) :
    IterativeDeepeningDFSBot.dfsLimited mg s player d 0 =
      IterativeDeepeningDFSBot.dfsLimited mg s player k 0 := by
  have hd : (d - 0).toNat = k.toNat + (d - k).toNat := by omega
  have hk0 : (k - 0).toNat = k.toNat := by omega
  unfold IterativeDeepeningDFSBot.dfsLimited
  rw [IterativeDeepeningDFSBot.id_dfsLimitedFrom_eq, IterativeDeepeningDFSBot.id_dfsLimitedFrom_eq,
    hd, hk0]
  exact DFSBot.dfs_searchFrom_stable mg player _ s hres _

/-! ## The counters of the depth-limited search -/

theorem IterativeDeepeningDFSBot.id_dfsLimitedFromCounted_terminal (mg : MoveGenerator)
    (player : Int) (n : Nat) (s : GameState) (c : Int) (h : s.isGameOver = true) :
    IterativeDeepeningDFSBot.dfsLimitedFromCounted mg player n s c =
      ((getTerminalScore s player, Move.none), c + 1) := by
  cases n <;> simp [IterativeDeepeningDFSBot.dfsLimitedFromCounted, isTerminal, h]

theorem IterativeDeepeningDFSBot.id_dfsLimitedFromCounted_zero (mg : MoveGenerator)
    (player : Int) (s : GameState) (c : Int) (h : s.isGameOver = false) :
    IterativeDeepeningDFSBot.dfsLimitedFromCounted mg player 0 s c =
      ((evaluate s player, Move.none), c + 1) := by
  simp [IterativeDeepeningDFSBot.dfsLimitedFromCounted, isTerminal, h]

theorem IterativeDeepeningDFSBot.id_dfsLimitedFromCounted_succ_max (mg : MoveGenerator)
    (player : Int) (n : Nat) (s : GameState) (c : Int) (h : s.isGameOver = false)
    (hcp : s.current_player = player) :
    IterativeDeepeningDFSBot.dfsLimitedFromCounted mg player (n + 1) s c =
      IterativeDeepeningDFSBot.maxLoopCounted mg s
        (fun t c =>
          ((IterativeDeepeningDFSBot.dfsLimitedFromCounted mg player n t c).1.1,
            (IterativeDeepeningDFSBot.dfsLimitedFromCounted mg player n t c).2))
        (mg.getAllMoves s player) Score.negInf Move.none (c + 1) := by
  simp [IterativeDeepeningDFSBot.dfsLimitedFromCounted, isTerminal, h, hcp]

theorem IterativeDeepeningDFSBot.id_dfsLimitedFromCounted_succ_min (mg : MoveGenerator)
    (player : Int) (n : Nat) (s : GameState) (c : Int) (h : s.isGameOver = false)
    (hcp : s.current_player ≠ player) :
    IterativeDeepeningDFSBot.dfsLimitedFromCounted mg player (n + 1) s c =
      IterativeDeepeningDFSBot.minLoopCounted mg s
        (fun t c =>
          ((IterativeDeepeningDFSBot.dfsLimitedFromCounted mg player n t c).1.1,
            (IterativeDeepeningDFSBot.dfsLimitedFromCounted mg player n t c).2))
        (mg.getAllMoves s (3 - player)) Score.posInf Move.none (c + 1) := by
  simp [IterativeDeepeningDFSBot.dfsLimitedFromCounted, isTerminal, h, hcp]

/-- The counter after a loop of the unpruned search: every child has been visited. -/
theorem IterativeDeepeningDFSBot.id_maxLoopCounted_snd (mg : MoveGenerator) (s : GameState)
    (child : GameState → Int → Score × Int) (ms : List MoveTuple) :
    ∀ (B : Score) (bm : Move) (c : Int),
      (IterativeDeepeningDFSBot.maxLoopCounted mg s child ms B bm c).2 =
        ms.foldl (fun c m => (child (mg.play s m) c).2) c := by
  induction ms with
  | nil => intro B bm c; rfl
  | cons m rest ih =>
    intro B bm c
    obtain ⟨h, co, t, u⟩ := m
    simp only [IterativeDeepeningDFSBot.maxLoopCounted, List.foldl_cons, MoveGenerator.play]
    split_ifs <;> exact ih _ _ _

theorem IterativeDeepeningDFSBot.id_minLoopCounted_snd (mg : MoveGenerator) (s : GameState)
    (child : GameState → Int → Score × Int) (ms : List MoveTuple) :
    ∀ (B : Score) (bm : Move) (c : Int),
      (IterativeDeepeningDFSBot.minLoopCounted mg s child ms B bm c).2 =
        ms.foldl (fun c m => (child (mg.play s m) c).2) c := by
  induction ms with
  | nil => intro B bm c; rfl
  | cons m rest ih =>
    intro B bm c
    obtain ⟨h, co, t, u⟩ := m
    simp only [IterativeDeepeningDFSBot.minLoopCounted, List.foldl_cons, MoveGenerator.play]
    split_ifs <;> exact ih _ _ _

theorem IterativeDeepeningDFSBot.id_countFold_mono (mg : MoveGenerator) (s : GameState)
    (child : GameState → Int → Score × Int) (ms : List MoveTuple)
    (hmono : ∀ m ∈ ms, ∀ c, c ≤ (child (mg.play s m) c).2) :
    ∀ c : Int, c ≤ ms.foldl (fun c m => (child (mg.play s m) c).2) c := by
  induction ms with
  | nil => intro c; exact le_refl c
  | cons m rest ih =>
    intro c
    rw [List.foldl_cons]
    exact le_trans (hmono m (List.mem_cons_self _ _) c)
      (ih (fun m2 hm2 => hmono m2 (List.mem_cons_of_mem _ hm2)) _)

/-- Every call of the unpruned search counts at least its own node. -/
theorem IterativeDeepeningDFSBot.id_dfsLimitedFromCounted_mono (mg : MoveGenerator)
    (player : Int) (n : Nat) :
    ∀ (s : GameState) (c : Int),
      c + 1 ≤ (IterativeDeepeningDFSBot.dfsLimitedFromCounted mg player n s c).2 := by
  induction n with
  | zero =>
    intro s c
    cases hT : s.isGameOver
    · rw [IterativeDeepeningDFSBot.id_dfsLimitedFromCounted_zero mg player s c hT]
    · rw [IterativeDeepeningDFSBot.id_dfsLimitedFromCounted_terminal mg player 0 s c hT]
  | succ n ih =>
    intro s c
    have hchild : ∀ (ms : List MoveTuple), ∀ m ∈ ms, ∀ c : Int,
        c ≤ (IterativeDeepeningDFSBot.dfsLimitedFromCounted mg player n (mg.play s m) c).2 :=
      fun _ m _ c => le_trans (by omega) (ih (mg.play s m) c)
    cases hT : s.isGameOver
    · by_cases hcp : s.current_player = player
      · rw [IterativeDeepeningDFSBot.id_dfsLimitedFromCounted_succ_max mg player n s c hT hcp,
          IterativeDeepeningDFSBot.id_maxLoopCounted_snd]
        exact IterativeDeepeningDFSBot.id_countFold_mono mg s
          (fun t c =>
            ((IterativeDeepeningDFSBot.dfsLimitedFromCounted mg player n t c).1.1,
              (IterativeDeepeningDFSBot.dfsLimitedFromCounted mg player n t c).2))
          _ (hchild _) _
      · rw [IterativeDeepeningDFSBot.id_dfsLimitedFromCounted_succ_min mg player n s c hT hcp,
          IterativeDeepeningDFSBot.id_minLoopCounted_snd]
        exact IterativeDeepeningDFSBot.id_countFold_mono mg s
          (fun t c =>
            ((IterativeDeepeningDFSBot.dfsLimitedFromCounted mg player n t c).1.1,
              (IterativeDeepeningDFSBot.dfsLimitedFromCounted mg player n t c).2))
          _ (hchild _) _
    · rw [IterativeDeepeningDFSBot.id_dfsLimitedFromCounted_terminal mg player (n + 1) s c hT]

/-! ## The counters of the alpha-beta search -/

theorem AlphaBetaBot.ab_searchFromCounted_terminal (mg : MoveGenerator) (player : Int) (n : Nat)
    (s : GameState) (α β : Score) (f : Bool) (c : AlphaBetaBot.Counters)
    (h : s.isGameOver = true) :
    AlphaBetaBot.searchFromCounted mg player n s α β f c =
      ((getTerminalScore s player, Move.none),
        { c with nodes_explored := c.nodes_explored + 1 }) := by
  cases n <;> simp [AlphaBetaBot.searchFromCounted, isTerminal, h]

theorem AlphaBetaBot.ab_searchFromCounted_zero (mg : MoveGenerator) (player : Int)
    (s : GameState) (α β : Score) (f : Bool) (c : AlphaBetaBot.Counters)
    (h : s.isGameOver = false) :
    AlphaBetaBot.searchFromCounted mg player 0 s α β f c =
      ((evaluate s player, Move.none),
        { c with nodes_explored := c.nodes_explored + 1 }) := by
  simp [AlphaBetaBot.searchFromCounted, isTerminal, h]

theorem AlphaBetaBot.ab_searchFromCounted_succ_max (mg : MoveGenerator) (player : Int) (n : Nat)
    (s : GameState) (α β : Score) (c : AlphaBetaBot.Counters) (h : s.isGameOver = false) :
    AlphaBetaBot.searchFromCounted mg player (n + 1) s α β true c =
      AlphaBetaBot.maxLoopCounted mg s player
        (fun t a b f c =>
          ((AlphaBetaBot.searchFromCounted mg player n t a b f c).1.1,
            (AlphaBetaBot.searchFromCounted mg player n t a b f c).2))
        β (mg.getAllMoves s s.current_player) Score.negInf Move.none α
        { c with nodes_explored := c.nodes_explored + 1 } := by
  simp [AlphaBetaBot.searchFromCounted, isTerminal, h]

theorem AlphaBetaBot.ab_searchFromCounted_succ_min (mg : MoveGenerator) (player : Int) (n : Nat)
    (s : GameState) (α β : Score) (c : AlphaBetaBot.Counters) (h : s.isGameOver = false) :
    AlphaBetaBot.searchFromCounted mg player (n + 1) s α β false c =
      AlphaBetaBot.minLoopCounted mg s player
        (fun t a b f c =>
          ((AlphaBetaBot.searchFromCounted mg player n t a b f c).1.1,
            (AlphaBetaBot.searchFromCounted mg player n t a b f c).2))
        α (mg.getAllMoves s s.current_player) Score.posInf Move.none β
        { c with nodes_explored := c.nodes_explored + 1 } := by
  simp [AlphaBetaBot.searchFromCounted, isTerminal, h]

/-- A pruned loop visits no more nodes than the loop over all children. -/
theorem AlphaBetaBot.ab_maxLoopCounted_le (mg : MoveGenerator) (s : GameState) (player : Int)
    (childAB : GameState → Score → Score → Bool → AlphaBetaBot.Counters →
      Score × AlphaBetaBot.Counters)
    (child : GameState → Int → Score × Int) (β : Score) (ms : List MoveTuple)
    (hchild : ∀ m ∈ ms, ∀ a b f c c2,
      (childAB (mg.play s m) a b f c).2.nodes_explored - c.nodes_explored ≤
        (child (mg.play s m) c2).2 - c2)
    (hmono : ∀ m ∈ ms, ∀ c, c ≤ (child (mg.play s m) c).2) :
    ∀ (M : Score) (bm : Move) (a : Score) (c : AlphaBetaBot.Counters) (c2 : Int),
      (AlphaBetaBot.maxLoopCounted mg s player childAB β ms M bm a c).2.nodes_explored -
          c.nodes_explored ≤
        ms.foldl (fun c m => (child (mg.play s m) c).2) c2 - c2 := by
  induction ms with
  | nil =>
    intro M bm a c c2
    simp [AlphaBetaBot.maxLoopCounted]
  | cons m rest ih =>
    intro M bm a c c2
    have h1 := hchild m (List.mem_cons_self _ _)
    have hrest := ih (fun m2 hm2 => hchild m2 (List.mem_cons_of_mem _ hm2))
      (fun m2 hm2 => hmono m2 (List.mem_cons_of_mem _ hm2))
    have hfold := IterativeDeepeningDFSBot.id_countFold_mono mg s child rest
      (fun m2 hm2 => hmono m2 (List.mem_cons_of_mem _ hm2))
    obtain ⟨h, co, t, u⟩ := m
    simp only [MoveGenerator.play] at h1
    simp only [AlphaBetaBot.maxLoopCounted, List.foldl_cons, MoveGenerator.play]
    have h2 := h1 a β (decide ((mg.applyMove s h co t u).current_player = player)) c c2
    have h3 := hfold (child (mg.applyMove s h co t u) c2).2
    simp only [MoveGenerator.play] at h3 hrest
    have key2 : (childAB (mg.applyMove s h co t u) a β
        (decide ((mg.applyMove s h co t u).current_player = player)) c).2.nodes_explored -
          c.nodes_explored ≤
        List.foldl (fun c m => (child (mg.applyMove s m.1 m.2.1 m.2.2.1 m.2.2.2) c).2)
          (child (mg.applyMove s h co t u) c2).2 rest - c2 := by
      omega
    have key : ∀ M bm a2,
        (AlphaBetaBot.maxLoopCounted mg s player childAB β rest M bm a2
          (childAB (mg.applyMove s h co t u) a β
            (decide ((mg.applyMove s h co t u).current_player = player)) c).2).2.nodes_explored -
          c.nodes_explored ≤
        List.foldl (fun c m => (child (mg.applyMove s m.1 m.2.1 m.2.2.1 m.2.2.2) c).2)
          (child (mg.applyMove s h co t u) c2).2 rest - c2 := by
      intro M bm a2
      have := hrest M bm a2
        (childAB (mg.applyMove s h co t u) a β
          (decide ((mg.applyMove s h co t u).current_player = player)) c).2
        (child (mg.applyMove s h co t u) c2).2
      omega
    split_ifs <;> first | exact key2 | exact key _ _ _

theorem AlphaBetaBot.ab_minLoopCounted_le (mg : MoveGenerator) (s : GameState) (player : Int)
    (childAB : GameState → Score → Score → Bool → AlphaBetaBot.Counters →
      Score × AlphaBetaBot.Counters)
    (child : GameState → Int → Score × Int) (α : Score) (ms : List MoveTuple)
    (hchild : ∀ m ∈ ms, ∀ a b f c c2,
      (childAB (mg.play s m) a b f c).2.nodes_explored - c.nodes_explored ≤
        (child (mg.play s m) c2).2 - c2)
    (hmono : ∀ m ∈ ms, ∀ c, c ≤ (child (mg.play s m) c).2) :
    ∀ (M : Score) (bm : Move) (b : Score) (c : AlphaBetaBot.Counters) (c2 : Int),
      (AlphaBetaBot.minLoopCounted mg s player childAB α ms M bm b c).2.nodes_explored -
          c.nodes_explored ≤
        ms.foldl (fun c m => (child (mg.play s m) c).2) c2 - c2 := by
  induction ms with
  | nil =>
    intro M bm b c c2
    simp [AlphaBetaBot.minLoopCounted]
  | cons m rest ih =>
    intro M bm b c c2
    have h1 := hchild m (List.mem_cons_self _ _)
    have hrest := ih (fun m2 hm2 => hchild m2 (List.mem_cons_of_mem _ hm2))
      (fun m2 hm2 => hmono m2 (List.mem_cons_of_mem _ hm2))
    have hfold := IterativeDeepeningDFSBot.id_countFold_mono mg s child rest
      (fun m2 hm2 => hmono m2 (List.mem_cons_of_mem _ hm2))
    obtain ⟨h, co, t, u⟩ := m
    simp only [MoveGenerator.play] at h1
    simp only [AlphaBetaBot.minLoopCounted, List.foldl_cons, MoveGenerator.play]
    have h2 := h1 α b (decide ((mg.applyMove s h co t u).current_player = player)) c c2
    have h3 := hfold (child (mg.applyMove s h co t u) c2).2
    simp only [MoveGenerator.play] at h3 hrest
    have key2 : (childAB (mg.applyMove s h co t u) α b
        (decide ((mg.applyMove s h co t u).current_player = player)) c).2.nodes_explored -
          c.nodes_explored ≤
        List.foldl (fun c m => (child (mg.applyMove s m.1 m.2.1 m.2.2.1 m.2.2.2) c).2)
          (child (mg.applyMove s h co t u) c2).2 rest - c2 := by
      omega
    have key : ∀ M bm b2,
        (AlphaBetaBot.minLoopCounted mg s player childAB α rest M bm b2
          (childAB (mg.applyMove s h co t u) α b
            (decide ((mg.applyMove s h co t u).current_player = player)) c).2).2.nodes_explored -
          c.nodes_explored ≤
        List.foldl (fun c m => (child (mg.applyMove s m.1 m.2.1 m.2.2.1 m.2.2.2) c).2)
          (child (mg.applyMove s h co t u) c2).2 rest - c2 := by
      intro M bm b2
      have := hrest M bm b2
        (childAB (mg.applyMove s h co t u) α b
          (decide ((mg.applyMove s h co t u).current_player = player)) c).2
        (child (mg.applyMove s h co t u) c2).2
      omega
    split_ifs <;> first | exact key2 | exact key _ _ _

/-- Node for node, the alpha-beta search counts no more than the unpruned search. -/
theorem AlphaBetaBot.ab_searchFromCounted_le (mg : MoveGenerator) (player : Int)
    (hp : player = 1 ∨ player = 2) (n : Nat) :
    ∀ (s : GameState) (α β : Score) (f : Bool) (c : AlphaBetaBot.Counters) (c2 : Int),
      (∀ t, Reachable mg s t → t.current_player = 1 ∨ t.current_player = 2) →
      (AlphaBetaBot.searchFromCounted mg player n s α β f c).2.nodes_explored -
          c.nodes_explored ≤
        (IterativeDeepeningDFSBot.dfsLimitedFromCounted mg player n s c2).2 - c2 := by
  induction n with
  | zero =>
    intro s α β f c c2 _
    cases hT : s.isGameOver
    · rw [AlphaBetaBot.ab_searchFromCounted_zero mg player s α β f c hT,
        IterativeDeepeningDFSBot.id_dfsLimitedFromCounted_zero mg player s c2 hT]
      simp
    · rw [AlphaBetaBot.ab_searchFromCounted_terminal mg player 0 s α β f c hT,
        IterativeDeepeningDFSBot.id_dfsLimitedFromCounted_terminal mg player 0 s c2 hT]
      simp
  | succ n ih =>
    intro s α β f c c2 hgood
    cases hT : s.isGameOver
    · have hchild : ∀ m ∈ mg.getAllMoves s s.current_player, ∀ a b f c c2,
          ((fun t a b f c =>
            ((AlphaBetaBot.searchFromCounted mg player n t a b f c).1.1,
              (AlphaBetaBot.searchFromCounted mg player n t a b f c).2))
            (mg.play s m) a b f c).2.nodes_explored - c.nodes_explored ≤
          ((fun t c =>
            ((IterativeDeepeningDFSBot.dfsLimitedFromCounted mg player n t c).1.1,
              (IterativeDeepeningDFSBot.dfsLimitedFromCounted mg player n t c).2))
            (mg.play s m) c2).2 - c2 := by
        intro m hm a b f c c2
        exact ih (mg.play s m) a b f c c2
          (fun t ht => hgood t (Reachable.trans_play mg s m hT hm t ht))
      have hmono : ∀ m ∈ mg.getAllMoves s s.current_player, ∀ c : Int,
          c ≤ ((fun t c =>
            ((IterativeDeepeningDFSBot.dfsLimitedFromCounted mg player n t c).1.1,
              (IterativeDeepeningDFSBot.dfsLimitedFromCounted mg player n t c).2))
            (mg.play s m) c).2 := by
        intro m _ c
        exact le_trans (by omega)
          (IterativeDeepeningDFSBot.id_dfsLimitedFromCounted_mono mg player n (mg.play s m) c)
      have hlist : (if s.current_player = player then mg.getAllMoves s player
          else mg.getAllMoves s (3 - player)) = mg.getAllMoves s s.current_player := by
        split_ifs with hcp
        · rw [hcp]
        · have hopp : s.current_player = 3 - player := by
            rcases hgood s Reachable.root with h1 | h1 <;> rcases hp with h2 | h2 <;> omega
          rw [hopp]
      have hfull : (IterativeDeepeningDFSBot.dfsLimitedFromCounted mg player (n + 1) s c2).2 =
          (mg.getAllMoves s s.current_player).foldl
            (fun c m => (IterativeDeepeningDFSBot.dfsLimitedFromCounted mg player n
              (mg.play s m) c).2) (c2 + 1) := by
        rw [← hlist]
        by_cases hcp : s.current_player = player
        · rw [IterativeDeepeningDFSBot.id_dfsLimitedFromCounted_succ_max mg player n s c2 hT hcp,
            IterativeDeepeningDFSBot.id_maxLoopCounted_snd, if_pos hcp]
        · rw [IterativeDeepeningDFSBot.id_dfsLimitedFromCounted_succ_min mg player n s c2 hT hcp,
            IterativeDeepeningDFSBot.id_minLoopCounted_snd, if_neg hcp]
      rw [hfull]
      cases f
      · rw [AlphaBetaBot.ab_searchFromCounted_succ_min mg player n s α β c hT]
        have := AlphaBetaBot.ab_minLoopCounted_le mg s player
          (fun t a b f c =>
            ((AlphaBetaBot.searchFromCounted mg player n t a b f c).1.1,
              (AlphaBetaBot.searchFromCounted mg player n t a b f c).2))
          (fun t c =>
            ((IterativeDeepeningDFSBot.dfsLimitedFromCounted mg player n t c).1.1,
              (IterativeDeepeningDFSBot.dfsLimitedFromCounted mg player n t c).2))
          α _ hchild hmono
          Score.posInf Move.none β { c with nodes_explored := c.nodes_explored + 1 } (c2 + 1)
        simp only [] at this
        omega
      · rw [AlphaBetaBot.ab_searchFromCounted_succ_max mg player n s α β c hT]
        have := AlphaBetaBot.ab_maxLoopCounted_le mg s player
          (fun t a b f c =>
            ((AlphaBetaBot.searchFromCounted mg player n t a b f c).1.1,
              (AlphaBetaBot.searchFromCounted mg player n t a b f c).2))
          (fun t c =>
            ((IterativeDeepeningDFSBot.dfsLimitedFromCounted mg player n t c).1.1,
              (IterativeDeepeningDFSBot.dfsLimitedFromCounted mg player n t c).2))
          β _ hchild hmono
          Score.negInf Move.none α { c with nodes_explored := c.nodes_explored + 1 } (c2 + 1)
        simp only [] at this
        omega
    · rw [AlphaBetaBot.ab_searchFromCounted_terminal mg player (n + 1) s α β f c hT,
        IterativeDeepeningDFSBot.id_dfsLimitedFromCounted_terminal mg player (n + 1) s c2 hT]
      simp

/-! ## The breadth-first frontier, level by level -/

theorem BFSBot.bfs_expand_nil (mg : MoveGenerator) (player : Int) :
    BFSBot.expand mg player [] = [] := rfl

theorem BFSBot.bfs_expand_cons (mg : MoveGenerator) (player : Int) (x : BFSBot.QueueItem)
    (rest : List BFSBot.QueueItem) :
    BFSBot.expand mg player (x :: rest) =
      (if x.state.current_player = player then BFSBot.children mg player x else []) ++
        BFSBot.expand mg player rest := by
  simp [BFSBot.expand]

theorem BFSBot.bfs_expand_append (mg : MoveGenerator) (player : Int)
    (a b : List BFSBot.QueueItem) :
    BFSBot.expand mg player (a ++ b) = BFSBot.expand mg player a ++ BFSBot.expand mg player b := by
  simp [BFSBot.expand]

theorem BFSBot.bfs_levelFrom_nil (mg : MoveGenerator) (player : Int) (k : Nat) :
    BFSBot.levelFrom mg player k [] = [] := by
  induction k with
  | zero => rfl
  | succ k ih => simpa [BFSBot.levelFrom, BFSBot.bfs_expand_nil] using ih

theorem BFSBot.bfs_levelFrom_append (mg : MoveGenerator) (player : Int) (k : Nat) :
    ∀ a b : List BFSBot.QueueItem,
      BFSBot.levelFrom mg player k (a ++ b) =
        BFSBot.levelFrom mg player k a ++ BFSBot.levelFrom mg player k b := by
  induction k with
  | zero => intro a b; rfl
  | succ k ih =>
    intro a b
    simp only [BFSBot.levelFrom, BFSBot.bfs_expand_append]
    exact ih _ _

theorem BFSBot.bfs_levelFrom_flatMap (mg : MoveGenerator) (player : Int) (k : Nat)
    (f : MoveTuple → BFSBot.QueueItem) (ms : List MoveTuple) :
    BFSBot.levelFrom mg player k (ms.map f) =
      ms.flatMap (fun m => BFSBot.levelFrom mg player k [f m]) := by
  induction ms with
  | nil => simpa using BFSBot.bfs_levelFrom_nil mg player k
  | cons m rest ih =>
    have h : (m :: rest).map f = [f m] ++ rest.map f := rfl
    rw [h, BFSBot.bfs_levelFrom_append, ih]
    simp

theorem BFSBot.bfs_children_depth (mg : MoveGenerator) (player : Int) (x y : BFSBot.QueueItem)
    (hy : y ∈ BFSBot.children mg player x) : y.depth = x.depth + 1 := by
  simp only [BFSBot.children, List.mem_map] at hy
  obtain ⟨m, _, rfl⟩ := hy
  rfl

theorem BFSBot.bfs_children_valid (mg : MoveGenerator) (player : Int) (x y : BFSBot.QueueItem)
    (hy : y ∈ BFSBot.children mg player x) : y.first_move.valid = true := by
  simp only [BFSBot.children, List.mem_map] at hy
  obtain ⟨m, _, rfl⟩ := hy
  show (if x.first_move.valid = true then x.first_move else Move.make _ _ _ _).valid = true
  split_ifs with h
  · exact h
  · rfl

theorem BFSBot.bfs_children_tag (mg : MoveGenerator) (player : Int) (x y : BFSBot.QueueItem)
    (hx : x.first_move.valid = true) (hy : y ∈ BFSBot.children mg player x) :
    y.first_move = x.first_move := by
  simp only [BFSBot.children, List.mem_map] at hy
  obtain ⟨m, _, rfl⟩ := hy
  show (if x.first_move.valid = true then x.first_move else Move.make _ _ _ _) = x.first_move
  rw [if_pos hx]

theorem BFSBot.bfs_mem_expand (mg : MoveGenerator) (player : Int) (cur : List BFSBot.QueueItem)
    (y : BFSBot.QueueItem) (hy : y ∈ BFSBot.expand mg player cur) :
    ∃ x ∈ cur, y ∈ BFSBot.children mg player x := by
  simp only [BFSBot.expand, List.mem_flatMap] at hy
  obtain ⟨x, hx, hy⟩ := hy
  split_ifs at hy
  · exact ⟨x, hx, hy⟩
  · simp at hy

/-- The entries `k` levels below entries of depth `d0` have depth `d0 + k`. -/
theorem BFSBot.bfs_levelFrom_depth (mg : MoveGenerator) (player : Int) (k : Nat) :
    ∀ (cur : List BFSBot.QueueItem) (d0 : Int), (∀ x ∈ cur, x.depth = d0) →
      ∀ y ∈ BFSBot.levelFrom mg player k cur, y.depth = d0 + k := by
  induction k with
  | zero =>
    intro cur d0 h y hy
    simpa using h y hy
  | succ k ih =>
    intro cur d0 h y hy
    have := ih (BFSBot.expand mg player cur) (d0 + 1) (fun z hz => by
      obtain ⟨x, hx, hz⟩ := BFSBot.bfs_mem_expand mg player cur z hz
      rw [BFSBot.bfs_children_depth mg player x z hz, h x hx]) y hy
    rw [this]
    push_cast
    ring

/-- Every entry below valid-tagged entries keeps the tag of its ancestor. -/
theorem BFSBot.bfs_levelFrom_tag (mg : MoveGenerator) (player : Int) (mv : Move)
    (hmv : mv.valid = true) (k : Nat) :
    ∀ (cur : List BFSBot.QueueItem), (∀ x ∈ cur, x.first_move = mv) →
      ∀ y ∈ BFSBot.levelFrom mg player k cur, y.first_move = mv := by
  induction k with
  | zero => intro cur h y hy; exact h y hy
  | succ k ih =>
    intro cur h y hy
    exact ih (BFSBot.expand mg player cur) (fun z hz => by
      obtain ⟨x, hx, hz⟩ := BFSBot.bfs_mem_expand mg player cur z hz
      rw [BFSBot.bfs_children_tag mg player x z (by rw [h x hx]; exact hmv) hz, h x hx]) y hy

/-- Every entry at least one level below the start carries a valid tag. -/
theorem BFSBot.bfs_levelFrom_valid (mg : MoveGenerator) (player : Int) (k : Nat) :
    ∀ (cur : List BFSBot.QueueItem),
      ∀ y ∈ BFSBot.levelFrom mg player (k + 1) cur, y.first_move.valid = true := by
  induction k with
  | zero =>
    intro cur y hy
    obtain ⟨x, _, hy⟩ := BFSBot.bfs_mem_expand mg player cur y hy
    exact BFSBot.bfs_children_valid mg player x y hy
  | succ k ih =>
    intro cur y hy
    exact ih (BFSBot.expand mg player cur) y hy

theorem BFSBot.bfs_expand_root (mg : MoveGenerator) (player : Int) (state : GameState)
    (hcp : state.current_player = player) :
    BFSBot.expand mg player [BFSBot.rootItem state] =
      (mg.getAllMoves state player).map (BFSBot.childItem mg state) := by
  simp only [BFSBot.expand, List.flatMap_cons, List.flatMap_nil, List.append_nil,
    BFSBot.rootItem, hcp, if_true, BFSBot.children]
  apply List.map_congr_left
  intro m _
  rfl

theorem BFSBot.bfs_expand_root_other (mg : MoveGenerator) (player : Int) (state : GameState)
    (hcp : state.current_player ≠ player) :
    BFSBot.expand mg player [BFSBot.rootItem state] = [] := by
  simp [BFSBot.expand, BFSBot.rootItem, hcp]

/-! ## The loop, one level at a time -/

/-- Dequeuing the entries `cur`, none of them at the depth limit, leaves the rest of
the queue followed by the entries pushed meanwhile. -/
theorem BFSBot.bfs_loop_level (depth : Int) (mg : MoveGenerator) (player : Int) (f : Nat)
    (B : Score) (bm : Move) :
    ∀ (cur nxt : List BFSBot.QueueItem), (∀ x ∈ cur, x.depth ≠ depth) →
      BFSBot.loop depth mg player (cur.length + f) (cur ++ nxt) B bm =
        BFSBot.loop depth mg player f (nxt ++ BFSBot.expand mg player cur) B bm := by
  intro cur
  induction cur with
  | nil =>
    intro nxt _
    simp [BFSBot.bfs_expand_nil]
  | cons x rest ih =>
    intro nxt h
    have hx : ¬ (x.depth = depth) := h x (List.mem_cons_self _ _)
    have hrest : ∀ y ∈ rest, y.depth ≠ depth := fun y hy => h y (List.mem_cons_of_mem _ hy)
    have hfuel : (x :: rest).length + f = (rest.length + f) + 1 := by
      simp only [List.length_cons]; omega
    rw [hfuel, List.cons_append, BFSBot.bfs_expand_cons]
    simp only [BFSBot.loop, hx, if_false]
    split_ifs with hcp
    · rw [List.append_assoc, ih _ hrest, List.append_assoc]
    · rw [ih _ hrest, List.nil_append]

/-- Dequeuing `r` whole levels above the depth limit. -/
theorem BFSBot.bfs_loop_levels (depth : Int) (mg : MoveGenerator) (player : Int) (f : Nat)
    (B : Score) (bm : Move) (r : Nat) :
    ∀ (cur : List BFSBot.QueueItem) (d0 : Int), (∀ x ∈ cur, x.depth = d0) →
      d0 + r = depth →
      BFSBot.loop depth mg player (BFSBot.work mg player r cur + f) cur B bm =
        BFSBot.loop depth mg player f (BFSBot.levelFrom mg player r cur) B bm := by
  induction r with
  | zero =>
    intro cur d0 _ _
    simp [BFSBot.work, BFSBot.levelFrom]
  | succ r ih =>
    intro cur d0 h hd
    have hne : ∀ x ∈ cur, x.depth ≠ depth := fun x hx => by
      rw [h x hx]; push_cast at hd; omega
    have hfuel : BFSBot.work mg player (r + 1) cur + f =
        cur.length + (BFSBot.work mg player r (BFSBot.expand mg player cur) + f) := by
      simp only [BFSBot.work]; omega
    have h1 := BFSBot.bfs_loop_level depth mg player
      (BFSBot.work mg player r (BFSBot.expand mg player cur) + f) B bm cur [] hne
    rw [List.append_nil, List.nil_append] at h1
    rw [hfuel, h1]
    exact ih (BFSBot.expand mg player cur) (d0 + 1) (fun z hz => by
      obtain ⟨x, hx, hz⟩ := BFSBot.bfs_mem_expand mg player cur z hz
      rw [BFSBot.bfs_children_depth mg player x z hz, h x hx]) (by push_cast at hd ⊢; omega)

/-! ## The scoring pass over the entries at the depth limit -/

/-- Entries that do not beat the best score leave the best move as it is. -/
theorem BFSBot.bfs_loop_no_update (depth : Int) (mg : MoveGenerator) (player : Int)
    (B : Score) (bm : Move) :
    ∀ (q : List BFSBot.QueueItem) (fuel : Nat), q.length ≤ fuel →
      (∀ x ∈ q, x.depth = depth ∧
        (evaluate x.state player ≤ B ∨ x.first_move.valid = false)) →
      BFSBot.loop depth mg player fuel q B bm = some bm := by
  intro q
  induction q with
  | nil => intro fuel _ _; exact BFSBot.bfs_loop_nil depth mg player fuel B bm
  | cons x rest ih =>
    intro fuel hfuel h
    obtain ⟨f, rfl⟩ : ∃ f, fuel = f + 1 := ⟨fuel - 1, by simp at hfuel; omega⟩
    have hx := h x (List.mem_cons_self _ _)
    have hno : ¬ (evaluate x.state player > B ∧ x.first_move.valid = true) := by
      rintro ⟨h1, h2⟩
      rcases hx.2 with h3 | h3
      · exact absurd h1 (not_lt.mpr h3)
      · rw [h2] at h3; exact absurd h3 (by decide)
    simp only [BFSBot.loop, hx.1, if_true, hno, if_false]
    exact ih f (by simp at hfuel; omega) (fun y hy => h y (List.mem_cons_of_mem _ hy))

/-- The first entry with the greatest score decides the scoring pass. -/
theorem BFSBot.bfs_loop_first_max (depth : Int) (mg : MoveGenerator) (player : Int)
    (it : BFSBot.QueueItem) (l2 : List BFSBot.QueueItem) (hit : it.depth = depth)
    (hvalid : it.first_move.valid = true)
    (hl2 : ∀ x ∈ l2, x.depth = depth ∧ evaluate x.state player ≤ evaluate it.state player) :
    ∀ (l1 : List BFSBot.QueueItem) (fuel : Nat) (B : Score) (bm : Move),
      (l1 ++ it :: l2).length ≤ fuel →
      (∀ x ∈ l1, x.depth = depth ∧ evaluate x.state player < evaluate it.state player) →
      B < evaluate it.state player →
      BFSBot.loop depth mg player fuel (l1 ++ it :: l2) B bm = some it.first_move := by
  intro l1
  induction l1 with
  | nil =>
    intro fuel B bm hfuel _ hB
    obtain ⟨f, rfl⟩ : ∃ f, fuel = f + 1 := ⟨fuel - 1, by simp at hfuel; omega⟩
    have hyes : evaluate it.state player > B ∧ it.first_move.valid = true := ⟨hB, hvalid⟩
    simp only [List.nil_append, BFSBot.loop, hit, if_true, hyes, and_self]
    exact BFSBot.bfs_loop_no_update depth mg player _ _ l2 f (by simp at hfuel; omega)
      (fun y hy => ⟨(hl2 y hy).1, Or.inl (hl2 y hy).2⟩)
  | cons x rest ih =>
    intro fuel B bm hfuel h hB
    obtain ⟨f, rfl⟩ : ∃ f, fuel = f + 1 := ⟨fuel - 1, by simp at hfuel; omega⟩
    have hx := h x (List.mem_cons_self _ _)
    have hrest : ∀ y ∈ rest,
        y.depth = depth ∧ evaluate y.state player < evaluate it.state player :=
      fun y hy => h y (List.mem_cons_of_mem _ hy)
    have hf : (rest ++ it :: l2).length ≤ f := by
      simp only [List.cons_append, List.length_cons] at hfuel; omega
    simp only [List.cons_append, BFSBot.loop, hx.1, if_true]
    split_ifs
    · exact ih f _ _ hf hrest hx.2
    · exact ih f _ _ hf hrest hB

/-- A non-empty list has a first greatest element. -/
theorem BFSBot.bfs_exists_first_max (player : Int) :
    ∀ (L : List BFSBot.QueueItem), L ≠ [] →
      ∃ l1 it l2, L = l1 ++ it :: l2 ∧
        (∀ x ∈ l1, evaluate x.state player < evaluate it.state player) ∧
        (∀ x ∈ l2, evaluate x.state player ≤ evaluate it.state player) := by
  intro L
  induction L with
  | nil => intro h; exact absurd rfl h
  | cons x rest ih =>
    intro _
    by_cases hrest : rest = []
    · subst hrest
      exact ⟨[], x, [], rfl, by simp, by simp⟩
    · obtain ⟨l1, it, l2, hL, h1, h2⟩ := ih hrest
      by_cases hlt : evaluate x.state player < evaluate it.state player
      · refine ⟨x :: l1, it, l2, by rw [hL]; rfl, ?_, h2⟩
        intro y hy
        rcases List.mem_cons.mp hy with rfl | hy
        · exact hlt
        · exact h1 y hy
      · have hle : evaluate it.state player ≤ evaluate x.state player := not_lt.mp hlt
        refine ⟨[], x, rest, rfl, by simp, ?_⟩
        intro y hy
        rw [hL] at hy
        rcases List.mem_append.mp hy with hy | hy
        · exact le_trans (le_of_lt (h1 y hy)) hle
        · rcases List.mem_cons.mp hy with rfl | hy
          · exact hle
          · exact le_trans (h2 y hy) hle

/-! ## The searches with counters return the results of the searches without -/

theorem AlphaBetaBot.ab_maxLoopCounted_fst (mg : MoveGenerator) (s : GameState) (player : Int)
    (childC : GameState → Score → Score → Bool → AlphaBetaBot.Counters →
      Score × AlphaBetaBot.Counters)
    (child : GameState → Score → Score → Bool → Score) (β : Score) (ms : List MoveTuple)
    (hchild : ∀ m ∈ ms, ∀ a b f c, (childC (mg.play s m) a b f c).1 = child (mg.play s m) a b f) :
    ∀ (M : Score) (bm : Move) (a : Score) (c : AlphaBetaBot.Counters),
      (AlphaBetaBot.maxLoopCounted mg s player childC β ms M bm a c).1 =
        AlphaBetaBot.maxLoop mg s player child β ms M bm a := by
  induction ms with
  | nil => intro M bm a c; rfl
  | cons m rest ih =>
    intro M bm a c
    have h1 := hchild m (List.mem_cons_self _ _)
    have hrest := ih (fun m2 hm2 => hchild m2 (List.mem_cons_of_mem _ hm2))
    obtain ⟨h, co, t, u⟩ := m
    simp only [MoveGenerator.play] at h1
    simp only [AlphaBetaBot.maxLoopCounted, AlphaBetaBot.maxLoop, h1]
    split_ifs <;> first | rfl | exact hrest _ _ _ _

theorem AlphaBetaBot.ab_minLoopCounted_fst (mg : MoveGenerator) (s : GameState) (player : Int)
    (childC : GameState → Score → Score → Bool → AlphaBetaBot.Counters →
      Score × AlphaBetaBot.Counters)
    (child : GameState → Score → Score → Bool → Score) (α : Score) (ms : List MoveTuple)
    (hchild : ∀ m ∈ ms, ∀ a b f c, (childC (mg.play s m) a b f c).1 = child (mg.play s m) a b f) :
    ∀ (M : Score) (bm : Move) (b : Score) (c : AlphaBetaBot.Counters),
      (AlphaBetaBot.minLoopCounted mg s player childC α ms M bm b c).1 =
        AlphaBetaBot.minLoop mg s player child α ms M bm b := by
  induction ms with
  | nil => intro M bm b c; rfl
  | cons m rest ih =>
    intro M bm b c
    have h1 := hchild m (List.mem_cons_self _ _)
    have hrest := ih (fun m2 hm2 => hchild m2 (List.mem_cons_of_mem _ hm2))
    obtain ⟨h, co, t, u⟩ := m
    simp only [MoveGenerator.play] at h1
    simp only [AlphaBetaBot.minLoopCounted, AlphaBetaBot.minLoop, h1]
    split_ifs <;> first | rfl | exact hrest _ _ _ _

theorem AlphaBetaBot.ab_searchFromCounted_fst (mg : MoveGenerator) (player : Int) (n : Nat) :
    ∀ (s : GameState) (α β : Score) (f : Bool) (c : AlphaBetaBot.Counters),
      (AlphaBetaBot.searchFromCounted mg player n s α β f c).1 =
        AlphaBetaBot.searchFrom mg player n s α β f := by
  induction n with
  | zero =>
    intro s α β f c
    cases hT : s.isGameOver
    · rw [AlphaBetaBot.ab_searchFromCounted_zero mg player s α β f c hT,
        AlphaBetaBot.ab_searchFrom_zero mg player s α β f hT]
    · rw [AlphaBetaBot.ab_searchFromCounted_terminal mg player 0 s α β f c hT,
        AlphaBetaBot.ab_searchFrom_terminal mg player 0 s α β f hT]
  | succ n ih =>
    intro s α β f c
    cases hT : s.isGameOver
    · cases f
      · rw [AlphaBetaBot.ab_searchFromCounted_succ_min mg player n s α β c hT,
          AlphaBetaBot.ab_searchFrom_succ_min mg player n s α β hT]
        exact AlphaBetaBot.ab_minLoopCounted_fst mg s player _ _ α _
          (fun m _ a b f c => by simp only [ih]) _ _ _ _
      · rw [AlphaBetaBot.ab_searchFromCounted_succ_max mg player n s α β c hT,
          AlphaBetaBot.ab_searchFrom_succ_max mg player n s α β hT]
        exact AlphaBetaBot.ab_maxLoopCounted_fst mg s player _ _ β _
          (fun m _ a b f c => by simp only [ih]) _ _ _ _
    · rw [AlphaBetaBot.ab_searchFromCounted_terminal mg player (n + 1) s α β f c hT,
        AlphaBetaBot.ab_searchFrom_terminal mg player (n + 1) s α β f hT]

theorem IterativeDeepeningDFSBot.id_maxLoopCounted_fst (mg : MoveGenerator) (s : GameState)
    (childC : GameState → Int → Score × Int) (child : GameState → Score)
    (ms : List MoveTuple)
    (hchild : ∀ m ∈ ms, ∀ c, (childC (mg.play s m) c).1 = child (mg.play s m)) :
    ∀ (B : Score) (bm : Move) (c : Int),
      (IterativeDeepeningDFSBot.maxLoopCounted mg s childC ms B bm c).1 =
        IterativeDeepeningDFSBot.maxLoop mg s child ms B bm := by
  induction ms with
  | nil => intro B bm c; rfl
  | cons m rest ih =>
    intro B bm c
    have h1 := hchild m (List.mem_cons_self _ _)
    have hrest := ih (fun m2 hm2 => hchild m2 (List.mem_cons_of_mem _ hm2))
    obtain ⟨h, co, t, u⟩ := m
    simp only [MoveGenerator.play] at h1
    simp only [IterativeDeepeningDFSBot.maxLoopCounted, IterativeDeepeningDFSBot.maxLoop, h1]
    split_ifs <;> exact hrest _ _ _

theorem IterativeDeepeningDFSBot.id_minLoopCounted_fst (mg : MoveGenerator) (s : GameState)
    (childC : GameState → Int → Score × Int) (child : GameState → Score)
    (ms : List MoveTuple)
    (hchild : ∀ m ∈ ms, ∀ c, (childC (mg.play s m) c).1 = child (mg.play s m)) :
    ∀ (B : Score) (bm : Move) (c : Int),
      (IterativeDeepeningDFSBot.minLoopCounted mg s childC ms B bm c).1 =
        IterativeDeepeningDFSBot.minLoop mg s child ms B bm := by
  induction ms with
  | nil => intro B bm c; rfl
  | cons m rest ih =>
    intro B bm c
    have h1 := hchild m (List.mem_cons_self _ _)
    have hrest := ih (fun m2 hm2 => hchild m2 (List.mem_cons_of_mem _ hm2))
    obtain ⟨h, co, t, u⟩ := m
    simp only [MoveGenerator.play] at h1
    simp only [IterativeDeepeningDFSBot.minLoopCounted, IterativeDeepeningDFSBot.minLoop, h1]
    split_ifs <;> exact hrest _ _ _

theorem IterativeDeepeningDFSBot.id_dfsLimitedFromCounted_fst (mg : MoveGenerator)
    (player : Int) (n : Nat) :
    ∀ (s : GameState) (c : Int),
      (IterativeDeepeningDFSBot.dfsLimitedFromCounted mg player n s c).1 =
        IterativeDeepeningDFSBot.dfsLimitedFrom mg player n s := by
  induction n with
  | zero =>
    intro s c
    cases hT : s.isGameOver <;>
      simp [IterativeDeepeningDFSBot.dfsLimitedFromCounted,
        IterativeDeepeningDFSBot.dfsLimitedFrom, isTerminal, hT]
  | succ n ih =>
    intro s c
    cases hT : s.isGameOver
    · by_cases hcp : s.current_player = player
      · rw [IterativeDeepeningDFSBot.id_dfsLimitedFromCounted_succ_max mg player n s c hT hcp]
        simp only [IterativeDeepeningDFSBot.dfsLimitedFrom, isTerminal, hT, hcp, if_true,
          Bool.false_eq_true, if_false]
        exact IterativeDeepeningDFSBot.id_maxLoopCounted_fst mg s _ _ _
          (fun m _ c => by simp only [ih]) _ _ _
      · rw [IterativeDeepeningDFSBot.id_dfsLimitedFromCounted_succ_min mg player n s c hT hcp]
        simp only [IterativeDeepeningDFSBot.dfsLimitedFrom, isTerminal, hT, hcp,
          Bool.false_eq_true, if_false]
        exact IterativeDeepeningDFSBot.id_minLoopCounted_fst mg s _ _ _
          (fun m _ c => by simp only [ih]) _ _ _
    · simp [IterativeDeepeningDFSBot.id_dfsLimitedFromCounted_terminal mg player (n + 1) s c hT,
        IterativeDeepeningDFSBot.dfsLimitedFrom, isTerminal, hT]

/-! ## Breadth-first search when every root move hands over the turn -/

/-- Entries above the depth limit in which the opponent is to move are dequeued
without any effect. -/
theorem BFSBot.bfs_loop_dropped (depth : Int) (mg : MoveGenerator) (player : Int)
    (B : Score) (bm : Move) :
    ∀ (q : List BFSBot.QueueItem) (fuel : Nat), q.length ≤ fuel →
      (∀ x ∈ q, x.depth ≠ depth ∧ x.state.current_player ≠ player) →
      BFSBot.loop depth mg player fuel q B bm = some bm := by
  intro q
  induction q with
  | nil => intro fuel _ _; exact BFSBot.bfs_loop_nil depth mg player fuel B bm
  | cons x rest ih =>
    intro fuel hfuel h
    obtain ⟨f, rfl⟩ : ∃ f, fuel = f + 1 := ⟨fuel - 1, by simp at hfuel; omega⟩
    have hx := h x (List.mem_cons_self _ _)
    have h1 : ¬ (x.depth = depth) := hx.1
    have h2 : ¬ (x.state.current_player = player) := hx.2
    simp only [BFSBot.loop, h1, h2, if_false]
    exact ih f (by simp at hfuel; omega) (fun y hy => h y (List.mem_cons_of_mem _ hy))

/-! ## Claims C11 to C20 -/

/-- C11. The move kept by iterative deepening: `IterativeDeepeningDFSBot(max_depth).search`
returns the move of `dfsLimited(position, player, d)` for the largest depth limit `d` in
`1..max_depth` whose move is valid (invalid moves of later iterations do not overwrite
it), and the invalid move `Move()` when no depth limit in `1..max_depth` gives a valid
move, in particular when `max_depth <= 0`. -/
theorem iterative_deepening_last_valid (max_depth : Int) (mg : MoveGenerator)
    (state : GameState) (player : Int) (_hplayer : player = 1 ∨ player = 2) :
    (∀ d : Int, 1 ≤ d → d ≤ max_depth →
      (IterativeDeepeningDFSBot.dfsLimited mg state player d 0).2.valid = true →
      (∀ e : Int, d < e → e ≤ max_depth →
        (IterativeDeepeningDFSBot.dfsLimited mg state player e 0).2.valid = false) →
      IterativeDeepeningDFSBot.search max_depth mg state player =
        (IterativeDeepeningDFSBot.dfsLimited mg state player d 0).2) ∧
    ((∀ d : Int, 1 ≤ d → d ≤ max_depth →
        (IterativeDeepeningDFSBot.dfsLimited mg state player d 0).2.valid = false) →
      IterativeDeepeningDFSBot.search max_depth mg state player = Move.none) ∧
    (max_depth ≤ 0 → IterativeDeepeningDFSBot.search max_depth mg state player = Move.none) ∧
    Move.none.valid = false := by
  refine ⟨?_, ?_, ?_, rfl⟩
  · intro d hd1 hd2 hvalid hlater
    exact IterativeDeepeningDFSBot.id_search_largest_valid max_depth mg state player d hd1 hd2
      hvalid hlater
  · intro hnone
    exact IterativeDeepeningDFSBot.id_search_none_valid max_depth mg state player hnone
  · intro hmax
    exact IterativeDeepeningDFSBot.id_search_none_valid max_depth mg state player
      (fun d hd1 hd2 => absurd (le_trans hd1 (le_trans hd2 hmax)) (by decide))

theorem iterative_deepening_last_valid_witness :
    (IterativeDeepeningDFSBot.dfsLimited captureEngine (smallState 2 0 44 10 40 1 398) 1 1
      0).2.valid = true ∧
    (IterativeDeepeningDFSBot.dfsLimited captureEngine (smallState 2 0 44 10 40 1 398) 1 3
      0).2.valid = false ∧
    IterativeDeepeningDFSBot.search 3 captureEngine (smallState 2 0 44 10 40 1 398) 1 =
      (IterativeDeepeningDFSBot.dfsLimited captureEngine (smallState 2 0 44 10 40 1 398) 1 1
        0).2 :=
  ⟨by decide, by decide,
   (iterative_deepening_last_valid 3 captureEngine (smallState 2 0 44 10 40 1 398) 1
     (Or.inl rfl)).1 1 (by decide) (by decide) (by decide)
     (fun e he1 he2 => by
       have he : e = 2 ∨ e = 3 := by omega
       rcases he with rfl | rfl <;> decide)⟩

/-- Early resolution with a valid move: if for some `k` with `1 <= k < D` the depth-`k`
search never stops a line at the depth cutoff (every position `k` plies below the root is
finished, shorter lines ending in a finished game or in a position whose mover has no
legal move), then `dfsLimited` returns at every limit `d >= k` the score and move of
limit `k`, and `IterativeDeepeningDFSBot(D).getMove` returns that move when it is valid. -/
theorem early_resolution_of_valid_move (k D : Int) (hk : 1 ≤ k) (hkD : k < D)
    (mg : MoveGenerator) (state : GameState) (player : Int)
    (_hplayer : player = 1 ∨ player = 2)
    (hres : IterativeDeepeningDFSBot.neverCutOff mg player k.toNat state = true) :
    (∀ d : Int, k ≤ d →
      IterativeDeepeningDFSBot.dfsLimited mg state player d 0 =
        IterativeDeepeningDFSBot.dfsLimited mg state player k 0) ∧
    ((IterativeDeepeningDFSBot.dfsLimited mg state player k 0).2.valid = true →
      IterativeDeepeningDFSBot.getMove D mg state player =
        (IterativeDeepeningDFSBot.dfsLimited mg state player k 0).2) := by
  have hstable : ∀ d : Int, k ≤ d →
      IterativeDeepeningDFSBot.dfsLimited mg state player d 0 =
        IterativeDeepeningDFSBot.dfsLimited mg state player k 0 :=
    fun d hd => IterativeDeepeningDFSBot.id_dfsLimited_stable mg state player k d (by omega) hd hres
  refine ⟨hstable, ?_⟩
  intro hvalid
  unfold IterativeDeepeningDFSBot.getMove
  rw [← hstable D (le_of_lt hkD)] at hvalid ⊢
  exact IterativeDeepeningDFSBot.id_search_of_valid D (by omega) mg state player hvalid

/-- C12. The code does not do what is claimed on a position where every line is lost.  Two
moves before the move limit, player 1 is to move, the game is not finished and player 1
has a legal move; the depth-2 search never stops a line at the depth cutoff and, every
line being lost, scores the root minus infinity and returns `Move()` (the update test is
strict and `best_score` starts at minus infinity), at limit 3 as at limit 2.
`IterativeDeepeningDFSBot(3).getMove` returns the move `(1, RED)` found at depth 1, not
the move found at depth 2. -/
theorem early_resolution_keeps_shallower_move :
    (smallState 2 0 44 10 40 1 398).isGameOver = false ∧
    (smallState 2 0 44 10 40 1 398).current_player = 1 ∧
    captureEngine.getAllMoves (smallState 2 0 44 10 40 1 398) 1 =
      [(1, Color.RED, Color.RED, false)] ∧
    IterativeDeepeningDFSBot.neverCutOff captureEngine 1 (2 : Int).toNat
      (smallState 2 0 44 10 40 1 398) = true ∧
    IterativeDeepeningDFSBot.dfsLimited captureEngine (smallState 2 0 44 10 40 1 398) 1 1 0 =
      (Score.fin (-368), Move.make 1 Color.RED Color.RED false) ∧
    IterativeDeepeningDFSBot.dfsLimited captureEngine (smallState 2 0 44 10 40 1 398) 1 2 0 =
      (Score.negInf, Move.none) ∧
    IterativeDeepeningDFSBot.dfsLimited captureEngine (smallState 2 0 44 10 40 1 398) 1 3 0 =
      (Score.negInf, Move.none) ∧
    IterativeDeepeningDFSBot.getMove 3 captureEngine (smallState 2 0 44 10 40 1 398) 1 =
      Move.make 1 Color.RED Color.RED false ∧
    IterativeDeepeningDFSBot.getMove 3 captureEngine (smallState 2 0 44 10 40 1 398) 1 ≠
      (IterativeDeepeningDFSBot.dfsLimited captureEngine (smallState 2 0 44 10 40 1 398) 1 2
        0).2 := by
  decide

/-- C13. MinMaxBot behaves like plain minimax: for every depth, every player (1 or 2) and
every position, whoever is to move, `MinMaxBot(d).search(position, player, 0)` with the
default window returns the score and the move of `DFSBot(d).search(position, player, 0)`. -/
theorem minmax_equals_plain_minimax (depth : Int) (mg : MoveGenerator) (state : GameState)
    (player : Int) (_hplayer : player = 1 ∨ player = 2) :
    MinMaxBot.search depth mg state player 0 Score.negInf Score.posInf =
      DFSBot.search depth mg state player 0 := by
  unfold MinMaxBot.search DFSBot.search
  exact MinMaxBot.mm_searchFrom_root mg player _ state

theorem minmax_equals_plain_minimax_witness :
    MinMaxBot.search 2 captureEngine (smallState 20 10 30 20 16 2 10) 1 0 Score.negInf
        Score.posInf = (Score.fin (-120), Move.make 2 Color.RED Color.RED false) ∧
    MinMaxBot.search 2 captureEngine (smallState 20 10 30 20 16 2 10) 1 0 Score.negInf
        Score.posInf =
      DFSBot.search 2 captureEngine (smallState 20 10 30 20 16 2 10) 1 0 :=
  ⟨by decide,
   minmax_equals_plain_minimax 2 captureEngine (smallState 20 10 30 20 16 2 10) 1
     (Or.inl rfl)⟩

/-- C14. Pruning only reduces work: for every depth, player (1 or 2) and position whose
mover is the player (movers being 1 or 2 on all reachable positions), the value of
`nodes_explored` after `AlphaBetaBot::getMove`, whatever the counters held before, is at
most the value of `nodes_explored` after the unpruned `dfsLimited(position, player, depth)`
started from a zero counter; both searches with counters return the results of the
corresponding searches without counters. -/
theorem pruning_only_reduces_work (depth : Int) (mg : MoveGenerator) (state : GameState)
    (player : Int) (counters : AlphaBetaBot.Counters) (hplayer : player = 1 ∨ player = 2)
    (_hturn : state.current_player = player)
    (hmovers : ∀ t, Reachable mg state t → t.current_player = 1 ∨ t.current_player = 2) :
    (AlphaBetaBot.getMoveCounted depth mg state player counters).2.nodes_explored ≤
      (IterativeDeepeningDFSBot.dfsLimitedCounted mg state player depth 0 0).2 ∧
    (AlphaBetaBot.getMoveCounted depth mg state player counters).1 =
      AlphaBetaBot.getMove depth mg state player ∧
    (IterativeDeepeningDFSBot.dfsLimitedCounted mg state player depth 0 0).1 =
      IterativeDeepeningDFSBot.dfsLimited mg state player depth 0 := by
  refine ⟨?_, ?_, ?_⟩
  · have h : ∀ n : Nat,
        (AlphaBetaBot.searchFromCounted mg player n state Score.negInf Score.posInf true
          { nodes_explored := 0, pruned_branches := 0 }).2.nodes_explored ≤
        (IterativeDeepeningDFSBot.dfsLimitedFromCounted mg player n state 0).2 := by
      intro n
      have h := AlphaBetaBot.ab_searchFromCounted_le mg player hplayer n state
        Score.negInf Score.posInf true { nodes_explored := 0, pruned_branches := 0 } 0 hmovers
      simp only [sub_zero] at h
      exact h
    exact h _
  · show (AlphaBetaBot.searchFromCounted mg player (depth - 0).toNat state Score.negInf
      Score.posInf true { nodes_explored := 0, pruned_branches := 0 }).1.2 = _
    rw [AlphaBetaBot.ab_searchFromCounted_fst]
    rfl
  · exact IterativeDeepeningDFSBot.id_dfsLimitedFromCounted_fst mg player _ state 0

theorem pruning_only_reduces_work_witness :
    (AlphaBetaBot.getMoveCounted 2 captureEngine (smallState 20 10 30 20 16 1 10) 1
      { nodes_explored := 7, pruned_branches := 7 }).2.nodes_explored ≤
      (IterativeDeepeningDFSBot.dfsLimitedCounted captureEngine
        (smallState 20 10 30 20 16 1 10) 1 2 0 0).2 :=
  (pruning_only_reduces_work 2 captureEngine (smallState 20 10 30 20 16 1 10) 1
    { nodes_explored := 7, pruned_branches := 7 } (Or.inl rfl) rfl
    (captureEngine_movers (smallState 20 10 30 20 16 1 10) (Or.inl rfl))).1

/-- C15. The code does not do what is claimed: `BFSBot::search` neither scores nor expands
a frontier entry above the depth limit in which the opponent is to move. For every depth
of at least 2, on a non-terminal root whose mover is the querying player, with legal
moves that all hand the turn to the opponent, `BFSBot::getMove` returns the invalid
move `Move()` (given fuel for one iteration per legal move plus one). -/
theorem bfs_drops_opponent_turn_entries (depth : Int) (hdepth : 2 ≤ depth)
    (mg : MoveGenerator) (state : GameState) (player : Int) (fuel : Nat)
    (_hplayer : player = 1 ∨ player = 2) (hT : state.isGameOver = false)
    (hturn : state.current_player = player) (_hmoves : mg.getAllMoves state player ≠ [])
    (hpass : ∀ m ∈ mg.getAllMoves state player, (mg.play state m).current_player ≠ player)
    (hfuel : (mg.getAllMoves state player).length + 1 ≤ fuel) :
    BFSBot.getMove depth mg fuel state player = some Move.none := by
  obtain ⟨f, rfl⟩ : ∃ f, fuel = f + 1 := ⟨fuel - 1, by omega⟩
  unfold BFSBot.getMove BFSBot.search
  have hd0 : ¬ ((0 : Int) = depth) := by omega
  simp only [isTerminal, hT, Bool.false_eq_true, if_false, BFSBot.loop, hd0, hturn, if_true,
    List.nil_append]
  apply BFSBot.bfs_loop_dropped depth mg player _ _ _ f
  · simp only [BFSBot.children, List.length_map]; omega
  · intro x hx
    have hdx := BFSBot.bfs_children_depth mg player _ x hx
    simp only [BFSBot.children, List.mem_map] at hx
    obtain ⟨m, hm, rfl⟩ := hx
    refine ⟨?_, hpass m hm⟩
    simp only at hdx ⊢
    omega

theorem bfs_drops_opponent_turn_entries_witness :
    GameState.init.isGameOver = false ∧
    captureEngine.getAllMoves GameState.init 1 ≠ [] ∧
    BFSBot.getMove 2 captureEngine 33 GameState.init 1 = some Move.none :=
  ⟨by decide, by decide,
   bfs_drops_opponent_turn_entries 2 (by decide) captureEngine GameState.init 1 33
     (Or.inl rfl) (by decide) rfl (by decide) (by decide) (by decide)⟩

/-- C16. BFSBot selection rule. On a non-terminal root, with `levelFrom d [root]` the
entries at the depth limit `d` in the order in which they are dequeued (level order,
`getAllMoves` order), and fuel for every iteration of the loop: `BFSBot(d).search` returns
the tag of the first entry whose `evaluate` is the greatest (later entries with the same
score do not replace it), a valid move, for `d >= 1`; such an entry exists whenever an
entry is scored; the result is `Move()` when none is scored or `d = 0`; the scored
entries are those below the root moves, in the order of the root moves, and every
entry below a root move carries that move as its tag. -/
theorem bfs_selection_rule (d : Nat) (mg : MoveGenerator) (state : GameState) (player : Int)
    (fuel : Nat) (_hplayer : player = 1 ∨ player = 2) (hT : state.isGameOver = false)
    (hfuel : BFSBot.work mg player d [BFSBot.rootItem state] +
      (BFSBot.levelFrom mg player d [BFSBot.rootItem state]).length ≤ fuel) :
    (∀ l1 it l2, 1 ≤ d →
      BFSBot.levelFrom mg player d [BFSBot.rootItem state] = l1 ++ it :: l2 →
      (∀ x ∈ l1, evaluate x.state player < evaluate it.state player) →
      (∀ x ∈ l2, evaluate x.state player ≤ evaluate it.state player) →
      BFSBot.search d mg fuel state player = some it.first_move ∧
        it.first_move.valid = true) ∧
    (BFSBot.levelFrom mg player d [BFSBot.rootItem state] ≠ [] →
      ∃ l1 it l2, BFSBot.levelFrom mg player d [BFSBot.rootItem state] = l1 ++ it :: l2 ∧
        (∀ x ∈ l1, evaluate x.state player < evaluate it.state player) ∧
        (∀ x ∈ l2, evaluate x.state player ≤ evaluate it.state player)) ∧
    (BFSBot.levelFrom mg player d [BFSBot.rootItem state] = [] ∨ d = 0 →
      BFSBot.search d mg fuel state player = some Move.none) ∧
    (∀ r : Nat, d = r + 1 → state.current_player = player →
      BFSBot.levelFrom mg player d [BFSBot.rootItem state] =
        (mg.getAllMoves state player).flatMap
          (fun m => BFSBot.levelFrom mg player r [BFSBot.childItem mg state m])) ∧
    (∀ (m : MoveTuple) (r : Nat),
      ∀ it ∈ BFSBot.levelFrom mg player r [BFSBot.childItem mg state m],
        it.first_move = m.toMove ∧ it.depth = r + 1) := by
  obtain ⟨f, rfl⟩ : ∃ f, fuel = BFSBot.work mg player d [BFSBot.rootItem state] + f :=
    ⟨fuel - BFSBot.work mg player d [BFSBot.rootItem state], by omega⟩
  have hf : (BFSBot.levelFrom mg player d [BFSBot.rootItem state]).length ≤ f := by omega
  have hroot : ∀ x ∈ [BFSBot.rootItem state], x.depth = 0 := by
    intro x hx
    rw [List.mem_singleton.mp hx]
    rfl
  have hdepth := BFSBot.bfs_levelFrom_depth mg player d [BFSBot.rootItem state] 0 hroot
  have hsearch : BFSBot.search d mg (BFSBot.work mg player d [BFSBot.rootItem state] + f)
      state player =
      BFSBot.loop d mg player f (BFSBot.levelFrom mg player d [BFSBot.rootItem state])
        Score.negInf Move.none := by
    unfold BFSBot.search
    simp only [isTerminal, hT, Bool.false_eq_true, if_false]
    exact BFSBot.bfs_loop_levels d mg player f Score.negInf Move.none d [BFSBot.rootItem state] 0
      hroot (by omega)
  refine ⟨?_, ?_, ?_, ?_, ?_⟩
  · intro l1 it l2 hd hL h1 h2
    obtain ⟨r, rfl⟩ : ∃ r, d = r + 1 := ⟨d - 1, by omega⟩
    have hmem : ∀ x, x ∈ l1 ++ it :: l2 →
        x ∈ BFSBot.levelFrom mg player (r + 1) [BFSBot.rootItem state] := by
      intro x hx; rw [hL]; exact hx
    have hd2 : ∀ x, x ∈ l1 ++ it :: l2 → x.depth = ((r + 1 : Nat) : Int) := by
      intro x hx
      rw [hdepth x (hmem x hx)]
      omega
    have hit : it ∈ l1 ++ it :: l2 := by simp
    have hvalid : it.first_move.valid = true :=
      BFSBot.bfs_levelFrom_valid mg player r _ it (hmem it hit)
    refine ⟨?_, hvalid⟩
    rw [hsearch, hL]
    rw [hL] at hf
    exact BFSBot.bfs_loop_first_max _ mg player it l2 (hd2 it hit) hvalid
      (fun x hx => ⟨hd2 x (by simp [hx]), h2 x hx⟩) l1 f Score.negInf Move.none hf
      (fun x hx => ⟨hd2 x (by simp [hx]), h1 x hx⟩) (Score.negInf_lt_fin _)
  · exact BFSBot.bfs_exists_first_max player _
  · intro h
    rw [hsearch]
    rcases h with h | h
    · rw [h]
      exact BFSBot.bfs_loop_nil _ mg player f _ _
    · subst h
      exact BFSBot.bfs_loop_no_update _ mg player _ _ _ f hf
        (fun x hx => ⟨by rw [hdepth x hx]; rfl, Or.inr (by
          rw [List.mem_singleton.mp hx]; rfl)⟩)
  · intro r hr hcp
    subst hr
    show BFSBot.levelFrom mg player r (BFSBot.expand mg player [BFSBot.rootItem state]) = _
    rw [BFSBot.bfs_expand_root mg player state hcp, BFSBot.bfs_levelFrom_flatMap]
  · intro m r it hit
    constructor
    · exact BFSBot.bfs_levelFrom_tag mg player m.toMove rfl r [BFSBot.childItem mg state m]
        (fun x hx => by rw [List.mem_singleton.mp hx]; rfl) it hit
    · have := BFSBot.bfs_levelFrom_depth mg player r [BFSBot.childItem mg state m] 1
        (fun x hx => by rw [List.mem_singleton.mp hx]; rfl) it hit
      rw [this]
      ring

theorem bfs_selection_rule_witness :
    BFSBot.search 2 (tableEngine (smallState 5 0 0 0 0 2 1) (smallState 1 1 0 0 0 1 1)) 5
        (smallState 1 1 0 0 0 1 0) 1 = some (Move.make 3 Color.BLUE Color.BLUE false) ∧
      (Move.make 3 Color.BLUE Color.BLUE false).valid = true :=
  (bfs_selection_rule 2 (tableEngine (smallState 5 0 0 0 0 2 1) (smallState 1 1 0 0 0 1 1))
    (smallState 1 1 0 0 0 1 0) 1 5 (Or.inl rfl) (by decide) (by decide)).1 []
    { state := smallState 5 0 0 0 0 2 1, depth := 2,
      first_move := Move.make 3 Color.BLUE Color.BLUE false }
    [{ state := smallState 1 1 0 0 0 1 1, depth := 2,
       first_move := Move.make 3 Color.BLUE Color.BLUE false }]
    (by decide) rfl (fun x hx => absurd hx (List.not_mem_nil x))
    (fun x hx => by rw [List.mem_singleton.mp hx]; decide)

/-- C17. End of the game: for every position with non-negative seed counts in which the
captured seeds and the seeds on the board add up to 96, `Evaluator::isTerminal`, which is
`GameState::isGameOver`, is true exactly when `move_count >= 400`, or a player has
captured 49 seeds or more, or both have captured 40 or more, or `getSeedsOnBoard()` is
below 10; the shortcut `96 - c1 - c2` of the code is the board count. -/
theorem isGameOver_conditions (state : GameState)
    (_hboard : ∀ hole ∈ GameState.holeKeys,
      0 ≤ state.holes hole Color.RED ∧ 0 ≤ state.holes hole Color.BLUE ∧
        0 ≤ state.holes hole Color.TRANSPARENT)
    (_hcaptured : 0 ≤ state.captured_seeds 1 ∧ 0 ≤ state.captured_seeds 2)
    (hsum : state.captured_seeds 1 + state.captured_seeds 2 + state.getSeedsOnBoard = 96) :
    (isTerminal state = true ↔
      (state.move_count ≥ 400 ∨ state.captured_seeds 1 ≥ 49 ∨ state.captured_seeds 2 ≥ 49 ∨
        (state.captured_seeds 1 ≥ 40 ∧ state.captured_seeds 2 ≥ 40) ∨
        state.getSeedsOnBoard < 10)) ∧
    isTerminal state = state.isGameOver ∧
    96 - state.captured_seeds 1 - state.captured_seeds 2 = state.getSeedsOnBoard := by
  refine ⟨?_, rfl, by omega⟩
  simp only [isTerminal, GameState.isGameOver]
  split_ifs <;> simp <;> omega

theorem isGameOver_conditions_witness :
    isTerminal (smallState 0 0 8 45 43 1 10) = true ∧
    (isTerminal GameState.init = true ↔
      (GameState.init.move_count ≥ 400 ∨ GameState.init.captured_seeds 1 ≥ 49 ∨
        GameState.init.captured_seeds 2 ≥ 49 ∨
        (GameState.init.captured_seeds 1 ≥ 40 ∧ GameState.init.captured_seeds 2 ≥ 40) ∨
        GameState.init.getSeedsOnBoard < 10)) :=
  ⟨(isGameOver_conditions (smallState 0 0 8 45 43 1 10) (by decide) (by decide)
      (by decide)).1.mpr (by decide),
   (isGameOver_conditions GameState.init (by decide) (by decide) (by decide)).1⟩

/-- The board count of a board with non-negative seed counts is non-negative. -/
theorem GameState.getSeedsOnBoard_nonneg (state : GameState)
    (hboard : ∀ hole ∈ GameState.holeKeys,
      0 ≤ state.holes hole Color.RED ∧ 0 ≤ state.holes hole Color.BLUE ∧
        0 ≤ state.holes hole Color.TRANSPARENT) :
    0 ≤ state.getSeedsOnBoard := by
  have h1 := hboard 1 (by decide)
  have h2 := hboard 2 (by decide)
  have h3 := hboard 3 (by decide)
  have h4 := hboard 4 (by decide)
  have h5 := hboard 5 (by decide)
  have h6 := hboard 6 (by decide)
  have h7 := hboard 7 (by decide)
  have h8 := hboard 8 (by decide)
  have h9 := hboard 9 (by decide)
  have h10 := hboard 10 (by decide)
  have h11 := hboard 11 (by decide)
  have h12 := hboard 12 (by decide)
  have h13 := hboard 13 (by decide)
  have h14 := hboard 14 (by decide)
  have h15 := hboard 15 (by decide)
  have h16 := hboard 16 (by decide)
  simp only [GameState.getSeedsOnBoard, GameState.holeKeys, List.foldl_cons, List.foldl_nil]
  omega

/-- C18. The winner agrees with the terminal score: for every position with non-negative
seed counts in which the captured seeds and the seeds on the board add up to 96, and
every player `p` in {1, 2}, `getWinner() = p` exactly when `getTerminalScore(position, p)`
is +infinity, and `getWinner() = 0` exactly when `getTerminalScore(position, p)` is 0. -/
theorem getWinner_agrees_with_terminal_score (state : GameState) (p : Int)
    (hp : p = 1 ∨ p = 2)
    (hboard : ∀ hole ∈ GameState.holeKeys,
      0 ≤ state.holes hole Color.RED ∧ 0 ≤ state.holes hole Color.BLUE ∧
        0 ≤ state.holes hole Color.TRANSPARENT)
    (hcaptured : 0 ≤ state.captured_seeds 1 ∧ 0 ≤ state.captured_seeds 2)
    (hsum : state.captured_seeds 1 + state.captured_seeds 2 + state.getSeedsOnBoard = 96) :
    (state.getWinner = p ↔ getTerminalScore state p = Score.posInf) ∧
    (state.getWinner = 0 ↔ getTerminalScore state p = Score.fin 0) := by
  have hb := GameState.getSeedsOnBoard_nonneg state hboard
  rcases hp with rfl | rfl
  · simp only [GameState.getWinner, getTerminalScore, show (3 : Int) - 1 = 2 by decide]
    constructor <;> split_ifs <;> simp <;> omega
  · simp only [GameState.getWinner, getTerminalScore, show (3 : Int) - 2 = 1 by decide]
    constructor <;> split_ifs <;> simp <;> omega

theorem getWinner_agrees_with_terminal_score_witness :
    (smallState 0 0 8 45 43 1 10).isGameOver = true ∧
    (smallState 0 0 8 45 43 1 10).getWinner = 1 ∧
    getTerminalScore (smallState 0 0 8 45 43 1 10) 1 = Score.posInf :=
  ⟨by decide, by decide,
   (getWinner_agrees_with_terminal_score (smallState 0 0 8 45 43 1 10) 1 (Or.inl rfl)
      (by decide) (by decide) (by decide)).1.mp (by decide)⟩

/-- C19. The documented draw rule is not the code: with 45 and 43 seeds captured, both
players have captured 40 seeds or more and the game is over by that rule, yet
`GameState::getWinner` returns 1, not 0. -/
theorem getWinner_ignores_draw_threshold :
    (smallState 0 0 8 45 43 1 10).captured_seeds 1 ≥ 40 ∧
    (smallState 0 0 8 45 43 1 10).captured_seeds 2 ≥ 40 ∧
    (smallState 0 0 8 45 43 1 10).captured_seeds 1 +
      (smallState 0 0 8 45 43 1 10).captured_seeds 2 +
      (smallState 0 0 8 45 43 1 10).getSeedsOnBoard = 96 ∧
    (smallState 0 0 8 45 43 1 10).isGameOver = true ∧
    (smallState 0 0 8 45 43 1 10).getWinner = 1 ∧
    (smallState 0 0 8 45 43 1 10).getWinner ≠ 0 := by
  decide

/-- C20. Hole partition: `getPlayerHoles(1)` is the list of the eight odd holes and
`getPlayerHoles(2)` the list of the eight even holes; neither list has a duplicate, they
have no hole in common, and together they hold exactly the holes 1 to 16, which are
the keys of the initial board. -/
theorem hole_partition (state : GameState) :
    state.getPlayerHoles 1 = [1, 3, 5, 7, 9, 11, 13, 15] ∧
    state.getPlayerHoles 2 = [2, 4, 6, 8, 10, 12, 14, 16] ∧
    (∀ h : Int, h ∈ state.getPlayerHoles 1 ↔ (1 ≤ h ∧ h ≤ 16 ∧ h % 2 = 1)) ∧
    (∀ h : Int, h ∈ state.getPlayerHoles 2 ↔ (1 ≤ h ∧ h ≤ 16 ∧ h % 2 = 0)) ∧
    (state.getPlayerHoles 1).length = 8 ∧ (state.getPlayerHoles 2).length = 8 ∧
    (state.getPlayerHoles 1).Nodup ∧ (state.getPlayerHoles 2).Nodup ∧
    (∀ h : Int, ¬ (h ∈ state.getPlayerHoles 1 ∧ h ∈ state.getPlayerHoles 2)) ∧
    (∀ h : Int, (h ∈ state.getPlayerHoles 1 ∨ h ∈ state.getPlayerHoles 2) ↔
      (1 ≤ h ∧ h ≤ 16)) ∧
    (∀ h : Int, h ∈ GameState.initializeBoard.map Prod.fst ↔ (1 ≤ h ∧ h ≤ 16)) ∧
    GameState.initializeBoard.map Prod.fst = GameState.holeKeys := by
  have h1 : state.getPlayerHoles 1 = [1, 3, 5, 7, 9, 11, 13, 15] := rfl
  have h2 : state.getPlayerHoles 2 = [2, 4, 6, 8, 10, 12, 14, 16] := rfl
  have hkeys : GameState.initializeBoard.map Prod.fst = GameState.holeKeys := by decide
  rw [h1, h2, hkeys]
  refine ⟨rfl, rfl, ?_, ?_, rfl, rfl, by decide, by decide, ?_, ?_, ?_, rfl⟩
  · intro h
    simp only [List.mem_cons, List.mem_singleton, List.not_mem_nil, or_false]
    omega
  · intro h
    simp only [List.mem_cons, List.mem_singleton, List.not_mem_nil, or_false]
    omega
  · intro h
    simp only [List.mem_cons, List.mem_singleton, List.not_mem_nil, or_false]
    omega
  · intro h
    simp only [List.mem_cons, List.mem_singleton, List.not_mem_nil, or_false]
    omega
  · intro h
    simp only [GameState.holeKeys, List.mem_cons, List.mem_singleton, List.not_mem_nil,
      or_false]
    omega

/-! ## A valid move returned at the root is one of the moves of the root -/

theorem MoveTuple.toMove_fields (m : MoveTuple) :
    (m.toMove.hole, m.toMove.color, m.toMove.transparent_as, m.toMove.use_transparent) = m :=
  rfl

theorem MoveTuple.toMove_valid (m : MoveTuple) : m.toMove.valid = true := rfl

theorem DFSBot.dfs_searchFrom_move_mem (mg : MoveGenerator) (player : Int) (n : Nat)
    (s : GameState) (hcp : s.current_player = player)
    (hvalid : (DFSBot.searchFrom mg player n s).2.valid = true) :
    ∃ m ∈ mg.getAllMoves s player, (DFSBot.searchFrom mg player n s).2 = m.toMove := by
  cases hT : s.isGameOver
  · cases n with
    | zero =>
      rw [DFSBot.dfs_searchFrom_zero mg player s hT] at hvalid
      exact absurd hvalid Bool.false_ne_true
    | succ n =>
      rw [DFSBot.dfs_searchFrom_succ_max mg player n s hT hcp] at hvalid ⊢
      rcases (DFSBot.dfs_maxLoop_spec mg s _ (mg.getAllMoves s player) Score.negInf Move.none).2.2
        with h | ⟨m, hm, h, _⟩
      · rw [h] at hvalid
        exact absurd hvalid Bool.false_ne_true
      · exact ⟨m, hm, by rw [h]⟩
  · rw [DFSBot.dfs_searchFrom_terminal mg player n s hT] at hvalid
    exact absurd hvalid Bool.false_ne_true

theorem AlphaBetaBot.ab_maxLoop_move_inv (P : Move → Prop) (mg : MoveGenerator) (s : GameState)
    (player : Int) (child : GameState → Score → Score → Bool → Score) (β : Score)
    (ms : List MoveTuple) (hms : ∀ m ∈ ms, P m.toMove) :
    ∀ (M : Score) (bm : Move) (a : Score), P bm →
      P (AlphaBetaBot.maxLoop mg s player child β ms M bm a).2 := by
  induction ms with
  | nil => intro M bm a hbm; exact hbm
  | cons m rest ih =>
    intro M bm a hbm
    have hm : P m.toMove := hms m (List.mem_cons_self _ _)
    have hrest := ih (fun m2 hm2 => hms m2 (List.mem_cons_of_mem _ hm2))
    obtain ⟨h, co, t, u⟩ := m
    simp only [AlphaBetaBot.maxLoop]
    split_ifs
    · exact hm
    · exact hbm
    · exact hrest _ _ _ hm
    · exact hrest _ _ _ hbm

theorem AlphaBetaBot.ab_searchFrom_move_mem (mg : MoveGenerator) (player : Int) (n : Nat)
    (s : GameState) (α β : Score)
    (hvalid : (AlphaBetaBot.searchFrom mg player n s α β true).2.valid = true) :
    ∃ m ∈ mg.getAllMoves s s.current_player,
      (AlphaBetaBot.searchFrom mg player n s α β true).2 = m.toMove := by
  cases hT : s.isGameOver
  · cases n with
    | zero =>
      rw [AlphaBetaBot.ab_searchFrom_zero mg player s α β true hT] at hvalid
      exact absurd hvalid Bool.false_ne_true
    | succ n =>
      rw [AlphaBetaBot.ab_searchFrom_succ_max mg player n s α β hT] at hvalid ⊢
      exact AlphaBetaBot.ab_maxLoop_move_inv
        (fun r => r.valid = true → ∃ m ∈ mg.getAllMoves s s.current_player, r = m.toMove)
        mg s player _ β (mg.getAllMoves s s.current_player)
        (fun m hm _ => ⟨m, hm, rfl⟩) Score.negInf Move.none α
        (fun h => absurd h Bool.false_ne_true) hvalid
  · rw [AlphaBetaBot.ab_searchFrom_terminal mg player n s α β true hT] at hvalid
    exact absurd hvalid Bool.false_ne_true

theorem IterativeDeepeningDFSBot.id_searchLoop_mem (mg : MoveGenerator) (s : GameState)
    (player : Int) (k : Nat) : ∀ (d : Int) (best : Move),
      IterativeDeepeningDFSBot.searchLoop mg s player k d best = best ∨
        ∃ e : Int, IterativeDeepeningDFSBot.searchLoop mg s player k d best =
          (IterativeDeepeningDFSBot.dfsLimited mg s player e 0).2 ∧
          (IterativeDeepeningDFSBot.dfsLimited mg s player e 0).2.valid = true := by
  induction k with
  | zero => intro d best; exact Or.inl rfl
  | succ k ih =>
    intro d best
    rw [IterativeDeepeningDFSBot.id_searchLoop_succ]
    split_ifs with hv
    · rcases ih (d + 1) (IterativeDeepeningDFSBot.dfsLimited mg s player d 0).2 with h | h
      · exact Or.inr ⟨d, h, hv⟩
      · exact Or.inr h
    · exact ih (d + 1) best

/-- Every entry of the queue is the root entry or carries a move of the root. -/
theorem BFSBot.bfs_loop_move_mem (depth : Int) (mg : MoveGenerator) (player : Int)
    (state : GameState) (fuel : Nat) :
    ∀ (q : List BFSBot.QueueItem) (B : Score) (bm : Move) (r : Move),
      (∀ x ∈ q, (x.first_move.valid = false ∧ x.state = state) ∨
        ∃ m ∈ mg.getAllMoves state player, x.first_move = m.toMove) →
      (bm.valid = true → ∃ m ∈ mg.getAllMoves state player, bm = m.toMove) →
      BFSBot.loop depth mg player fuel q B bm = some r → r.valid = true →
      ∃ m ∈ mg.getAllMoves state player, r = m.toMove := by
  induction fuel with
  | zero =>
    intro q B bm r hq hbm hr hv
    cases q with
    | nil =>
      simp only [BFSBot.loop, Option.some.injEq] at hr
      subst hr
      exact hbm hv
    | cons x rest => simp [BFSBot.loop] at hr
  | succ f ih =>
    intro q B bm r hq hbm hr hv
    cases q with
    | nil =>
      simp only [BFSBot.loop, Option.some.injEq] at hr
      subst hr
      exact hbm hv
    | cons x rest =>
      have hx := hq x (List.mem_cons_self _ _)
      have hrest : ∀ y ∈ rest, (y.first_move.valid = false ∧ y.state = state) ∨
          ∃ m ∈ mg.getAllMoves state player, y.first_move = m.toMove :=
        fun y hy => hq y (List.mem_cons_of_mem _ hy)
      simp only [BFSBot.loop] at hr
      split_ifs at hr with h1 h2 h3
      · refine ih rest _ _ r hrest ?_ hr hv
        intro _
        rcases hx with ⟨hinv, _⟩ | hx
        · rw [h2.2] at hinv
          exact absurd hinv (by decide)
        · exact hx
      · exact ih rest _ _ r hrest hbm hr hv
      · refine ih (rest ++ BFSBot.children mg player x) _ _ r ?_ hbm hr hv
        intro y hy
        rcases List.mem_append.mp hy with hy | hy
        · exact hrest y hy
        · right
          simp only [BFSBot.children, List.mem_map] at hy
          obtain ⟨m, hm, rfl⟩ := hy
          rcases hx with ⟨hinv, hst⟩ | ⟨m0, hm0, hx⟩
          · refine ⟨m, by rw [← hst]; exact hm, ?_⟩
            show (if x.first_move.valid = true then x.first_move else Move.make _ _ _ _) = _
            rw [hinv]
            rfl
          · refine ⟨m0, hm0, ?_⟩
            show (if x.first_move.valid = true then x.first_move else Move.make _ _ _ _) = _
            rw [hx]
            rfl
      · exact ih rest _ _ r hrest hbm hr hv

/-! ## The recursion on `current_depth` of the other searches -/

theorem search_measure_decreases (depth current_depth : Int) (h : current_depth < depth) :
    (depth - (current_depth + 1)).toNat < (depth - current_depth).toNat := by
  omega

theorem MinMaxBot.mm_search_finished (depth current_depth : Int) (mg : MoveGenerator)
    (s : GameState) (player : Int) (α β : Score) (hover : s.isGameOver = true) :
    MinMaxBot.search depth mg s player current_depth α β =
      (getTerminalScore s player, Move.none) :=
  MinMaxBot.mm_searchFrom_terminal mg player _ s α β hover

theorem MinMaxBot.mm_search_cutoff (depth current_depth : Int) (mg : MoveGenerator)
    (s : GameState) (player : Int) (α β : Score) (hlive : s.isGameOver = false)
    (hdepth : current_depth ≥ depth) :
    MinMaxBot.search depth mg s player current_depth α β = (evaluate s player, Move.none) := by
  have h0 : (depth - current_depth).toNat = 0 := by omega
  unfold MinMaxBot.search
  rw [h0]
  exact MinMaxBot.mm_searchFrom_zero mg player s α β hlive

theorem MinMaxBot.mm_search_step_max (depth current_depth : Int) (mg : MoveGenerator)
    (s : GameState) (player : Int) (α β : Score) (hlive : s.isGameOver = false)
    (hdepth : current_depth < depth) (hturn : s.current_player = player) :
    MinMaxBot.search depth mg s player current_depth α β =
      MinMaxBot.maxLoop mg s
        (fun t a b => (MinMaxBot.search depth mg t player (current_depth + 1) a b).1) β
        (mg.getAllMoves s player) Score.negInf Move.none α := by
  obtain ⟨k, hk⟩ : ∃ k : Nat, (depth - current_depth).toNat = k + 1 :=
    ⟨(depth - current_depth).toNat - 1, by omega⟩
  have hk1 : (depth - (current_depth + 1)).toNat = k := by omega
  unfold MinMaxBot.search
  rw [hk, hk1]
  exact MinMaxBot.mm_searchFrom_succ_max mg player k s α β hlive hturn

theorem MinMaxBot.mm_search_step_min (depth current_depth : Int) (mg : MoveGenerator)
    (s : GameState) (player : Int) (α β : Score) (hlive : s.isGameOver = false)
    (hdepth : current_depth < depth) (hturn : s.current_player ≠ player) :
    MinMaxBot.search depth mg s player current_depth α β =
      MinMaxBot.minLoop mg s
        (fun t a b => (MinMaxBot.search depth mg t player (current_depth + 1) a b).1) α
        (mg.getAllMoves s (3 - player)) Score.posInf Move.none β := by
  obtain ⟨k, hk⟩ : ∃ k : Nat, (depth - current_depth).toNat = k + 1 :=
    ⟨(depth - current_depth).toNat - 1, by omega⟩
  have hk1 : (depth - (current_depth + 1)).toNat = k := by omega
  unfold MinMaxBot.search
  rw [hk, hk1]
  exact MinMaxBot.mm_searchFrom_succ_min mg player k s α β hlive hturn

theorem AlphaBetaBot.ab_search_finished (depth current_depth : Int) (mg : MoveGenerator)
    (s : GameState) (player : Int) (α β : Score) (f : Bool) (hover : s.isGameOver = true) :
    AlphaBetaBot.search depth mg s player current_depth α β f =
      (getTerminalScore s player, Move.none) :=
  AlphaBetaBot.ab_searchFrom_terminal mg player _ s α β f hover

theorem AlphaBetaBot.ab_search_cutoff (depth current_depth : Int) (mg : MoveGenerator)
    (s : GameState) (player : Int) (α β : Score) (f : Bool) (hlive : s.isGameOver = false)
    (hdepth : current_depth ≥ depth) :
    AlphaBetaBot.search depth mg s player current_depth α β f =
      (evaluate s player, Move.none) := by
  have h0 : (depth - current_depth).toNat = 0 := by omega
  unfold AlphaBetaBot.search
  rw [h0]
  exact AlphaBetaBot.ab_searchFrom_zero mg player s α β f hlive

theorem AlphaBetaBot.ab_search_step_max (depth current_depth : Int) (mg : MoveGenerator)
    (s : GameState) (player : Int) (α β : Score) (hlive : s.isGameOver = false)
    (hdepth : current_depth < depth) :
    AlphaBetaBot.search depth mg s player current_depth α β true =
      AlphaBetaBot.maxLoop mg s player
        (fun t a b f => (AlphaBetaBot.search depth mg t player (current_depth + 1) a b f).1) β
        (mg.getAllMoves s s.current_player) Score.negInf Move.none α := by
  obtain ⟨k, hk⟩ : ∃ k : Nat, (depth - current_depth).toNat = k + 1 :=
    ⟨(depth - current_depth).toNat - 1, by omega⟩
  have hk1 : (depth - (current_depth + 1)).toNat = k := by omega
  unfold AlphaBetaBot.search
  rw [hk, hk1]
  exact AlphaBetaBot.ab_searchFrom_succ_max mg player k s α β hlive

theorem AlphaBetaBot.ab_search_step_min (depth current_depth : Int) (mg : MoveGenerator)
    (s : GameState) (player : Int) (α β : Score) (hlive : s.isGameOver = false)
    (hdepth : current_depth < depth) :
    AlphaBetaBot.search depth mg s player current_depth α β false =
      AlphaBetaBot.minLoop mg s player
        (fun t a b f => (AlphaBetaBot.search depth mg t player (current_depth + 1) a b f).1) α
        (mg.getAllMoves s s.current_player) Score.posInf Move.none β := by
  obtain ⟨k, hk⟩ : ∃ k : Nat, (depth - current_depth).toNat = k + 1 :=
    ⟨(depth - current_depth).toNat - 1, by omega⟩
  have hk1 : (depth - (current_depth + 1)).toNat = k := by omega
  unfold AlphaBetaBot.search
  rw [hk, hk1]
  exact AlphaBetaBot.ab_searchFrom_succ_min mg player k s α β hlive

theorem IterativeDeepeningDFSBot.id_dfsLimited_finished (depth_limit current_depth : Int)
    (mg : MoveGenerator) (s : GameState) (player : Int) (hover : s.isGameOver = true) :
    IterativeDeepeningDFSBot.dfsLimited mg s player depth_limit current_depth =
      (getTerminalScore s player, Move.none) := by
  unfold IterativeDeepeningDFSBot.dfsLimited
  cases (depth_limit - current_depth).toNat <;>
    simp [IterativeDeepeningDFSBot.dfsLimitedFrom, isTerminal, hover]

theorem IterativeDeepeningDFSBot.id_dfsLimited_cutoff (depth_limit current_depth : Int)
    (mg : MoveGenerator) (s : GameState) (player : Int) (hlive : s.isGameOver = false)
    (hdepth : current_depth ≥ depth_limit) :
    IterativeDeepeningDFSBot.dfsLimited mg s player depth_limit current_depth =
      (evaluate s player, Move.none) := by
  have h0 : (depth_limit - current_depth).toNat = 0 := by omega
  unfold IterativeDeepeningDFSBot.dfsLimited
  rw [h0]
  simp [IterativeDeepeningDFSBot.dfsLimitedFrom, isTerminal, hlive]

theorem IterativeDeepeningDFSBot.id_dfsLimited_step_max (depth_limit current_depth : Int)
    (mg : MoveGenerator) (s : GameState) (player : Int) (hlive : s.isGameOver = false)
    (hdepth : current_depth < depth_limit) (hturn : s.current_player = player) :
    IterativeDeepeningDFSBot.dfsLimited mg s player depth_limit current_depth =
      IterativeDeepeningDFSBot.maxLoop mg s
        (fun t => (IterativeDeepeningDFSBot.dfsLimited mg t player depth_limit
          (current_depth + 1)).1)
        (mg.getAllMoves s player) Score.negInf Move.none := by
  obtain ⟨k, hk⟩ : ∃ k : Nat, (depth_limit - current_depth).toNat = k + 1 :=
    ⟨(depth_limit - current_depth).toNat - 1, by omega⟩
  have hk1 : (depth_limit - (current_depth + 1)).toNat = k := by omega
  unfold IterativeDeepeningDFSBot.dfsLimited
  rw [hk, hk1]
  simp [IterativeDeepeningDFSBot.dfsLimitedFrom, isTerminal, hlive, hturn]

theorem IterativeDeepeningDFSBot.id_dfsLimited_step_min (depth_limit current_depth : Int)
    (mg : MoveGenerator) (s : GameState) (player : Int) (hlive : s.isGameOver = false)
    (hdepth : current_depth < depth_limit) (hturn : s.current_player ≠ player) :
    IterativeDeepeningDFSBot.dfsLimited mg s player depth_limit current_depth =
      IterativeDeepeningDFSBot.minLoop mg s
        (fun t => (IterativeDeepeningDFSBot.dfsLimited mg t player depth_limit
          (current_depth + 1)).1)
        (mg.getAllMoves s (3 - player)) Score.posInf Move.none := by
  obtain ⟨k, hk⟩ : ∃ k : Nat, (depth_limit - current_depth).toNat = k + 1 :=
    ⟨(depth_limit - current_depth).toNat - 1, by omega⟩
  have hk1 : (depth_limit - (current_depth + 1)).toNat = k := by omega
  unfold IterativeDeepeningDFSBot.dfsLimited
  rw [hk, hk1]
  simp [IterativeDeepeningDFSBot.dfsLimitedFrom, isTerminal, hlive, hturn]

/-! ## The breadth-first loop comes to an end -/

/-- The scoring pass over entries at the depth limit uses one iteration per entry. -/
theorem BFSBot.bfs_loop_scoring_some (depth : Int) (mg : MoveGenerator) (player : Int) :
    ∀ (q : List BFSBot.QueueItem) (fuel : Nat) (B : Score) (bm : Move), q.length ≤ fuel →
      (∀ x ∈ q, x.depth = depth) →
      ∃ r, BFSBot.loop depth mg player fuel q B bm = some r := by
  intro q
  induction q with
  | nil => intro fuel B bm _ _; exact ⟨bm, BFSBot.bfs_loop_nil depth mg player fuel B bm⟩
  | cons x rest ih =>
    intro fuel B bm hfuel h
    obtain ⟨f, rfl⟩ : ∃ f, fuel = f + 1 := ⟨fuel - 1, by simp at hfuel; omega⟩
    have hx := h x (List.mem_cons_self _ _)
    have hf : rest.length ≤ f := by simp at hfuel; omega
    have hrest : ∀ y ∈ rest, y.depth = depth := fun y hy => h y (List.mem_cons_of_mem _ hy)
    simp only [BFSBot.loop, hx, if_true]
    split_ifs
    · exact ih f _ _ hf hrest
    · exact ih f _ _ hf hrest

/-- With a depth limit `d >= 0`, the search returns once the fuel covers the entries
above the limit and those at the limit. -/
theorem BFSBot.bfs_search_some (d : Nat) (mg : MoveGenerator) (state : GameState) (player : Int)
    (fuel : Nat)
    (hfuel : BFSBot.work mg player d [BFSBot.rootItem state] +
      (BFSBot.levelFrom mg player d [BFSBot.rootItem state]).length ≤ fuel) :
    ∃ r, BFSBot.search d mg fuel state player = some r := by
  unfold BFSBot.search
  split_ifs
  · exact ⟨Move.none, rfl⟩
  · obtain ⟨f, rfl⟩ : ∃ f, fuel = BFSBot.work mg player d [BFSBot.rootItem state] + f :=
      ⟨fuel - BFSBot.work mg player d [BFSBot.rootItem state], by omega⟩
    have hroot : ∀ x ∈ [BFSBot.rootItem state], x.depth = 0 := by
      intro x hx
      rw [List.mem_singleton.mp hx]
      rfl
    have h := BFSBot.bfs_loop_levels d mg player f Score.negInf Move.none d
      [BFSBot.rootItem state] 0 hroot (by omega)
    have hroot2 : BFSBot.rootItem state = { state := state, depth := 0, first_move := Move.none } :=
      rfl
    rw [← hroot2, h]
    exact BFSBot.bfs_loop_scoring_some d mg player _ f _ _ (by omega)
      (fun x hx => by
        rw [BFSBot.bfs_levelFrom_depth mg player d [BFSBot.rootItem state] 0 hroot x hx]
        omega)

/-! ## The counter of MinMaxBot -/

theorem MinMaxBot.mm_searchFromCounted_terminal (mg : MoveGenerator) (player : Int) (n : Nat)
    (s : GameState) (α β : Score) (c : Int) (h : s.isGameOver = true) :
    MinMaxBot.searchFromCounted mg player n s α β c =
      ((getTerminalScore s player, Move.none), c + 1) := by
  cases n <;> simp [MinMaxBot.searchFromCounted, isTerminal, h]

theorem MinMaxBot.mm_searchFromCounted_zero (mg : MoveGenerator) (player : Int)
    (s : GameState) (α β : Score) (c : Int) (h : s.isGameOver = false) :
    MinMaxBot.searchFromCounted mg player 0 s α β c =
      ((evaluate s player, Move.none), c + 1) := by
  simp [MinMaxBot.searchFromCounted, isTerminal, h]

theorem MinMaxBot.mm_searchFromCounted_succ_max (mg : MoveGenerator) (player : Int) (n : Nat)
    (s : GameState) (α β : Score) (c : Int) (h : s.isGameOver = false)
    (hcp : s.current_player = player) :
    MinMaxBot.searchFromCounted mg player (n + 1) s α β c =
      MinMaxBot.maxLoopCounted mg s
        (fun t a b c =>
          ((MinMaxBot.searchFromCounted mg player n t a b c).1.1,
            (MinMaxBot.searchFromCounted mg player n t a b c).2))
        β (mg.getAllMoves s player) Score.negInf Move.none α (c + 1) := by
  simp [MinMaxBot.searchFromCounted, isTerminal, h, hcp]

theorem MinMaxBot.mm_searchFromCounted_succ_min (mg : MoveGenerator) (player : Int) (n : Nat)
    (s : GameState) (α β : Score) (c : Int) (h : s.isGameOver = false)
    (hcp : s.current_player ≠ player) :
    MinMaxBot.searchFromCounted mg player (n + 1) s α β c =
      MinMaxBot.minLoopCounted mg s
        (fun t a b c =>
          ((MinMaxBot.searchFromCounted mg player n t a b c).1.1,
            (MinMaxBot.searchFromCounted mg player n t a b c).2))
        α (mg.getAllMoves s (3 - player)) Score.posInf Move.none β (c + 1) := by
  simp [MinMaxBot.searchFromCounted, isTerminal, h, hcp]

theorem MinMaxBot.mm_maxLoopCounted_fst (mg : MoveGenerator) (s : GameState)
    (childC : GameState → Score → Score → Int → Score × Int)
    (child : GameState → Score → Score → Score) (β : Score) (ms : List MoveTuple)
    (hchild : ∀ m ∈ ms, ∀ a b c, (childC (mg.play s m) a b c).1 = child (mg.play s m) a b) :
    ∀ (M : Score) (bm : Move) (a : Score) (c : Int),
      (MinMaxBot.maxLoopCounted mg s childC β ms M bm a c).1 =
        MinMaxBot.maxLoop mg s child β ms M bm a := by
  induction ms with
  | nil => intro M bm a c; rfl
  | cons m rest ih =>
    intro M bm a c
    have h1 := hchild m (List.mem_cons_self _ _)
    have hrest := ih (fun m2 hm2 => hchild m2 (List.mem_cons_of_mem _ hm2))
    obtain ⟨h, co, t, u⟩ := m
    simp only [MoveGenerator.play] at h1
    simp only [MinMaxBot.maxLoopCounted, MinMaxBot.maxLoop, h1]
    split_ifs <;> first | rfl | exact hrest _ _ _ _

theorem MinMaxBot.mm_minLoopCounted_fst (mg : MoveGenerator) (s : GameState)
    (childC : GameState → Score → Score → Int → Score × Int)
    (child : GameState → Score → Score → Score) (α : Score) (ms : List MoveTuple)
    (hchild : ∀ m ∈ ms, ∀ a b c, (childC (mg.play s m) a b c).1 = child (mg.play s m) a b) :
    ∀ (M : Score) (bm : Move) (b : Score) (c : Int),
      (MinMaxBot.minLoopCounted mg s childC α ms M bm b c).1 =
        MinMaxBot.minLoop mg s child α ms M bm b := by
  induction ms with
  | nil => intro M bm b c; rfl
  | cons m rest ih =>
    intro M bm b c
    have h1 := hchild m (List.mem_cons_self _ _)
    have hrest := ih (fun m2 hm2 => hchild m2 (List.mem_cons_of_mem _ hm2))
    obtain ⟨h, co, t, u⟩ := m
    simp only [MoveGenerator.play] at h1
    simp only [MinMaxBot.minLoopCounted, MinMaxBot.minLoop, h1]
    split_ifs <;> first | rfl | exact hrest _ _ _ _

/-- The search of MinMaxBot with its counter returns the result of the search without. -/
theorem MinMaxBot.mm_searchFromCounted_fst (mg : MoveGenerator) (player : Int) (n : Nat) :
    ∀ (s : GameState) (α β : Score) (c : Int),
      (MinMaxBot.searchFromCounted mg player n s α β c).1 =
        MinMaxBot.searchFrom mg player n s α β := by
  induction n with
  | zero =>
    intro s α β c
    cases hT : s.isGameOver
    · rw [MinMaxBot.mm_searchFromCounted_zero mg player s α β c hT,
        MinMaxBot.mm_searchFrom_zero mg player s α β hT]
    · rw [MinMaxBot.mm_searchFromCounted_terminal mg player 0 s α β c hT,
        MinMaxBot.mm_searchFrom_terminal mg player 0 s α β hT]
  | succ n ih =>
    intro s α β c
    cases hT : s.isGameOver
    · by_cases hcp : s.current_player = player
      · rw [MinMaxBot.mm_searchFromCounted_succ_max mg player n s α β c hT hcp,
          MinMaxBot.mm_searchFrom_succ_max mg player n s α β hT hcp]
        exact MinMaxBot.mm_maxLoopCounted_fst mg s _ _ β _
          (fun m _ a b c => by simp only [ih]) _ _ _ _
      · rw [MinMaxBot.mm_searchFromCounted_succ_min mg player n s α β c hT hcp,
          MinMaxBot.mm_searchFrom_succ_min mg player n s α β hT hcp]
        exact MinMaxBot.mm_minLoopCounted_fst mg s _ _ α _
          (fun m _ a b c => by simp only [ih]) _ _ _ _
    · rw [MinMaxBot.mm_searchFromCounted_terminal mg player (n + 1) s α β c hT,
        MinMaxBot.mm_searchFrom_terminal mg player (n + 1) s α β hT]

/-- A pruned loop of MinMaxBot visits no more nodes than the loop over all children. -/
theorem MinMaxBot.mm_maxLoopCounted_le (mg : MoveGenerator) (s : GameState)
    (childMM : GameState → Score → Score → Int → Score × Int)
    (child : GameState → Int → Score × Int) (β : Score) (ms : List MoveTuple)
    (hchild : ∀ m ∈ ms, ∀ a b c c2,
      (childMM (mg.play s m) a b c).2 - c ≤ (child (mg.play s m) c2).2 - c2)
    (hmono : ∀ m ∈ ms, ∀ c, c ≤ (child (mg.play s m) c).2) :
    ∀ (M : Score) (bm : Move) (a : Score) (c c2 : Int),
      (MinMaxBot.maxLoopCounted mg s childMM β ms M bm a c).2 - c ≤
        ms.foldl (fun c m => (child (mg.play s m) c).2) c2 - c2 := by
  induction ms with
  | nil =>
    intro M bm a c c2
    simp [MinMaxBot.maxLoopCounted]
  | cons m rest ih =>
    intro M bm a c c2
    have h1 := hchild m (List.mem_cons_self _ _)
    have hrest := ih (fun m2 hm2 => hchild m2 (List.mem_cons_of_mem _ hm2))
      (fun m2 hm2 => hmono m2 (List.mem_cons_of_mem _ hm2))
    have hfold := IterativeDeepeningDFSBot.id_countFold_mono mg s child rest
      (fun m2 hm2 => hmono m2 (List.mem_cons_of_mem _ hm2))
    obtain ⟨h, co, t, u⟩ := m
    simp only [MoveGenerator.play] at h1
    simp only [MinMaxBot.maxLoopCounted, List.foldl_cons, MoveGenerator.play]
    have h2 := h1 a β c c2
    have h3 := hfold (child (mg.applyMove s h co t u) c2).2
    simp only [MoveGenerator.play] at h3 hrest
    have key2 : (childMM (mg.applyMove s h co t u) a β c).2 - c ≤
        List.foldl (fun c m => (child (mg.applyMove s m.1 m.2.1 m.2.2.1 m.2.2.2) c).2)
          (child (mg.applyMove s h co t u) c2).2 rest - c2 := by
      omega
    have key : ∀ M bm a2,
        (MinMaxBot.maxLoopCounted mg s childMM β rest M bm a2
          (childMM (mg.applyMove s h co t u) a β c).2).2 - c ≤
        List.foldl (fun c m => (child (mg.applyMove s m.1 m.2.1 m.2.2.1 m.2.2.2) c).2)
          (child (mg.applyMove s h co t u) c2).2 rest - c2 := by
      intro M bm a2
      have := hrest M bm a2 (childMM (mg.applyMove s h co t u) a β c).2
        (child (mg.applyMove s h co t u) c2).2
      omega
    split_ifs <;> first | exact key2 | exact key _ _ _

theorem MinMaxBot.mm_minLoopCounted_le (mg : MoveGenerator) (s : GameState)
    (childMM : GameState → Score → Score → Int → Score × Int)
    (child : GameState → Int → Score × Int) (α : Score) (ms : List MoveTuple)
    (hchild : ∀ m ∈ ms, ∀ a b c c2,
      (childMM (mg.play s m) a b c).2 - c ≤ (child (mg.play s m) c2).2 - c2)
    (hmono : ∀ m ∈ ms, ∀ c, c ≤ (child (mg.play s m) c).2) :
    ∀ (M : Score) (bm : Move) (b : Score) (c c2 : Int),
      (MinMaxBot.minLoopCounted mg s childMM α ms M bm b c).2 - c ≤
        ms.foldl (fun c m => (child (mg.play s m) c).2) c2 - c2 := by
  induction ms with
  | nil =>
    intro M bm b c c2
    simp [MinMaxBot.minLoopCounted]
  | cons m rest ih =>
    intro M bm b c c2
    have h1 := hchild m (List.mem_cons_self _ _)
    have hrest := ih (fun m2 hm2 => hchild m2 (List.mem_cons_of_mem _ hm2))
      (fun m2 hm2 => hmono m2 (List.mem_cons_of_mem _ hm2))
    have hfold := IterativeDeepeningDFSBot.id_countFold_mono mg s child rest
      (fun m2 hm2 => hmono m2 (List.mem_cons_of_mem _ hm2))
    obtain ⟨h, co, t, u⟩ := m
    simp only [MoveGenerator.play] at h1
    simp only [MinMaxBot.minLoopCounted, List.foldl_cons, MoveGenerator.play]
    have h2 := h1 α b c c2
    have h3 := hfold (child (mg.applyMove s h co t u) c2).2
    simp only [MoveGenerator.play] at h3 hrest
    have key2 : (childMM (mg.applyMove s h co t u) α b c).2 - c ≤
        List.foldl (fun c m => (child (mg.applyMove s m.1 m.2.1 m.2.2.1 m.2.2.2) c).2)
          (child (mg.applyMove s h co t u) c2).2 rest - c2 := by
      omega
    have key : ∀ M bm b2,
        (MinMaxBot.minLoopCounted mg s childMM α rest M bm b2
          (childMM (mg.applyMove s h co t u) α b c).2).2 - c ≤
        List.foldl (fun c m => (child (mg.applyMove s m.1 m.2.1 m.2.2.1 m.2.2.2) c).2)
          (child (mg.applyMove s h co t u) c2).2 rest - c2 := by
      intro M bm b2
      have := hrest M bm b2 (childMM (mg.applyMove s h co t u) α b c).2
        (child (mg.applyMove s h co t u) c2).2
      omega
    split_ifs <;> first | exact key2 | exact key _ _ _

/-- Node for node, the search of MinMaxBot counts no more than the unpruned search. -/
theorem MinMaxBot.mm_searchFromCounted_le (mg : MoveGenerator) (player : Int) (n : Nat) :
    ∀ (s : GameState) (α β : Score) (c c2 : Int),
      (MinMaxBot.searchFromCounted mg player n s α β c).2 - c ≤
        (IterativeDeepeningDFSBot.dfsLimitedFromCounted mg player n s c2).2 - c2 := by
  induction n with
  | zero =>
    intro s α β c c2
    cases hT : s.isGameOver
    · rw [MinMaxBot.mm_searchFromCounted_zero mg player s α β c hT,
        IterativeDeepeningDFSBot.id_dfsLimitedFromCounted_zero mg player s c2 hT]
      simp
    · rw [MinMaxBot.mm_searchFromCounted_terminal mg player 0 s α β c hT,
        IterativeDeepeningDFSBot.id_dfsLimitedFromCounted_terminal mg player 0 s c2 hT]
      simp
  | succ n ih =>
    intro s α β c c2
    cases hT : s.isGameOver
    · have hmono : ∀ (ms : List MoveTuple), ∀ m ∈ ms, ∀ c : Int,
          c ≤ ((fun t c =>
            ((IterativeDeepeningDFSBot.dfsLimitedFromCounted mg player n t c).1.1,
              (IterativeDeepeningDFSBot.dfsLimitedFromCounted mg player n t c).2))
            (mg.play s m) c).2 := by
        intro ms m _ c
        exact le_trans (by omega)
          (IterativeDeepeningDFSBot.id_dfsLimitedFromCounted_mono mg player n (mg.play s m) c)
      by_cases hcp : s.current_player = player
      · rw [MinMaxBot.mm_searchFromCounted_succ_max mg player n s α β c hT hcp,
          IterativeDeepeningDFSBot.id_dfsLimitedFromCounted_succ_max mg player n s c2 hT hcp,
          IterativeDeepeningDFSBot.id_maxLoopCounted_snd]
        have := MinMaxBot.mm_maxLoopCounted_le mg s
          (fun t a b c =>
            ((MinMaxBot.searchFromCounted mg player n t a b c).1.1,
              (MinMaxBot.searchFromCounted mg player n t a b c).2))
          (fun t c =>
            ((IterativeDeepeningDFSBot.dfsLimitedFromCounted mg player n t c).1.1,
              (IterativeDeepeningDFSBot.dfsLimitedFromCounted mg player n t c).2))
          β (mg.getAllMoves s player)
          (fun m _ a b c c2 => ih (mg.play s m) a b c c2) (hmono _)
          Score.negInf Move.none α (c + 1) (c2 + 1)
        beta_reduce at this ⊢
        omega
      · rw [MinMaxBot.mm_searchFromCounted_succ_min mg player n s α β c hT hcp,
          IterativeDeepeningDFSBot.id_dfsLimitedFromCounted_succ_min mg player n s c2 hT hcp,
          IterativeDeepeningDFSBot.id_minLoopCounted_snd]
        have := MinMaxBot.mm_minLoopCounted_le mg s
          (fun t a b c =>
            ((MinMaxBot.searchFromCounted mg player n t a b c).1.1,
              (MinMaxBot.searchFromCounted mg player n t a b c).2))
          (fun t c =>
            ((IterativeDeepeningDFSBot.dfsLimitedFromCounted mg player n t c).1.1,
              (IterativeDeepeningDFSBot.dfsLimitedFromCounted mg player n t c).2))
          α (mg.getAllMoves s (3 - player))
          (fun m _ a b c c2 => ih (mg.play s m) a b c c2) (hmono _)
          Score.posInf Move.none β (c + 1) (c2 + 1)
        beta_reduce at this ⊢
        omega
    · rw [MinMaxBot.mm_searchFromCounted_terminal mg player (n + 1) s α β c hT,
        IterativeDeepeningDFSBot.id_dfsLimitedFromCounted_terminal mg player (n + 1) s c2 hT]
      simp

/-! ## The counter of iterative deepening -/

theorem IterativeDeepeningDFSBot.id_dfsLimitedCounted_fst (mg : MoveGenerator) (s : GameState)
    (player : Int) (d : Int) (c : Int) :
    (IterativeDeepeningDFSBot.dfsLimitedCounted mg s player d 0 c).1 =
      IterativeDeepeningDFSBot.dfsLimited mg s player d 0 :=
  IterativeDeepeningDFSBot.id_dfsLimitedFromCounted_fst mg player _ s c

theorem IterativeDeepeningDFSBot.id_searchLoopCounted_fst (mg : MoveGenerator) (s : GameState)
    (player : Int) (k : Nat) : ∀ (d : Int) (best : Move) (c : Int),
      (IterativeDeepeningDFSBot.searchLoopCounted mg s player k d best c).1 =
        IterativeDeepeningDFSBot.searchLoop mg s player k d best := by
  induction k with
  | zero => intro d best c; rfl
  | succ k ih =>
    intro d best c
    simp only [IterativeDeepeningDFSBot.searchLoopCounted,
      IterativeDeepeningDFSBot.searchLoop,
      IterativeDeepeningDFSBot.id_dfsLimitedCounted_fst]
    split_ifs <;> exact ih _ _ _

/-- After at least one iteration the counter holds the count of the last iteration. -/
theorem IterativeDeepeningDFSBot.id_searchLoopCounted_snd (mg : MoveGenerator) (s : GameState)
    (player : Int) (k : Nat) : ∀ (d : Int) (best : Move) (c : Int),
      (IterativeDeepeningDFSBot.searchLoopCounted mg s player (k + 1) d best c).2 =
        (IterativeDeepeningDFSBot.dfsLimitedCounted mg s player (d + k) 0 0).2 := by
  induction k with
  | zero =>
    intro d best c
    simp only [IterativeDeepeningDFSBot.searchLoopCounted, Nat.cast_zero, add_zero]
    split_ifs <;> rfl
  | succ k ih =>
    intro d best c
    have hd : d + ((k + 1 : Nat) : Int) = d + 1 + (k : Int) := by push_cast; ring
    rw [hd, IterativeDeepeningDFSBot.searchLoopCounted]
    split_ifs <;> exact ih _ _ _

/-! ## The calls of the alpha-beta search and their flags -/

theorem AlphaBetaBot.ab_searchFromTraced_terminal (mg : MoveGenerator) (player : Int) (n : Nat)
    (s : GameState) (α β : Score) (f : Bool) (c : List (GameState × Bool))
    (h : s.isGameOver = true) :
    AlphaBetaBot.searchFromTraced mg player n s α β f c =
      ((getTerminalScore s player, Move.none), c ++ [(s, f)]) := by
  cases n <;> simp [AlphaBetaBot.searchFromTraced, isTerminal, h]

theorem AlphaBetaBot.ab_searchFromTraced_zero (mg : MoveGenerator) (player : Int)
    (s : GameState) (α β : Score) (f : Bool) (c : List (GameState × Bool))
    (h : s.isGameOver = false) :
    AlphaBetaBot.searchFromTraced mg player 0 s α β f c =
      ((evaluate s player, Move.none), c ++ [(s, f)]) := by
  simp [AlphaBetaBot.searchFromTraced, isTerminal, h]

theorem AlphaBetaBot.ab_searchFromTraced_succ_max (mg : MoveGenerator) (player : Int) (n : Nat)
    (s : GameState) (α β : Score) (c : List (GameState × Bool)) (h : s.isGameOver = false) :
    AlphaBetaBot.searchFromTraced mg player (n + 1) s α β true c =
      AlphaBetaBot.maxLoopTraced mg s player
        (fun t a b f c =>
          ((AlphaBetaBot.searchFromTraced mg player n t a b f c).1.1,
            (AlphaBetaBot.searchFromTraced mg player n t a b f c).2))
        β (mg.getAllMoves s s.current_player) Score.negInf Move.none α (c ++ [(s, true)]) := by
  simp [AlphaBetaBot.searchFromTraced, isTerminal, h]

theorem AlphaBetaBot.ab_searchFromTraced_succ_min (mg : MoveGenerator) (player : Int) (n : Nat)
    (s : GameState) (α β : Score) (c : List (GameState × Bool)) (h : s.isGameOver = false) :
    AlphaBetaBot.searchFromTraced mg player (n + 1) s α β false c =
      AlphaBetaBot.minLoopTraced mg s player
        (fun t a b f c =>
          ((AlphaBetaBot.searchFromTraced mg player n t a b f c).1.1,
            (AlphaBetaBot.searchFromTraced mg player n t a b f c).2))
        α (mg.getAllMoves s s.current_player) Score.posInf Move.none β
        (c ++ [(s, false)]) := by
  simp [AlphaBetaBot.searchFromTraced, isTerminal, h]

theorem AlphaBetaBot.ab_maxLoopTraced_fst (mg : MoveGenerator) (s : GameState) (player : Int)
    (childT : GameState → Score → Score → Bool → List (GameState × Bool) →
      Score × List (GameState × Bool))
    (child : GameState → Score → Score → Bool → Score) (β : Score) (ms : List MoveTuple)
    (hchild : ∀ m ∈ ms, ∀ a b f c, (childT (mg.play s m) a b f c).1 = child (mg.play s m) a b f) :
    ∀ (M : Score) (bm : Move) (a : Score) (c : List (GameState × Bool)),
      (AlphaBetaBot.maxLoopTraced mg s player childT β ms M bm a c).1 =
        AlphaBetaBot.maxLoop mg s player child β ms M bm a := by
  induction ms with
  | nil => intro M bm a c; rfl
  | cons m rest ih =>
    intro M bm a c
    have h1 := hchild m (List.mem_cons_self _ _)
    have hrest := ih (fun m2 hm2 => hchild m2 (List.mem_cons_of_mem _ hm2))
    obtain ⟨h, co, t, u⟩ := m
    simp only [MoveGenerator.play] at h1
    simp only [AlphaBetaBot.maxLoopTraced, AlphaBetaBot.maxLoop, h1]
    split_ifs <;> first | rfl | exact hrest _ _ _ _

theorem AlphaBetaBot.ab_minLoopTraced_fst (mg : MoveGenerator) (s : GameState) (player : Int)
    (childT : GameState → Score → Score → Bool → List (GameState × Bool) →
      Score × List (GameState × Bool))
    (child : GameState → Score → Score → Bool → Score) (α : Score) (ms : List MoveTuple)
    (hchild : ∀ m ∈ ms, ∀ a b f c, (childT (mg.play s m) a b f c).1 = child (mg.play s m) a b f) :
    ∀ (M : Score) (bm : Move) (b : Score) (c : List (GameState × Bool)),
      (AlphaBetaBot.minLoopTraced mg s player childT α ms M bm b c).1 =
        AlphaBetaBot.minLoop mg s player child α ms M bm b := by
  induction ms with
  | nil => intro M bm b c; rfl
  | cons m rest ih =>
    intro M bm b c
    have h1 := hchild m (List.mem_cons_self _ _)
    have hrest := ih (fun m2 hm2 => hchild m2 (List.mem_cons_of_mem _ hm2))
    obtain ⟨h, co, t, u⟩ := m
    simp only [MoveGenerator.play] at h1
    simp only [AlphaBetaBot.minLoopTraced, AlphaBetaBot.minLoop, h1]
    split_ifs <;> first | rfl | exact hrest _ _ _ _

/-- Recording the calls does not change the result of the search. -/
theorem AlphaBetaBot.ab_searchFromTraced_fst (mg : MoveGenerator) (player : Int) (n : Nat) :
    ∀ (s : GameState) (α β : Score) (f : Bool) (c : List (GameState × Bool)),
      (AlphaBetaBot.searchFromTraced mg player n s α β f c).1 =
        AlphaBetaBot.searchFrom mg player n s α β f := by
  induction n with
  | zero =>
    intro s α β f c
    cases hT : s.isGameOver
    · rw [AlphaBetaBot.ab_searchFromTraced_zero mg player s α β f c hT,
        AlphaBetaBot.ab_searchFrom_zero mg player s α β f hT]
    · rw [AlphaBetaBot.ab_searchFromTraced_terminal mg player 0 s α β f c hT,
        AlphaBetaBot.ab_searchFrom_terminal mg player 0 s α β f hT]
  | succ n ih =>
    intro s α β f c
    cases hT : s.isGameOver
    · cases f
      · rw [AlphaBetaBot.ab_searchFromTraced_succ_min mg player n s α β c hT,
          AlphaBetaBot.ab_searchFrom_succ_min mg player n s α β hT]
        exact AlphaBetaBot.ab_minLoopTraced_fst mg s player _ _ α _
          (fun m _ a b f c => by simp only [ih]) _ _ _ _
      · rw [AlphaBetaBot.ab_searchFromTraced_succ_max mg player n s α β c hT,
          AlphaBetaBot.ab_searchFrom_succ_max mg player n s α β hT]
        exact AlphaBetaBot.ab_maxLoopTraced_fst mg s player _ _ β _
          (fun m _ a b f c => by simp only [ih]) _ _ _ _
    · rw [AlphaBetaBot.ab_searchFromTraced_terminal mg player (n + 1) s α β f c hT,
        AlphaBetaBot.ab_searchFrom_terminal mg player (n + 1) s α β f hT]

/-- A loop of the alpha-beta search only adds what its recursive calls add, each made
with the flag computed from the mover of the child. -/
theorem AlphaBetaBot.ab_maxLoopTraced_ext (P : GameState × Bool → Prop) (mg : MoveGenerator)
    (s : GameState) (player : Int)
    (childT : GameState → Score → Score → Bool → List (GameState × Bool) →
      Score × List (GameState × Bool))
    (β : Score) (ms : List MoveTuple)
    (hchild : ∀ m ∈ ms, ∀ a b c, ∃ ext,
      (childT (mg.play s m) a b (decide ((mg.play s m).current_player = player)) c).2 =
        c ++ ext ∧ ∀ e ∈ ext, P e) :
    ∀ (M : Score) (bm : Move) (a : Score) (c : List (GameState × Bool)), ∃ ext,
      (AlphaBetaBot.maxLoopTraced mg s player childT β ms M bm a c).2 = c ++ ext ∧
        ∀ e ∈ ext, P e := by
  induction ms with
  | nil => intro M bm a c; exact ⟨[], by simp [AlphaBetaBot.maxLoopTraced], by simp⟩
  | cons m rest ih =>
    intro M bm a c
    have h1 := hchild m (List.mem_cons_self _ _)
    have hrest := ih (fun m2 hm2 => hchild m2 (List.mem_cons_of_mem _ hm2))
    obtain ⟨h, co, t, u⟩ := m
    simp only [MoveGenerator.play] at h1
    obtain ⟨ext1, he1, hP1⟩ := h1 a β c
    have key : ∀ M bm a2, ∃ ext,
        (AlphaBetaBot.maxLoopTraced mg s player childT β rest M bm a2
          (childT (mg.applyMove s h co t u) a β
            (decide ((mg.applyMove s h co t u).current_player = player)) c).2).2 = c ++ ext ∧
          ∀ e ∈ ext, P e := by
      intro M bm a2
      obtain ⟨ext2, he2, hP2⟩ := hrest M bm a2
        (childT (mg.applyMove s h co t u) a β
          (decide ((mg.applyMove s h co t u).current_player = player)) c).2
      refine ⟨ext1 ++ ext2, by rw [he2, he1, List.append_assoc], ?_⟩
      intro e he
      rcases List.mem_append.mp he with he | he
      · exact hP1 e he
      · exact hP2 e he
    simp only [AlphaBetaBot.maxLoopTraced]
    split_ifs <;> first | exact ⟨ext1, he1, hP1⟩ | exact key _ _ _

theorem AlphaBetaBot.ab_minLoopTraced_ext (P : GameState × Bool → Prop) (mg : MoveGenerator)
    (s : GameState) (player : Int)
    (childT : GameState → Score → Score → Bool → List (GameState × Bool) →
      Score × List (GameState × Bool))
    (α : Score) (ms : List MoveTuple)
    (hchild : ∀ m ∈ ms, ∀ a b c, ∃ ext,
      (childT (mg.play s m) a b (decide ((mg.play s m).current_player = player)) c).2 =
        c ++ ext ∧ ∀ e ∈ ext, P e) :
    ∀ (M : Score) (bm : Move) (b : Score) (c : List (GameState × Bool)), ∃ ext,
      (AlphaBetaBot.minLoopTraced mg s player childT α ms M bm b c).2 = c ++ ext ∧
        ∀ e ∈ ext, P e := by
  induction ms with
  | nil => intro M bm b c; exact ⟨[], by simp [AlphaBetaBot.minLoopTraced], by simp⟩
  | cons m rest ih =>
    intro M bm b c
    have h1 := hchild m (List.mem_cons_self _ _)
    have hrest := ih (fun m2 hm2 => hchild m2 (List.mem_cons_of_mem _ hm2))
    obtain ⟨h, co, t, u⟩ := m
    simp only [MoveGenerator.play] at h1
    obtain ⟨ext1, he1, hP1⟩ := h1 α b c
    have key : ∀ M bm b2, ∃ ext,
        (AlphaBetaBot.minLoopTraced mg s player childT α rest M bm b2
          (childT (mg.applyMove s h co t u) α b
            (decide ((mg.applyMove s h co t u).current_player = player)) c).2).2 = c ++ ext ∧
          ∀ e ∈ ext, P e := by
      intro M bm b2
      obtain ⟨ext2, he2, hP2⟩ := hrest M bm b2
        (childT (mg.applyMove s h co t u) α b
          (decide ((mg.applyMove s h co t u).current_player = player)) c).2
      refine ⟨ext1 ++ ext2, by rw [he2, he1, List.append_assoc], ?_⟩
      intro e he
      rcases List.mem_append.mp he with he | he
      · exact hP1 e he
      · exact hP2 e he
    simp only [AlphaBetaBot.minLoopTraced]
    split_ifs <;> first | exact ⟨ext1, he1, hP1⟩ | exact key _ _ _

/-- A call of the alpha-beta search records itself first; every call it makes below has
the flag `current_player == player` of its own position. -/
theorem AlphaBetaBot.ab_searchFromTraced_ext (mg : MoveGenerator) (player : Int) (n : Nat) :
    ∀ (s : GameState) (α β : Score) (f : Bool) (c : List (GameState × Bool)), ∃ ext,
      (AlphaBetaBot.searchFromTraced mg player n s α β f c).2 = c ++ (s, f) :: ext ∧
        ∀ e ∈ ext, e.2 = decide (e.1.current_player = player) := by
  induction n with
  | zero =>
    intro s α β f c
    cases hT : s.isGameOver
    · rw [AlphaBetaBot.ab_searchFromTraced_zero mg player s α β f c hT]
      exact ⟨[], rfl, by simp⟩
    · rw [AlphaBetaBot.ab_searchFromTraced_terminal mg player 0 s α β f c hT]
      exact ⟨[], rfl, by simp⟩
  | succ n ih =>
    intro s α β f c
    cases hT : s.isGameOver
    · have hchild : ∀ m ∈ mg.getAllMoves s s.current_player, ∀ a b c, ∃ ext,
          ((fun t a b f c =>
            ((AlphaBetaBot.searchFromTraced mg player n t a b f c).1.1,
              (AlphaBetaBot.searchFromTraced mg player n t a b f c).2))
            (mg.play s m) a b (decide ((mg.play s m).current_player = player)) c).2 =
            c ++ ext ∧ ∀ e ∈ ext, e.2 = decide (e.1.current_player = player) := by
        intro m _ a b c
        obtain ⟨ext, he, hP⟩ := ih (mg.play s m) a b
          (decide ((mg.play s m).current_player = player)) c
        refine ⟨(mg.play s m, decide ((mg.play s m).current_player = player)) :: ext, he, ?_⟩
        intro e he2
        rcases List.mem_cons.mp he2 with rfl | he2
        · rfl
        · exact hP e he2
      cases f
      · rw [AlphaBetaBot.ab_searchFromTraced_succ_min mg player n s α β c hT]
        obtain ⟨ext, he, hP⟩ := AlphaBetaBot.ab_minLoopTraced_ext
          (fun e => e.2 = decide (e.1.current_player = player)) mg s player
          (fun t a b f c =>
            ((AlphaBetaBot.searchFromTraced mg player n t a b f c).1.1,
              (AlphaBetaBot.searchFromTraced mg player n t a b f c).2))
          α (mg.getAllMoves s s.current_player) hchild Score.posInf Move.none β
          (c ++ [(s, false)])
        exact ⟨ext, by rw [he, List.append_assoc]; rfl, hP⟩
      · rw [AlphaBetaBot.ab_searchFromTraced_succ_max mg player n s α β c hT]
        obtain ⟨ext, he, hP⟩ := AlphaBetaBot.ab_maxLoopTraced_ext
          (fun e => e.2 = decide (e.1.current_player = player)) mg s player
          (fun t a b f c =>
            ((AlphaBetaBot.searchFromTraced mg player n t a b f c).1.1,
              (AlphaBetaBot.searchFromTraced mg player n t a b f c).2))
          β (mg.getAllMoves s s.current_player) hchild Score.negInf Move.none α
          (c ++ [(s, true)])
        exact ⟨ext, by rw [he, List.append_assoc]; rfl, hP⟩
    · rw [AlphaBetaBot.ab_searchFromTraced_terminal mg player (n + 1) s α β f c hT]
      exact ⟨[], rfl, by simp⟩

/-! ## The text form of a move -/

/-- Parsing the text of a move gives the move back. -/
theorem parse_move_format_move (hole : Int) (h1 : 1 ≤ hole) (h16 : hole ≤ 16) (c : Color)
    (o : Option Color)
    (hform : (o = none ∧ (c = Color.RED ∨ c = Color.BLUE)) ∨
      (c = Color.TRANSPARENT ∧ (o = some Color.RED ∨ o = some Color.BLUE))) :
    parse_move (format_move hole c o) =
      { hole := hole, color := c, trans_as := o, valid := true } := by
  rcases hform with ⟨rfl, rfl | rfl⟩ | ⟨rfl, rfl | rfl⟩ <;> interval_cases hole <;> decide

/-! ## Claims C21 to C30 -/

/-- C21. A heuristic score is never mistaken for a forced outcome: for every position with
non-negative seed counts in which the captured seeds and the seeds on the board add up
to 96, and every player `p` in {1, 2}, `evaluate(position, p)` is a finite number of
absolute value at most 960, strictly between the scores -infinity and +infinity of a
lost and a won game. -/
theorem evaluate_is_finite_and_bounded (state : GameState) (p : Int) (hp : p = 1 ∨ p = 2)
    (hboard : ∀ hole ∈ GameState.holeKeys,
      0 ≤ state.holes hole Color.RED ∧ 0 ≤ state.holes hole Color.BLUE ∧
        0 ≤ state.holes hole Color.TRANSPARENT)
    (hcaptured : 0 ≤ state.captured_seeds 1 ∧ 0 ≤ state.captured_seeds 2)
    (hsum : state.captured_seeds 1 + state.captured_seeds 2 + state.getSeedsOnBoard = 96) :
    ∃ v : Int, evaluate state p = Score.fin v ∧ -960 ≤ v ∧ v ≤ 960 ∧
      Score.negInf < evaluate state p ∧ evaluate state p < Score.posInf := by
  have h1 := hboard 1 (by decide)
  have h2 := hboard 2 (by decide)
  have h3 := hboard 3 (by decide)
  have h4 := hboard 4 (by decide)
  have h5 := hboard 5 (by decide)
  have h6 := hboard 6 (by decide)
  have h7 := hboard 7 (by decide)
  have h8 := hboard 8 (by decide)
  have h9 := hboard 9 (by decide)
  have h10 := hboard 10 (by decide)
  have h11 := hboard 11 (by decide)
  have h12 := hboard 12 (by decide)
  have h13 := hboard 13 (by decide)
  have h14 := hboard 14 (by decide)
  have h15 := hboard 15 (by decide)
  have h16 := hboard 16 (by decide)
  simp only [GameState.getSeedsOnBoard, GameState.holeKeys, List.foldl_cons,
    List.foldl_nil] at hsum
  rcases hp with rfl | rfl
  · refine ⟨_, rfl, ?_, ?_, Score.negInf_lt_fin _, Score.fin_lt_posInf _⟩ <;>
      simp only [GameState.getPlayerHoles, PLAYER1_HOLES, PLAYER2_HOLES,
        GameState.getTotalSeeds, List.foldl_cons, List.foldl_nil,
        show (3 : Int) - 1 = 2 by decide, show ¬ ((2 : Int) = 1) by decide, if_true,
        if_false] <;>
      omega
  · refine ⟨_, rfl, ?_, ?_, Score.negInf_lt_fin _, Score.fin_lt_posInf _⟩ <;>
      simp only [GameState.getPlayerHoles, PLAYER1_HOLES, PLAYER2_HOLES,
        GameState.getTotalSeeds, List.foldl_cons, List.foldl_nil,
        show (3 : Int) - 2 = 1 by decide, show ¬ ((2 : Int) = 1) by decide, if_true,
        if_false] <;>
      omega

theorem evaluate_is_finite_and_bounded_witness :
    ∃ v : Int, evaluate (smallState 0 0 8 45 43 1 10) 2 = Score.fin v ∧ -960 ≤ v ∧ v ≤ 960 ∧
      Score.negInf < evaluate (smallState 0 0 8 45 43 1 10) 2 ∧
      evaluate (smallState 0 0 8 45 43 1 10) 2 < Score.posInf :=
  evaluate_is_finite_and_bounded (smallState 0 0 8 45 43 1 10) 2 (Or.inr rfl) (by decide)
    (by decide) (by decide)

/-- C22. Every returned move is a legal first move: for each of the five strategies,
every depth, player (1 or 2) and position whose mover is the player, a valid move
returned by `getMove(position, player)` has its (hole, color, transparent_as,
use_transparent) among `getAllMoves(position, player)`; hence, when `getAllMoves` only
yields holes of the player, the returned hole is one of `getPlayerHoles(player)`. -/
theorem returned_move_is_legal (depth : Int) (mg : MoveGenerator) (state : GameState)
    (player : Int) (fuel : Nat) (_hplayer : player = 1 ∨ player = 2)
    (hturn : state.current_player = player) (r : Move)
    (hr : BFSBot.getMove depth mg fuel state player = some r ∨
      r = DFSBot.getMove depth mg state player ∨
      r = MinMaxBot.getMove depth mg state player ∨
      r = AlphaBetaBot.getMove depth mg state player ∨
      r = IterativeDeepeningDFSBot.getMove depth mg state player)
    (hvalid : r.valid = true) :
    r.tuple ∈ mg.getAllMoves state player ∧
    ((∀ m ∈ mg.getAllMoves state player, m.1 ∈ state.getPlayerHoles player) →
      r.hole ∈ state.getPlayerHoles player) := by
  have hmem : ∃ m ∈ mg.getAllMoves state player, r = m.toMove := by
    rcases hr with hr | rfl | rfl | rfl | rfl
    · unfold BFSBot.getMove BFSBot.search at hr
      split_ifs at hr
      · simp only [Option.some.injEq] at hr
        subst hr
        exact absurd hvalid Bool.false_ne_true
      · refine BFSBot.bfs_loop_move_mem depth mg player state fuel _ _ _ r ?_ ?_ hr hvalid
        · intro x hx
          rw [List.mem_singleton.mp hx]
          exact Or.inl ⟨rfl, rfl⟩
        · intro h
          exact absurd h Bool.false_ne_true
    · exact DFSBot.dfs_searchFrom_move_mem mg player _ state hturn hvalid
    · unfold MinMaxBot.getMove MinMaxBot.search at hvalid ⊢
      rw [MinMaxBot.mm_searchFrom_root] at hvalid ⊢
      exact DFSBot.dfs_searchFrom_move_mem mg player _ state hturn hvalid
    · have h := AlphaBetaBot.ab_searchFrom_move_mem mg player _ state _ _ hvalid
      rw [hturn] at h
      exact h
    · unfold IterativeDeepeningDFSBot.getMove IterativeDeepeningDFSBot.search at hvalid ⊢
      rcases IterativeDeepeningDFSBot.id_searchLoop_mem mg state player depth.toNat 1 Move.none
        with h | ⟨e, h, hv⟩
      · rw [h] at hvalid
        exact absurd hvalid Bool.false_ne_true
      · rw [h]
        unfold IterativeDeepeningDFSBot.dfsLimited at hv ⊢
        rw [IterativeDeepeningDFSBot.id_dfsLimitedFrom_eq] at hv ⊢
        exact DFSBot.dfs_searchFrom_move_mem mg player _ state hturn hv
  obtain ⟨m, hm, rfl⟩ := hmem
  exact ⟨hm, fun h => h m hm⟩

theorem returned_move_is_legal_witness :
    (AlphaBetaBot.getMove 2 captureEngine GameState.init 1).valid = true ∧
    (AlphaBetaBot.getMove 2 captureEngine GameState.init 1).tuple ∈
      captureEngine.getAllMoves GameState.init 1 ∧
    (AlphaBetaBot.getMove 2 captureEngine GameState.init 1).hole ∈
      GameState.init.getPlayerHoles 1 :=
  ⟨by decide,
   (returned_move_is_legal 2 captureEngine GameState.init 1 0 (Or.inl rfl) rfl
     (AlphaBetaBot.getMove 2 captureEngine GameState.init 1)
     (Or.inr (Or.inr (Or.inr (Or.inl rfl)))) (by decide)).1,
   (returned_move_is_legal 2 captureEngine GameState.init 1 0 (Or.inl rfl) rfl
     (AlphaBetaBot.getMove 2 captureEngine GameState.init 1)
     (Or.inr (Or.inr (Or.inr (Or.inl rfl)))) (by decide)).2 (by decide)⟩

/-- C23. Move text round trip: for every hole from 1 to 16, `parse_move` of
`format_move(hole, c, nullopt)` is valid with the same hole and colour for `c` red or
blue, and `parse_move` of `format_move(hole, TRANSPARENT, t)` is valid with the same hole,
colour TRANSPARENT and `trans_as = t` for `t` red or blue; `format_move` gives different
texts to different moves of these forms. -/
theorem move_text_round_trip (hole : Int) (h1 : 1 ≤ hole) (h16 : hole ≤ 16) :
    (∀ c : Color, c = Color.RED ∨ c = Color.BLUE →
      parse_move (format_move hole c none) =
        { hole := hole, color := c, trans_as := none, valid := true }) ∧
    (∀ t : Color, t = Color.RED ∨ t = Color.BLUE →
      parse_move (format_move hole Color.TRANSPARENT (some t)) =
        { hole := hole, color := Color.TRANSPARENT, trans_as := some t, valid := true }) ∧
    (∀ (c : Color) (o : Option Color) (hole2 : Int) (c2 : Color) (o2 : Option Color),
      ((o = none ∧ (c = Color.RED ∨ c = Color.BLUE)) ∨
        (c = Color.TRANSPARENT ∧ (o = some Color.RED ∨ o = some Color.BLUE))) →
      1 ≤ hole2 → hole2 ≤ 16 →
      ((o2 = none ∧ (c2 = Color.RED ∨ c2 = Color.BLUE)) ∨
        (c2 = Color.TRANSPARENT ∧ (o2 = some Color.RED ∨ o2 = some Color.BLUE))) →
      format_move hole c o = format_move hole2 c2 o2 →
      hole = hole2 ∧ c = c2 ∧ o = o2) := by
  refine ⟨?_, ?_, ?_⟩
  · intro c hc
    exact parse_move_format_move hole h1 h16 c none (Or.inl ⟨rfl, hc⟩)
  · intro t ht
    refine parse_move_format_move hole h1 h16 Color.TRANSPARENT (some t) (Or.inr ⟨rfl, ?_⟩)
    rcases ht with rfl | rfl
    · exact Or.inl rfl
    · exact Or.inr rfl
  · intro c o hole2 c2 o2 hform h21 h216 hform2 heq
    have ha := parse_move_format_move hole h1 h16 c o hform
    have hb := parse_move_format_move hole2 h21 h216 c2 o2 hform2
    rw [heq, hb] at ha
    simp only [ParsedMove.mk.injEq, and_true] at ha
    exact ⟨ha.1.symm, ha.2.1.symm, ha.2.2.symm⟩

theorem move_text_round_trip_witness :
    format_move 10 Color.TRANSPARENT (some Color.BLUE) = ['1', '0', 'T', 'B'] ∧
    parse_move (format_move 10 Color.TRANSPARENT (some Color.BLUE)) =
      { hole := 10, color := Color.TRANSPARENT, trans_as := some Color.BLUE, valid := true } :=
  ⟨by decide,
   (move_text_round_trip 10 (by decide) (by decide)).2.1 Color.BLUE (Or.inr rfl)⟩

/-- C24. Every query runs to completion. The four recursive searches are functions of the
remaining budget `depth - current_depth`: on a finished game or with
`current_depth >= depth` they return at once, otherwise they are the loop over the moves
of the recursive calls at `current_depth + 1`, for which the budget is strictly smaller;
the loop of `IterativeDeepeningDFSBot::search` makes one such call per depth limit. For
every depth `d >= 0` the queue loop of `BFSBot::search` returns a move as soon as the
fuel covers the entries above the limit and those at the limit. -/
theorem searches_run_to_completion (depth current_depth : Int) (mg : MoveGenerator)
    (state : GameState) (player : Int) (α β : Score) (f : Bool)
    (_hplayer : player = 1 ∨ player = 2) :
    (current_depth < depth →
      (depth - (current_depth + 1)).toNat < (depth - current_depth).toNat) ∧
    (∀ (d fuel : Nat),
      BFSBot.work mg player d [BFSBot.rootItem state] +
        (BFSBot.levelFrom mg player d [BFSBot.rootItem state]).length ≤ fuel →
      ∃ r, BFSBot.search d mg fuel state player = some r) ∧
    (state.isGameOver = true →
      DFSBot.search depth mg state player current_depth =
        (getTerminalScore state player, Move.none) ∧
      MinMaxBot.search depth mg state player current_depth α β =
        (getTerminalScore state player, Move.none) ∧
      AlphaBetaBot.search depth mg state player current_depth α β f =
        (getTerminalScore state player, Move.none) ∧
      IterativeDeepeningDFSBot.dfsLimited mg state player depth current_depth =
        (getTerminalScore state player, Move.none)) ∧
    (state.isGameOver = false → current_depth ≥ depth →
      DFSBot.search depth mg state player current_depth =
        (evaluate state player, Move.none) ∧
      MinMaxBot.search depth mg state player current_depth α β =
        (evaluate state player, Move.none) ∧
      AlphaBetaBot.search depth mg state player current_depth α β f =
        (evaluate state player, Move.none) ∧
      IterativeDeepeningDFSBot.dfsLimited mg state player depth current_depth =
        (evaluate state player, Move.none)) ∧
    (state.isGameOver = false → current_depth < depth → state.current_player = player →
      DFSBot.search depth mg state player current_depth =
        DFSBot.maxLoop mg state
          (fun t => (DFSBot.search depth mg t player (current_depth + 1)).1)
          (mg.getAllMoves state player) Score.negInf Move.none ∧
      MinMaxBot.search depth mg state player current_depth α β =
        MinMaxBot.maxLoop mg state
          (fun t a b => (MinMaxBot.search depth mg t player (current_depth + 1) a b).1) β
          (mg.getAllMoves state player) Score.negInf Move.none α ∧
      IterativeDeepeningDFSBot.dfsLimited mg state player depth current_depth =
        IterativeDeepeningDFSBot.maxLoop mg state
          (fun t => (IterativeDeepeningDFSBot.dfsLimited mg t player depth
            (current_depth + 1)).1)
          (mg.getAllMoves state player) Score.negInf Move.none) ∧
    (state.isGameOver = false → current_depth < depth → state.current_player ≠ player →
      DFSBot.search depth mg state player current_depth =
        DFSBot.minLoop mg state
          (fun t => (DFSBot.search depth mg t player (current_depth + 1)).1)
          (mg.getAllMoves state (3 - player)) Score.posInf Move.none ∧
      MinMaxBot.search depth mg state player current_depth α β =
        MinMaxBot.minLoop mg state
          (fun t a b => (MinMaxBot.search depth mg t player (current_depth + 1) a b).1) α
          (mg.getAllMoves state (3 - player)) Score.posInf Move.none β ∧
      IterativeDeepeningDFSBot.dfsLimited mg state player depth current_depth =
        IterativeDeepeningDFSBot.minLoop mg state
          (fun t => (IterativeDeepeningDFSBot.dfsLimited mg t player depth
            (current_depth + 1)).1)
          (mg.getAllMoves state (3 - player)) Score.posInf Move.none) ∧
    (state.isGameOver = false → current_depth < depth →
      AlphaBetaBot.search depth mg state player current_depth α β true =
        AlphaBetaBot.maxLoop mg state player
          (fun t a b g =>
            (AlphaBetaBot.search depth mg t player (current_depth + 1) a b g).1) β
          (mg.getAllMoves state state.current_player) Score.negInf Move.none α ∧
      AlphaBetaBot.search depth mg state player current_depth α β false =
        AlphaBetaBot.minLoop mg state player
          (fun t a b g =>
            (AlphaBetaBot.search depth mg t player (current_depth + 1) a b g).1) α
          (mg.getAllMoves state state.current_player) Score.posInf Move.none β) ∧
    (∀ (iterations : Nat) (d : Int) (best_move : Move),
      IterativeDeepeningDFSBot.searchLoop mg state player (iterations + 1) d best_move =
        IterativeDeepeningDFSBot.searchLoop mg state player iterations (d + 1)
          (if (IterativeDeepeningDFSBot.dfsLimited mg state player d 0).2.valid = true then
            (IterativeDeepeningDFSBot.dfsLimited mg state player d 0).2
          else best_move)) := by
  refine ⟨search_measure_decreases depth current_depth, ?_, ?_, ?_, ?_, ?_, ?_, ?_⟩
  · intro d fuel hfuel
    exact BFSBot.bfs_search_some d mg state player fuel hfuel
  · intro hover
    exact ⟨DFSBot.dfs_search_finished depth current_depth mg state player hover,
      MinMaxBot.mm_search_finished depth current_depth mg state player α β hover,
      AlphaBetaBot.ab_search_finished depth current_depth mg state player α β f hover,
      IterativeDeepeningDFSBot.id_dfsLimited_finished depth current_depth mg state player hover⟩
  · intro hlive hdepth
    exact ⟨DFSBot.dfs_search_cutoff depth current_depth mg state player hlive hdepth,
      MinMaxBot.mm_search_cutoff depth current_depth mg state player α β hlive hdepth,
      AlphaBetaBot.ab_search_cutoff depth current_depth mg state player α β f hlive hdepth,
      IterativeDeepeningDFSBot.id_dfsLimited_cutoff depth current_depth mg state player hlive
        hdepth⟩
  · intro hlive hdepth hturn
    exact ⟨DFSBot.dfs_search_step_max depth current_depth mg state player hlive hdepth hturn,
      MinMaxBot.mm_search_step_max depth current_depth mg state player α β hlive hdepth hturn,
      IterativeDeepeningDFSBot.id_dfsLimited_step_max depth current_depth mg state player hlive
        hdepth hturn⟩
  · intro hlive hdepth hturn
    exact ⟨DFSBot.dfs_search_step_min depth current_depth mg state player hlive hdepth hturn,
      MinMaxBot.mm_search_step_min depth current_depth mg state player α β hlive hdepth hturn,
      IterativeDeepeningDFSBot.id_dfsLimited_step_min depth current_depth mg state player hlive
        hdepth hturn⟩
  · intro hlive hdepth
    exact ⟨AlphaBetaBot.ab_search_step_max depth current_depth mg state player α β hlive hdepth,
      AlphaBetaBot.ab_search_step_min depth current_depth mg state player α β hlive hdepth⟩
  · intro iterations d best_move
    exact IterativeDeepeningDFSBot.id_searchLoop_succ mg state player iterations d best_move

theorem searches_run_to_completion_witness :
    ∃ r, BFSBot.search 1 captureEngine 33 GameState.init 1 = some r :=
  (searches_run_to_completion 3 0 captureEngine GameState.init 1 Score.negInf Score.posInf true
    (Or.inl rfl)).2.1 1 33 (by decide)

/-- C25, as claimed, fails at the root: `AlphaBetaBot::getMove` calls `search` with
`is_maximizing = true` although player 1 is to move and the querying player is 2, and
returns the move best for player 2 where `DFSBot` returns the move worst for it. -/
theorem alpha_beta_root_role_counterexample :
    decide ((smallState 20 10 30 20 16 1 10).current_player = 2) = false ∧
    ((AlphaBetaBot.getMoveTraced 1 captureEngine (smallState 20 10 30 20 16 1 10) 2).2.head?.map
      Prod.snd) = some true ∧
    AlphaBetaBot.getMove 1 captureEngine (smallState 20 10 30 20 16 1 10) 2 =
      Move.make 3 Color.BLUE Color.BLUE false ∧
    DFSBot.getMove 1 captureEngine (smallState 20 10 30 20 16 1 10) 2 =
      Move.make 1 Color.RED Color.RED false := by
  decide

/-- C25, amended. Role by mover identity below the root: during
`AlphaBetaBot::getMove(position, player)` the first call of `search` is made on the root
with `is_maximizing = true`, and every later call is made with
`is_maximizing = (current_player == player)` of its own position; so the flag is the
comparison of the mover with the player at every node, the root included, when the
mover of the root is the player. -/
theorem alpha_beta_role_by_mover (depth : Int) (mg : MoveGenerator) (state : GameState)
    (player : Int) (_hplayer : player = 1 ∨ player = 2) :
    (∃ below, (AlphaBetaBot.getMoveTraced depth mg state player).2 = (state, true) :: below ∧
      ∀ e ∈ below, e.2 = decide (e.1.current_player = player)) ∧
    (state.current_player = player →
      ∀ e ∈ (AlphaBetaBot.getMoveTraced depth mg state player).2,
        e.2 = decide (e.1.current_player = player)) ∧
    (AlphaBetaBot.getMoveTraced depth mg state player).1 =
      AlphaBetaBot.getMove depth mg state player := by
  obtain ⟨ext, he, hP⟩ := AlphaBetaBot.ab_searchFromTraced_ext mg player (depth - 0).toNat state
    Score.negInf Score.posInf true []
  have he2 : (AlphaBetaBot.getMoveTraced depth mg state player).2 = (state, true) :: ext := he
  refine ⟨⟨ext, he2, hP⟩, ?_, ?_⟩
  · intro hturn e hmem
    rw [he2] at hmem
    rcases List.mem_cons.mp hmem with rfl | hmem
    · exact (decide_eq_true hturn).symm
    · exact hP e hmem
  · show (AlphaBetaBot.searchFromTraced mg player (depth - 0).toNat state Score.negInf
      Score.posInf true []).1.2 = _
    rw [AlphaBetaBot.ab_searchFromTraced_fst]
    rfl

theorem alpha_beta_role_by_mover_witness :
    ((AlphaBetaBot.getMoveTraced 2 captureEngine (smallState 20 10 30 20 16 1 10) 1).2.all
      fun e => e.2 == decide (e.1.current_player = 1)) = true ∧
    (AlphaBetaBot.getMoveTraced 2 captureEngine (smallState 20 10 30 20 16 1 10) 1).2.length =
      5 :=
  ⟨List.all_eq_true.mpr (fun e he => beq_iff_eq.mpr
    ((alpha_beta_role_by_mover 2 captureEngine (smallState 20 10 30 20 16 1 10) 1
      (Or.inl rfl)).2.1 rfl e he)),
   by decide⟩

/-- C26, as claimed, fails: `MinMaxBot::search` stops a loop at `beta <= alpha`. With a
first move that wins at once, `MinMaxBot(1).getMove` counts 2 nodes where the complete
depth-1 tree has 3. -/
theorem minmax_prunes_counterexample :
    (MinMaxBot.getMoveCounted 1 captureEngine (smallState 2 2 14 48 30 1 10) 1 0).2 = 2 ∧
    (IterativeDeepeningDFSBot.dfsLimitedCounted captureEngine (smallState 2 2 14 48 30 1 10) 1
      1 0 0).2 = 3 ∧
    (captureEngine.getAllMoves (smallState 2 2 14 48 30 1 10) 1).length = 2 := by
  decide

/-- C26, amended. MinMaxBot is minimax with alpha-beta cutoffs: a loop over the moves of
a node stops at the first move after which `beta <= alpha`. After
`MinMaxBot(d).getMove(position, player)`, whatever the counter held before,
`nodes_explored` is at most the number of nodes of the complete depth-`d` tree (the count
of `dfsLimited` at limit `d` from a zero counter), and the move returned is the move
of the unpruned search `DFSBot(d)`. -/
theorem minmax_counts_at_most_full_tree (depth : Int) (mg : MoveGenerator)
    (state : GameState) (player : Int) (nodes_explored : Int)
    (_hplayer : player = 1 ∨ player = 2) :
    (MinMaxBot.getMoveCounted depth mg state player nodes_explored).2 ≤
      (IterativeDeepeningDFSBot.dfsLimitedCounted mg state player depth 0 0).2 ∧
    (MinMaxBot.getMoveCounted depth mg state player nodes_explored).1 =
      MinMaxBot.getMove depth mg state player ∧
    MinMaxBot.getMove depth mg state player = DFSBot.getMove depth mg state player := by
  refine ⟨?_, ?_, ?_⟩
  · have h : ∀ n : Nat,
        (MinMaxBot.searchFromCounted mg player n state Score.negInf Score.posInf 0).2 ≤
        (IterativeDeepeningDFSBot.dfsLimitedFromCounted mg player n state 0).2 := by
      intro n
      have h := MinMaxBot.mm_searchFromCounted_le mg player n state Score.negInf Score.posInf 0 0
      simp only [sub_zero] at h
      exact h
    exact h _
  · show (MinMaxBot.searchFromCounted mg player (depth - 0).toNat state Score.negInf
      Score.posInf 0).1.2 = _
    rw [MinMaxBot.mm_searchFromCounted_fst]
    rfl
  · unfold MinMaxBot.getMove DFSBot.getMove MinMaxBot.search DFSBot.search
    rw [MinMaxBot.mm_searchFrom_root]

theorem minmax_counts_at_most_full_tree_witness :
    (MinMaxBot.getMoveCounted 1 captureEngine (smallState 2 2 14 48 30 1 10) 1 7).2 ≤
      (IterativeDeepeningDFSBot.dfsLimitedCounted captureEngine
        (smallState 2 2 14 48 30 1 10) 1 1 0 0).2 :=
  (minmax_counts_at_most_full_tree 1 captureEngine (smallState 2 2 14 48 30 1 10) 1 7
    (Or.inl rfl)).1

/-- C27. The depth-limited search of iterative deepening is the plain minimax of DFSBot:
for every depth limit, position and player (1 or 2), `dfsLimited(position, player, d, 0)`
returns the score and move of `DFSBot(d).search(position, player, 0)`; on a finished game
both return `getTerminalScore(position, player)`, which is the win, loss or draw score
written out in `DFSBot::search`, and no move. -/
theorem dfsLimited_is_plain_minimax (d : Int) (mg : MoveGenerator) (state : GameState)
    (player : Int) (_hplayer : player = 1 ∨ player = 2) :
    IterativeDeepeningDFSBot.dfsLimited mg state player d 0 =
      DFSBot.search d mg state player 0 ∧
    (state.isGameOver = true →
      DFSBot.search d mg state player 0 = (getTerminalScore state player, Move.none) ∧
      IterativeDeepeningDFSBot.dfsLimited mg state player d 0 =
        (getTerminalScore state player, Move.none)) := by
  refine ⟨IterativeDeepeningDFSBot.id_dfsLimited_eq mg state player d, ?_⟩
  intro hover
  exact ⟨DFSBot.dfs_search_finished d 0 mg state player hover,
    IterativeDeepeningDFSBot.id_dfsLimited_finished d 0 mg state player hover⟩

theorem dfsLimited_is_plain_minimax_witness :
    IterativeDeepeningDFSBot.dfsLimited captureEngine (smallState 20 10 30 20 16 1 10) 1 3 0 =
        (Score.posInf, Move.make 3 Color.BLUE Color.BLUE false) ∧
    IterativeDeepeningDFSBot.dfsLimited captureEngine (smallState 20 10 30 20 16 1 10) 1 3 0 =
      DFSBot.search 3 captureEngine (smallState 20 10 30 20 16 1 10) 1 0 :=
  ⟨by decide,
   (dfsLimited_is_plain_minimax 3 captureEngine (smallState 20 10 30 20 16 1 10) 1
     (Or.inl rfl)).1⟩

/-- C28, as claimed, fails for iterative deepening without iterations: with
`max_depth = 0` the loop of `search` never runs, `nodes_explored` is never reset, and its
value after `getMove` is the value it had before. -/
theorem counters_per_query_counterexample :
    (IterativeDeepeningDFSBot.getMoveCounted 0 captureEngine (smallState 20 10 30 20 16 1 10)
      1 5).2 = 5 ∧
    (IterativeDeepeningDFSBot.getMoveCounted 0 captureEngine (smallState 20 10 30 20 16 1 10)
      1 0).2 = 0 := by
  decide

/-- C28, amended. Counters are per query: for MinMaxBot and AlphaBetaBot the move
returned by `getMove` and the counters after the call do not depend on the counters
before it; for IterativeDeepeningDFSBot the move does not depend on the counter, and with
`max_depth >= 1` neither does `nodes_explored` after the call, which is the node count of
the last iteration (limit `max_depth`) alone; with `max_depth <= 0` no iteration runs and
`nodes_explored` keeps its value. The moves are those of the searches without
counters. -/
theorem counters_are_per_query (depth : Int) (mg : MoveGenerator) (state : GameState)
    (player : Int) (c1 c2 : Int) (k1 k2 : AlphaBetaBot.Counters)
    (_hplayer : player = 1 ∨ player = 2) :
    MinMaxBot.getMoveCounted depth mg state player c1 =
      MinMaxBot.getMoveCounted depth mg state player c2 ∧
    AlphaBetaBot.getMoveCounted depth mg state player k1 =
      AlphaBetaBot.getMoveCounted depth mg state player k2 ∧
    (IterativeDeepeningDFSBot.getMoveCounted depth mg state player c1).1 =
      (IterativeDeepeningDFSBot.getMoveCounted depth mg state player c2).1 ∧
    (1 ≤ depth →
      (IterativeDeepeningDFSBot.getMoveCounted depth mg state player c1).2 =
        (IterativeDeepeningDFSBot.getMoveCounted depth mg state player c2).2 ∧
      (IterativeDeepeningDFSBot.getMoveCounted depth mg state player c1).2 =
        (IterativeDeepeningDFSBot.dfsLimitedCounted mg state player depth 0 0).2) ∧
    (depth ≤ 0 →
      IterativeDeepeningDFSBot.getMoveCounted depth mg state player c1 = (Move.none, c1)) ∧
    (MinMaxBot.getMoveCounted depth mg state player c1).1 =
      MinMaxBot.getMove depth mg state player ∧
    (AlphaBetaBot.getMoveCounted depth mg state player k1).1 =
      AlphaBetaBot.getMove depth mg state player ∧
    (IterativeDeepeningDFSBot.getMoveCounted depth mg state player c1).1 =
      IterativeDeepeningDFSBot.getMove depth mg state player := by
  have hid : ∀ c : Int, (IterativeDeepeningDFSBot.getMoveCounted depth mg state player c).1 =
      IterativeDeepeningDFSBot.getMove depth mg state player := fun c =>
    IterativeDeepeningDFSBot.id_searchLoopCounted_fst mg state player _ 1 Move.none c
  have hlast : 1 ≤ depth → ∀ c : Int,
      (IterativeDeepeningDFSBot.getMoveCounted depth mg state player c).2 =
        (IterativeDeepeningDFSBot.dfsLimitedCounted mg state player depth 0 0).2 := by
    intro hdepth c
    obtain ⟨k, hk⟩ : ∃ k : Nat, depth.toNat = k + 1 := ⟨depth.toNat - 1, by omega⟩
    have hd : (1 : Int) + (k : Int) = depth := by omega
    unfold IterativeDeepeningDFSBot.getMoveCounted IterativeDeepeningDFSBot.searchCounted
    rw [hk, IterativeDeepeningDFSBot.id_searchLoopCounted_snd, hd]
  refine ⟨rfl, rfl, ?_, ?_, ?_, ?_, ?_, hid c1⟩
  · rw [hid c1, hid c2]
  · intro hdepth
    exact ⟨by rw [hlast hdepth c1, hlast hdepth c2], hlast hdepth c1⟩
  · intro hdepth
    have h0 : depth.toNat = 0 := by omega
    unfold IterativeDeepeningDFSBot.getMoveCounted IterativeDeepeningDFSBot.searchCounted
    rw [h0]
    rfl
  · show (MinMaxBot.searchFromCounted mg player (depth - 0).toNat state Score.negInf
      Score.posInf 0).1.2 = _
    rw [MinMaxBot.mm_searchFromCounted_fst]
    rfl
  · show (AlphaBetaBot.searchFromCounted mg player (depth - 0).toNat state Score.negInf
      Score.posInf true { nodes_explored := 0, pruned_branches := 0 }).1.2 = _
    rw [AlphaBetaBot.ab_searchFromCounted_fst]
    rfl

theorem counters_are_per_query_witness :
    (IterativeDeepeningDFSBot.getMoveCounted 2 captureEngine (smallState 20 10 30 20 16 1 10)
      1 5).2 =
      (IterativeDeepeningDFSBot.getMoveCounted 2 captureEngine
        (smallState 20 10 30 20 16 1 10) 1 0).2 ∧
    (IterativeDeepeningDFSBot.getMoveCounted 2 captureEngine (smallState 20 10 30 20 16 1 10)
      1 5).2 =
      (IterativeDeepeningDFSBot.dfsLimitedCounted captureEngine
        (smallState 20 10 30 20 16 1 10) 1 2 0 0).2 :=
  (counters_are_per_query 2 captureEngine (smallState 20 10 30 20 16 1 10) 1 5 0
    { nodes_explored := 3, pruned_branches := 1 } { nodes_explored := 0, pruned_branches := 0 }
    (Or.inl rfl)).2.2.2.1 (by decide)

/-- C29. Strategy selector dispatch: for every player id, depth `d` and name that equals,
letter case ignored, one of bfs, dfs, minimax, alphabeta, iddfs,
`AIPlayer(id, name, d).getMove(state)` is `getMove(state, id)` of `BFSBot(d)`, `DFSBot(d)`,
`MinMaxBot(d)`, `AlphaBetaBot(d)` or `IterativeDeepeningDFSBot(d)` respectively; for any
other name it is the invalid move `Move()`. -/
theorem strategy_selector_dispatch (id d : Int) (name : List Char) (mg : MoveGenerator)
    (fuel : Nat) (state : GameState) :
    (name.map Char.toLower = "bfs".toList →
      (AIPlayer.make id name d).getMove mg fuel state = BFSBot.getMove d mg fuel state id) ∧
    (name.map Char.toLower = "dfs".toList →
      (AIPlayer.make id name d).getMove mg fuel state =
        some (DFSBot.getMove d mg state id)) ∧
    (name.map Char.toLower = "minimax".toList →
      (AIPlayer.make id name d).getMove mg fuel state =
        some (MinMaxBot.getMove d mg state id)) ∧
    (name.map Char.toLower = "alphabeta".toList →
      (AIPlayer.make id name d).getMove mg fuel state =
        some (AlphaBetaBot.getMove d mg state id)) ∧
    (name.map Char.toLower = "iddfs".toList →
      (AIPlayer.make id name d).getMove mg fuel state =
        some (IterativeDeepeningDFSBot.getMove d mg state id)) ∧
    (name.map Char.toLower ≠ "bfs".toList → name.map Char.toLower ≠ "dfs".toList →
      name.map Char.toLower ≠ "minimax".toList →
      name.map Char.toLower ≠ "alphabeta".toList →
      name.map Char.toLower ≠ "iddfs".toList →
      (AIPlayer.make id name d).getMove mg fuel state = some Move.none) := by
  refine ⟨?_, ?_, ?_, ?_, ?_, ?_⟩
  · intro h
    simp only [AIPlayer.make, AIPlayer.createAI, AIPlayer.getMove, h, if_true, decide_True]
  · intro h
    have h1 : ¬ ("dfs".toList = "bfs".toList) := by decide
    simp only [AIPlayer.make, AIPlayer.createAI, AIPlayer.getMove, h, h1, if_true, if_false,
      decide_True, decide_False]
  · intro h
    have h1 : ¬ ("minimax".toList = "bfs".toList) := by decide
    have h2 : ¬ ("minimax".toList = "dfs".toList) := by decide
    simp only [AIPlayer.make, AIPlayer.createAI, AIPlayer.getMove, h, h1, h2, if_true,
      if_false, decide_True, decide_False]
  · intro h
    have h1 : ¬ ("alphabeta".toList = "bfs".toList) := by decide
    have h2 : ¬ ("alphabeta".toList = "dfs".toList) := by decide
    have h3 : ¬ ("alphabeta".toList = "minimax".toList) := by decide
    simp only [AIPlayer.make, AIPlayer.createAI, AIPlayer.getMove, h, h1, h2, h3, if_true,
      if_false, decide_True, decide_False]
  · intro h
    have h1 : ¬ ("iddfs".toList = "bfs".toList) := by decide
    have h2 : ¬ ("iddfs".toList = "dfs".toList) := by decide
    have h3 : ¬ ("iddfs".toList = "minimax".toList) := by decide
    have h4 : ¬ ("iddfs".toList = "alphabeta".toList) := by decide
    simp only [AIPlayer.make, AIPlayer.createAI, AIPlayer.getMove, h, h1, h2, h3, h4, if_true,
      if_false, decide_True, decide_False]
  · intro h1 h2 h3 h4 h5
    simp only [AIPlayer.make, AIPlayer.createAI, AIPlayer.getMove, h1, h2, h3, h4, h5,
      if_false, decide_False]

/-- C30. The freshly constructed `GameState` is the starting position: every hole from 1
to 16 holds 2 red, 2 blue and 2 transparent seeds, nothing is captured, player 1 is to
move and no move has been played; so `getSeedsOnBoard()` is 96, which is
`TOTAL_INITIAL_SEEDS`, `isGameOver()` is false, `getWinner()` is 0 and `evaluate` is 0 for
both players. -/
theorem initial_position :
    (∀ hole : Int, 1 ≤ hole → hole ≤ 16 →
      GameState.init.holes hole Color.RED = 2 ∧ GameState.init.holes hole Color.BLUE = 2 ∧
        GameState.init.holes hole Color.TRANSPARENT = 2) ∧
    GameState.init.captured_seeds 1 = 0 ∧ GameState.init.captured_seeds 2 = 0 ∧
    GameState.init.current_player = 1 ∧ GameState.init.move_count = 0 ∧
    GameState.init.getSeedsOnBoard = 96 ∧ TOTAL_INITIAL_SEEDS = 96 ∧
    GameState.init.isGameOver = false ∧ GameState.init.getWinner = 0 ∧
    evaluate GameState.init 1 = Score.fin 0 ∧ evaluate GameState.init 2 = Score.fin 0 := by
  refine ⟨?_, rfl, rfl, rfl, rfl, by decide, by decide, by decide, by decide, by decide,
    by decide⟩
  intro hole h1 h16
  interval_cases hole <;> decide

/-! ## Decimal text of an `int` and `std::stoi` -/

theorem digitChar_spec (d : Nat) (hd : d < 10) :
    (48 ≤ (Nat.digitChar d).toNat ∧ (Nat.digitChar d).toNat ≤ 57) ∧
      ((Nat.digitChar d).toNat : Int) - 48 = (d : Int) := by
  interval_cases d <;> decide

/-- The digits written for `n` are decimal digits, at least one, with value `n`. -/
theorem toDigitsCore_spec (fuel : Nat) :
    ∀ (n : Nat) (ds : List Char), n < fuel →
      ∃ pre, Nat.toDigitsCore 10 fuel n ds = pre ++ ds ∧
        (∀ c ∈ pre, 48 ≤ c.toNat ∧ c.toNat ≤ 57) ∧ pre ≠ [] ∧
        pre.foldl (fun acc c => 10 * acc + ((c.toNat : Int) - 48)) 0 = (n : Int) := by
  induction fuel with
  | zero => intro n ds h; exact absurd h (Nat.not_lt_zero n)
  | succ fuel ih =>
    intro n ds hn
    have hd := digitChar_spec (n % 10) (Nat.mod_lt n (by decide))
    simp only [Nat.toDigitsCore]
    by_cases h0 : n / 10 = 0
    · rw [if_pos h0]
      refine ⟨[Nat.digitChar (n % 10)], rfl, ?_, by simp, ?_⟩
      · intro c hc
        rw [List.mem_singleton.mp hc]
        exact hd.1
      · simp only [List.foldl_cons, List.foldl_nil]
        rw [hd.2]
        omega
    · rw [if_neg h0]
      obtain ⟨pre, hpre, hdig, _, hval⟩ := ih (n / 10) (Nat.digitChar (n % 10) :: ds)
        (by omega)
      refine ⟨pre ++ [Nat.digitChar (n % 10)], by rw [hpre, List.append_assoc]; rfl, ?_,
        by simp, ?_⟩
      · intro c hc
        rcases List.mem_append.mp hc with hc | hc
        · exact hdig c hc
        · rw [List.mem_singleton.mp hc]
          exact hd.1
      · rw [List.foldl_append, hval]
        simp only [List.foldl_cons, List.foldl_nil]
        rw [hd.2]
        omega

/-- The function `stoi` on digits only: their value, if it fits an `int`. -/
theorem stoi_digits (pre : List Char) (hdig : ∀ c ∈ pre, 48 ≤ c.toNat ∧ c.toNat ≤ 57)
    (hne : pre ≠ []) (v : Int)
    (hval : pre.foldl (fun acc c => 10 * acc + ((c.toNat : Int) - 48)) 0 = v)
    (hlo : -2147483648 ≤ v) (hhi : v ≤ 2147483647) : stoi pre = some v := by
  obtain ⟨c, t, rfl⟩ := List.exists_cons_of_ne_nil hne
  have hc := hdig c (List.mem_cons_self _ _)
  have hblank : ¬ (c.toNat = 32 ∨ (9 ≤ c.toNat ∧ c.toNat ≤ 13)) := by omega
  have hminus : c ≠ '-' := by
    intro h
    rw [h] at hc
    exact absurd hc.1 (by decide)
  have hplus : c ≠ '+' := by
    intro h
    rw [h] at hc
    exact absurd hc.1 (by decide)
  have htake : List.takeWhile (fun c => decide (48 ≤ c.toNat ∧ c.toNat ≤ 57)) (c :: t) =
      c :: t :=
    List.takeWhile_eq_self_iff.mpr (fun x hx => decide_eq_true (hdig x hx))
  simp only [stoi, List.dropWhile_cons, hblank, decide_False, Bool.false_eq_true, if_false,
    List.head?_cons, Option.some.injEq, hminus, hplus, or_self, htake, hval, hlo, hhi,
    and_self, if_true]
  simp

/-- The function `stoi` after a minus sign. -/
theorem stoi_minus_digits (pre : List Char) (hdig : ∀ c ∈ pre, 48 ≤ c.toNat ∧ c.toNat ≤ 57)
    (hne : pre ≠ []) (v : Int)
    (hval : pre.foldl (fun acc c => 10 * acc + ((c.toNat : Int) - 48)) 0 = v)
    (hlo : -2147483648 ≤ -v) (hhi : -v ≤ 2147483647) : stoi ('-' :: pre) = some (-v) := by
  have htake : List.takeWhile (fun c => decide (48 ≤ c.toNat ∧ c.toNat ≤ 57)) pre = pre :=
    List.takeWhile_eq_self_iff.mpr (fun x hx => decide_eq_true (hdig x hx))
  have hblank : ¬ (('-' : Char).toNat = 32 ∨ (9 ≤ ('-' : Char).toNat ∧ ('-' : Char).toNat ≤ 13)) := by
    decide
  simp only [stoi, List.dropWhile_cons, hblank, decide_False, Bool.false_eq_true, if_false,
    List.head?_cons, true_or, if_true, List.tail_cons, htake, hne, hval, hlo, hhi, and_self]

/-- Reading the decimal text of an `int` gives the `int` back. -/
theorem stoi_intToChars (n : Int) (hlo : -2147483648 ≤ n) (hhi : n ≤ 2147483647) :
    stoi (intToChars n) = some n := by
  obtain ⟨pre, hpre, hdig, hne, hval⟩ := toDigitsCore_spec (n.natAbs + 1) n.natAbs [] (by omega)
  rw [List.append_nil] at hpre
  have htd : Nat.toDigits 10 n.natAbs = pre := hpre
  unfold intToChars
  by_cases hneg : n < 0
  · rw [if_pos hneg, htd]
    have hn : n = -((n.natAbs : Nat) : Int) := by omega
    have h := stoi_minus_digits pre hdig hne _ hval (by omega) (by omega)
    rw [← hn] at h
    exact h
  · rw [if_neg hneg, htd]
    have hn : ((n.natAbs : Nat) : Int) = n := by omega
    rw [hn] at hval
    exact stoi_digits pre hdig hne n hval hlo hhi

/-- The text of an `int` is not empty and its last character is a digit. -/
theorem intToChars_last (n : Int) :
    ∃ t c, intToChars n = t ++ [c] ∧ 48 ≤ c.toNat ∧ c.toNat ≤ 57 := by
  obtain ⟨pre, hpre, hdig, hne, _⟩ := toDigitsCore_spec (n.natAbs + 1) n.natAbs [] (by omega)
  rw [List.append_nil] at hpre
  have htd : Nat.toDigits 10 n.natAbs = pre := hpre
  obtain ⟨t, c, rfl⟩ : ∃ t c, pre = t ++ [c] :=
    ⟨pre.dropLast, pre.getLast hne, (List.dropLast_append_getLast hne).symm⟩
  have hc := hdig c (by simp)
  unfold intToChars
  split_ifs
  · exact ⟨'-' :: t, c, by rw [htd]; rfl, hc⟩
  · exact ⟨t, c, htd, hc⟩

/-! ## The input formats of a human move -/

theorem HumanPlayer.parseMoveInput_color (self : HumanPlayer) (move_str : List Char)
    (n : Int) (hlo : -2147483648 ≤ n) (hhi : n ≤ 2147483647) (x : Char) (co : Color)
    (hx : (x = 'R' ∧ co = Color.RED) ∨ (x = 'B' ∧ co = Color.BLUE))
    (h : (HumanPlayer.trim move_str).map Char.toUpper = intToChars n ++ [x]) :
    self.parseMoveInput move_str = some (n, co, co, false) := by
  obtain ⟨t, c, ht, hc⟩ := intToChars_last n
  have hstoi := stoi_intToChars n hlo hhi
  have hlen : (intToChars n ++ [x]).length = (intToChars n).length + 1 := by simp
  have hlen2 : (intToChars n).length = t.length + 1 := by rw [ht]; simp
  have hdrop : List.drop ((intToChars n ++ [x]).length - 2) (intToChars n ++ [x]) = [c, x] := by
    rw [ht, List.append_assoc]
    exact List.drop_left' (by simp)
  have htake : List.take ((intToChars n ++ [x]).length - 1) (intToChars n ++ [x]) =
      intToChars n := List.take_left' (by simp)
  have hlast : (intToChars n ++ [x]).getLast? = some x := by simp
  have hcT : c ≠ 'T' := by
    intro hT
    rw [hT] at hc
    exact absurd hc.2 (by decide)
  have hne1 : ¬ ([c, x] = ['T', 'R']) := by
    intro h2
    exact hcT (List.cons.inj h2).1
  have hne2 : ¬ ([c, x] = ['T', 'B']) := by
    intro h2
    exact hcT (List.cons.inj h2).1
  have hge : (intToChars n ++ [x]).length ≥ 2 := by omega
  unfold HumanPlayer.parseMoveInput
  simp only [h, hdrop, hne1, hne2, and_false, if_false, hlast, htake, hstoi, hge, true_and,
    Option.some.injEq]
  rcases hx with ⟨rfl, rfl⟩ | ⟨rfl, rfl⟩
  · simp
  · simp

theorem HumanPlayer.parseMoveInput_transparent (self : HumanPlayer) (move_str : List Char)
    (n : Int) (hlo : -2147483648 ≤ n) (hhi : n ≤ 2147483647) (x : Char) (co : Color)
    (hx : (x = 'R' ∧ co = Color.RED) ∨ (x = 'B' ∧ co = Color.BLUE))
    (h : (HumanPlayer.trim move_str).map Char.toUpper = intToChars n ++ ['T', x]) :
    self.parseMoveInput move_str = some (n, Color.TRANSPARENT, co, true) := by
  obtain ⟨t, c, ht, _⟩ := intToChars_last n
  have hstoi := stoi_intToChars n hlo hhi
  have hlen2 : (intToChars n).length = t.length + 1 := by rw [ht]; simp
  have hdrop : List.drop ((intToChars n ++ ['T', x]).length - 2) (intToChars n ++ ['T', x]) =
      ['T', x] := List.drop_left' (by simp)
  have htake : List.take ((intToChars n ++ ['T', x]).length - 2) (intToChars n ++ ['T', x]) =
      intToChars n := List.take_left' (by simp)
  have hge : (intToChars n ++ ['T', x]).length ≥ 3 := by
    simp only [List.length_append, List.length_cons, List.length_nil]
    omega
  unfold HumanPlayer.parseMoveInput
  simp only [h, hdrop, htake, hstoi, hge, true_and]
  rcases hx with ⟨rfl, rfl⟩ | ⟨rfl, rfl⟩
  · simp
  · simp

/-- Rejection of a text that does not end in R or B. -/
theorem HumanPlayer.parseMoveInput_no_suffix (self : HumanPlayer) (move_str : List Char)
    (hR : ((HumanPlayer.trim move_str).map Char.toUpper).getLast? ≠ some 'R')
    (hB : ((HumanPlayer.trim move_str).map Char.toUpper).getLast? ≠ some 'B') :
    self.parseMoveInput move_str = none := by
  have key : ∀ (u : List Char) (x y : Char), u.getLast? ≠ some y →
      ¬ (u.length ≥ 3 ∧ u.drop (u.length - 2) = [x, y]) := by
    intro u x y hy ⟨hlen, hd⟩
    apply hy
    have hu : u = u.take (u.length - 2) ++ [x, y] := by
      rw [← hd, List.take_append_drop]
    rw [hu]
    simp
  unfold HumanPlayer.parseMoveInput
  simp only [key _ 'T' 'R' hR, key _ 'T' 'B' hB, hR, hB, and_false, if_false]

/-- Rejection of a text whose part before the colour letters has no number. -/
theorem HumanPlayer.parseMoveInput_no_number (self : HumanPlayer) (move_str : List Char) :
    (((HumanPlayer.trim move_str).map Char.toUpper).length ≥ 3 ∧
        (((HumanPlayer.trim move_str).map Char.toUpper).drop
            (((HumanPlayer.trim move_str).map Char.toUpper).length - 2) = ['T', 'R'] ∨
          ((HumanPlayer.trim move_str).map Char.toUpper).drop
            (((HumanPlayer.trim move_str).map Char.toUpper).length - 2) = ['T', 'B']) →
      stoi (((HumanPlayer.trim move_str).map Char.toUpper).take
        (((HumanPlayer.trim move_str).map Char.toUpper).length - 2)) = none →
      self.parseMoveInput move_str = none) ∧
    (¬ (((HumanPlayer.trim move_str).map Char.toUpper).length ≥ 3 ∧
        (((HumanPlayer.trim move_str).map Char.toUpper).drop
            (((HumanPlayer.trim move_str).map Char.toUpper).length - 2) = ['T', 'R'] ∨
          ((HumanPlayer.trim move_str).map Char.toUpper).drop
            (((HumanPlayer.trim move_str).map Char.toUpper).length - 2) = ['T', 'B'])) →
      stoi (((HumanPlayer.trim move_str).map Char.toUpper).take
        (((HumanPlayer.trim move_str).map Char.toUpper).length - 1)) = none →
      self.parseMoveInput move_str = none) := by
  constructor
  · rintro ⟨hlen, hd⟩ hs
    unfold HumanPlayer.parseMoveInput
    simp only [hs]
    split_ifs <;> first | rfl | (exfalso; rcases hd with hd | hd <;> simp_all)
  · intro hnot hs
    unfold HumanPlayer.parseMoveInput
    simp only [hs]
    split_ifs <;> first | rfl | (exfalso; simp_all)

/-! ## Negation of scores and the two points of view -/

theorem Score.neg_neg (a : Score) : a.neg.neg = a := by
  cases a <;> simp [Score.neg]

theorem Score.neg_lt_neg_iff (a b : Score) : a.neg < b.neg ↔ b < a := by
  show Score.ltb a.neg b.neg = true ↔ Score.ltb b a = true
  cases a <;> cases b <;> simp [Score.neg, Score.ltb]

theorem Score.lt_neg_iff (a b : Score) : a < b.neg ↔ b < a.neg := by
  rw [← Score.neg_lt_neg_iff, Score.neg_neg]

theorem Score.neg_lt_iff (a b : Score) : a.neg < b ↔ b.neg < a := by
  rw [← Score.neg_lt_neg_iff, Score.neg_neg]

theorem Evaluator.evaluate_neg (s : GameState) : evaluate s 1 = (evaluate s 2).neg := by
  simp only [evaluate, Score.neg, GameState.getPlayerHoles, show (3 : Int) - 1 = 2 by decide,
    show (3 : Int) - 2 = 1 by decide, show ¬ ((2 : Int) = 1) by decide, if_true, if_false,
    Score.fin.injEq]
  ring

theorem Evaluator.getTerminalScore_neg (s : GameState) :
    getTerminalScore s 1 = (getTerminalScore s 2).neg := by
  simp only [getTerminalScore, show (3 : Int) - 1 = 2 by decide,
    show (3 : Int) - 2 = 1 by decide]
  split_ifs <;> first | rfl | (exfalso; omega)

theorem DFSBot.dfs_maxLoop_neg (mg : MoveGenerator) (s : GameState) (c1 c2 : GameState → Score)
    (ms : List MoveTuple) (hchild : ∀ m ∈ ms, c1 (mg.play s m) = (c2 (mg.play s m)).neg) :
    ∀ (B : Score) (bm : Move),
      DFSBot.maxLoop mg s c1 ms B bm =
        ((DFSBot.minLoop mg s c2 ms B.neg bm).1.neg, (DFSBot.minLoop mg s c2 ms B.neg bm).2) := by
  induction ms with
  | nil =>
    intro B bm
    simp [DFSBot.maxLoop, DFSBot.minLoop, Score.neg_neg]
  | cons m rest ih =>
    intro B bm
    have h1 := hchild m (List.mem_cons_self _ _)
    have hrest := ih (fun m2 hm2 => hchild m2 (List.mem_cons_of_mem _ hm2))
    obtain ⟨h, co, t, u⟩ := m
    simp only [MoveGenerator.play] at h1
    simp only [DFSBot.maxLoop, DFSBot.minLoop, h1, gt_iff_lt, Score.lt_neg_iff B]
    split_ifs
    · rw [hrest, Score.neg_neg]
    · exact hrest B bm

theorem DFSBot.dfs_minLoop_neg (mg : MoveGenerator) (s : GameState) (c1 c2 : GameState → Score)
    (ms : List MoveTuple) (hchild : ∀ m ∈ ms, c1 (mg.play s m) = (c2 (mg.play s m)).neg) :
    ∀ (B : Score) (bm : Move),
      DFSBot.minLoop mg s c1 ms B bm =
        ((DFSBot.maxLoop mg s c2 ms B.neg bm).1.neg, (DFSBot.maxLoop mg s c2 ms B.neg bm).2) := by
  induction ms with
  | nil =>
    intro B bm
    simp [DFSBot.maxLoop, DFSBot.minLoop, Score.neg_neg]
  | cons m rest ih =>
    intro B bm
    have h1 := hchild m (List.mem_cons_self _ _)
    have hrest := ih (fun m2 hm2 => hchild m2 (List.mem_cons_of_mem _ hm2))
    obtain ⟨h, co, t, u⟩ := m
    simp only [MoveGenerator.play] at h1
    simp only [DFSBot.maxLoop, DFSBot.minLoop, h1, gt_iff_lt, Score.neg_lt_iff _ B]
    split_ifs
    · rw [hrest, Score.neg_neg]
    · exact hrest B bm

/-- Plain minimax for player 1 and for player 2: opposite scores, same move. -/
theorem DFSBot.dfs_searchFrom_neg (mg : MoveGenerator) (n : Nat) :
    ∀ (s : GameState),
      (∀ t, Reachable mg s t → t.current_player = 1 ∨ t.current_player = 2) →
      DFSBot.searchFrom mg 1 n s =
        ((DFSBot.searchFrom mg 2 n s).1.neg, (DFSBot.searchFrom mg 2 n s).2) := by
  induction n with
  | zero =>
    intro s _
    cases hT : s.isGameOver
    · rw [DFSBot.dfs_searchFrom_zero mg 1 s hT, DFSBot.dfs_searchFrom_zero mg 2 s hT,
        Evaluator.evaluate_neg]
    · rw [DFSBot.dfs_searchFrom_terminal mg 1 0 s hT, DFSBot.dfs_searchFrom_terminal mg 2 0 s hT,
        Evaluator.getTerminalScore_neg]
  | succ n ih =>
    intro s hgood
    cases hT : s.isGameOver
    · have hchild : ∀ m ∈ mg.getAllMoves s s.current_player,
          (fun t => (DFSBot.searchFrom mg 1 n t).1) (mg.play s m) =
            ((fun t => (DFSBot.searchFrom mg 2 n t).1) (mg.play s m)).neg := by
        intro m hm
        show (DFSBot.searchFrom mg 1 n (mg.play s m)).1 = _
        rw [ih (mg.play s m) (fun t ht => hgood t (Reachable.trans_play mg s m hT hm t ht))]
      rcases hgood s Reachable.root with hcp | hcp
      · rw [hcp] at hchild
        have h2 : s.current_player ≠ 2 := by rw [hcp]; decide
        rw [DFSBot.dfs_searchFrom_succ_max mg 1 n s hT hcp,
          DFSBot.dfs_searchFrom_succ_min mg 2 n s hT h2, show (3 : Int) - 2 = 1 by decide]
        exact DFSBot.dfs_maxLoop_neg mg s _ _ _ hchild Score.negInf Move.none
      · rw [hcp] at hchild
        have h1 : s.current_player ≠ 1 := by rw [hcp]; decide
        rw [DFSBot.dfs_searchFrom_succ_min mg 1 n s hT h1,
          DFSBot.dfs_searchFrom_succ_max mg 2 n s hT hcp, show (3 : Int) - 1 = 2 by decide]
        exact DFSBot.dfs_minLoop_neg mg s _ _ _ hchild Score.posInf Move.none
    · rw [DFSBot.dfs_searchFrom_terminal mg 1 (n + 1) s hT,
        DFSBot.dfs_searchFrom_terminal mg 2 (n + 1) s hT, Evaluator.getTerminalScore_neg]

/-! ## The list of valid (hole, colour) pairs -/

theorem GameState.mem_getValidMoves_colors (state : GameState) (hole : Int)
    (x : Int × Color) (cs : List Color) : ∀ (acc : List (Int × Color)),
    x ∈ cs.foldl
        (fun valid_moves color =>
          if state.holes hole color > 0 then valid_moves ++ [(hole, color)] else valid_moves)
        acc ↔
      x ∈ acc ∨ (x.1 = hole ∧ x.2 ∈ cs ∧ state.holes hole x.2 > 0) := by
  induction cs with
  | nil => intro acc; simp
  | cons c rest ih =>
    intro acc
    rw [List.foldl_cons, ih]
    obtain ⟨xh, xc⟩ := x
    constructor
    · rintro (h1 | ⟨h1, h2, h3⟩)
      · split_ifs at h1 with hpos
        · rcases List.mem_append.mp h1 with h1 | h1
          · exact Or.inl h1
          · have h4 := List.mem_singleton.mp h1
            simp only [Prod.mk.injEq] at h4
            exact Or.inr ⟨h4.1, by rw [h4.2]; exact List.mem_cons_self _ _, by
              rw [h4.2]; exact hpos⟩
        · exact Or.inl h1
      · exact Or.inr ⟨h1, List.mem_cons_of_mem _ h2, h3⟩
    · rintro (h1 | ⟨h1, h2, h3⟩)
      · left
        split_ifs
        · exact List.mem_append_left _ h1
        · exact h1
      · rcases List.mem_cons.mp h2 with h2 | h2
        · left
          simp only at h1 h2 h3
          subst h1
          subst h2
          rw [if_pos h3]
          exact List.mem_append_right _ (List.mem_singleton.mpr rfl)
        · exact Or.inr ⟨h1, h2, h3⟩

theorem GameState.mem_getValidMoves_inner (state : GameState) (hole : Int)
    (acc : List (Int × Color)) (x : Int × Color) :
    x ∈ [Color.RED, Color.BLUE, Color.TRANSPARENT].foldl
        (fun valid_moves color =>
          if state.holes hole color > 0 then valid_moves ++ [(hole, color)] else valid_moves)
        acc ↔
      x ∈ acc ∨ (x.1 = hole ∧ state.holes hole x.2 > 0) := by
  rw [GameState.mem_getValidMoves_colors]
  have hall : x.2 ∈ [Color.RED, Color.BLUE, Color.TRANSPARENT] := by
    cases x.2 <;> simp
  simp only [hall, true_and]

theorem GameState.mem_getValidMoves_fold (state : GameState) (hs : List Int)
    (x : Int × Color) : ∀ (acc : List (Int × Color)),
    x ∈ hs.foldl
        (fun valid_moves hole =>
          [Color.RED, Color.BLUE, Color.TRANSPARENT].foldl
            (fun valid_moves color =>
              if state.holes hole color > 0 then valid_moves ++ [(hole, color)]
              else valid_moves)
            valid_moves)
        acc ↔
      x ∈ acc ∨ (x.1 ∈ hs ∧ state.holes x.1 x.2 > 0) := by
  induction hs with
  | nil => intro acc; simp
  | cons h rest ih =>
    intro acc
    rw [List.foldl_cons, ih, GameState.mem_getValidMoves_inner]
    constructor
    · rintro ((h1 | ⟨h1, h2⟩) | ⟨h1, h2⟩)
      · exact Or.inl h1
      · exact Or.inr ⟨by rw [h1]; exact List.mem_cons_self _ _, by rw [h1]; exact h2⟩
      · exact Or.inr ⟨List.mem_cons_of_mem _ h1, h2⟩
    · rintro (h1 | ⟨h1, h2⟩)
      · exact Or.inl (Or.inl h1)
      · rcases List.mem_cons.mp h1 with h1 | h1
        · exact Or.inl (Or.inr ⟨h1, by rw [← h1]; exact h2⟩)
        · exact Or.inr ⟨h1, h2⟩

/-- The pairs of `getValidMoves`: a hole of the player with a seed of the colour. -/
theorem GameState.mem_getValidMoves (state : GameState) (player : Int) (hole : Int)
    (color : Color) :
    (hole, color) ∈ state.getValidMoves player ↔
      hole ∈ state.getPlayerHoles player ∧ state.holes hole color > 0 := by
  unfold GameState.getValidMoves
  rw [GameState.mem_getValidMoves_fold]
  simp

/-! ## The two counters of the alpha-beta search against each other -/

/-- A loop of the alpha-beta search: cutoffs are counted at most once per node visited
below, and without a cutoff every child is visited.  The proposition `T` switches the
comparison with the unpruned count on. -/
theorem AlphaBetaBot.ab_maxLoopCounted_pruned (T : Prop) (mg : MoveGenerator) (s : GameState)
    (player : Int)
    (childAB : GameState → Score → Score → Bool → AlphaBetaBot.Counters →
      Score × AlphaBetaBot.Counters)
    (child : GameState → Int → Score × Int) (β : Score) (ms : List MoveTuple)
    (hchild : ∀ m ∈ ms, ∀ a b f c c2,
      c.pruned_branches ≤ (childAB (mg.play s m) a b f c).2.pruned_branches ∧
      (childAB (mg.play s m) a b f c).2.pruned_branches - c.pruned_branches + 1 ≤
        (childAB (mg.play s m) a b f c).2.nodes_explored - c.nodes_explored ∧
      (T → (childAB (mg.play s m) a b f c).2.pruned_branches = c.pruned_branches →
        (childAB (mg.play s m) a b f c).2.nodes_explored - c.nodes_explored =
          (child (mg.play s m) c2).2 - c2)) :
    ∀ (M : Score) (bm : Move) (a : Score) (c : AlphaBetaBot.Counters) (c2 : Int),
      c.pruned_branches ≤
        (AlphaBetaBot.maxLoopCounted mg s player childAB β ms M bm a c).2.pruned_branches ∧
      (AlphaBetaBot.maxLoopCounted mg s player childAB β ms M bm a c).2.pruned_branches -
          c.pruned_branches ≤
        (AlphaBetaBot.maxLoopCounted mg s player childAB β ms M bm a c).2.nodes_explored -
          c.nodes_explored ∧
      (T → (AlphaBetaBot.maxLoopCounted mg s player childAB β ms M bm a c).2.pruned_branches =
          c.pruned_branches →
        (AlphaBetaBot.maxLoopCounted mg s player childAB β ms M bm a c).2.nodes_explored -
            c.nodes_explored =
          ms.foldl (fun c m => (child (mg.play s m) c).2) c2 - c2) := by
  induction ms with
  | nil =>
    intro M bm a c c2
    simp [AlphaBetaBot.maxLoopCounted]
  | cons m rest ih =>
    intro M bm a c c2
    have h1 := hchild m (List.mem_cons_self _ _)
    have hrest := ih (fun m2 hm2 => hchild m2 (List.mem_cons_of_mem _ hm2))
    obtain ⟨h, co, t, u⟩ := m
    simp only [MoveGenerator.play] at h1 hrest
    simp only [AlphaBetaBot.maxLoopCounted, List.foldl_cons, MoveGenerator.play]
    obtain ⟨h2, h3, h4⟩ :=
      h1 a β (decide ((mg.applyMove s h co t u).current_player = player)) c c2
    have key2 : c.pruned_branches ≤
          (childAB (mg.applyMove s h co t u) a β
            (decide ((mg.applyMove s h co t u).current_player = player)) c).2.pruned_branches +
            1 ∧
        (childAB (mg.applyMove s h co t u) a β
            (decide ((mg.applyMove s h co t u).current_player = player)) c).2.pruned_branches +
            1 - c.pruned_branches ≤
          (childAB (mg.applyMove s h co t u) a β
            (decide ((mg.applyMove s h co t u).current_player = player)) c).2.nodes_explored -
            c.nodes_explored ∧
        (T → (childAB (mg.applyMove s h co t u) a β
            (decide ((mg.applyMove s h co t u).current_player = player)) c).2.pruned_branches +
            1 = c.pruned_branches →
          (childAB (mg.applyMove s h co t u) a β
            (decide ((mg.applyMove s h co t u).current_player = player)) c).2.nodes_explored -
              c.nodes_explored =
            List.foldl (fun c m => (child (mg.applyMove s m.1 m.2.1 m.2.2.1 m.2.2.2) c).2)
              (child (mg.applyMove s h co t u) c2).2 rest - c2) :=
      ⟨by omega, by omega, fun _ h5 => by omega⟩
    have key : ∀ M bm a2,
        c.pruned_branches ≤
          (AlphaBetaBot.maxLoopCounted mg s player childAB β rest M bm a2
            (childAB (mg.applyMove s h co t u) a β
              (decide ((mg.applyMove s h co t u).current_player = player))
              c).2).2.pruned_branches ∧
        (AlphaBetaBot.maxLoopCounted mg s player childAB β rest M bm a2
            (childAB (mg.applyMove s h co t u) a β
              (decide ((mg.applyMove s h co t u).current_player = player))
              c).2).2.pruned_branches - c.pruned_branches ≤
          (AlphaBetaBot.maxLoopCounted mg s player childAB β rest M bm a2
            (childAB (mg.applyMove s h co t u) a β
              (decide ((mg.applyMove s h co t u).current_player = player))
              c).2).2.nodes_explored - c.nodes_explored ∧
        (T → (AlphaBetaBot.maxLoopCounted mg s player childAB β rest M bm a2
            (childAB (mg.applyMove s h co t u) a β
              (decide ((mg.applyMove s h co t u).current_player = player))
              c).2).2.pruned_branches = c.pruned_branches →
          (AlphaBetaBot.maxLoopCounted mg s player childAB β rest M bm a2
            (childAB (mg.applyMove s h co t u) a β
              (decide ((mg.applyMove s h co t u).current_player = player))
              c).2).2.nodes_explored - c.nodes_explored =
            List.foldl (fun c m => (child (mg.applyMove s m.1 m.2.1 m.2.2.1 m.2.2.2) c).2)
              (child (mg.applyMove s h co t u) c2).2 rest - c2) := by
      intro M bm a2
      obtain ⟨h5, h6, h7⟩ := hrest M bm a2
        (childAB (mg.applyMove s h co t u) a β
          (decide ((mg.applyMove s h co t u).current_player = player)) c).2
        (child (mg.applyMove s h co t u) c2).2
      refine ⟨by omega, by omega, fun hT h8 => ?_⟩
      have h9 := h4 hT (by omega)
      have h10 := h7 hT (by omega)
      omega
    split_ifs <;> first | exact key2 | exact key _ _ _

theorem AlphaBetaBot.ab_minLoopCounted_pruned (T : Prop) (mg : MoveGenerator) (s : GameState)
    (player : Int)
    (childAB : GameState → Score → Score → Bool → AlphaBetaBot.Counters →
      Score × AlphaBetaBot.Counters)
    (child : GameState → Int → Score × Int) (α : Score) (ms : List MoveTuple)
    (hchild : ∀ m ∈ ms, ∀ a b f c c2,
      c.pruned_branches ≤ (childAB (mg.play s m) a b f c).2.pruned_branches ∧
      (childAB (mg.play s m) a b f c).2.pruned_branches - c.pruned_branches + 1 ≤
        (childAB (mg.play s m) a b f c).2.nodes_explored - c.nodes_explored ∧
      (T → (childAB (mg.play s m) a b f c).2.pruned_branches = c.pruned_branches →
        (childAB (mg.play s m) a b f c).2.nodes_explored - c.nodes_explored =
          (child (mg.play s m) c2).2 - c2)) :
    ∀ (M : Score) (bm : Move) (b : Score) (c : AlphaBetaBot.Counters) (c2 : Int),
      c.pruned_branches ≤
        (AlphaBetaBot.minLoopCounted mg s player childAB α ms M bm b c).2.pruned_branches ∧
      (AlphaBetaBot.minLoopCounted mg s player childAB α ms M bm b c).2.pruned_branches -
          c.pruned_branches ≤
        (AlphaBetaBot.minLoopCounted mg s player childAB α ms M bm b c).2.nodes_explored -
          c.nodes_explored ∧
      (T → (AlphaBetaBot.minLoopCounted mg s player childAB α ms M bm b c).2.pruned_branches =
          c.pruned_branches →
        (AlphaBetaBot.minLoopCounted mg s player childAB α ms M bm b c).2.nodes_explored -
            c.nodes_explored =
          ms.foldl (fun c m => (child (mg.play s m) c).2) c2 - c2) := by
  induction ms with
  | nil =>
    intro M bm b c c2
    simp [AlphaBetaBot.minLoopCounted]
  | cons m rest ih =>
    intro M bm b c c2
    have h1 := hchild m (List.mem_cons_self _ _)
    have hrest := ih (fun m2 hm2 => hchild m2 (List.mem_cons_of_mem _ hm2))
    obtain ⟨h, co, t, u⟩ := m
    simp only [MoveGenerator.play] at h1 hrest
    simp only [AlphaBetaBot.minLoopCounted, List.foldl_cons, MoveGenerator.play]
    obtain ⟨h2, h3, h4⟩ :=
      h1 α b (decide ((mg.applyMove s h co t u).current_player = player)) c c2
    have key2 : c.pruned_branches ≤
          (childAB (mg.applyMove s h co t u) α b
            (decide ((mg.applyMove s h co t u).current_player = player)) c).2.pruned_branches +
            1 ∧
        (childAB (mg.applyMove s h co t u) α b
            (decide ((mg.applyMove s h co t u).current_player = player)) c).2.pruned_branches +
            1 - c.pruned_branches ≤
          (childAB (mg.applyMove s h co t u) α b
            (decide ((mg.applyMove s h co t u).current_player = player)) c).2.nodes_explored -
            c.nodes_explored ∧
        (T → (childAB (mg.applyMove s h co t u) α b
            (decide ((mg.applyMove s h co t u).current_player = player)) c).2.pruned_branches +
            1 = c.pruned_branches →
          (childAB (mg.applyMove s h co t u) α b
            (decide ((mg.applyMove s h co t u).current_player = player)) c).2.nodes_explored -
              c.nodes_explored =
            List.foldl (fun c m => (child (mg.applyMove s m.1 m.2.1 m.2.2.1 m.2.2.2) c).2)
              (child (mg.applyMove s h co t u) c2).2 rest - c2) :=
      ⟨by omega, by omega, fun _ h5 => by omega⟩
    have key : ∀ M bm b2,
        c.pruned_branches ≤
          (AlphaBetaBot.minLoopCounted mg s player childAB α rest M bm b2
            (childAB (mg.applyMove s h co t u) α b
              (decide ((mg.applyMove s h co t u).current_player = player))
              c).2).2.pruned_branches ∧
        (AlphaBetaBot.minLoopCounted mg s player childAB α rest M bm b2
            (childAB (mg.applyMove s h co t u) α b
              (decide ((mg.applyMove s h co t u).current_player = player))
              c).2).2.pruned_branches - c.pruned_branches ≤
          (AlphaBetaBot.minLoopCounted mg s player childAB α rest M bm b2
            (childAB (mg.applyMove s h co t u) α b
              (decide ((mg.applyMove s h co t u).current_player = player))
              c).2).2.nodes_explored - c.nodes_explored ∧
        (T → (AlphaBetaBot.minLoopCounted mg s player childAB α rest M bm b2
            (childAB (mg.applyMove s h co t u) α b
              (decide ((mg.applyMove s h co t u).current_player = player))
              c).2).2.pruned_branches = c.pruned_branches →
          (AlphaBetaBot.minLoopCounted mg s player childAB α rest M bm b2
            (childAB (mg.applyMove s h co t u) α b
              (decide ((mg.applyMove s h co t u).current_player = player))
              c).2).2.nodes_explored - c.nodes_explored =
            List.foldl (fun c m => (child (mg.applyMove s m.1 m.2.1 m.2.2.1 m.2.2.2) c).2)
              (child (mg.applyMove s h co t u) c2).2 rest - c2) := by
      intro M bm b2
      obtain ⟨h5, h6, h7⟩ := hrest M bm b2
        (childAB (mg.applyMove s h co t u) α b
          (decide ((mg.applyMove s h co t u).current_player = player)) c).2
        (child (mg.applyMove s h co t u) c2).2
      refine ⟨by omega, by omega, fun hT h8 => ?_⟩
      have h9 := h4 hT (by omega)
      have h10 := h7 hT (by omega)
      omega
    split_ifs <;> first | exact key2 | exact key _ _ _

/-- Every call of the alpha-beta search counts fewer cutoffs than nodes, and without a
cutoff as many nodes as the unpruned search. -/
theorem AlphaBetaBot.ab_searchFromCounted_pruned (T : Prop) (mg : MoveGenerator) (player : Int)
    (hp : player = 1 ∨ player = 2) (n : Nat) :
    ∀ (s : GameState) (α β : Score) (f : Bool) (c : AlphaBetaBot.Counters) (c2 : Int),
      (T → ∀ t, Reachable mg s t → t.current_player = 1 ∨ t.current_player = 2) →
      c.pruned_branches ≤
        (AlphaBetaBot.searchFromCounted mg player n s α β f c).2.pruned_branches ∧
      (AlphaBetaBot.searchFromCounted mg player n s α β f c).2.pruned_branches -
          c.pruned_branches + 1 ≤
        (AlphaBetaBot.searchFromCounted mg player n s α β f c).2.nodes_explored -
          c.nodes_explored ∧
      (T → (AlphaBetaBot.searchFromCounted mg player n s α β f c).2.pruned_branches =
          c.pruned_branches →
        (AlphaBetaBot.searchFromCounted mg player n s α β f c).2.nodes_explored -
            c.nodes_explored =
          (IterativeDeepeningDFSBot.dfsLimitedFromCounted mg player n s c2).2 - c2) := by
  induction n with
  | zero =>
    intro s α β f c c2 _
    cases hT : s.isGameOver
    · rw [AlphaBetaBot.ab_searchFromCounted_zero mg player s α β f c hT,
        IterativeDeepeningDFSBot.id_dfsLimitedFromCounted_zero mg player s c2 hT]
      simp
    · rw [AlphaBetaBot.ab_searchFromCounted_terminal mg player 0 s α β f c hT,
        IterativeDeepeningDFSBot.id_dfsLimitedFromCounted_terminal mg player 0 s c2 hT]
      simp
  | succ n ih =>
    intro s α β f c c2 hgood
    cases hT : s.isGameOver
    · have hchild : ∀ m ∈ mg.getAllMoves s s.current_player, ∀ a b f c c2,
          c.pruned_branches ≤ ((fun t a b f c =>
            ((AlphaBetaBot.searchFromCounted mg player n t a b f c).1.1,
              (AlphaBetaBot.searchFromCounted mg player n t a b f c).2))
            (mg.play s m) a b f c).2.pruned_branches ∧
          ((fun t a b f c =>
            ((AlphaBetaBot.searchFromCounted mg player n t a b f c).1.1,
              (AlphaBetaBot.searchFromCounted mg player n t a b f c).2))
            (mg.play s m) a b f c).2.pruned_branches - c.pruned_branches + 1 ≤
            ((fun t a b f c =>
              ((AlphaBetaBot.searchFromCounted mg player n t a b f c).1.1,
                (AlphaBetaBot.searchFromCounted mg player n t a b f c).2))
              (mg.play s m) a b f c).2.nodes_explored - c.nodes_explored ∧
          (T → ((fun t a b f c =>
            ((AlphaBetaBot.searchFromCounted mg player n t a b f c).1.1,
              (AlphaBetaBot.searchFromCounted mg player n t a b f c).2))
            (mg.play s m) a b f c).2.pruned_branches = c.pruned_branches →
            ((fun t a b f c =>
              ((AlphaBetaBot.searchFromCounted mg player n t a b f c).1.1,
                (AlphaBetaBot.searchFromCounted mg player n t a b f c).2))
              (mg.play s m) a b f c).2.nodes_explored - c.nodes_explored =
              ((fun t c =>
                ((IterativeDeepeningDFSBot.dfsLimitedFromCounted mg player n t c).1.1,
                  (IterativeDeepeningDFSBot.dfsLimitedFromCounted mg player n t c).2))
                (mg.play s m) c2).2 - c2) := by
        intro m hm a b f c c2
        exact ih (mg.play s m) a b f c c2
          (fun hT2 t ht => hgood hT2 t (Reachable.trans_play mg s m hT hm t ht))
      have hfull : T → (IterativeDeepeningDFSBot.dfsLimitedFromCounted mg player (n + 1) s c2).2 =
          (mg.getAllMoves s s.current_player).foldl
            (fun c m => (IterativeDeepeningDFSBot.dfsLimitedFromCounted mg player n
              (mg.play s m) c).2) (c2 + 1) := by
        intro hT2
        have hlist : (if s.current_player = player then mg.getAllMoves s player
            else mg.getAllMoves s (3 - player)) = mg.getAllMoves s s.current_player := by
          split_ifs with hcp
          · rw [hcp]
          · have hopp : s.current_player = 3 - player := by
              rcases hgood hT2 s Reachable.root with h1 | h1 <;> rcases hp with h2 | h2 <;> omega
            rw [hopp]
        rw [← hlist]
        by_cases hcp : s.current_player = player
        · rw [IterativeDeepeningDFSBot.id_dfsLimitedFromCounted_succ_max mg player n s c2 hT hcp,
            IterativeDeepeningDFSBot.id_maxLoopCounted_snd, if_pos hcp]
        · rw [IterativeDeepeningDFSBot.id_dfsLimitedFromCounted_succ_min mg player n s c2 hT hcp,
            IterativeDeepeningDFSBot.id_minLoopCounted_snd, if_neg hcp]
      cases f
      · rw [AlphaBetaBot.ab_searchFromCounted_succ_min mg player n s α β c hT]
        obtain ⟨h1, h2, h3⟩ := AlphaBetaBot.ab_minLoopCounted_pruned T mg s player
          (fun t a b f c =>
            ((AlphaBetaBot.searchFromCounted mg player n t a b f c).1.1,
              (AlphaBetaBot.searchFromCounted mg player n t a b f c).2))
          (fun t c =>
            ((IterativeDeepeningDFSBot.dfsLimitedFromCounted mg player n t c).1.1,
              (IterativeDeepeningDFSBot.dfsLimitedFromCounted mg player n t c).2))
          α _ hchild
          Score.posInf Move.none β { c with nodes_explored := c.nodes_explored + 1 } (c2 + 1)
        simp only [] at h1 h2 h3
        refine ⟨h1, by omega, fun hT2 h4 => ?_⟩
        have h5 := h3 hT2 h4
        rw [hfull hT2]
        omega
      · rw [AlphaBetaBot.ab_searchFromCounted_succ_max mg player n s α β c hT]
        obtain ⟨h1, h2, h3⟩ := AlphaBetaBot.ab_maxLoopCounted_pruned T mg s player
          (fun t a b f c =>
            ((AlphaBetaBot.searchFromCounted mg player n t a b f c).1.1,
              (AlphaBetaBot.searchFromCounted mg player n t a b f c).2))
          (fun t c =>
            ((IterativeDeepeningDFSBot.dfsLimitedFromCounted mg player n t c).1.1,
              (IterativeDeepeningDFSBot.dfsLimitedFromCounted mg player n t c).2))
          β _ hchild
          Score.negInf Move.none α { c with nodes_explored := c.nodes_explored + 1 } (c2 + 1)
        simp only [] at h1 h2 h3
        refine ⟨h1, by omega, fun hT2 h4 => ?_⟩
        have h5 := h3 hT2 h4
        rw [hfull hT2]
        omega
    · rw [AlphaBetaBot.ab_searchFromCounted_terminal mg player (n + 1) s α β f c hT,
        IterativeDeepeningDFSBot.id_dfsLimitedFromCounted_terminal mg player (n + 1) s c2 hT]
      simp

/-! ## Copying a position, and the holes of a player -/

/-- The copy loop never fails on holes that are keys, and overwrites exactly them. -/
theorem GameState.copyLoop_spec (state : GameState) (l : List Int) :
    ∀ (new_holes : Int → Color → Int), (∀ hole ∈ l, hole ∈ GameState.holeKeys) →
      ∃ g, GameState.copyLoop state l new_holes = some g ∧
        ∀ key, g key = if key ∈ l then state.holes key else new_holes key := by
  induction l with
  | nil =>
    intro new_holes _
    exact ⟨new_holes, rfl, fun key => by simp⟩
  | cons hole rest ih =>
    intro new_holes hkeys
    have hk : hole ∈ GameState.holeKeys := hkeys hole (List.mem_cons_self _ _)
    obtain ⟨g, hg, hspec⟩ := ih (fun key => if key = hole then state.holes hole else new_holes key)
      (fun h hh => hkeys h (List.mem_cons_of_mem _ hh))
    refine ⟨g, ?_, ?_⟩
    · simp only [GameState.copyLoop, GameState.holesAt, hk, if_true]
      exact hg
    · intro key
      rw [hspec key]
      by_cases h1 : key ∈ rest
      · simp [h1]
      · by_cases h2 : key = hole
        · simp [h2]
        · simp [h1, h2]

/-- The holes of a player are keys of the board. -/
theorem GameState.getPlayerHoles_keys (state : GameState) (player : Int) (hole : Int)
    (h : hole ∈ state.getPlayerHoles player) : hole ∈ GameState.holeKeys := by
  unfold GameState.getPlayerHoles at h
  split_ifs at h
  · simp only [PLAYER1_HOLES, List.mem_cons, List.mem_singleton, List.not_mem_nil,
      or_false] at h
    rcases h with h | h | h | h | h | h | h | h <;> rw [h] <;> decide
  · simp only [PLAYER2_HOLES, List.mem_cons, List.mem_singleton, List.not_mem_nil,
      or_false] at h
    rcases h with h | h | h | h | h | h | h | h <;> rw [h] <;> decide

/-- A position that is not finished has fewer than 400 moves and fewer than 49 seeds
captured by either player. -/
theorem GameState.isGameOver_false (state : GameState) (h : state.isGameOver = false) :
    state.move_count < 400 ∧ state.captured_seeds 1 < 49 ∧ state.captured_seeds 2 < 49 := by
  unfold GameState.isGameOver at h
  simp only [] at h
  split_ifs at h with h1 h2
  · exact ⟨by omega, by omega, by omega⟩

/-- With the depth limit 0 the breadth-first search scores the root only, which carries
no first move. -/
theorem BFSBot.bfs_getMove_depth_zero (mg : MoveGenerator) (fuel : Nat) (state : GameState)
    (player : Int) (hfuel : 1 ≤ fuel) :
    BFSBot.getMove 0 mg fuel state player = some Move.none := by
  obtain ⟨f, rfl⟩ : ∃ f, fuel = f + 1 := ⟨fuel - 1, by omega⟩
  unfold BFSBot.getMove BFSBot.search
  split_ifs
  · rfl
  · cases f <;> simp [BFSBot.loop, Move.none]

/-! ## Claims C31 to C39 -/

/-- C31. The function `HumanPlayer::parseMoveInput` accepts the documented formats: with
`u` the input trimmed and upper-cased and `n` an `int`, `u` = decimal text of `n` followed
by `R` gives `(n, RED, RED, false)`, by `B` gives `(n, BLUE, BLUE, false)`, by `TR` gives
`(n, TRANSPARENT, RED, true)` and by `TB` gives `(n, TRANSPARENT, BLUE, true)`; a `u` that
does not end in `R` or `B` yields `nullopt`, and so does a `u` whose part before the colour
suffix (two characters for `TR`, `TB` on a `u` of length at least 3, one character
otherwise) does not start with an integer, that is, on which `std::stoi` throws. -/
theorem parseMoveInput_formats (self : HumanPlayer) (move_str : List Char) (n : Int)
    (hlo : -2147483648 ≤ n) (hhi : n ≤ 2147483647) :
    ((HumanPlayer.trim move_str).map Char.toUpper = intToChars n ++ ['R'] →
      self.parseMoveInput move_str = some (n, Color.RED, Color.RED, false)) ∧
    ((HumanPlayer.trim move_str).map Char.toUpper = intToChars n ++ ['B'] →
      self.parseMoveInput move_str = some (n, Color.BLUE, Color.BLUE, false)) ∧
    ((HumanPlayer.trim move_str).map Char.toUpper = intToChars n ++ ['T', 'R'] →
      self.parseMoveInput move_str = some (n, Color.TRANSPARENT, Color.RED, true)) ∧
    ((HumanPlayer.trim move_str).map Char.toUpper = intToChars n ++ ['T', 'B'] →
      self.parseMoveInput move_str = some (n, Color.TRANSPARENT, Color.BLUE, true)) ∧
    (((HumanPlayer.trim move_str).map Char.toUpper).getLast? ≠ some 'R' →
      ((HumanPlayer.trim move_str).map Char.toUpper).getLast? ≠ some 'B' →
      self.parseMoveInput move_str = none) ∧
    (((HumanPlayer.trim move_str).map Char.toUpper).length ≥ 3 ∧
        (((HumanPlayer.trim move_str).map Char.toUpper).drop
            (((HumanPlayer.trim move_str).map Char.toUpper).length - 2) = ['T', 'R'] ∨
          ((HumanPlayer.trim move_str).map Char.toUpper).drop
            (((HumanPlayer.trim move_str).map Char.toUpper).length - 2) = ['T', 'B']) →
      stoi (((HumanPlayer.trim move_str).map Char.toUpper).take
        (((HumanPlayer.trim move_str).map Char.toUpper).length - 2)) = none →
      self.parseMoveInput move_str = none) ∧
    (¬ (((HumanPlayer.trim move_str).map Char.toUpper).length ≥ 3 ∧
        (((HumanPlayer.trim move_str).map Char.toUpper).drop
            (((HumanPlayer.trim move_str).map Char.toUpper).length - 2) = ['T', 'R'] ∨
          ((HumanPlayer.trim move_str).map Char.toUpper).drop
            (((HumanPlayer.trim move_str).map Char.toUpper).length - 2) = ['T', 'B'])) →
      stoi (((HumanPlayer.trim move_str).map Char.toUpper).take
        (((HumanPlayer.trim move_str).map Char.toUpper).length - 1)) = none →
      self.parseMoveInput move_str = none) :=
  ⟨HumanPlayer.parseMoveInput_color self move_str n hlo hhi 'R' Color.RED
      (Or.inl ⟨rfl, rfl⟩),
   HumanPlayer.parseMoveInput_color self move_str n hlo hhi 'B' Color.BLUE
      (Or.inr ⟨rfl, rfl⟩),
   HumanPlayer.parseMoveInput_transparent self move_str n hlo hhi 'R' Color.RED
      (Or.inl ⟨rfl, rfl⟩),
   HumanPlayer.parseMoveInput_transparent self move_str n hlo hhi 'B' Color.BLUE
      (Or.inr ⟨rfl, rfl⟩),
   HumanPlayer.parseMoveInput_no_suffix self move_str,
   (HumanPlayer.parseMoveInput_no_number self move_str).1,
   (HumanPlayer.parseMoveInput_no_number self move_str).2⟩

theorem parseMoveInput_formats_witness :
    HumanPlayer.parseMoveInput ⟨2⟩ [' ', '1', '4', 'b', ' '] =
        some (14, Color.BLUE, Color.BLUE, false) ∧
      HumanPlayer.parseMoveInput ⟨1⟩ ['5', 't', 'r'] =
        some (5, Color.TRANSPARENT, Color.RED, true) :=
  ⟨(parseMoveInput_formats ⟨2⟩ [' ', '1', '4', 'b', ' '] 14 (by decide) (by decide)).2.1
      (by decide),
   (parseMoveInput_formats ⟨1⟩ ['5', 't', 'r'] 5 (by decide) (by decide)).2.2.1
      (by decide)⟩

/-- C32, as stated, fails for `AlphaBetaBot`.  In the position below, which is not
finished, player 1 is to move and has no legal move.  Queried for player 2, so that the
mover is the opponent, the call made by `AlphaBetaBot::getMove` returns the score minus
infinity with the invalid move, where `DFSBot::search` returns plus infinity. -/
theorem stalemate_alpha_beta_root_counterexample :
    (smallState 0 0 60 20 16 1 10).isGameOver = false ∧
    (smallState 0 0 60 20 16 1 10).current_player = 1 ∧
    captureEngine.getAllMoves (smallState 0 0 60 20 16 1 10) 1 = [] ∧
    AlphaBetaBot.search 3 captureEngine (smallState 0 0 60 20 16 1 10) 2 0 Score.negInf
        Score.posInf true = (Score.negInf, Move.none) ∧
    DFSBot.search 3 captureEngine (smallState 0 0 60 20 16 1 10) 2 0 =
      (Score.posInf, Move.none) := by
  decide

/-- C32, amended. Stalemate scoring: on a position that is not finished, within the depth
budget, whose mover (player 1 or 2) has no legal move, `DFSBot::search`,
`MinMaxBot::search` and `dfsLimited` return the invalid move with score minus infinity
when the mover is the querying player and plus infinity when the mover is the opponent;
`AlphaBetaBot::search` returns the invalid move with minus infinity when called with
`is_maximizing = true` and plus infinity when called with `is_maximizing = false`. -/
theorem stalemate_scoring (depth current_depth : Int) (mg : MoveGenerator)
    (state : GameState) (player : Int) (alpha beta : Score)
    (hplayer : player = 1 ∨ player = 2)
    (hmover : state.current_player = 1 ∨ state.current_player = 2)
    (hlive : state.isGameOver = false) (hdepth : current_depth < depth)
    (hempty : mg.getAllMoves state state.current_player = []) :
    (state.current_player = player →
      DFSBot.search depth mg state player current_depth = (Score.negInf, Move.none) ∧
      MinMaxBot.search depth mg state player current_depth alpha beta =
        (Score.negInf, Move.none) ∧
      IterativeDeepeningDFSBot.dfsLimited mg state player depth current_depth =
        (Score.negInf, Move.none)) ∧
    (state.current_player ≠ player →
      DFSBot.search depth mg state player current_depth = (Score.posInf, Move.none) ∧
      MinMaxBot.search depth mg state player current_depth alpha beta =
        (Score.posInf, Move.none) ∧
      IterativeDeepeningDFSBot.dfsLimited mg state player depth current_depth =
        (Score.posInf, Move.none)) ∧
    AlphaBetaBot.search depth mg state player current_depth alpha beta true =
      (Score.negInf, Move.none) ∧
    AlphaBetaBot.search depth mg state player current_depth alpha beta false =
      (Score.posInf, Move.none) := by
  refine ⟨fun hturn => ?_, fun hturn => ?_, ?_, ?_⟩
  · have hmoves : mg.getAllMoves state player = [] := by rw [← hturn]; exact hempty
    refine ⟨?_, ?_, ?_⟩
    · rw [DFSBot.dfs_search_step_max depth current_depth mg state player hlive hdepth hturn,
        hmoves]
      rfl
    · rw [MinMaxBot.mm_search_step_max depth current_depth mg state player alpha beta hlive
        hdepth hturn, hmoves]
      rfl
    · rw [IterativeDeepeningDFSBot.id_dfsLimited_step_max depth current_depth mg state player
        hlive hdepth hturn, hmoves]
      rfl
  · have hopp : 3 - player = state.current_player := by
      rcases hplayer with h1 | h1 <;> rcases hmover with h2 | h2 <;> omega
    have hmoves : mg.getAllMoves state (3 - player) = [] := by rw [hopp]; exact hempty
    refine ⟨?_, ?_, ?_⟩
    · rw [DFSBot.dfs_search_step_min depth current_depth mg state player hlive hdepth hturn,
        hmoves]
      rfl
    · rw [MinMaxBot.mm_search_step_min depth current_depth mg state player alpha beta hlive
        hdepth hturn, hmoves]
      rfl
    · rw [IterativeDeepeningDFSBot.id_dfsLimited_step_min depth current_depth mg state player
        hlive hdepth hturn, hmoves]
      rfl
  · rw [AlphaBetaBot.ab_search_step_max depth current_depth mg state player alpha beta hlive
      hdepth, hempty]
    rfl
  · rw [AlphaBetaBot.ab_search_step_min depth current_depth mg state player alpha beta hlive
      hdepth, hempty]
    rfl

theorem stalemate_scoring_witness :
    DFSBot.search 3 captureEngine (smallState 0 0 60 20 16 1 10) 2 0 =
        (Score.posInf, Move.none) ∧
      MinMaxBot.search 3 captureEngine (smallState 0 0 60 20 16 1 10) 2 0 Score.negInf
        Score.posInf = (Score.posInf, Move.none) ∧
      IterativeDeepeningDFSBot.dfsLimited captureEngine (smallState 0 0 60 20 16 1 10) 2 3 0 =
        (Score.posInf, Move.none) :=
  (stalemate_scoring 3 0 captureEngine (smallState 0 0 60 20 16 1 10) 2 Score.negInf
    Score.posInf (Or.inr rfl) (Or.inl rfl) (by decide) (by decide) (by decide)).2.1
    (by decide)

/-- C33. Zero-sum symmetry of plain minimax: for every depth and every position from which
the movers of all reachable positions are players 1 or 2, `DFSBot::search(position, 1, 0)`
and `DFSBot::search(position, 2, 0)` return scores that are negations of each other and
the same move. -/
theorem plain_minimax_zero_sum (depth : Int) (mg : MoveGenerator) (state : GameState)
    (hmovers : ∀ t, Reachable mg state t → t.current_player = 1 ∨ t.current_player = 2) :
    (DFSBot.search depth mg state 1 0).1 = (DFSBot.search depth mg state 2 0).1.neg ∧
    (DFSBot.search depth mg state 2 0).1 = (DFSBot.search depth mg state 1 0).1.neg ∧
    (DFSBot.search depth mg state 1 0).2 = (DFSBot.search depth mg state 2 0).2 := by
  have h := DFSBot.dfs_searchFrom_neg mg (depth - 0).toNat state hmovers
  unfold DFSBot.search
  rw [h]
  exact ⟨rfl, (Score.neg_neg _).symm, rfl⟩

theorem plain_minimax_zero_sum_witness :
    DFSBot.search 2 captureEngine (smallState 20 10 30 20 16 1 10) 1 0 =
        (Score.fin (-120), Move.make 3 Color.BLUE Color.BLUE false) ∧
      DFSBot.search 2 captureEngine (smallState 20 10 30 20 16 1 10) 2 0 =
        (Score.fin 120, Move.make 3 Color.BLUE Color.BLUE false) ∧
      (DFSBot.search 2 captureEngine (smallState 20 10 30 20 16 1 10) 1 0).1 =
        (DFSBot.search 2 captureEngine (smallState 20 10 30 20 16 1 10) 2 0).1.neg :=
  ⟨by decide, by decide,
   (plain_minimax_zero_sum 2 captureEngine (smallState 20 10 30 20 16 1 10)
     (captureEngine_movers (smallState 20 10 30 20 16 1 10) (Or.inl rfl))).1⟩

/-- C34. The evaluator is zero-sum: for every position, `evaluate(position, 1)` is the
negation of `evaluate(position, 2)` and `getTerminalScore(position, 1)` is the negation of
`getTerminalScore(position, 2)`. -/
theorem evaluator_zero_sum (state : GameState) :
    evaluate state 1 = (evaluate state 2).neg ∧
    evaluate state 2 = (evaluate state 1).neg ∧
    getTerminalScore state 1 = (getTerminalScore state 2).neg ∧
    getTerminalScore state 2 = (getTerminalScore state 1).neg := by
  refine ⟨Evaluator.evaluate_neg state, ?_, Evaluator.getTerminalScore_neg state, ?_⟩
  · rw [Evaluator.evaluate_neg state, Score.neg_neg]
  · rw [Evaluator.getTerminalScore_neg state, Score.neg_neg]

/-- C35. A depth that is not positive is neither rejected nor clamped: for every
`depth <= 0`, every position and every player (1 or 2), `getMove` of `DFSBot`,
`MinMaxBot`, `AlphaBetaBot` and `IterativeDeepeningDFSBot` returns the invalid move
`Move()`, and so does `getMove` of `BFSBot` with depth 0 (one iteration of its queue loop
being enough). -/
theorem nonpositive_depth_gives_invalid_move (depth : Int) (mg : MoveGenerator)
    (state : GameState) (player : Int) (fuel : Nat)
    (_hplayer : player = 1 ∨ player = 2) (hdepth : depth ≤ 0) (hfuel : 1 ≤ fuel) :
    DFSBot.getMove depth mg state player = Move.none ∧
    MinMaxBot.getMove depth mg state player = Move.none ∧
    AlphaBetaBot.getMove depth mg state player = Move.none ∧
    IterativeDeepeningDFSBot.getMove depth mg state player = Move.none ∧
    BFSBot.getMove 0 mg fuel state player = some Move.none := by
  refine ⟨?_, ?_, ?_, ?_, BFSBot.bfs_getMove_depth_zero mg fuel state player hfuel⟩
  · unfold DFSBot.getMove
    cases hT : state.isGameOver
    · rw [DFSBot.dfs_search_cutoff depth 0 mg state player hT (by omega)]
    · rw [DFSBot.dfs_search_finished depth 0 mg state player hT]
  · unfold MinMaxBot.getMove
    cases hT : state.isGameOver
    · rw [MinMaxBot.mm_search_cutoff depth 0 mg state player _ _ hT (by omega)]
    · rw [MinMaxBot.mm_search_finished depth 0 mg state player _ _ hT]
  · unfold AlphaBetaBot.getMove
    cases hT : state.isGameOver
    · rw [AlphaBetaBot.ab_search_cutoff depth 0 mg state player _ _ _ hT (by omega)]
    · rw [AlphaBetaBot.ab_search_finished depth 0 mg state player _ _ _ hT]
  · unfold IterativeDeepeningDFSBot.getMove
    exact IterativeDeepeningDFSBot.id_search_none_valid depth mg state player
      (fun d h1 h2 => absurd (le_trans h1 (le_trans h2 hdepth)) (by decide))

theorem nonpositive_depth_gives_invalid_move_witness :
    DFSBot.getMove (-3) captureEngine GameState.init 1 = Move.none ∧
    MinMaxBot.getMove (-3) captureEngine GameState.init 1 = Move.none ∧
    AlphaBetaBot.getMove (-3) captureEngine GameState.init 1 = Move.none ∧
    IterativeDeepeningDFSBot.getMove (-3) captureEngine GameState.init 1 = Move.none ∧
    BFSBot.getMove 0 captureEngine 1 GameState.init 1 = some Move.none :=
  nonpositive_depth_gives_invalid_move (-3) captureEngine GameState.init 1 1 (Or.inl rfl)
    (by decide) (by decide)

/-- C36. Timeout forfeiture: when `GameManager::playTurn` is entered on a position that is
not finished, whose mover `p` is player 1 or 2, and the mover exceeds `MAX_TIME_PER_MOVE`,
the call returns false and leaves a state with `captured_seeds[3 - p] = 49`, on which
`isGameOver()` is true and `getWinner()` is `3 - p`; the holes, `current_player`,
`move_count` and the captured count of `p` are unchanged. -/
theorem timeout_forfeits_the_game (state : GameState) (move : Move) (elapsed : Rat)
    (playMove : GameState → Int → Color → Color → Bool → Bool × GameState) (p : Int)
    (hp : p = 1 ∨ p = 2) (hturn : state.current_player = p)
    (hlive : state.isGameOver = false) (hlate : elapsed > MAX_TIME_PER_MOVE) :
    (GameManager.playTurn state move elapsed playMove).1 = false ∧
    (GameManager.playTurn state move elapsed playMove).2.captured_seeds (3 - p) = 49 ∧
    (GameManager.playTurn state move elapsed playMove).2.isGameOver = true ∧
    (GameManager.playTurn state move elapsed playMove).2.getWinner = 3 - p ∧
    (GameManager.playTurn state move elapsed playMove).2.holes = state.holes ∧
    (GameManager.playTurn state move elapsed playMove).2.current_player =
      state.current_player ∧
    (GameManager.playTurn state move elapsed playMove).2.move_count = state.move_count ∧
    (GameManager.playTurn state move elapsed playMove).2.captured_seeds p =
      state.captured_seeds p := by
  have hres : GameManager.playTurn state move elapsed playMove =
      (false,
        { state with
          captured_seeds := fun key => if key = 3 - p then 49 else state.captured_seeds key }) := by
    unfold GameManager.playTurn
    simp only [hlive, Bool.false_eq_true, if_false, hlate, if_true, hturn]
  obtain ⟨hm, h1, h2⟩ := GameState.isGameOver_false state hlive
  rw [hres]
  have hm2 : ¬ (state.move_count ≥ 400) := by omega
  rcases hp with rfl | rfl
  · have h1b : ¬ (state.captured_seeds 1 ≥ 49) := by omega
    refine ⟨rfl, by simp, ?_, ?_, rfl, rfl, rfl, by simp⟩
    · simp [GameState.isGameOver, hm2]
    · simp [GameState.getWinner, h1b]
  · have h2b : ¬ (state.captured_seeds 2 ≥ 49) := by omega
    refine ⟨rfl, by simp, ?_, ?_, rfl, rfl, rfl, by simp⟩
    · simp [GameState.isGameOver, hm2]
    · simp [GameState.getWinner]

theorem timeout_forfeits_the_game_witness :
    (GameManager.playTurn GameState.init Move.none 4 (fun s _ _ _ _ => (true, s))).2.isGameOver =
        true ∧
      (GameManager.playTurn GameState.init Move.none 4
        (fun s _ _ _ _ => (true, s))).2.getWinner = 2 :=
  ⟨(timeout_forfeits_the_game GameState.init Move.none 4 (fun s _ _ _ _ => (true, s)) 1
      (Or.inl rfl) rfl (by decide) (by decide)).2.2.1,
   (timeout_forfeits_the_game GameState.init Move.none 4 (fun s _ _ _ _ => (true, s)) 1
      (Or.inl rfl) rfl (by decide) (by decide)).2.2.2.1⟩

/-- C37. The function `HumanPlayer::isMoveValid` agrees with the move list of the rules:
on a state with non-negative seed counts in the holes 1 to 16, for every hole and colour
it returns, without failing, true exactly when `(hole, color)` is an element of
`state.getValidMoves(player_id)`, that is, when the hole belongs to the player and holds
at least one seed of that colour; for a hole outside 1 to 16 it returns false. -/
theorem isMoveValid_agrees_with_getValidMoves (self : HumanPlayer) (hole : Int)
    (color : Color) (state : GameState)
    (hnonneg : ∀ h ∈ GameState.holeKeys, ∀ c, 0 ≤ state.holes h c) :
    self.isMoveValid hole color state =
      some (decide ((hole, color) ∈ state.getValidMoves self.player_id)) ∧
    ((hole, color) ∈ state.getValidMoves self.player_id ↔
      hole ∈ state.getPlayerHoles self.player_id ∧ state.holes hole color ≥ 1) ∧
    (hole ∉ GameState.holeKeys → self.isMoveValid hole color state = some false) := by
  have hiff := GameState.mem_getValidMoves state self.player_id hole color
  refine ⟨?_, ?_, ?_⟩
  · by_cases hmem : hole ∈ state.getPlayerHoles self.player_id
    · have hk := GameState.getPlayerHoles_keys state self.player_id hole hmem
      have h0 := hnonneg hole hk color
      unfold HumanPlayer.isMoveValid
      simp only [hmem, not_true_eq_false, if_false, GameState.holesAt, hk, if_true]
      by_cases hz : state.holes hole color = 0
      · have hno : ¬ ((hole, color) ∈ state.getValidMoves self.player_id) := by
          rw [hiff]
          intro h
          omega
        simp only [hz, if_true, hno, decide_False]
      · have hyes : (hole, color) ∈ state.getValidMoves self.player_id := by
          rw [hiff]
          exact ⟨hmem, by omega⟩
        simp only [hz, if_false, hyes, decide_True]
    · have hno : ¬ ((hole, color) ∈ state.getValidMoves self.player_id) := by
        rw [hiff]
        intro h
        exact hmem h.1
      unfold HumanPlayer.isMoveValid
      simp only [hmem, not_false_eq_true, if_true, hno, decide_False]
  · rw [hiff]
    constructor
    · intro h
      exact ⟨h.1, by omega⟩
    · intro h
      exact ⟨h.1, by omega⟩
  · intro hout
    have hmem : hole ∉ state.getPlayerHoles self.player_id :=
      fun h => hout (GameState.getPlayerHoles_keys state self.player_id hole h)
    unfold HumanPlayer.isMoveValid
    simp only [hmem, not_false_eq_true, if_true]

theorem isMoveValid_agrees_with_getValidMoves_witness :
    HumanPlayer.isMoveValid ⟨1⟩ 3 Color.BLUE (smallState 20 10 30 20 16 1 10) = some true ∧
      HumanPlayer.isMoveValid ⟨1⟩ 3 Color.RED (smallState 20 10 30 20 16 1 10) = some false ∧
      HumanPlayer.isMoveValid ⟨1⟩ 17 Color.RED (smallState 20 10 30 20 16 1 10) = some false ∧
      HumanPlayer.isMoveValid ⟨1⟩ 3 Color.BLUE (smallState 20 10 30 20 16 1 10) =
        some (decide (((3 : Int), Color.BLUE) ∈
          (smallState 20 10 30 20 16 1 10).getValidMoves 1)) :=
  ⟨by decide, by decide, by decide,
   (isMoveValid_agrees_with_getValidMoves ⟨1⟩ 3 Color.BLUE (smallState 20 10 30 20 16 1 10)
     (fun h _ c => by
       show 0 ≤ smallBoard 20 10 30 h c
       unfold smallBoard
       split_ifs <;> decide)).1⟩

/-- C38. The function `GameState::copy` is the identity: on every state (the map `holes`
having the keys 1 to 16) it returns, without failing, a state with the same seeds in each
of the holes 1 to 16 and the same `captured_seeds`, `current_player` and `move_count`. -/
theorem copy_is_identity (state : GameState) :
    ∃ c, state.copy = some c ∧
      (∀ hole ∈ GameState.holeKeys, c.holes hole = state.holes hole) ∧
      c.captured_seeds = state.captured_seeds ∧
      c.current_player = state.current_player ∧ c.move_count = state.move_count := by
  have hlist : (List.range' 1 16).map (fun hole => (hole : Int)) = GameState.holeKeys := by
    decide
  obtain ⟨g, hg, hspec⟩ := GameState.copyLoop_spec state GameState.holeKeys
    GameState.init.holes (fun _ h => h)
  refine ⟨{ holes := g, captured_seeds := state.captured_seeds,
            current_player := state.current_player, move_count := state.move_count },
    ?_, ?_, rfl, rfl, rfl⟩
  · unfold GameState.copy
    simp only [hlist, hg]
  · intro hole hk
    show g hole = state.holes hole
    rw [hspec hole, if_pos hk]

/-- C39. The pruning diagnostics are consistent: after `AlphaBetaBot::getMove` for player
1 or 2, whatever the counters held before, `pruned_branches` is not negative and strictly
smaller than `nodes_explored`; and if the movers of all reachable positions are players 1
or 2 and `pruned_branches` is 0, then `nodes_explored` equals the value of `nodes_explored`
after the unpruned `dfsLimited(position, player, depth)` started from a zero counter. -/
theorem pruning_counters_consistent (depth : Int) (mg : MoveGenerator) (state : GameState)
    (player : Int) (counters : AlphaBetaBot.Counters) (hplayer : player = 1 ∨ player = 2) :
    0 ≤ (AlphaBetaBot.getMoveCounted depth mg state player counters).2.pruned_branches ∧
    (AlphaBetaBot.getMoveCounted depth mg state player counters).2.pruned_branches <
      (AlphaBetaBot.getMoveCounted depth mg state player counters).2.nodes_explored ∧
    ((∀ t, Reachable mg state t → t.current_player = 1 ∨ t.current_player = 2) →
      (AlphaBetaBot.getMoveCounted depth mg state player counters).2.pruned_branches = 0 →
      (AlphaBetaBot.getMoveCounted depth mg state player counters).2.nodes_explored =
        (IterativeDeepeningDFSBot.dfsLimitedCounted mg state player depth 0 0).2) := by
  have h : ∀ n : Nat,
      0 ≤ (AlphaBetaBot.searchFromCounted mg player n state Score.negInf Score.posInf true
        { nodes_explored := 0, pruned_branches := 0 }).2.pruned_branches ∧
      (AlphaBetaBot.searchFromCounted mg player n state Score.negInf Score.posInf true
        { nodes_explored := 0, pruned_branches := 0 }).2.pruned_branches <
        (AlphaBetaBot.searchFromCounted mg player n state Score.negInf Score.posInf true
          { nodes_explored := 0, pruned_branches := 0 }).2.nodes_explored ∧
      ((∀ t, Reachable mg state t → t.current_player = 1 ∨ t.current_player = 2) →
        (AlphaBetaBot.searchFromCounted mg player n state Score.negInf Score.posInf true
          { nodes_explored := 0, pruned_branches := 0 }).2.pruned_branches = 0 →
        (AlphaBetaBot.searchFromCounted mg player n state Score.negInf Score.posInf true
          { nodes_explored := 0, pruned_branches := 0 }).2.nodes_explored =
          (IterativeDeepeningDFSBot.dfsLimitedFromCounted mg player n state 0).2) := by
    intro n
    obtain ⟨h1, h2, h3⟩ := AlphaBetaBot.ab_searchFromCounted_pruned
      (∀ t, Reachable mg state t → t.current_player = 1 ∨ t.current_player = 2) mg player
      hplayer n state Score.negInf Score.posInf true
      { nodes_explored := 0, pruned_branches := 0 } 0 (fun hT => hT)
    simp only [sub_zero] at h1 h2 h3
    refine ⟨h1, by omega, fun hT h0 => ?_⟩
    have h4 := h3 hT h0
    omega
  exact h _

theorem pruning_counters_consistent_witness :
    (AlphaBetaBot.getMoveCounted 1 captureEngine (smallState 20 10 30 20 16 1 10) 1
        { nodes_explored := 7, pruned_branches := 7 }).2 =
        { nodes_explored := 3, pruned_branches := 0 } ∧
      (IterativeDeepeningDFSBot.dfsLimitedCounted captureEngine
        (smallState 20 10 30 20 16 1 10) 1 1 0 0).2 = 3 ∧
      (AlphaBetaBot.getMoveCounted 1 captureEngine (smallState 20 10 30 20 16 1 10) 1
        { nodes_explored := 7, pruned_branches := 7 }).2.nodes_explored =
        (IterativeDeepeningDFSBot.dfsLimitedCounted captureEngine
          (smallState 20 10 30 20 16 1 10) 1 1 0 0).2 :=
  ⟨by decide, by decide,
   (pruning_counters_consistent 1 captureEngine (smallState 20 10 30 20 16 1 10) 1
     { nodes_explored := 7, pruned_branches := 7 } (Or.inl rfl)).2.2
     (captureEngine_movers (smallState 20 10 30 20 16 1 10) (Or.inl rfl)) (by decide)⟩
